import Mathlib

/-!
Verification development for the incremental reparse planner
(`core/dbt/parser/partial.py`, class `PartialParsing`).

The planner is embedded shallowly: Python's mutable object graph becomes an
explicit state record (`PState`), dictionaries become insertion-ordered
association lists (`Assoc`), and every operation that can raise in Python
(`KeyError`, `IndexError`, `ValueError`, unbound locals, failed asserts,
explicit `raise`) returns in the `Except String` monad.  Python recursion
between the invalidation procedures is modelled with an explicit fuel
parameter: running out of fuel is an error, so every `ok` result of the
embedding corresponds to a finite Python execution.

The `dbt.contracts.files` / `dbt.contracts.graph.manifest` modules are not
part of the sources under verification; the record types for files and
manifest entries, and the few helper methods the planner calls on them, are
modelled from the specification (sections 3.1, 3.2 and 4 of the spec) and
are marked as such below.
-/

namespace PP

/-- Association list with string keys, used to model Python's
insertion-ordered dictionaries. -/
abbrev Assoc (α : Type) := List (String × α)

/-- Dictionary lookup (first binding wins, as keys are unique in Python). -/
def alookup {α : Type} : Assoc α → String → Option α
  | [], _ => none
  | (k, v) :: rest, key => if k = key then some v else alookup rest key

/-- Python `key in dict`. -/
def amem {α : Type} (m : Assoc α) (key : String) : Bool :=
  (alookup m key).isSome

/-- Python `dict[key] = v`: update in place if the key exists, else append. -/
def aset {α : Type} : Assoc α → String → α → Assoc α
  | [], key, v => [(key, v)]
  | (k, w) :: rest, key, v =>
    if k = key then (k, v) :: rest else (k, w) :: aset rest key v

/-- Remove the first binding of a key (total; no-op when the key is absent). -/
def aerase {α : Type} : Assoc α → String → Assoc α
  | [], _ => []
  | (k, w) :: rest, key => if k = key then rest else (k, w) :: aerase rest key

/-- Error monad for the embedding: Python exceptions become `.error`. -/
abbrev M (α : Type) := Except String α

/-- Python `dict[key]` (raises `KeyError` when absent). -/
def getE {α : Type} (m : Assoc α) (key : String) : M α :=
  match alookup m key with
  | some v => .ok v
  | none => .error "KeyError"

/-- Python `dict.pop(key)` (raises `KeyError` when absent). -/
def apopE {α : Type} (m : Assoc α) (key : String) : M (α × Assoc α) :=
  match alookup m key with
  | some v => .ok (v, aerase m key)
  | none => .error "KeyError"

/-- Python `list.remove(x)`: drop the first occurrence, raise `ValueError`
when absent. -/
def premoveE {α : Type} [DecidableEq α] : List α → α → M (List α)
  | [], _ => .error "ValueError"
  | x :: rest, a =>
    if x = a then .ok rest
    else do
      let r ← premoveE rest a
      .ok (x :: r)

/-- Total first-occurrence removal, used where the source guards the call
with a membership test. -/
def lremove {α : Type} [DecidableEq α] : List α → α → List α
  | [], _ => []
  | x :: rest, a => if x = a then rest else x :: lremove rest a

/-- Effectful left fold over a list of work items, threading the planner
state; models Python `for` loops whose bodies may raise. -/
def foldME {σ α : Type} (f : σ → α → M σ) : σ → List α → M σ
  | st, [] => .ok st
  | st, a :: rest => do
    let st' ← f st a
    foldME f st' rest

/-- Parse kinds of source files (`ParseFileType`). -/
inductive PFT where
  | model
  | seed
  | snapshot
  | analysis
  | singularTest
  | macroFile
  | genericTest
  | schema
  | documentation
  | fixture
deriving DecidableEq

/-- The `mssat_files` tuple of the source. -/
def isMssat : PFT → Bool
  | .model | .seed | .snapshot | .analysis | .singularTest => true
  | _ => false

/-- The `mg_files` tuple of the source. -/
def isMg : PFT → Bool
  | .macroFile | .genericTest => true
  | _ => false

/-- Resource type of a manifest node; the planner only ever distinguishes
`NodeType.Test` from everything else. -/
inductive NType where
  | test
  | other
deriving DecidableEq

/-- A YAML element of a schema-file section.  Modelled from the spec
(section 3.1): an ordered mapping with a `name` key.  The embedding keeps
the keys the planner actually reads (`name`, `overrides`, `group`,
`versions`, `relation`) and abstracts the remaining subtree into an opaque
`rest` payload, so that structural (in)equality of elements is preserved. -/
structure Elem where
  name : String
  overrides : Option String
  group : Option String
  versions : Bool
  relation : Bool
  rest : Nat
deriving DecidableEq

/-- A source file.  Modelled from the spec (section 3.1): the
`dbt.contracts.files` module is not among the sources, so the union of the
fields of `SourceFile`, `SchemaSourceFile` and `FixtureSourceFile` that
`partial.py` accesses is represented as one record; the class tag is the
parse kind `pft`.  `dfy` backs the `dict_from_yaml` accessor; `checksum`
and `contents` are opaque (only equality is used). -/
structure SFile where
  file_id : String
  pft : PFT
  checksum : Nat
  project_name : String
  env_vars : List String
  env_vars_yaml : Assoc (Assoc (List String))
  nodes : List String
  macros : List String
  docs : List String
  fixture : Option String
  unit_tests : List String
  dfy : Assoc (List Elem)
  pp_dict : Option (Assoc (List Elem))
  contents : Nat
  node_patches : List String
  sources : List String
  exposures : List String
  metrics : List String
  groups : List String
  semantic_models : List String
  saved_queries : List String
  snapshots : List String
  macro_patches : Assoc String
  generated_metrics : List String
  metrics_from_measures : Assoc (List String)
  unrendered_configs : Assoc (Assoc Nat)
  sftests : Assoc (Assoc (List String))
deriving DecidableEq

/-- The `dict_from_yaml` accessor of schema files (in dbt it reads the
`dfy` attribute). -/
def SFile.dict_from_yaml (f : SFile) : Assoc (List Elem) := f.dfy

/-- Modelled from the spec (section 4.3.8): clear
`schema_file.env_vars[section][name]`. -/
def SFile.delete_from_env_vars (f : SFile) (key name : String) : SFile :=
  match alookup f.env_vars_yaml key with
  | none => f
  | some inner => { f with env_vars_yaml := aset f.env_vars_yaml key (aerase inner name) }

/-- Modelled from the spec (section 4.3.8): clear
`schema_file.unrendered_configs[section][name]`. -/
def SFile.delete_from_unrendered_configs (f : SFile) (key name : String) : SFile :=
  match alookup f.unrendered_configs key with
  | none => f
  | some inner => { f with unrendered_configs := aset f.unrendered_configs key (aerase inner name) }

/-- Modelled from the spec (section 4.3.6): tests attached to a named
element of a schema-file section. -/
def SFile.get_tests (f : SFile) (key name : String) : List String :=
  match alookup f.sftests key with
  | none => []
  | some inner => (alookup inner name).getD []

/-- Modelled from the spec (section 4.3.6): drop the test entry of a named
element. -/
def SFile.remove_tests_entry (f : SFile) (key name : String) : SFile :=
  match alookup f.sftests key with
  | none => f
  | some inner => { f with sftests := aset f.sftests key (aerase inner name) }

/-- Modelled from the spec (section 4.3.4): find the section key and
element name that produced a generic test. -/
def SFile.get_key_and_name_for_test (f : SFile) (uid : String) : Option (String × String) :=
  f.sftests.findSome? fun kv =>
    kv.2.findSome? fun nv =>
      if uid ∈ nv.2 then some (kv.1, nv.1) else none

/-- Modelled from the spec (section 4.3.7): a backward-compatibility fix of
the `generated_metrics` list whose exact behaviour the spec leaves
unspecified; only the fact that it clears the legacy list matters to the
planner's control flow. -/
def SFile.fix_metrics_from_measures (f : SFile) : SFile :=
  { f with generated_metrics := [] }

/-- A manifest node (model / seed / snapshot / analysis / test), with the
fields the planner reads.  Modelled from the spec (section 3.2). -/
structure MNode where
  unique_id : String
  name : String
  file_id : String
  patch_path : Option String
  group : Option String
  is_versioned : Bool
  resource_type : NType
  test_node_type : String
deriving DecidableEq

/-- A manifest source definition.  Modelled from the spec. -/
structure MSource where
  source_name : String
  package_name : String
  file_id : String
deriving DecidableEq

/-- A named manifest entry (exposure, metric, group, semantic model, saved
query, unit test).  Modelled from the spec. -/
structure MElem where
  name : String
  file_id : String
deriving DecidableEq

/-- A manifest macro.  Modelled from the spec. -/
structure MMacro where
  name : String
  file_id : String
  patch_path : Option String
deriving DecidableEq

/-- The saved manifest (section 3.2 of the spec): primary tables keyed by
unique id, the `disabled` shadow table, the env-var snapshot and the
reverse indices the planner reads (`child_map`, `group_map`). -/
structure Manifest where
  files : Assoc SFile
  nodes : Assoc MNode
  sources : Assoc MSource
  exposures : Assoc MElem
  metrics : Assoc MElem
  groups : Assoc MElem
  semanticModels : Assoc MElem
  savedQueries : Assoc MElem
  unitTests : Assoc MElem
  macros : Assoc MMacro
  docs : List String
  fixtures : List String
  disabled : Assoc (List MNode)
  envVars : Assoc String
  childMap : Assoc (List String)
  groupMap : Assoc (List String)
deriving DecidableEq

/-- The six diff lists computed by `build_file_diff`. -/
structure FileDiff where
  deleted : List String
  deleted_schema_files : List String
  added : List String
  changed : List String
  changed_schema_files : List String
  unchanged : List String
deriving DecidableEq

/-- The planner state: the fields of the `PartialParsing` instance.
`plan` is `project_parser_files`; `self.saved_files` aliases
`saved_manifest.files` and both names denote `saved.files` here. -/
structure PState where
  saved : Manifest
  newFiles : Assoc SFile
  plan : Assoc (Assoc (List String))
  macroChildMap : Assoc (List String)
  envChangedSrcFiles : List String
  envChangedSchemaFiles : Assoc (Assoc (List String))
  fileDiff : FileDiff
  processingFile : Option String
  specialOverrideFlag : Bool
  disabledByFileId : Assoc (List String)
deriving DecidableEq

/-- The `special_override_macros` constant of the source. -/
def specialOverrideNames : List String :=
  ["ref", "source", "config", "generate_schema_name",
   "generate_database_name", "generate_alias_name"]

/-- The `key_to_prefix` constant of the source. -/
def keyToPfxA : Assoc String :=
  [("models", "model"), ("seeds", "seed"),
   ("snapshots", "snapshot"), ("analyses", "analysis")]

/-- The `parse_file_type_to_key` constant of the source. -/
def pftToKey : PFT → Option String
  | .model => some "models"
  | .seed => some "seeds"
  | .snapshot => some "snapshots"
  | .analysis => some "analyses"
  | _ => none

/-- Modelled from the spec (section 6, parser table): the
`parse_file_type_to_parser` mapping of `dbt.contracts.files`, total over the
parse kinds, with non-empty parser names. -/
def parserNameOf : PFT → String
  | .model => "ModelParser"
  | .seed => "SeedParser"
  | .snapshot => "SnapshotParser"
  | .analysis => "AnalysisParser"
  | .singularTest => "SingularTestParser"
  | .macroFile => "MacroParser"
  | .genericTest => "GenericTestParser"
  | .schema => "SchemaParser"
  | .documentation => "DocumentationParser"
  | .fixture => "FixtureParser"

/-- Modelled from the spec (section 6): the opaque sentinel marking env
vars that were resolved from a default. -/
def DEFAULT_ENV_PLACEHOLDER : String := "DBT_DEFAULT_ENV_PLACEHOLDER"

/-- Modelled from the spec (section 3.2): rebuild the
`disabled_by_file_id` reverse index from the `disabled` table. -/
def buildDisabledByFileId (m : Manifest) : Assoc (List String) :=
  m.disabled.foldl
    (fun acc kv =>
      kv.2.foldl (fun acc2 nd => aset acc2 nd.file_id ((alookup acc2 nd.file_id).getD [] ++ [kv.1])) acc)
    []

/-- Whether the Python object for a file is a plain `SourceFile` (SQL or
documentation file).  Modelled from the spec (section 3.1): schema files
and fixture files have their own classes. -/
def isSqlClass (t : PFT) : Bool :=
  ¬ (t = PFT.schema ∨ t = PFT.fixture)

end PP

namespace PP

/-- Read a saved file (`self.saved_files[file_id]`, raising `KeyError`). -/
def getFileE (st : PState) (fid : String) : M SFile :=
  getE st.saved.files fid

/-- Write a saved file (`self.saved_files[file_id] = f`). -/
def putFile (st : PState) (fid : String) (f : SFile) : PState :=
  { st with saved := { st.saved with files := aset st.saved.files fid f } }

/-- Embedding of `PartialParsing.skip_parsing`. -/
def skipParsing (st : PState) : Bool :=
  st.fileDiff.deleted.isEmpty && st.fileDiff.added.isEmpty &&
  st.fileDiff.changed.isEmpty && st.fileDiff.changed_schema_files.isEmpty &&
  st.fileDiff.deleted_schema_files.isEmpty

/-- Embedding of `PartialParsing.add_to_pp_files`: append the file id to
`project_parser_files[project][parser]` unless it is already present or in
one of the deleted diff sets. -/
def addToPpFiles (st : PState) (source_file : SFile) : M PState :=
  let fid := source_file.file_id
  let pname := parserNameOf source_file.pft
  let proj := source_file.project_name
  if pname = "" ∨ proj = "" then .error "missing parse_file_type or project_name"
  else
    let projMap := (alookup st.plan proj).getD []
    let lst := (alookup projMap pname).getD []
    let lst' :=
      if fid ∉ lst ∧ fid ∉ st.fileDiff.deleted ∧ fid ∉ st.fileDiff.deleted_schema_files
      then lst ++ [fid] else lst
    .ok { st with plan := aset st.plan proj (aset projMap pname lst') }

/-- Embedding of `PartialParsing.already_scheduled_for_parsing`. -/
def alreadyScheduled (st : PState) (source_file : SFile) : Bool :=
  match alookup st.plan source_file.project_name with
  | none => false
  | some projMap =>
    match alookup projMap (parserNameOf source_file.pft) with
    | none => false
    | some lst => decide (source_file.file_id ∈ lst)

/-- Embedding of `PartialParsing.get_schema_element`: first element with
the given name (every modelled element carries a `name`). -/
def getSchemaElement (elems : List Elem) (ename : String) : Option Elem :=
  elems.find? (fun e => e.name == ename)

/-- Result of `get_diff_for`.  The `changed_or_deleted_names` key is absent
from the early-return dictionary of the source, hence the `Option`. -/
structure YamlDiff where
  deleted : List Elem
  added : List Elem
  changed : List Elem
  cdn : Option (List String)
deriving DecidableEq

/-- The by-name dictionary built inside `get_diff_for` (`dict[name] = elem`,
later duplicates overwrite earlier ones in place). -/
def buildByName (l : List Elem) : Assoc Elem :=
  l.foldl (fun acc e => aset acc e.name e) []

/-- Embedding of `PartialParsing.get_diff_for`.  Python's set iteration
order is modelled as insertion order; the `.copy()` on returned elements is
the identity on values (the aliasing behaviour of the copies is analysed
separately on the store-based model below). -/
def getDiffFor (key : String) (savedY newY : Assoc (List Elem)) : YamlDiff :=
  if amem savedY key || amem newY key then
    let saved_elements := (alookup savedY key).getD []
    let new_elements := (alookup newY key).getD []
    let savedBy := buildByName saved_elements
    let newBy := buildByName new_elements
    let savedNames := savedBy.map Prod.fst
    let newNames := newBy.map Prod.fst
    let deletedN := savedNames.filter (fun nm => !(amem newBy nm))
    let addedN := newNames.filter (fun nm => !(amem savedBy nm))
    let commonN := savedNames.filter (fun nm => amem newBy nm)
    let changedN := commonN.filter (fun nm => decide (alookup savedBy nm ≠ alookup newBy nm))
    { deleted := deletedN.filterMap (alookup savedBy)
      added := addedN.filterMap (alookup newBy)
      changed := changedN.filterMap (alookup newBy)
      cdn := some (changedN ++ deletedN) }
  else { deleted := [], added := [], changed := [], cdn := none }

/-- Embedding of `PartialParsing.merge_patch`: merge a patch into the
schema file's `pp_dict`, clear its env-var and unrendered-config records
for that name, and enqueue the schema file. -/
def mergePatch (st : PState) (fid : String) (key : String) (patch : Elem)
    (new_patch : Bool) : M PState := do
  let sf ← getFileE st fid
  let pp := (sf.pp_dict).getD []
  let pp' :=
    match alookup pp key with
    | none => aset pp key [patch]
    | some lst =>
      match (lst.filter (fun e => e.name == patch.name)).getLast? with
      | none => aset pp key (lst ++ [patch])
      | some found_elem =>
        if new_patch then aset pp key (lremove lst found_elem ++ [patch])
        else pp
  let sf1 := (({ sf with pp_dict := some pp' }).delete_from_env_vars key patch.name).delete_from_unrendered_configs key patch.name
  let st1 := putFile st fid sf1
  addToPpFiles st1 sf1

/-- Remove the first disabled shadow of a node that belongs to a file,
returning it together with the remaining shadows. -/
def extractFirstNode : List MNode → String → Option (MNode × List MNode)
  | [], _ => none
  | nd :: rest, fid =>
    if nd.file_id = fid then some (nd, rest)
    else
      match extractFirstNode rest fid with
      | some (x, l) => some (x, nd :: l)
      | none => none

/-- Embedding of `PartialParsing.delete_disabled`.  When no shadow of the
unique id belongs to the file, the Python local `index` stays unbound and
the `del` raises; this is the `.error` case. -/
def deleteDisabled (st : PState) (unique_id file_id : String) : M (MNode × PState) := do
  let lst ← getE st.saved.disabled unique_id
  match extractFirstNode lst file_id with
  | none => .error "NameError: index unbound"
  | some (node, rest) =>
    let dis' :=
      if rest = [] then aerase st.saved.disabled unique_id
      else aset st.saved.disabled unique_id rest
    .ok (node, { st with saved := { st.saved with disabled := dis' } })

/-- Split a character list on a separator character (Python
`str.split(sep)` for a one-character separator, which is how every dotted
unique id is taken apart in the source).  Written by structural recursion
on the character list so that concrete runs reduce. -/
def splitOnChar (c : Char) : List Char → List (List Char)
  | [] => [[]]
  | x :: rest =>
    match splitOnChar c rest with
    | [] => [[]]
    | y :: ys => if x = c then [] :: y :: ys else (x :: y) :: ys

/-- Python `unique_id.split(".")`. -/
def pySplitDot (s : String) : List String :=
  (splitOnChar (Char.ofNat 46) s.data).map String.mk

/-- Python `str.startswith`, written on the character lists so that
concrete runs reduce. -/
def pyStartsWith (s pfx : String) : Bool :=
  pfx.data.isPrefixOf s.data

/-- Loop body of `check_for_special_deleted_macros` over the file's macro
unique ids. -/
def checkSpecialLoop : PState → List String → M PState
  | st, [] => .ok st
  | st, uid :: rest =>
    if amem st.saved.macros uid then
      match (pySplitDot uid).get? 1 with
      | none => .error "IndexError"
      | some package_name =>
        if package_name = "dbt" then checkSpecialLoop st rest
        else do
          let mac ← getE st.saved.macros uid
          let st' :=
            if mac.name ∈ specialOverrideNames then { st with specialOverrideFlag := true }
            else st
          checkSpecialLoop st' rest
    else checkSpecialLoop st rest

/-- Embedding of `PartialParsing.check_for_special_deleted_macros`. -/
def checkForSpecialDeletedMacros (st : PState) (source_file : SFile) : M PState :=
  checkSpecialLoop st source_file.macros

/-- Embedding of `PartialParsing.remove_tests`: pop the tests attached to
the named element from `nodes` and drop the schema file's record of them. -/
def removeTestsSt (st : PState) (fid dict_key ename : String) : M PState := do
  let sf ← getFileE st fid
  let tests := sf.get_tests dict_key ename
  let st1 := tests.foldl
    (fun s t =>
      if amem s.saved.nodes t then { s with saved := { s.saved with nodes := aerase s.saved.nodes t } }
      else s) st
  let sf2 ← getFileE st1 fid
  .ok (putFile st1 fid (sf2.remove_tests_entry dict_key ename))

/-- Embedding of `PartialParsing.delete_yaml_snapshot`. -/
def deleteYamlSnapshot (st : PState) (fid : String) (snapshot_dict : Elem) : M PState := do
  let sf ← getFileE st fid
  foldME
    (fun s uid =>
      match alookup s.saved.nodes uid with
      | some snap =>
        if snap.name = snapshot_dict.name then do
          let s1 := { s with saved := { s.saved with nodes := aerase s.saved.nodes uid } }
          let sf2 ← getFileE s1 fid
          let l ← premoveE sf2.snapshots uid
          .ok (putFile s1 fid { sf2 with snapshots := l })
        else .ok s
      | none =>
        if amem s.saved.disabled uid then do
          let (_, s1) ← deleteDisabled s uid fid
          let sf2 ← getFileE s1 fid
          let l ← premoveE sf2.snapshots uid
          .ok (putFile s1 fid { sf2 with snapshots := l })
        else .ok s)
    st sf.snapshots

/-- Embedding of `PartialParsing.delete_schema_exposure`. -/
def deleteSchemaExposure (st : PState) (fid : String) (exposure_dict : Elem) : M PState := do
  let sf ← getFileE st fid
  foldME
    (fun s uid =>
      match alookup s.saved.exposures uid with
      | some exposure =>
        if exposure.name = exposure_dict.name then do
          let s1 := { s with saved := { s.saved with exposures := aerase s.saved.exposures uid } }
          let sf2 ← getFileE s1 fid
          let l ← premoveE sf2.exposures uid
          .ok (putFile s1 fid { sf2 with exposures := l })
        else .ok s
      | none =>
        if amem s.saved.disabled uid then do
          let (_, s1) ← deleteDisabled s uid fid
          .ok s1
        else .ok s)
    st sf.exposures

/-- Embedding of `PartialParsing.delete_schema_unit_test`. -/
def deleteSchemaUnitTest (st : PState) (fid : String) (unit_test_dict : Elem) : M PState := do
  let sf ← getFileE st fid
  foldME
    (fun s uid =>
      match alookup s.saved.unitTests uid with
      | some ut =>
        if ut.name = unit_test_dict.name then do
          let s1 := { s with saved := { s.saved with unitTests := aerase s.saved.unitTests uid } }
          let sf2 ← getFileE s1 fid
          let l ← premoveE sf2.unit_tests uid
          .ok (putFile s1 fid { sf2 with unit_tests := l })
        else .ok s
      | none => .ok s)
    st sf.unit_tests

/-- Find the singular-test unique id matching a `data_tests` patch name
(first `node_patches` entry with prefix `test` and matching third dotted
component). -/
def findDataTestUid : List String → String → M (Option String)
  | [], _ => .ok none
  | uid :: rest, ename =>
    if pyStartsWith uid "test" then
      match (pySplitDot uid).get? 2 with
      | none => .error "IndexError"
      | some en => if en = ename then .ok (some uid) else findDataTestUid rest ename
    else findDataTestUid rest ename

/-- Embedding of `PartialParsing.delete_schema_data_test_patch`. -/
def deleteSchemaDataTestPatch (st : PState) (fid : String) (data_test : Elem) : M PState := do
  let sf ← getFileE st fid
  let dtu ← findDataTestUid sf.node_patches data_test.name
  match dtu with
  | some uid =>
    match alookup st.saved.nodes uid with
    | some nd =>
      let st1 := { st with saved := { st.saved with nodes := aerase st.saved.nodes uid } }
      if amem st1.newFiles nd.file_id then do
        let nf ← getE st1.newFiles nd.file_id
        let st2 := putFile st1 nd.file_id nf
        addToPpFiles st2 nf
      else .ok st1
    | none => .ok st
  | none => .ok st

/-- Embedding of `PartialParsing.get_schema_file_for_source`: first manifest
source matching package and source name; `none` when that source's file is
not among the saved files (the loop breaks either way). -/
def getSchemaFileForSource (st : PState) (package source_name : String) :
    Option (String × SFile) :=
  match st.saved.sources.find?
      (fun kv => kv.2.package_name == package && kv.2.source_name == source_name) with
  | none => none
  | some kv =>
    match alookup st.saved.files kv.2.file_id with
    | some f => some (kv.2.file_id, f)
    | none => none

/-- Embedding of `PartialParsing.get_source_override_file_and_dict`.  A
missing original schema file makes the Python attribute access on `None`
raise, and a missing `sources` key raises `KeyError`. -/
def getSourceOverrideFileAndDict (st : PState) (source : Elem) :
    M (String × SFile × Option Elem) := do
  let package ←
    match source.overrides with
    | some p => .ok p
    | none => .error "KeyError: overrides"
  let source_name := source.name
  match getSchemaFileForSource st package source_name with
  | none => .error "AttributeError: NoneType"
  | some (fid, sf) => do
    let orig_sources ← getE sf.dfy "sources"
    .ok (fid, sf, getSchemaElement orig_sources source_name)

/-- Collect the `node_patches` entries of a schema file whose prefix and
third dotted component match a section element (`delete_schema_mssa_links`,
first loop).  A unique id with fewer than three components raises. -/
def collectMssaIds : List String → String → String → M (List String)
  | [], _, _ => .ok []
  | uid :: rest, pfx, ename =>
    if pyStartsWith uid pfx then
      match (pySplitDot uid).get? 2 with
      | none => .error "IndexError"
      | some en => do
        let tail ← collectMssaIds rest pfx ename
        .ok (if en = ename then uid :: tail else tail)
    else collectMssaIds rest pfx ename

/-- One step of the env-var classification of `build_env_vars_to_files`:
produce the changed and to-delete variable lists.  A variable that is unset
without the placeholder sentinel is recorded for deletion and then also
classified changed by the fall-through comparison of the source. -/
def classifyEnvVars (getenv : String → Option String) : Assoc String → List String × List String
  | [] => ([], [])
  | (ev, prev) :: rest =>
    let r := classifyEnvVars getenv rest
    match getenv ev with
    | none =>
      if prev = DEFAULT_ENV_PLACEHOLDER then r
      else (ev :: r.1, ev :: r.2)
    | some cur => if prev = cur then r else (ev :: r.1, r.2)

/-- Schema-file part of the env-var file scan: record each section/name
with at least one changed variable, without duplicates. -/
def envScanSchema (changed_vars : List String) (fid : String)
    (evy : Assoc (Assoc (List String))) (acc : Assoc (Assoc (List String))) :
    Assoc (Assoc (List String)) :=
  evy.foldl
    (fun acc1 kv =>
      kv.2.foldl
        (fun acc2 nv =>
          if nv.2.any (fun v => decide (v ∈ changed_vars)) then
            let inner := (alookup acc2 fid).getD []
            let names := (alookup inner kv.1).getD []
            if nv.1 ∈ names then acc2
            else aset acc2 fid (aset inner kv.1 (names ++ [nv.1]))
          else acc2)
        acc1)
    acc

/-- One file of the scan loop of `build_env_vars_to_files`: fixtures are
skipped, schema files contribute to the schema dictionary through their
yaml env-var record, and any other file with a changed recorded env var is
appended to the source list. -/
def envScanStep (changed_vars : List String)
    (acc : List String × Assoc (Assoc (List String))) (kv : String × SFile) :
    List String × Assoc (Assoc (List String)) :=
  let f := kv.2
  if f.pft = PFT.fixture then acc
  else if f.pft = PFT.schema then
    if f.env_vars_yaml = [] then acc
    else (acc.1, envScanSchema changed_vars f.file_id f.env_vars_yaml acc.2)
  else
    if f.env_vars = [] then acc
    else if f.env_vars.any (fun v => decide (v ∈ changed_vars)) then
      (acc.1 ++ [f.file_id], acc.2)
    else acc

/-- Embedding of `PartialParsing.build_env_vars_to_files`: classify env
vars, delete the unset ones from the manifest, and scan the saved files. -/
def buildEnvVarsToFiles (getenv : String → Option String) (m : Manifest) :
    Manifest × List String × Assoc (Assoc (List String)) :=
  let cls := classifyEnvVars getenv m.envVars
  let changed_vars := cls.1
  let m1 := { m with envVars := cls.2.foldl aerase m.envVars }
  let scan := m1.files.foldl (envScanStep changed_vars)
    (([], []) : List String × Assoc (Assoc (List String)))
  (m1, scan.1, scan.2)

/-- Deleted-files part of `build_file_diff`: split the ids missing from the
new map into schema and non-schema, recording whether a macro or generic
test file was deleted.  Returns `(deleted_schema_files, deleted, flag)`. -/
def splitDeleted (savedFiles : Assoc SFile) : List String → List String × List String × Bool
  | [] => ([], [], false)
  | fid :: rest =>
    let r := splitDeleted savedFiles rest
    match alookup savedFiles fid with
    | none => r
    | some sf =>
      if sf.pft = PFT.schema then (fid :: r.1, r.2.1, r.2.2)
      else (r.1, fid :: r.2.1, isMg sf.pft || r.2.2)

/-- Changed-files part of `build_file_diff` over the common ids.  The
serialization check of the source (a schema-kind file whose Python class is
not `SchemaSourceFile`) is unrepresentable here because the class tag and
the parse kind are one field.  Returns
`(changed, changed_schema_files, unchanged, flag)`. -/
def splitChanged (savedFiles newFiles : Assoc SFile) :
    List String → List String × List String × List String × Bool
  | [] => ([], [], [], false)
  | fid :: rest =>
    let r := splitChanged savedFiles newFiles rest
    match alookup savedFiles fid, alookup newFiles fid with
    | some sf, some nf =>
      if sf.checksum = nf.checksum then (r.1, r.2.1, fid :: r.2.2.1, r.2.2.2)
      else if sf.pft = PFT.schema then (r.1, fid :: r.2.1, r.2.2.1, r.2.2.2)
      else (fid :: r.1, r.2.1, r.2.2.1, isMg sf.pft || r.2.2.2)
    | _, _ => r

/-- Env-var augmentation loop of `build_file_diff`: append each flagged id
unless it is already in the given deleted list or in the growing changed
list. -/
def augmentChanged (deleted : List String) : List String → List String → List String
  | changed, [] => changed
  | changed, fid :: rest =>
    if fid ∈ deleted ∨ fid ∈ changed then augmentChanged deleted changed rest
    else augmentChanged deleted (changed ++ [fid]) rest

/-- Embedding of `PartialParsing.build_file_diff` (the event emission of
the source is external and omitted).  Python set iteration is modelled as
insertion order.  Returns the diff and the
`changed_or_deleted_macro_file` boolean. -/
def buildFileDiff (savedFiles newFiles : Assoc SFile) (envSrc : List String)
    (envSch : Assoc (Assoc (List String))) : FileDiff × Bool :=
  let savedIds := savedFiles.map Prod.fst
  let newIds := newFiles.map Prod.fst
  let deletedAll := savedIds.filter (fun i => !(amem newFiles i))
  let added := newIds.filter (fun i => !(amem savedFiles i))
  let common := savedIds.filter (fun i => amem newFiles i)
  let d := splitDeleted savedFiles deletedAll
  let c := splitChanged savedFiles newFiles common
  let ch' := augmentChanged d.2.1 c.1 envSrc
  let chs' := augmentChanged d.1 c.2.1 (envSch.map Prod.fst)
  ({ deleted := d.2.1, deleted_schema_files := d.1, added := added,
     changed := ch', changed_schema_files := chs', unchanged := c.2.2.1 },
   d.2.2 || c.2.2.2)

/-- Embedding of `PartialParsing.__init__`: run the env-var pass (which
mutates the manifest's env-var table), build the file diff, build
`macro_child_map` when a macro file changed or was deleted, and build the
`disabled_by_file_id` index.  `bmcm` stands for the external
`Manifest.build_macro_child_map`. -/
def initPP (saved : Manifest) (newFiles : Assoc SFile) (getenv : String → Option String)
    (bmcm : Manifest → Assoc (List String)) : PState :=
  let e := buildEnvVarsToFiles getenv saved
  let m1 := e.1
  let d := buildFileDiff m1.files newFiles e.2.1 e.2.2
  { saved := m1
    newFiles := newFiles
    plan := []
    macroChildMap := if d.2 then bmcm m1 else []
    envChangedSrcFiles := e.2.1
    envChangedSchemaFiles := e.2.2
    fileDiff := d.1
    processingFile := none
    specialOverrideFlag := false
    disabledByFileId := buildDisabledByFileId m1 }

/-- Tags replacing the delete-callback arguments of
`_schedule_for_parsing` and `_handle_element_change` (Python passes bound
methods; the embedding dispatches on a closed enumeration with the same
meaning). -/
inductive DelKind where
  | src
  | expo
  | metric
  | group
  | semModel
  | savedQuery
  | unitTest
  | macroPatch
  | dataTestPatch
deriving DecidableEq

end PP

namespace PP

/-!
The mutually recursive invalidation procedures of `PartialParsing`.
Python's recursion (through `schedule_*`, the `delete_schema_*` family and
the macro handling) is modelled with a shared fuel parameter; every
recursive call consumes one unit.  Python passes file objects by reference
and mutates them in place; the embedding threads the file id and re-reads
the current file from the state at each access, which agrees with the
object semantics whenever the file-map key equals the object's `file_id`
field (the well-formedness hypothesis used by the theorems below).
The delete-callback parameters of `_schedule_for_parsing` and
`_handle_element_change` are replaced by the `DelKind` tag dispatched in
`runDelete`.  Event emission is external and omitted.
-/

mutual

/-- Embedding of `PartialParsing.remove_node_in_saved`, entry part: pop the
unique id from `nodes`, or from `disabled` when the file has disabled
nodes, else return silently ("has already been deleted by another
action"). -/
def removeNodeInSaved : Nat → SFile → String → PState → M PState
  | 0, _, _, _ => .error "fuel"
  | Nat.succ n, source_file, unique_id, st =>
    match alookup st.saved.nodes unique_id with
    | some node =>
      let st1 := { st with saved := { st.saved with nodes := aerase st.saved.nodes unique_id } }
      removeNodeFinish n source_file unique_id node st1
    | none =>
      if amem st.disabledByFileId source_file.file_id && amem st.saved.disabled unique_id then do
        let r ← deleteDisabled st unique_id source_file.file_id
        removeNodeFinish n source_file unique_id r.1 r.2
      else .ok st

/-- Embedding of the `if node.patch_path:` tail of
`remove_node_in_saved`: re-merge the schema patch of the removed node and
clear the patch paths of its disabled shadows. -/
def removeNodeFinish : Nat → SFile → String → MNode → PState → M PState
  | 0, _, _, _, _ => .error "fuel"
  | Nat.succ n, source_file, unique_id, node, st =>
    match node.patch_path with
    | none => .ok st
    | some file_id => do
      let st ←
        if file_id ∉ st.fileDiff.deleted ∧ amem st.saved.files file_id
            ∧ (pftToKey source_file.pft).isSome then do
          let schema_file ← getFileE st file_id
          let dict_key := (pftToKey source_file.pft).getD ""
          let elem_patch :=
            match alookup schema_file.dfy dict_key with
            | none => none
            | some lst => lst.find? (fun e => e.name == node.name)
          match elem_patch with
          | none => .ok st
          | some elem => do
            let st ← deleteSchemaMssaLinks n file_id dict_key elem st
            let st ← mergePatch st file_id dict_key elem false
            let sf2 ← getFileE st file_id
            if unique_id ∈ sf2.node_patches then
              .ok (putFile st file_id { sf2 with node_patches := lremove sf2.node_patches unique_id })
            else .ok st
        else .ok st
      if amem st.saved.disabled unique_id then
        let dl := ((alookup st.saved.disabled unique_id).getD []).map
          (fun nd => { nd with patch_path := none })
        .ok { st with saved := { st.saved with disabled := aset st.saved.disabled unique_id dl } }
      else .ok st

/-- Embedding of `PartialParsing.update_mssat_in_saved`. -/
def updateMssatInSaved : Nat → SFile → SFile → PState → M PState
  | 0, _, _, _ => .error "fuel"
  | Nat.succ n, new_source_file, old_source_file, st =>
    if alreadyScheduled st old_source_file then .ok st
    else do
      let unique_ids := old_source_file.nodes
      let file_id := new_source_file.file_id
      let st := putFile st file_id new_source_file
      let st ← addToPpFiles st new_source_file
      foldME (fun s uid => removeNodeInSaved n new_source_file uid s) st unique_ids

/-- Embedding of `PartialParsing.update_macro_in_saved`. -/
def updateMacroInSaved : Nat → SFile → SFile → PState → M PState
  | 0, _, _, _ => .error "fuel"
  | Nat.succ n, new_source_file, old_source_file, st =>
    if alreadyScheduled st old_source_file then .ok st
    else do
      let st ← handleMacroFileLinks n old_source_file.file_id true st
      let st := putFile st new_source_file.file_id new_source_file
      addToPpFiles st new_source_file

/-- Embedding of `PartialParsing.update_doc_in_saved`. -/
def updateDocInSaved : Nat → SFile → SFile → PState → M PState
  | 0, _, _, _ => .error "fuel"
  | Nat.succ n, new_source_file, old_source_file, st =>
    if alreadyScheduled st old_source_file then .ok st
    else do
      let st ← deleteDocNode n old_source_file.file_id st
      let st := putFile st new_source_file.file_id new_source_file
      addToPpFiles st new_source_file

/-- Embedding of `PartialParsing.update_fixture_in_saved`. -/
def updateFixtureInSaved : Nat → SFile → SFile → PState → M PState
  | 0, _, _, _ => .error "fuel"
  | Nat.succ n, new_source_file, old_source_file, st =>
    if alreadyScheduled st old_source_file then .ok st
    else do
      let st ← deleteFixtureNode n old_source_file.file_id st
      let st := putFile st new_source_file.file_id new_source_file
      addToPpFiles st new_source_file

/-- Embedding of `PartialParsing.update_in_saved` (events omitted). -/
def updateInSaved : Nat → String → PState → M PState
  | 0, _, _ => .error "fuel"
  | Nat.succ n, file_id, st => do
    let new_source_file ← getE st.newFiles file_id
    let old_source_file ← getFileE st file_id
    if isMssat new_source_file.pft then updateMssatInSaved n new_source_file old_source_file st
    else if isMg new_source_file.pft then updateMacroInSaved n new_source_file old_source_file st
    else if new_source_file.pft = PFT.documentation then
      updateDocInSaved n new_source_file old_source_file st
    else if new_source_file.pft = PFT.fixture then
      updateFixtureInSaved n new_source_file old_source_file st
    else .error "Invalid parse_file_type in source_file"

/-- Embedding of `PartialParsing.remove_mssat_file`. -/
def removeMssatFile : Nat → SFile → PState → M PState
  | 0, _, _ => .error "fuel"
  | Nat.succ n, source_file, st =>
    if !(isSqlClass source_file.pft) || source_file.nodes.isEmpty then .ok st
    else
      foldME
        (fun s uid => do
          let s ← removeNodeInSaved n source_file uid s
          scheduleReferencingNodes n uid s)
        st source_file.nodes

/-- Embedding of `PartialParsing.schedule_referencing_nodes_for_parsing`. -/
def scheduleReferencingNodes : Nat → String → PState → M PState
  | 0, _, _ => .error "fuel"
  | Nat.succ n, unique_id, st =>
    match alookup st.saved.childMap unique_id with
    | some kids => scheduleNodesForParsing n kids st
    | none => .ok st

/-- Embedding of `PartialParsing.schedule_nodes_for_parsing`. -/
def scheduleNodesForParsing : Nat → List String → PState → M PState
  | 0, _, _ => .error "fuel"
  | Nat.succ n, unique_ids, st =>
    foldME (fun s uid => scheduleOneNode n uid s) st unique_ids

/-- Loop body of `schedule_nodes_for_parsing`: the dispatch over the
manifest table containing the unique id, in source order. -/
def scheduleOneNode : Nat → String → PState → M PState
  | 0, _, _ => .error "fuel"
  | Nat.succ n, unique_id, st =>
    match alookup st.saved.nodes unique_id with
    | some node =>
      if node.resource_type = NType.test ∧ node.test_node_type = "generic" then .ok st
      else
        let file_id := node.file_id
        if amem st.saved.files file_id ∧ file_id ∉ st.fileDiff.deleted then do
          let source_file ← getFileE st file_id
          let st ← removeMssatFile n source_file st
          let nf ← getE st.newFiles file_id
          let st := putFile st file_id nf
          addToPpFiles st nf
        else .ok st
    | none =>
      match alookup st.saved.sources unique_id with
      | some source => schedForParsing n DelKind.src "sources" source.file_id source.source_name st
      | none =>
        match alookup st.saved.exposures unique_id with
        | some exposure => schedForParsing n DelKind.expo "exposures" exposure.file_id exposure.name st
        | none =>
          match alookup st.saved.metrics unique_id with
          | some metric => schedForParsing n DelKind.metric "metrics" metric.file_id metric.name st
          | none =>
            match alookup st.saved.semanticModels unique_id with
            | some sm => schedForParsing n DelKind.semModel "semantic_models" sm.file_id sm.name st
            | none =>
              match alookup st.saved.savedQueries unique_id with
              | some sq => schedForParsing n DelKind.savedQuery "saved_queries" sq.file_id sq.name st
              | none =>
                match alookup st.saved.macros unique_id with
                | some mac =>
                  let file_id := mac.file_id
                  if amem st.saved.files file_id ∧ file_id ∉ st.fileDiff.deleted then do
                    let st ← deleteMacroFile n file_id false st
                    let nf ← getE st.newFiles file_id
                    let st := putFile st file_id nf
                    addToPpFiles st nf
                  else .ok st
                | none =>
                  match alookup st.saved.unitTests unique_id with
                  | some ut => schedForParsing n DelKind.unitTest "unit_tests" ut.file_id ut.name st
                  | none => .ok st

/-- Embedding of `PartialParsing._schedule_for_parsing` (delete callback
replaced by a `DelKind` tag; the `assert isinstance(..., SchemaSourceFile)`
becomes an error when the file is not schema-kind). -/
def schedForParsing : Nat → DelKind → String → String → String → PState → M PState
  | 0, _, _, _, _, _ => .error "fuel"
  | Nat.succ n, kind, dict_key, file_id, ename, st =>
    if amem st.saved.files file_id ∧ file_id ∉ st.fileDiff.deleted
        ∧ file_id ∉ st.fileDiff.deleted_schema_files then do
      let schema_file ← getFileE st file_id
      if schema_file.pft ≠ PFT.schema then .error "assert SchemaSourceFile"
      else
        let elements := (alookup schema_file.dfy dict_key).getD []
        match getSchemaElement elements ename with
        | some schema_element => do
          let st ← runDelete n kind file_id schema_element st
          mergePatch st file_id dict_key schema_element false
        | none => .ok st
    else .ok st

/-- Dispatch of the section-specific delete procedures (the Python bound
methods passed as callbacks). -/
def runDelete : Nat → DelKind → String → Elem → PState → M PState
  | 0, _, _, _, _ => .error "fuel"
  | Nat.succ n, kind, file_id, elem, st =>
    match kind with
    | .src => deleteSchemaSource n file_id elem st
    | .expo => deleteSchemaExposure st file_id elem
    | .metric => deleteSchemaMetric n file_id elem st
    | .group => deleteSchemaGroup n file_id elem st
    | .semModel => deleteSchemaSemanticModel n file_id elem st
    | .savedQuery => deleteSchemaSavedQuery n file_id elem st
    | .unitTest => deleteSchemaUnitTest st file_id elem
    | .macroPatch => deleteSchemaMacroPatch n file_id elem st
    | .dataTestPatch => deleteSchemaDataTestPatch st file_id elem

/-- Embedding of `PartialParsing.delete_schema_source`. -/
def deleteSchemaSource : Nat → String → Elem → PState → M PState
  | 0, _, _, _ => .error "fuel"
  | Nat.succ n, file_id, source_dict, st => do
    let source_name := source_dict.name
    let sf ← getFileE st file_id
    let st ← foldME
      (fun s uid =>
        match alookup s.saved.sources uid with
        | some source =>
          if source.source_name = source_name then do
            let s := { s with saved := { s.saved with sources := aerase s.saved.sources uid } }
            let sf2 ← getFileE s file_id
            let l ← premoveE sf2.sources uid
            let s := putFile s file_id { sf2 with sources := l }
            scheduleReferencingNodes n uid s
          else .ok s
        | none => .ok s)
      st sf.sources
    removeTestsSt st file_id "sources" source_name

/-- Embedding of `PartialParsing.delete_schema_group`. -/
def deleteSchemaGroup : Nat → String → Elem → PState → M PState
  | 0, _, _, _ => .error "fuel"
  | Nat.succ n, file_id, group_dict, st => do
    let sf ← getFileE st file_id
    foldME
      (fun s uid =>
        match alookup s.saved.groups uid with
        | some group =>
          if group.name = group_dict.name then do
            let kids ← getE s.saved.groupMap group.name
            let s ← scheduleNodesForParsing n kids s
            let s := { s with saved := { s.saved with groups := aerase s.saved.groups uid } }
            let sf2 ← getFileE s file_id
            let l ← premoveE sf2.groups uid
            .ok (putFile s file_id { sf2 with groups := l })
          else .ok s
        | none => .ok s)
      st sf.groups

/-- Embedding of `PartialParsing.delete_schema_metric`. -/
def deleteSchemaMetric : Nat → String → Elem → PState → M PState
  | 0, _, _, _ => .error "fuel"
  | Nat.succ n, file_id, metric_dict, st => do
    let sf ← getFileE st file_id
    foldME
      (fun s uid =>
        match alookup s.saved.metrics uid with
        | some metric =>
          if metric.name = metric_dict.name then do
            let s ←
              match alookup s.saved.childMap uid with
              | some kids => scheduleNodesForParsing n kids s
              | none => .ok s
            let s := { s with saved := { s.saved with metrics := aerase s.saved.metrics uid } }
            let sf2 ← getFileE s file_id
            let l ← premoveE sf2.metrics uid
            .ok (putFile s file_id { sf2 with metrics := l })
          else .ok s
        | none =>
          if amem s.saved.disabled uid then do
            let r ← deleteDisabled s uid file_id
            .ok r.2
          else .ok s)
      st sf.metrics

/-- Embedding of `PartialParsing.delete_schema_saved_query` (the source
pops the manifest entry but does not remove the id from the schema file's
`saved_queries` list). -/
def deleteSchemaSavedQuery : Nat → String → Elem → PState → M PState
  | 0, _, _, _ => .error "fuel"
  | Nat.succ n, file_id, saved_query_dict, st => do
    let sf ← getFileE st file_id
    foldME
      (fun s uid =>
        match alookup s.saved.savedQueries uid with
        | some sq =>
          if sq.name = saved_query_dict.name then do
            let s ←
              match alookup s.saved.childMap uid with
              | some kids => scheduleNodesForParsing n kids s
              | none => .ok s
            .ok { s with saved := { s.saved with savedQueries := aerase s.saved.savedQueries uid } }
          else .ok s
        | none =>
          if amem s.saved.disabled uid then do
            let r ← deleteDisabled s uid file_id
            .ok r.2
          else .ok s)
      st sf.saved_queries

/-- Embedding of `PartialParsing.delete_schema_semantic_model`, including
the `generated_metrics` fix-up and the `metrics_from_measures` clean-up. -/
def deleteSchemaSemanticModel : Nat → String → Elem → PState → M PState
  | 0, _, _, _ => .error "fuel"
  | Nat.succ n, file_id, semantic_model_dict, st => do
    let semantic_model_name := semantic_model_dict.name
    let sf ← getFileE st file_id
    let st ← foldME
      (fun s uid =>
        match alookup s.saved.semanticModels uid with
        | some sm =>
          if sm.name = semantic_model_name then do
            let s ←
              match alookup s.saved.childMap uid with
              | some kids => scheduleNodesForParsing n kids s
              | none => .ok s
            let s := { s with saved := { s.saved with semanticModels := aerase s.saved.semanticModels uid } }
            let sf2 ← getFileE s file_id
            let l ← premoveE sf2.semantic_models uid
            .ok (putFile s file_id { sf2 with semantic_models := l })
          else .ok s
        | none =>
          if amem s.saved.disabled uid then do
            let r ← deleteDisabled s uid file_id
            .ok r.2
          else .ok s)
      st sf.semantic_models
    let sf2 ← getFileE st file_id
    let sf3 := if sf2.generated_metrics.isEmpty then sf2 else sf2.fix_metrics_from_measures
    let st := putFile st file_id sf3
    match alookup sf3.metrics_from_measures semantic_model_name with
    | some uids => do
      let st ← foldME
        (fun s uid =>
          match alookup s.saved.metrics uid with
          | some _ => .ok { s with saved := { s.saved with metrics := aerase s.saved.metrics uid } }
          | none =>
            if amem s.saved.disabled uid then do
              let r ← deleteDisabled s uid file_id
              .ok r.2
            else .ok s)
        st uids
      let sf4 ← getFileE st file_id
      .ok (putFile st file_id
        { sf4 with metrics_from_measures := aerase sf4.metrics_from_measures semantic_model_name })
    | none => .ok st

/-- Embedding of `PartialParsing.delete_schema_macro_patch`. -/
def deleteSchemaMacroPatch : Nat → String → Elem → PState → M PState
  | 0, _, _, _ => .error "fuel"
  | Nat.succ n, file_id, macroElem, st => do
    let sf ← getFileE st file_id
    match alookup sf.macro_patches macroElem.name with
    | some macro_unique_id =>
      let st := putFile st file_id { sf with macro_patches := aerase sf.macro_patches macroElem.name }
      match alookup st.saved.macros macro_unique_id with
      | some mac =>
        let st := { st with saved := { st.saved with macros := aerase st.saved.macros macro_unique_id } }
        let macro_file_id := mac.file_id
        if amem st.newFiles macro_file_id then do
          let _ ← getFileE st macro_file_id
          let st ← deleteMacroFile n macro_file_id false st
          let nf ← getE st.newFiles macro_file_id
          let st := putFile st macro_file_id nf
          addToPpFiles st nf
        else .ok st
      | none => .ok st
    | none => .ok st

/-- Embedding of `PartialParsing.delete_macro_file`. -/
def deleteMacroFile : Nat → String → Bool → PState → M PState
  | 0, _, _, _ => .error "fuel"
  | Nat.succ n, file_id, follow_references, st => do
    let source_file ← getFileE st file_id
    let st ← checkForSpecialDeletedMacros st source_file
    let st ← handleMacroFileLinks n file_id follow_references st
    if amem st.saved.files file_id then
      .ok { st with saved := { st.saved with files := aerase st.saved.files file_id } }
    else .ok st

/-- Embedding of `PartialParsing.handle_macro_file_links`: iterate a copy
of the file's macro list. -/
def handleMacroFileLinks : Nat → String → Bool → PState → M PState
  | 0, _, _, _ => .error "fuel"
  | Nat.succ n, file_id, follow_references, st => do
    let source_file ← getFileE st file_id
    foldME (fun s uid => handleOneMacroLink n file_id follow_references uid s) st source_file.macros

/-- Loop body of `handle_macro_file_links` for one macro unique id. -/
def handleOneMacroLink : Nat → String → Bool → String → PState → M PState
  | 0, _, _, _, _ => .error "fuel"
  | Nat.succ n, file_id, follow_references, unique_id, st =>
    if !(amem st.saved.macros unique_id) then do
      let sf ← getFileE st file_id
      if unique_id ∈ sf.macros then
        .ok (putFile st file_id { sf with macros := lremove sf.macros unique_id })
      else .ok st
    else do
      let bmac ← getE st.saved.macros unique_id
      let st := { st with saved := { st.saved with macros := aerase st.saved.macros unique_id } }
      let st ←
        if st.macroChildMap ≠ [] ∧ follow_references then do
          let referencing_nodes ← recursivelyGather n unique_id [] st
          scheduleMacroNodes n referencing_nodes st
        else .ok st
      let st ←
        match bmac.patch_path with
        | some pfid =>
          if amem st.saved.files pfid then do
            let schema_file ← getFileE st pfid
            let macro_patches := (alookup schema_file.dfy "macros").getD []
            match getSchemaElement macro_patches bmac.name with
            | none => .error "TypeError: NoneType patch"
            | some mp => do
              let st ← deleteSchemaMacroPatch n pfid mp st
              mergePatch st pfid "macros" mp false
          else .ok st
        | none => .ok st
      let sf ← getFileE st file_id
      if unique_id ∈ sf.macros then
        .ok (putFile st file_id { sf with macros := lremove sf.macros unique_id })
      else .ok st

/-- Embedding of `PartialParsing.recursively_gather_macro_references`. -/
def recursivelyGather : Nat → String → List String → PState → M (List String)
  | 0, _, _, _ => .error "fuel"
  | Nat.succ n, macro_unique_id, acc, st => do
    let kids ← getE st.macroChildMap macro_unique_id
    gatherKids n kids acc st

/-- Loop of `recursively_gather_macro_references` over the children of a
macro: skip already-visited ids, record the rest, recurse into macros. -/
def gatherKids : Nat → List String → List String → PState → M (List String)
  | 0, _, _, _ => .error "fuel"
  | Nat.succ _, [], acc, _ => .ok acc
  | Nat.succ n, uid :: rest, acc, st =>
    if uid ∈ acc then gatherKids n rest acc st
    else do
      let acc := acc ++ [uid]
      let acc ← if pyStartsWith uid "macro." then recursivelyGather n uid acc st else .ok acc
      gatherKids n rest acc st

/-- Embedding of `PartialParsing.schedule_macro_nodes_for_parsing`. -/
def scheduleMacroNodes : Nat → List String → PState → M PState
  | 0, _, _ => .error "fuel"
  | Nat.succ n, unique_ids, st =>
    foldME (fun s uid => scheduleOneMacroNode n uid s) st unique_ids

/-- Loop body of `schedule_macro_nodes_for_parsing`: generic tests are
re-merged through their schema file, other nodes and macros are handled
like in `schedule_nodes_for_parsing`. -/
def scheduleOneMacroNode : Nat → String → PState → M PState
  | 0, _, _ => .error "fuel"
  | Nat.succ n, unique_id, st =>
    match alookup st.saved.nodes unique_id with
    | some node =>
      if node.resource_type = NType.test ∧ node.test_node_type = "generic" then do
        let schema_file ← getFileE st node.file_id
        match schema_file.get_key_and_name_for_test unique_id with
        | some kn =>
          let key := kn.1
          let patch_list := (alookup schema_file.dfy key).getD []
          match getSchemaElement patch_list kn.2 with
          | some patch =>
            if key = "models" ∨ key = "seeds" ∨ key = "snapshots" then do
              let st ← deleteSchemaMssaLinks n node.file_id key patch st
              let st ← mergePatch st node.file_id key patch false
              let sf2 ← getFileE st node.file_id
              if unique_id ∈ sf2.node_patches then
                .ok (putFile st node.file_id
                  { sf2 with node_patches := lremove sf2.node_patches unique_id })
              else .ok st
            else if key = "sources" then do
              let st ←
                if patch.overrides.isSome then removeSourceOverrideTarget n patch st
                else .ok st
              let st ← deleteSchemaSource n node.file_id patch st
              mergePatch st node.file_id "sources" patch false
            else .ok st
          | none => .ok st
        | none => .ok st
      else
        let file_id := node.file_id
        if amem st.saved.files file_id ∧ file_id ∉ st.fileDiff.deleted then do
          let source_file ← getFileE st file_id
          let st ← removeMssatFile n source_file st
          let nf ← getE st.newFiles file_id
          let st := putFile st file_id nf
          addToPpFiles st nf
        else .ok st
    | none =>
      match alookup st.saved.macros unique_id with
      | some mac =>
        let file_id := mac.file_id
        if amem st.saved.files file_id ∧ file_id ∉ st.fileDiff.deleted then do
          let st ← deleteMacroFile n file_id false st
          let nf ← getE st.newFiles file_id
          let st := putFile st file_id nf
          addToPpFiles st nf
        else .ok st
      | none => .ok st

/-- Embedding of `PartialParsing.delete_schema_mssa_links`. -/
def deleteSchemaMssaLinks : Nat → String → String → Elem → PState → M PState
  | 0, _, _, _, _ => .error "fuel"
  | Nat.succ n, file_id, dict_key, elem, st => do
    let sf ← getFileE st file_id
    let pfx ← getE keyToPfxA dict_key
    let elem_unique_ids ← collectMssaIds sf.node_patches pfx elem.name
    let st ← foldME
      (fun s elem_unique_id => do
        let s ←
          if amem s.saved.nodes elem_unique_id || amem s.saved.disabled elem_unique_id then do
            let r ←
              match alookup s.saved.nodes elem_unique_id with
              | some nd =>
                .ok ([nd], { s with saved := { s.saved with nodes := aerase s.saved.nodes elem_unique_id } })
              | none => do
                let p ← apopE s.saved.disabled elem_unique_id
                .ok (p.1, { s with saved := { s.saved with disabled := p.2 } })
            foldME
              (fun s2 node => do
                let fid2 := node.file_id
                let s2 ←
                  if amem s2.newFiles fid2 then do
                    let nf ← getE s2.newFiles fid2
                    .ok (putFile s2 fid2 nf)
                  else .ok s2
                let source_file ← getFileE s2 fid2
                let s2 ← addToPpFiles s2 source_file
                let s2 ←
                  if node.group ≠ elem.group then scheduleReferencingNodes n node.unique_id s2
                  else .ok s2
                if node.is_versioned || elem.versions then
                  scheduleReferencingNodes n node.unique_id s2
                else .ok s2)
              r.2 r.1
          else .ok s
        let sf2 ← getFileE s file_id
        let np ← premoveE sf2.node_patches elem_unique_id
        .ok (putFile s file_id { sf2 with node_patches := np }))
      st elem_unique_ids
    if dict_key = "models" ∨ dict_key = "seeds" ∨ dict_key = "snapshots" then
      removeTestsSt st file_id dict_key elem.name
    else .ok st

/-- Embedding of `PartialParsing.remove_source_override_target`. -/
def removeSourceOverrideTarget : Nat → Elem → PState → M PState
  | 0, _, _ => .error "fuel"
  | Nat.succ n, source_dict, st => do
    let r ← getSourceOverrideFileAndDict st source_dict
    match r.2.2 with
    | some orig_source => do
      let st ← deleteSchemaSource n r.1 orig_source st
      let st ← mergePatch st r.1 "sources" orig_source false
      let sf ← getFileE st r.1
      addToPpFiles st sf
    | none => .ok st

/-- Embedding of `PartialParsing.add_to_saved` (events omitted). -/
def addToSaved : Nat → String → PState → M PState
  | 0, _, _ => .error "fuel"
  | Nat.succ n, file_id, st => do
    let source_file ← getE st.newFiles file_id
    if source_file.pft = PFT.schema then do
      let r ← handleAddedSchemaFile n source_file st
      let st := putFile r.2 file_id r.1
      addToPpFiles st r.1
    else do
      let st := putFile st file_id source_file
      addToPpFiles st source_file

/-- Embedding of `PartialParsing.handle_added_schema_file`: seed `pp_dict`
from `dict_from_yaml` and detach the targets of source overrides.  The file
being added is a local copy, returned alongside the mutated state. -/
def handleAddedSchemaFile : Nat → SFile → PState → M (SFile × PState)
  | 0, _, _ => .error "fuel"
  | Nat.succ n, source_file, st => do
    let sf := { source_file with pp_dict := some source_file.dfy }
    match alookup sf.dfy "sources" with
    | some srcs => do
      let st ← foldME
        (fun s e => if e.overrides.isSome then removeSourceOverrideTarget n e s else .ok s)
        st srcs
      .ok (sf, st)
    | none => .ok (sf, st)

/-- Embedding of `PartialParsing.delete_doc_node`. -/
def deleteDocNode : Nat → String → PState → M PState
  | 0, _, _ => .error "fuel"
  | Nat.succ n, file_id, st => do
    let source_file ← getFileE st file_id
    let st ← foldME
      (fun s uid => do
        let d ← premoveE s.saved.docs uid
        let s := { s with saved := { s.saved with docs := d } }
        let sf2 ← getFileE s file_id
        let l ← premoveE sf2.docs uid
        .ok (putFile s file_id { sf2 with docs := l }))
      st source_file.docs
    let sf3 ← getFileE st file_id
    let st ← scheduleNodesForParsing n sf3.nodes st
    let sf4 ← getFileE st file_id
    let st := putFile st file_id { sf4 with nodes := [] }
    let p ← apopE st.saved.files file_id
    .ok { st with saved := { st.saved with files := p.2 } }

/-- Embedding of `PartialParsing.delete_fixture_node`. -/
def deleteFixtureNode : Nat → String → PState → M PState
  | 0, _, _ => .error "fuel"
  | Nat.succ n, file_id, st => do
    let source_file ← getFileE st file_id
    let fixture_uid ←
      match source_file.fixture with
      | some u => .ok u
      | none => .error "KeyError: fixture"
    let fx ← premoveE st.saved.fixtures fixture_uid
    let st := { st with saved := { st.saved with fixtures := fx } }
    let st ← foldME
      (fun s uid => do
        let ut ← getE s.saved.unitTests uid
        let s := { s with saved := { s.saved with unitTests := aerase s.saved.unitTests uid } }
        let s ← schedForParsing n DelKind.unitTest "unit_tests" ut.file_id ut.name s
        let sf2 ← getFileE s file_id
        let l ← premoveE sf2.unit_tests uid
        .ok (putFile s file_id { sf2 with unit_tests := l }))
      st source_file.unit_tests
    let p ← apopE st.saved.files file_id
    .ok { st with saved := { st.saved with files := p.2 } }

/-- Embedding of `PartialParsing.delete_from_saved` (events omitted).  The
source tests the parse kind in four consecutive `if` statements; the
conditions are mutually exclusive, so the embedding uses an equivalent
cascade. -/
def deleteFromSaved : Nat → String → PState → M PState
  | 0, _, _ => .error "fuel"
  | Nat.succ n, file_id, st => do
    let saved_source_file ← getFileE st file_id
    if isMssat saved_source_file.pft then do
      let st ← removeMssatFile n saved_source_file st
      let p ← apopE st.saved.files file_id
      .ok { st with saved := { st.saved with files := p.2 } }
    else if isMg saved_source_file.pft then deleteMacroFile n file_id true st
    else if saved_source_file.pft = PFT.documentation then deleteDocNode n file_id st
    else if saved_source_file.pft = PFT.fixture then deleteFixtureNode n file_id st
    else .ok st

/-- Embedding of `PartialParsing.change_schema_file` (events omitted). -/
def changeSchemaFile : Nat → String → PState → M PState
  | 0, _, _ => .error "fuel"
  | Nat.succ n, file_id, st => do
    let saved_schema_file ← getFileE st file_id
    let new_schema_file ← getE st.newFiles file_id
    let saved_yaml_dict := saved_schema_file.dfy
    let new_yaml_dict := new_schema_file.dfy
    let st := putFile st file_id { saved_schema_file with pp_dict := some [] }
    let st ← handleSchemaFileChanges n file_id saved_yaml_dict new_yaml_dict st
    let sf ← getFileE st file_id
    let sf := { sf with contents := new_schema_file.contents,
                        checksum := new_schema_file.checksum,
                        dfy := new_schema_file.dfy }
    let st := putFile st file_id sf
    addToPpFiles st sf

/-- Embedding of `PartialParsing.delete_schema_file`. -/
def deleteSchemaFile : Nat → String → PState → M PState
  | 0, _, _ => .error "fuel"
  | Nat.succ n, file_id, st => do
    let saved_schema_file ← getFileE st file_id
    let st ← handleSchemaFileChanges n file_id saved_schema_file.dfy [] st
    let p ← apopE st.saved.files file_id
    .ok { st with saved := { st.saved with files := p.2 } }

/-- Embedding of `PartialParsing.handle_schema_file_changes`. -/
def handleSchemaFileChanges : Nat → String → Assoc (List Elem) → Assoc (List Elem) → PState → M PState
  | 0, _, _, _, _ => .error "fuel"
  | Nat.succ n, file_id, saved_yaml_dict, new_yaml_dict, st => do
    let env_var_changes := (alookup st.envChangedSchemaFiles file_id).getD []
    let st ← foldME
      (fun s dict_key =>
        processMssaKey n file_id dict_key saved_yaml_dict new_yaml_dict env_var_changes s)
      st ["models", "seeds", "snapshots", "analyses"]
    let st ← processSourcesKey n file_id saved_yaml_dict new_yaml_dict env_var_changes st
    let st ← handleElementChange n file_id saved_yaml_dict new_yaml_dict env_var_changes "macros" DelKind.macroPatch st
    let st ← handleElementChange n file_id saved_yaml_dict new_yaml_dict env_var_changes "exposures" DelKind.expo st
    let st ← handleElementChange n file_id saved_yaml_dict new_yaml_dict env_var_changes "metrics" DelKind.metric st
    let st ← handleElementChange n file_id saved_yaml_dict new_yaml_dict env_var_changes "groups" DelKind.group st
    let st ← handleElementChange n file_id saved_yaml_dict new_yaml_dict env_var_changes "semantic_models" DelKind.semModel st
    let st ← handleElementChange n file_id saved_yaml_dict new_yaml_dict env_var_changes "unit_tests" DelKind.unitTest st
    let st ← handleElementChange n file_id saved_yaml_dict new_yaml_dict env_var_changes "saved_queries" DelKind.savedQuery st
    handleElementChange n file_id saved_yaml_dict new_yaml_dict env_var_changes "data_tests" DelKind.dataTestPatch st

/-- The models / seeds / snapshots / analyses section walk of
`handle_schema_file_changes`, including the env-var replay. -/
def processMssaKey : Nat → String → String → Assoc (List Elem) → Assoc (List Elem) → Assoc (List String) → PState → M PState
  | 0, _, _, _, _, _, _ => .error "fuel"
  | Nat.succ n, file_id, dict_key, saved_yaml_dict, new_yaml_dict, env_var_changes, st => do
    let key_diff := getDiffFor dict_key saved_yaml_dict new_yaml_dict
    let st ← foldME
      (fun s elem => do
        let s ←
          if dict_key = "snapshots" ∧ elem.relation then deleteYamlSnapshot s file_id elem
          else .ok s
        let s ← deleteSchemaMssaLinks n file_id dict_key elem s
        mergePatch s file_id dict_key elem true)
      st key_diff.changed
    let st ← foldME
      (fun s elem => do
        let s ←
          if dict_key = "snapshots" ∧ elem.relation then deleteYamlSnapshot s file_id elem
          else .ok s
        deleteSchemaMssaLinks n file_id dict_key elem s)
      st key_diff.deleted
    let st ← foldME (fun s elem => mergePatch s file_id dict_key elem true) st key_diff.added
    if amem env_var_changes dict_key ∧ amem new_yaml_dict dict_key then do
      let names := (alookup env_var_changes dict_key).getD []
      let cdn ←
        match key_diff.cdn with
        | some l => .ok l
        | none => .error "KeyError: changed_or_deleted_names"
      foldME
        (fun s ename =>
          if ename ∈ cdn then .ok s
          else
            match getSchemaElement ((alookup new_yaml_dict dict_key).getD []) ename with
            | some elem => do
              let s ←
                if dict_key = "snapshots" ∧ elem.relation then deleteYamlSnapshot s file_id elem
                else .ok s
              let s ← deleteSchemaMssaLinks n file_id dict_key elem s
              mergePatch s file_id dict_key elem true
            | none => .ok s)
        st names
    else .ok st

/-- The sources section walk of `handle_schema_file_changes`, including
the override detachment and the env-var replay. -/
def processSourcesKey : Nat → String → Assoc (List Elem) → Assoc (List Elem) → Assoc (List String) → PState → M PState
  | 0, _, _, _, _, _ => .error "fuel"
  | Nat.succ n, file_id, saved_yaml_dict, new_yaml_dict, env_var_changes, st => do
    let source_diff := getDiffFor "sources" saved_yaml_dict new_yaml_dict
    let st ← foldME
      (fun s source => do
        let s ← if source.overrides.isSome then removeSourceOverrideTarget n source s else .ok s
        let s ← deleteSchemaSource n file_id source s
        mergePatch s file_id "sources" source true)
      st source_diff.changed
    let st ← foldME
      (fun s source => do
        let s ← if source.overrides.isSome then removeSourceOverrideTarget n source s else .ok s
        deleteSchemaSource n file_id source s)
      st source_diff.deleted
    let st ← foldME
      (fun s source => do
        let s ← if source.overrides.isSome then removeSourceOverrideTarget n source s else .ok s
        mergePatch s file_id "sources" source true)
      st source_diff.added
    if amem env_var_changes "sources" ∧ amem new_yaml_dict "sources" then do
      let names := (alookup env_var_changes "sources").getD []
      let cdn ←
        match source_diff.cdn with
        | some l => .ok l
        | none => .error "KeyError: changed_or_deleted_names"
      foldME
        (fun s ename =>
          if ename ∈ cdn then .ok s
          else
            match getSchemaElement ((alookup new_yaml_dict "sources").getD []) ename with
            | some source => do
              let s ← if source.overrides.isSome then removeSourceOverrideTarget n source s else .ok s
              let s ← deleteSchemaSource n file_id source s
              mergePatch s file_id "sources" source true
            | none => .ok s)
        st names
    else .ok st

/-- Embedding of `PartialParsing._handle_element_change` (the delete
callback replaced by a `DelKind` tag). -/
def handleElementChange : Nat → String → Assoc (List Elem) → Assoc (List Elem) → Assoc (List String) → String → DelKind → PState → M PState
  | 0, _, _, _, _, _, _, _ => .error "fuel"
  | Nat.succ n, file_id, saved_yaml_dict, new_yaml_dict, env_var_changes, dict_key, kind, st => do
    let element_diff := getDiffFor dict_key saved_yaml_dict new_yaml_dict
    let st ← foldME
      (fun s element => do
        let s ← runDelete n kind file_id element s
        mergePatch s file_id dict_key element true)
      st element_diff.changed
    let st ← foldME (fun s element => runDelete n kind file_id element s) st element_diff.deleted
    let st ← foldME (fun s element => mergePatch s file_id dict_key element true) st element_diff.added
    if amem env_var_changes dict_key ∧ amem new_yaml_dict dict_key then do
      let names := (alookup env_var_changes dict_key).getD []
      let cdn ←
        match element_diff.cdn with
        | some l => .ok l
        | none => .error "KeyError: changed_or_deleted_names"
      foldME
        (fun s ename =>
          if ename ∈ cdn then .ok s
          else
            match getSchemaElement ((alookup new_yaml_dict dict_key).getD []) ename with
            | some elem => do
              let s ← runDelete n kind file_id elem s
              mergePatch s file_id dict_key elem true
            | none => .ok s)
        st names
    else .ok st

end

/-- Embedding of `PartialParsing.get_parsing_files`: the fixed pipeline
over the diff lists, returning the parse plan. -/
def getParsingFiles (n : Nat) (st : PState) : M (Assoc (Assoc (List String)) × PState) :=
  if skipParsing st then .ok ([], st)
  else do
    let st ← foldME (fun s fid => addToSaved n fid { s with processingFile := some fid })
      st st.fileDiff.added
    let st ← foldME (fun s fid => changeSchemaFile n fid { s with processingFile := some fid })
      st st.fileDiff.changed_schema_files
    let st ← foldME (fun s fid => deleteSchemaFile n fid { s with processingFile := some fid })
      st st.fileDiff.deleted_schema_files
    let st ← foldME (fun s fid => deleteFromSaved n fid { s with processingFile := some fid })
      st st.fileDiff.deleted
    let st ← foldME (fun s fid => updateInSaved n fid { s with processingFile := some fid })
      st st.fileDiff.changed
    .ok (st.plan, st)

end PP

namespace PP

/-- A source file with every collection empty, used as the base of the
concrete witness states. -/
def blankFile : SFile :=
  { file_id := "", pft := PFT.model, checksum := 0, project_name := "proj"
    env_vars := [], env_vars_yaml := [], nodes := [], macros := [], docs := []
    fixture := none, unit_tests := [], dfy := [], pp_dict := none, contents := 0
    node_patches := [], sources := [], exposures := [], metrics := [], groups := []
    semantic_models := [], saved_queries := [], snapshots := [], macro_patches := []
    generated_metrics := [], metrics_from_measures := [], unrendered_configs := []
    sftests := [] }

/-- An empty manifest, used as the base of the concrete witness states. -/
def blankManifest : Manifest :=
  { files := [], nodes := [], sources := [], exposures := [], metrics := []
    groups := [], semanticModels := [], savedQueries := [], unitTests := []
    macros := [], docs := [], fixtures := [], disabled := [], envVars := []
    childMap := [], groupMap := [] }

/-- A manifest node with neutral attributes, used in witness states. -/
def blankNode : MNode :=
  { unique_id := "", name := "", file_id := "", patch_path := none, group := none
    is_versioned := false, resource_type := NType.other, test_node_type := "" }

end PP

namespace PP

theorem bind_ok {α β : Type} {x : M α} {f : α → M β} {b : β} :
    (x >>= f) = .ok b ↔ ∃ a, x = .ok a ∧ f a = .ok b := by
  cases x <;> simp [Bind.bind, Except.bind]

theorem alookup_aset_self {α : Type} (m : Assoc α) (k : String) (v : α) :
    alookup (aset m k v) k = some v := by
  induction m with
  | nil => simp [aset, alookup]
  | cons kv rest ih =>
    by_cases h : kv.1 = k <;> simp [aset, alookup, h, ih]

theorem alookup_aset_ne {α : Type} (m : Assoc α) (k k' : String) (v : α) (h : k ≠ k') :
    alookup (aset m k v) k' = alookup m k' := by
  induction m with
  | nil => simp [aset, alookup, h]
  | cons kv rest ih =>
    by_cases h2 : kv.1 = k <;> simp [aset, alookup, h2, ih]
    · subst h2; simp [h, alookup]

/-- Membership of a file id in the plan dictionary. -/
def planMem (st : PState) (p q fid : String) : Prop :=
  ∃ pm lst, alookup st.plan p = some pm ∧ alookup pm q = some lst ∧ fid ∈ lst

/-- The plan invariant of claim C4: every per-parser list is duplicate-free
and contains no file id from the deleted diff sets. -/
def PlanOK (st : PState) : Prop :=
  ∀ p pm, alookup st.plan p = some pm → ∀ q lst, alookup pm q = some lst →
    lst.Nodup ∧ ∀ fid ∈ lst,
      fid ∉ st.fileDiff.deleted ∧ fid ∉ st.fileDiff.deleted_schema_files

/-- Common facts about one planner step: the inputs (new file map, diff,
env-var classification, macro child map, disabled index) are frozen, the
special-override flag is monotone, the plan only grows, and the plan
invariant is preserved. -/
def StepOK (st st' : PState) : Prop :=
  st'.newFiles = st.newFiles ∧
  st'.fileDiff = st.fileDiff ∧
  st'.envChangedSrcFiles = st.envChangedSrcFiles ∧
  st'.envChangedSchemaFiles = st.envChangedSchemaFiles ∧
  st'.macroChildMap = st.macroChildMap ∧
  st'.disabledByFileId = st.disabledByFileId ∧
  (st.specialOverrideFlag = true → st'.specialOverrideFlag = true) ∧
  (∀ p q fid, planMem st p q fid → planMem st' p q fid) ∧
  (PlanOK st → PlanOK st')

theorem stepOK_refl (st : PState) : StepOK st st := by
  refine ⟨rfl, rfl, rfl, rfl, rfl, rfl, fun h => h, fun _ _ _ h => h, fun h => h⟩

theorem stepOK_trans {a b c : PState} (h1 : StepOK a b) (h2 : StepOK b c) : StepOK a c := by
  obtain ⟨n1, d1, e1, f1, m1, i1, g1, p1, q1⟩ := h1
  obtain ⟨n2, d2, e2, f2, m2, i2, g2, p2, q2⟩ := h2
  exact ⟨n2.trans n1, d2.trans d1, e2.trans e1, f2.trans f1, m2.trans m1, i2.trans i1,
    fun h => g2 (g1 h), fun p q fid h => p2 p q fid (p1 p q fid h), fun h => q2 (q1 h)⟩

/-- A state change that only touches the saved manifest or the processing
marker is a step. -/
theorem stepOK_of_eqs {st st' : PState}
    (hn : st'.newFiles = st.newFiles) (hd : st'.fileDiff = st.fileDiff)
    (he : st'.envChangedSrcFiles = st.envChangedSrcFiles)
    (hf : st'.envChangedSchemaFiles = st.envChangedSchemaFiles)
    (hm : st'.macroChildMap = st.macroChildMap)
    (hi : st'.disabledByFileId = st.disabledByFileId)
    (hg : st'.specialOverrideFlag = st.specialOverrideFlag ∨ st'.specialOverrideFlag = true)
    (hp : st'.plan = st.plan) : StepOK st st' := by
  refine ⟨hn, hd, he, hf, hm, hi, ?_, ?_, ?_⟩
  · intro h; rcases hg with hg | hg
    · rw [hg]; exact h
    · exact hg
  · intro p q fid h; rw [planMem, hp]; exact h
  · intro h; intro p pm hpm q lst hlst
    rw [hp] at hpm
    rw [hd]
    exact h p pm hpm q lst hlst

theorem stepOK_foldME {α : Type} {f : PState → α → M PState} {l : List α} {st st' : PState}
    (hf : ∀ s a s', f s a = .ok s' → StepOK s s') :
    foldME f st l = .ok st' → StepOK st st' := by
  induction l generalizing st with
  | nil => intro h; simp [foldME] at h; rw [← h]; exact stepOK_refl st
  | cons a rest ih =>
    intro h
    simp only [foldME] at h
    rw [bind_ok] at h
    obtain ⟨s1, h1, h2⟩ := h
    exact stepOK_trans (hf st a s1 h1) (ih h2)

/-- The per-parser list of the plan at a project and parser name. -/
def planList (st : PState) (p q : String) : List String :=
  (alookup ((alookup st.plan p).getD []) q).getD []

/-- The append condition of `add_to_pp_files`. -/
def addCond (st : PState) (f : SFile) : Prop :=
  f.file_id ∉ planList st f.project_name (parserNameOf f.pft)
    ∧ f.file_id ∉ st.fileDiff.deleted ∧ f.file_id ∉ st.fileDiff.deleted_schema_files

instance (st : PState) (f : SFile) : Decidable (addCond st f) := by
  unfold addCond; infer_instance

/-- The plan after `add_to_pp_files`. -/
def planAfterAdd (st : PState) (f : SFile) : Assoc (Assoc (List String)) :=
  aset st.plan f.project_name
    (aset ((alookup st.plan f.project_name).getD []) (parserNameOf f.pft)
      (if addCond st f then planList st f.project_name (parserNameOf f.pft) ++ [f.file_id]
       else planList st f.project_name (parserNameOf f.pft)))

theorem addToPpFiles_ok_elim {st : PState} {f : SFile} {st' : PState}
    (h : addToPpFiles st f = .ok st') :
    st' = { st with plan := planAfterAdd st f } := by
  simp only [addToPpFiles] at h
  split at h
  · exact absurd h (by simp)
  · cases h
    rfl

theorem addToPpFiles_step {st : PState} {f : SFile} {st' : PState}
    (h : addToPpFiles st f = .ok st') : StepOK st st' := by
  have hst := addToPpFiles_ok_elim h
  subst hst
  refine ⟨rfl, rfl, rfl, rfl, rfl, rfl, fun hh => hh, ?_, ?_⟩
  · -- plan monotone
    intro p q fid hm
    obtain ⟨pm, lst, hp, hq, hfid⟩ := hm
    simp only [planMem, planAfterAdd]
    by_cases hproj : f.project_name = p
    · subst hproj
      by_cases hpn : parserNameOf f.pft = q
      · subst hpn
        refine ⟨_, _, alookup_aset_self _ _ _, alookup_aset_self _ _ _, ?_⟩
        have hl : planList st f.project_name (parserNameOf f.pft) = lst := by
          simp [planList, hp, hq]
        rw [hl]
        split <;> simp [hfid]
      · refine ⟨_, lst, alookup_aset_self _ _ _, ?_, hfid⟩
        rw [alookup_aset_ne _ _ _ _ hpn]
        simp [hp, hq]
    · exact ⟨pm, lst, by rw [alookup_aset_ne _ _ _ _ hproj]; exact hp, hq, hfid⟩
  · -- PlanOK preserved
    intro hOK
    intro p pm hpm q lst hlst
    simp only [planAfterAdd] at hpm
    have base : ∀ q0 l0, alookup ((alookup st.plan f.project_name).getD []) q0 = some l0 →
        l0.Nodup ∧ ∀ fid ∈ l0, fid ∉ st.fileDiff.deleted ∧ fid ∉ st.fileDiff.deleted_schema_files := by
      intro q0 l0 hq0
      cases hpl : alookup st.plan f.project_name with
      | none => rw [hpl] at hq0; simp [alookup] at hq0
      | some pm0 =>
        rw [hpl] at hq0
        simp only [Option.getD_some] at hq0
        exact hOK f.project_name pm0 hpl q0 l0 hq0
    by_cases hproj : f.project_name = p
    · subst hproj
      rw [alookup_aset_self] at hpm
      cases hpm
      by_cases hpn : parserNameOf f.pft = q
      · subst hpn
        rw [alookup_aset_self] at hlst
        cases hlst
        have baseL : (planList st f.project_name (parserNameOf f.pft)).Nodup ∧
            ∀ fid ∈ planList st f.project_name (parserNameOf f.pft),
              fid ∉ st.fileDiff.deleted ∧ fid ∉ st.fileDiff.deleted_schema_files := by
          simp only [planList]
          cases hq0 : alookup ((alookup st.plan f.project_name).getD []) (parserNameOf f.pft) with
          | none => simp
          | some l0 => simpa using base _ l0 hq0
        split
        · next hcond =>
          refine ⟨?_, ?_⟩
          · rw [List.nodup_append]
            refine ⟨baseL.1, List.nodup_singleton _, ?_⟩
            intro a ha hb
            simp only [List.mem_singleton] at hb
            subst hb
            exact hcond.1 ha
          · intro fid hfid
            rw [List.mem_append] at hfid
            rcases hfid with hfid | hfid
            · exact baseL.2 fid hfid
            · simp only [List.mem_singleton] at hfid
              subst hfid
              exact ⟨hcond.2.1, hcond.2.2⟩
        · exact baseL
      · rw [alookup_aset_ne _ _ _ _ hpn] at hlst
        exact base q lst hlst
    · rw [alookup_aset_ne _ _ _ _ hproj] at hpm
      exact hOK p pm hpm q lst hlst

end PP

namespace PP

theorem stepOK_saved (st : PState) (m : Manifest) : StepOK st { st with saved := m } :=
  stepOK_of_eqs rfl rfl rfl rfl rfl rfl (Or.inl rfl) rfl

theorem stepOK_proc (st : PState) (x : Option String) :
    StepOK st { st with processingFile := x } :=
  stepOK_of_eqs rfl rfl rfl rfl rfl rfl (Or.inl rfl) rfl

theorem stepOK_flag (st : PState) : StepOK st { st with specialOverrideFlag := true } :=
  stepOK_of_eqs rfl rfl rfl rfl rfl rfl (Or.inr rfl) rfl

theorem putFile_step (st : PState) (fid : String) (f : SFile) :
    StepOK st (putFile st fid f) := by
  unfold putFile
  exact stepOK_saved _ _

theorem stepOK_foldl {α : Type} {g : PState → α → PState}
    (hg : ∀ s a, StepOK s (g s a)) :
    ∀ (l : List α) (st : PState), StepOK st (List.foldl g st l) := by
  intro l
  induction l with
  | nil => intro st; exact stepOK_refl st
  | cons a rest ih => intro st; exact stepOK_trans (hg st a) (ih (g st a))

theorem mergePatch_step {st : PState} {fid key : String} {p : Elem} {b : Bool} {st' : PState}
    (h : mergePatch st fid key p b = .ok st') : StepOK st st' := by
  simp only [mergePatch] at h
  rw [bind_ok] at h
  obtain ⟨sf, hsf, h⟩ := h
  exact stepOK_trans (putFile_step st fid _) (addToPpFiles_step h)

theorem deleteDisabled_step {st : PState} {uid fid : String} {nd : MNode} {st' : PState}
    (h : deleteDisabled st uid fid = .ok (nd, st')) : StepOK st st' := by
  simp only [deleteDisabled] at h
  rw [bind_ok] at h
  obtain ⟨lst, hl, h⟩ := h
  split at h
  · exact absurd h (by simp)
  · have h2 := Except.ok.inj h
    cases h2
    exact stepOK_saved _ _

theorem checkSpecialLoop_step : ∀ (l : List String) (st st' : PState),
    checkSpecialLoop st l = .ok st' → StepOK st st' := by
  intro l
  induction l with
  | nil =>
    intro st st' h
    simp only [checkSpecialLoop] at h
    cases h
    exact stepOK_refl st
  | cons uid rest ih =>
    intro st st' h
    simp only [checkSpecialLoop] at h
    split at h
    · split at h
      · exact absurd h (by simp)
      · split at h
        · exact ih st st' h
        · rw [bind_ok] at h
          obtain ⟨mac, hmac, h⟩ := h
          split at h
          · exact stepOK_trans (stepOK_flag st) (ih _ st' h)
          · exact ih st st' h
    · exact ih st st' h

theorem checkForSpecialDeletedMacros_step {st : PState} {f : SFile} {st' : PState}
    (h : checkForSpecialDeletedMacros st f = .ok st') : StepOK st st' :=
  checkSpecialLoop_step f.macros st st' h

theorem removeTestsSt_step {st : PState} {fid k nm : String} {st' : PState}
    (h : removeTestsSt st fid k nm = .ok st') : StepOK st st' := by
  simp only [removeTestsSt] at h
  rw [bind_ok] at h
  obtain ⟨sf, hsf, h⟩ := h
  rw [bind_ok] at h
  obtain ⟨sf2, hsf2, h⟩ := h
  cases h
  refine stepOK_trans (stepOK_foldl ?_ _ st) (putFile_step _ fid _)
  intro s a
  split
  · exact stepOK_saved _ _
  · exact stepOK_refl _

theorem deleteYamlSnapshot_step {st : PState} {fid : String} {e : Elem} {st' : PState}
    (h : deleteYamlSnapshot st fid e = .ok st') : StepOK st st' := by
  simp only [deleteYamlSnapshot] at h
  rw [bind_ok] at h
  obtain ⟨sf, hsf, h⟩ := h
  refine stepOK_foldME ?_ h
  intro s a s' hb
  split at hb
  · split at hb
    · rw [bind_ok] at hb
      obtain ⟨sf2, hsf2, hb⟩ := hb
      rw [bind_ok] at hb
      obtain ⟨l, hl, hb⟩ := hb
      cases hb
      exact stepOK_trans (stepOK_saved _ _) (putFile_step _ fid _)
    · cases hb; exact stepOK_refl _
  · split at hb
    · rw [bind_ok] at hb
      obtain ⟨r, hr, hb⟩ := hb
      rw [bind_ok] at hb
      obtain ⟨sf2, hsf2, hb⟩ := hb
      rw [bind_ok] at hb
      obtain ⟨l, hl, hb⟩ := hb
      cases hb
      exact stepOK_trans (deleteDisabled_step hr) (putFile_step _ fid _)
    · cases hb; exact stepOK_refl _

theorem deleteSchemaExposure_step {st : PState} {fid : String} {e : Elem} {st' : PState}
    (h : deleteSchemaExposure st fid e = .ok st') : StepOK st st' := by
  simp only [deleteSchemaExposure] at h
  rw [bind_ok] at h
  obtain ⟨sf, hsf, h⟩ := h
  refine stepOK_foldME ?_ h
  intro s a s' hb
  split at hb
  · split at hb
    · rw [bind_ok] at hb
      obtain ⟨sf2, hsf2, hb⟩ := hb
      rw [bind_ok] at hb
      obtain ⟨l, hl, hb⟩ := hb
      cases hb
      exact stepOK_trans (stepOK_saved _ _) (putFile_step _ fid _)
    · cases hb; exact stepOK_refl _
  · split at hb
    · rw [bind_ok] at hb
      obtain ⟨r, hr, hb⟩ := hb
      cases hb
      exact deleteDisabled_step hr
    · cases hb; exact stepOK_refl _

theorem deleteSchemaUnitTest_step {st : PState} {fid : String} {e : Elem} {st' : PState}
    (h : deleteSchemaUnitTest st fid e = .ok st') : StepOK st st' := by
  simp only [deleteSchemaUnitTest] at h
  rw [bind_ok] at h
  obtain ⟨sf, hsf, h⟩ := h
  refine stepOK_foldME ?_ h
  intro s a s' hb
  split at hb
  · split at hb
    · rw [bind_ok] at hb
      obtain ⟨sf2, hsf2, hb⟩ := hb
      rw [bind_ok] at hb
      obtain ⟨l, hl, hb⟩ := hb
      cases hb
      exact stepOK_trans (stepOK_saved _ _) (putFile_step _ fid _)
    · cases hb; exact stepOK_refl _
  · cases hb; exact stepOK_refl _

theorem deleteSchemaDataTestPatch_step {st : PState} {fid : String} {e : Elem} {st' : PState}
    (h : deleteSchemaDataTestPatch st fid e = .ok st') : StepOK st st' := by
  simp only [deleteSchemaDataTestPatch] at h
  rw [bind_ok] at h
  obtain ⟨sf, hsf, h⟩ := h
  rw [bind_ok] at h
  obtain ⟨dtu, hdtu, h⟩ := h
  split at h
  · split at h
    · split at h
      · rw [bind_ok] at h
        obtain ⟨nf, hnf, h⟩ := h
        exact stepOK_trans (stepOK_saved _ _)
          (stepOK_trans (putFile_step _ _ _) (addToPpFiles_step h))
      · cases h; exact stepOK_saved _ _
    · cases h; exact stepOK_refl _
  · cases h; exact stepOK_refl _

/-- The step property for every state-transforming procedure of the
recursive clique, at a given fuel.  Proved for all fuels by induction. -/
structure StepAllP (n : Nat) : Prop where
  rnis : ∀ sf uid st st', removeNodeInSaved n sf uid st = .ok st' → StepOK st st'
  rnf : ∀ sf uid nd st st', removeNodeFinish n sf uid nd st = .ok st' → StepOK st st'
  umis : ∀ newf oldf st st', updateMssatInSaved n newf oldf st = .ok st' → StepOK st st'
  umacs : ∀ newf oldf st st', updateMacroInSaved n newf oldf st = .ok st' → StepOK st st'
  udocs : ∀ newf oldf st st', updateDocInSaved n newf oldf st = .ok st' → StepOK st st'
  ufixs : ∀ newf oldf st st', updateFixtureInSaved n newf oldf st = .ok st' → StepOK st st'
  uis : ∀ fid st st', updateInSaved n fid st = .ok st' → StepOK st st'
  rmf : ∀ sf st st', removeMssatFile n sf st = .ok st' → StepOK st st'
  srn : ∀ uid st st', scheduleReferencingNodes n uid st = .ok st' → StepOK st st'
  snp : ∀ uids st st', scheduleNodesForParsing n uids st = .ok st' → StepOK st st'
  son : ∀ uid st st', scheduleOneNode n uid st = .ok st' → StepOK st st'
  sfp : ∀ k dk fid nm st st', schedForParsing n k dk fid nm st = .ok st' → StepOK st st'
  rd : ∀ k fid e st st', runDelete n k fid e st = .ok st' → StepOK st st'
  dss : ∀ fid e st st', deleteSchemaSource n fid e st = .ok st' → StepOK st st'
  dsg : ∀ fid e st st', deleteSchemaGroup n fid e st = .ok st' → StepOK st st'
  dsmet : ∀ fid e st st', deleteSchemaMetric n fid e st = .ok st' → StepOK st st'
  dssq : ∀ fid e st st', deleteSchemaSavedQuery n fid e st = .ok st' → StepOK st st'
  dssem : ∀ fid e st st', deleteSchemaSemanticModel n fid e st = .ok st' → StepOK st st'
  dsmp : ∀ fid e st st', deleteSchemaMacroPatch n fid e st = .ok st' → StepOK st st'
  dmf : ∀ fid b st st', deleteMacroFile n fid b st = .ok st' → StepOK st st'
  hmfl : ∀ fid b st st', handleMacroFileLinks n fid b st = .ok st' → StepOK st st'
  homl : ∀ fid b uid st st', handleOneMacroLink n fid b uid st = .ok st' → StepOK st st'
  smn : ∀ uids st st', scheduleMacroNodes n uids st = .ok st' → StepOK st st'
  somn : ∀ uid st st', scheduleOneMacroNode n uid st = .ok st' → StepOK st st'
  dsml : ∀ fid dk e st st', deleteSchemaMssaLinks n fid dk e st = .ok st' → StepOK st st'
  rsot : ∀ e st st', removeSourceOverrideTarget n e st = .ok st' → StepOK st st'
  ats : ∀ fid st st', addToSaved n fid st = .ok st' → StepOK st st'
  hasf : ∀ sf st r, handleAddedSchemaFile n sf st = .ok r → StepOK st r.2
  ddn : ∀ fid st st', deleteDocNode n fid st = .ok st' → StepOK st st'
  dfn : ∀ fid st st', deleteFixtureNode n fid st = .ok st' → StepOK st st'
  dfs : ∀ fid st st', deleteFromSaved n fid st = .ok st' → StepOK st st'
  csf : ∀ fid st st', changeSchemaFile n fid st = .ok st' → StepOK st st'
  dschf : ∀ fid st st', deleteSchemaFile n fid st = .ok st' → StepOK st st'
  hsfc : ∀ fid sy ny st st', handleSchemaFileChanges n fid sy ny st = .ok st' → StepOK st st'
  pmk : ∀ fid dk sy ny ev st st', processMssaKey n fid dk sy ny ev st = .ok st' → StepOK st st'
  psk : ∀ fid sy ny ev st st', processSourcesKey n fid sy ny ev st = .ok st' → StepOK st st'
  hec : ∀ fid sy ny ev dk k st st', handleElementChange n fid sy ny ev dk k st = .ok st' → StepOK st st'

theorem stepAllP_zero : StepAllP 0 where
  rnis := fun _ _ _ _ h => by simp [removeNodeInSaved] at h
  rnf := fun _ _ _ _ _ h => by simp [removeNodeFinish] at h
  umis := fun _ _ _ _ h => by simp [updateMssatInSaved] at h
  umacs := fun _ _ _ _ h => by simp [updateMacroInSaved] at h
  udocs := fun _ _ _ _ h => by simp [updateDocInSaved] at h
  ufixs := fun _ _ _ _ h => by simp [updateFixtureInSaved] at h
  uis := fun _ _ _ h => by simp [updateInSaved] at h
  rmf := fun _ _ _ h => by simp [removeMssatFile] at h
  srn := fun _ _ _ h => by simp [scheduleReferencingNodes] at h
  snp := fun _ _ _ h => by simp [scheduleNodesForParsing] at h
  son := fun _ _ _ h => by simp [scheduleOneNode] at h
  sfp := fun _ _ _ _ _ _ h => by simp [schedForParsing] at h
  rd := fun _ _ _ _ _ h => by simp [runDelete] at h
  dss := fun _ _ _ _ h => by simp [deleteSchemaSource] at h
  dsg := fun _ _ _ _ h => by simp [deleteSchemaGroup] at h
  dsmet := fun _ _ _ _ h => by simp [deleteSchemaMetric] at h
  dssq := fun _ _ _ _ h => by simp [deleteSchemaSavedQuery] at h
  dssem := fun _ _ _ _ h => by simp [deleteSchemaSemanticModel] at h
  dsmp := fun _ _ _ _ h => by simp [deleteSchemaMacroPatch] at h
  dmf := fun _ _ _ _ h => by simp [deleteMacroFile] at h
  hmfl := fun _ _ _ _ h => by simp [handleMacroFileLinks] at h
  homl := fun _ _ _ _ _ h => by simp [handleOneMacroLink] at h
  smn := fun _ _ _ h => by simp [scheduleMacroNodes] at h
  somn := fun _ _ _ h => by simp [scheduleOneMacroNode] at h
  dsml := fun _ _ _ _ _ h => by simp [deleteSchemaMssaLinks] at h
  rsot := fun _ _ _ h => by simp [removeSourceOverrideTarget] at h
  ats := fun _ _ _ h => by simp [addToSaved] at h
  hasf := fun _ _ _ h => by simp [handleAddedSchemaFile] at h
  ddn := fun _ _ _ h => by simp [deleteDocNode] at h
  dfn := fun _ _ _ h => by simp [deleteFixtureNode] at h
  dfs := fun _ _ _ h => by simp [deleteFromSaved] at h
  csf := fun _ _ _ h => by simp [changeSchemaFile] at h
  dschf := fun _ _ _ h => by simp [deleteSchemaFile] at h
  hsfc := fun _ _ _ _ _ h => by simp [handleSchemaFileChanges] at h
  pmk := fun _ _ _ _ _ _ _ h => by simp [processMssaKey] at h
  psk := fun _ _ _ _ _ _ h => by simp [processSourcesKey] at h
  hec := fun _ _ _ _ _ _ _ _ h => by simp [handleElementChange] at h

end PP

namespace PP

theorem rnis_succ (n : Nat) (ih : StepAllP n) :
    ∀ sf uid st st', removeNodeInSaved (n+1) sf uid st = .ok st' → StepOK st st' := by
  intro sf uid st st' h
  simp only [removeNodeInSaved] at h
  split at h
  · next node heq =>
    exact stepOK_trans (stepOK_saved _ _) (ih.rnf _ _ _ _ _ h)
  · split at h
    · rw [bind_ok] at h
      obtain ⟨r, hr, h⟩ := h
      obtain ⟨nd, s2⟩ := r
      exact stepOK_trans (deleteDisabled_step hr) (ih.rnf _ _ _ _ _ h)
    · cases h; exact stepOK_refl _

theorem ok_inj {α : Type} {a b : α} (h : (Except.ok a : M α) = .ok b) : a = b :=
  Except.ok.inj h

theorem rnf_succ (n : Nat) (ih : StepAllP n) :
    ∀ sf uid nd st st', removeNodeFinish (n+1) sf uid nd st = .ok st' → StepOK st st' := by
  intro sf uid nd st st' h
  simp only [removeNodeFinish] at h
  split at h
  · cases h; exact stepOK_refl _
  · split at h
    · rw [bind_ok] at h
      obtain ⟨schema_file, _, h⟩ := h
      split at h
      · rw [bind_ok] at h
        obtain ⟨y, hy, h⟩ := h
        obtain rfl := ok_inj hy
        split at h
        · cases h; exact stepOK_saved _ _
        · cases h; exact stepOK_refl _
      · rw [bind_ok] at h
        obtain ⟨sa, ha, h⟩ := h
        rw [bind_ok] at h
        obtain ⟨sb, hb, h⟩ := h
        rw [bind_ok] at h
        obtain ⟨sf2, _, h⟩ := h
        refine stepOK_trans (ih.dsml _ _ _ _ _ ha) (stepOK_trans (mergePatch_step hb) ?_)
        split at h
        · rw [bind_ok] at h
          obtain ⟨y, hy, h⟩ := h
          obtain rfl := ok_inj hy
          split at h
          · cases h; exact stepOK_trans (putFile_step _ _ _) (stepOK_saved _ _)
          · cases h; exact putFile_step _ _ _
        · rw [bind_ok] at h
          obtain ⟨y, hy, h⟩ := h
          obtain rfl := ok_inj hy
          split at h
          · cases h; exact stepOK_saved _ _
          · cases h; exact stepOK_refl _
    · rw [bind_ok] at h
      obtain ⟨y, hy, h⟩ := h
      obtain rfl := ok_inj hy
      split at h
      · cases h; exact stepOK_saved _ _
      · cases h; exact stepOK_refl _

theorem umis_succ (n : Nat) (ih : StepAllP n) :
    ∀ newf oldf st st', updateMssatInSaved (n+1) newf oldf st = .ok st' → StepOK st st' := by
  intro newf oldf st st' h
  simp only [updateMssatInSaved] at h
  split at h
  · cases h; exact stepOK_refl _
  · rw [bind_ok] at h
    obtain ⟨s1, h1, h⟩ := h
    refine stepOK_trans (stepOK_trans (putFile_step _ _ _) (addToPpFiles_step h1)) ?_
    exact stepOK_foldME (fun s a s' hb => ih.rnis _ _ _ _ hb) h

theorem umacs_succ (n : Nat) (ih : StepAllP n) :
    ∀ newf oldf st st', updateMacroInSaved (n+1) newf oldf st = .ok st' → StepOK st st' := by
  intro newf oldf st st' h
  simp only [updateMacroInSaved] at h
  split at h
  · cases h; exact stepOK_refl _
  · rw [bind_ok] at h
    obtain ⟨s1, h1, h⟩ := h
    exact stepOK_trans (ih.hmfl _ _ _ _ h1)
      (stepOK_trans (putFile_step _ _ _) (addToPpFiles_step h))

theorem udocs_succ (n : Nat) (ih : StepAllP n) :
    ∀ newf oldf st st', updateDocInSaved (n+1) newf oldf st = .ok st' → StepOK st st' := by
  intro newf oldf st st' h
  simp only [updateDocInSaved] at h
  split at h
  · cases h; exact stepOK_refl _
  · rw [bind_ok] at h
    obtain ⟨s1, h1, h⟩ := h
    exact stepOK_trans (ih.ddn _ _ _ h1)
      (stepOK_trans (putFile_step _ _ _) (addToPpFiles_step h))

theorem ufixs_succ (n : Nat) (ih : StepAllP n) :
    ∀ newf oldf st st', updateFixtureInSaved (n+1) newf oldf st = .ok st' → StepOK st st' := by
  intro newf oldf st st' h
  simp only [updateFixtureInSaved] at h
  split at h
  · cases h; exact stepOK_refl _
  · rw [bind_ok] at h
    obtain ⟨s1, h1, h⟩ := h
    exact stepOK_trans (ih.dfn _ _ _ h1)
      (stepOK_trans (putFile_step _ _ _) (addToPpFiles_step h))

theorem uis_succ (n : Nat) (ih : StepAllP n) :
    ∀ fid st st', updateInSaved (n+1) fid st = .ok st' → StepOK st st' := by
  intro fid st st' h
  simp only [updateInSaved] at h
  rw [bind_ok] at h
  obtain ⟨newf, _, h⟩ := h
  rw [bind_ok] at h
  obtain ⟨oldf, _, h⟩ := h
  split at h
  · exact ih.umis _ _ _ _ h
  · split at h
    · exact ih.umacs _ _ _ _ h
    · split at h
      · exact ih.udocs _ _ _ _ h
      · split at h
        · exact ih.ufixs _ _ _ _ h
        · exact absurd h (by simp)

theorem rmf_succ (n : Nat) (ih : StepAllP n) :
    ∀ sf st st', removeMssatFile (n+1) sf st = .ok st' → StepOK st st' := by
  intro sf st st' h
  simp only [removeMssatFile] at h
  split at h
  · cases h; exact stepOK_refl _
  · refine stepOK_foldME ?_ h
    intro s a s' hb
    rw [bind_ok] at hb
    obtain ⟨s1, h1, h2⟩ := hb
    exact stepOK_trans (ih.rnis _ _ _ _ h1) (ih.srn _ _ _ h2)

theorem srn_succ (n : Nat) (ih : StepAllP n) :
    ∀ uid st st', scheduleReferencingNodes (n+1) uid st = .ok st' → StepOK st st' := by
  intro uid st st' h
  simp only [scheduleReferencingNodes] at h
  split at h
  · exact ih.snp _ _ _ h
  · cases h; exact stepOK_refl _

theorem snp_succ (n : Nat) (ih : StepAllP n) :
    ∀ uids st st', scheduleNodesForParsing (n+1) uids st = .ok st' → StepOK st st' := by
  intro uids st st' h
  simp only [scheduleNodesForParsing] at h
  exact stepOK_foldME (fun s a s' hb => ih.son _ _ _ hb) h

end PP

namespace PP

theorem son_succ (n : Nat) (ih : StepAllP n) :
    ∀ uid st st', scheduleOneNode (n+1) uid st = .ok st' → StepOK st st' := by
  intro uid st st' h
  simp only [scheduleOneNode] at h
  split at h
  · split at h
    · cases h; exact stepOK_refl _
    · split at h
      · rw [bind_ok] at h
        obtain ⟨source_file, _, h⟩ := h
        rw [bind_ok] at h
        obtain ⟨s1, h1, h⟩ := h
        rw [bind_ok] at h
        obtain ⟨nf, _, h⟩ := h
        exact stepOK_trans (ih.rmf _ _ _ h1)
          (stepOK_trans (putFile_step _ _ _) (addToPpFiles_step h))
      · cases h; exact stepOK_refl _
  · split at h
    · exact ih.sfp _ _ _ _ _ _ h
    · split at h
      · exact ih.sfp _ _ _ _ _ _ h
      · split at h
        · exact ih.sfp _ _ _ _ _ _ h
        · split at h
          · exact ih.sfp _ _ _ _ _ _ h
          · split at h
            · exact ih.sfp _ _ _ _ _ _ h
            · split at h
              · split at h
                · rw [bind_ok] at h
                  obtain ⟨s1, h1, h⟩ := h
                  rw [bind_ok] at h
                  obtain ⟨nf, _, h⟩ := h
                  exact stepOK_trans (ih.dmf _ _ _ _ h1)
                    (stepOK_trans (putFile_step _ _ _) (addToPpFiles_step h))
                · cases h; exact stepOK_refl _
              · split at h
                · exact ih.sfp _ _ _ _ _ _ h
                · cases h; exact stepOK_refl _

theorem sfp_succ (n : Nat) (ih : StepAllP n) :
    ∀ k dk fid nm st st', schedForParsing (n+1) k dk fid nm st = .ok st' → StepOK st st' := by
  intro k dk fid nm st st' h
  simp only [schedForParsing] at h
  split at h
  · rw [bind_ok] at h
    obtain ⟨schema_file, _, h⟩ := h
    split at h
    · exact absurd h (by simp)
    · split at h
      · rw [bind_ok] at h
        obtain ⟨s1, h1, h⟩ := h
        exact stepOK_trans (ih.rd _ _ _ _ _ h1) (mergePatch_step h)
      · cases h; exact stepOK_refl _
  · cases h; exact stepOK_refl _

theorem rd_succ (n : Nat) (ih : StepAllP n) :
    ∀ k fid e st st', runDelete (n+1) k fid e st = .ok st' → StepOK st st' := by
  intro k fid e st st' h
  simp only [runDelete] at h
  cases k with
  | src => exact ih.dss _ _ _ _ h
  | expo => exact deleteSchemaExposure_step h
  | metric => exact ih.dsmet _ _ _ _ h
  | group => exact ih.dsg _ _ _ _ h
  | semModel => exact ih.dssem _ _ _ _ h
  | savedQuery => exact ih.dssq _ _ _ _ h
  | unitTest => exact deleteSchemaUnitTest_step h
  | macroPatch => exact ih.dsmp _ _ _ _ h
  | dataTestPatch => exact deleteSchemaDataTestPatch_step h

theorem dss_succ (n : Nat) (ih : StepAllP n) :
    ∀ fid e st st', deleteSchemaSource (n+1) fid e st = .ok st' → StepOK st st' := by
  intro fid e st st' h
  simp only [deleteSchemaSource] at h
  rw [bind_ok] at h
  obtain ⟨sf, _, h⟩ := h
  rw [bind_ok] at h
  obtain ⟨s1, h1, h⟩ := h
  refine stepOK_trans ?_ (removeTestsSt_step h)
  refine stepOK_foldME ?_ h1
  intro s a s' hb
  split at hb
  · split at hb
    · rw [bind_ok] at hb
      obtain ⟨sf2, _, hb⟩ := hb
      rw [bind_ok] at hb
      obtain ⟨l, _, hb⟩ := hb
      exact stepOK_trans (stepOK_saved _ _)
        (stepOK_trans (putFile_step _ _ _) (ih.srn _ _ _ hb))
    · cases hb; exact stepOK_refl _
  · cases hb; exact stepOK_refl _

theorem dsg_succ (n : Nat) (ih : StepAllP n) :
    ∀ fid e st st', deleteSchemaGroup (n+1) fid e st = .ok st' → StepOK st st' := by
  intro fid e st st' h
  simp only [deleteSchemaGroup] at h
  rw [bind_ok] at h
  obtain ⟨sf, _, h⟩ := h
  refine stepOK_foldME ?_ h
  intro s a s' hb
  split at hb
  · split at hb
    · rw [bind_ok] at hb
      obtain ⟨kids, _, hb⟩ := hb
      rw [bind_ok] at hb
      obtain ⟨s1, h1, hb⟩ := hb
      rw [bind_ok] at hb
      obtain ⟨sf2, _, hb⟩ := hb
      rw [bind_ok] at hb
      obtain ⟨l, _, hb⟩ := hb
      cases hb
      exact stepOK_trans (ih.snp _ _ _ h1)
        (stepOK_trans (stepOK_saved _ _) (putFile_step _ _ _))
    · cases hb; exact stepOK_refl _
  · cases hb; exact stepOK_refl _

theorem dsmet_succ (n : Nat) (ih : StepAllP n) :
    ∀ fid e st st', deleteSchemaMetric (n+1) fid e st = .ok st' → StepOK st st' := by
  intro fid e st st' h
  simp only [deleteSchemaMetric] at h
  rw [bind_ok] at h
  obtain ⟨sf, _, h⟩ := h
  refine stepOK_foldME ?_ h
  intro s a s' hb
  split at hb
  · split at hb
    · split at hb
      · rw [bind_ok] at hb
        obtain ⟨y, h1, hb⟩ := hb
        rw [bind_ok] at hb
        obtain ⟨sf2, _, hb⟩ := hb
        rw [bind_ok] at hb
        obtain ⟨l, _, hb⟩ := hb
        cases hb
        exact stepOK_trans (ih.snp _ _ _ h1)
          (stepOK_trans (stepOK_saved _ _) (putFile_step _ _ _))
      · rw [bind_ok] at hb
        obtain ⟨y, hy, hb⟩ := hb
        obtain rfl := ok_inj hy
        rw [bind_ok] at hb
        obtain ⟨sf2, _, hb⟩ := hb
        rw [bind_ok] at hb
        obtain ⟨l, _, hb⟩ := hb
        cases hb
        exact stepOK_trans (stepOK_saved _ _) (putFile_step _ _ _)
    · cases hb; exact stepOK_refl _
  · split at hb
    · rw [bind_ok] at hb
      obtain ⟨r, hr, hb⟩ := hb
      obtain ⟨nd, s2⟩ := r
      cases hb
      exact deleteDisabled_step hr
    · cases hb; exact stepOK_refl _

theorem dssq_succ (n : Nat) (ih : StepAllP n) :
    ∀ fid e st st', deleteSchemaSavedQuery (n+1) fid e st = .ok st' → StepOK st st' := by
  intro fid e st st' h
  simp only [deleteSchemaSavedQuery] at h
  rw [bind_ok] at h
  obtain ⟨sf, _, h⟩ := h
  refine stepOK_foldME ?_ h
  intro s a s' hb
  split at hb
  · split at hb
    · split at hb
      · rw [bind_ok] at hb
        obtain ⟨y, h1, hb⟩ := hb
        cases hb
        exact stepOK_trans (ih.snp _ _ _ h1) (stepOK_saved _ _)
      · rw [bind_ok] at hb
        obtain ⟨y, hy, hb⟩ := hb
        obtain rfl := ok_inj hy
        cases hb
        exact stepOK_saved _ _
    · cases hb; exact stepOK_refl _
  · split at hb
    · rw [bind_ok] at hb
      obtain ⟨r, hr, hb⟩ := hb
      obtain ⟨nd, s2⟩ := r
      cases hb
      exact deleteDisabled_step hr
    · cases hb; exact stepOK_refl _

end PP

namespace PP

theorem dssem_succ (n : Nat) (ih : StepAllP n) :
    ∀ fid e st st', deleteSchemaSemanticModel (n+1) fid e st = .ok st' → StepOK st st' := by
  intro fid e st st' h
  simp only [deleteSchemaSemanticModel] at h
  rw [bind_ok] at h
  obtain ⟨sf, _, h⟩ := h
  rw [bind_ok] at h
  obtain ⟨s1, h1, h⟩ := h
  have step1 : StepOK st s1 := by
    refine stepOK_foldME ?_ h1
    intro s a s' hb
    split at hb
    · split at hb
      · split at hb
        · rw [bind_ok] at hb
          obtain ⟨y, hy, hb⟩ := hb
          rw [bind_ok] at hb
          obtain ⟨sf2, _, hb⟩ := hb
          rw [bind_ok] at hb
          obtain ⟨l, _, hb⟩ := hb
          cases hb
          exact stepOK_trans (ih.snp _ _ _ hy)
            (stepOK_trans (stepOK_saved _ _) (putFile_step _ _ _))
        · rw [bind_ok] at hb
          obtain ⟨y, hy, hb⟩ := hb
          obtain rfl := ok_inj hy
          rw [bind_ok] at hb
          obtain ⟨sf2, _, hb⟩ := hb
          rw [bind_ok] at hb
          obtain ⟨l, _, hb⟩ := hb
          cases hb
          exact stepOK_trans (stepOK_saved _ _) (putFile_step _ _ _)
      · cases hb; exact stepOK_refl _
    · split at hb
      · rw [bind_ok] at hb
        obtain ⟨r, hr, hb⟩ := hb
        obtain ⟨nd, s2⟩ := r
        cases hb
        exact deleteDisabled_step hr
      · cases hb; exact stepOK_refl _
  rw [bind_ok] at h
  obtain ⟨sf2, _, h⟩ := h
  refine stepOK_trans step1 ?_
  split at h
  · rw [bind_ok] at h
    obtain ⟨s2, h2, h⟩ := h
    rw [bind_ok] at h
    obtain ⟨sf4, _, h⟩ := h
    cases h
    have stepFold := stepOK_foldME (fun s a s' hb => by
      split at hb
      · cases hb; exact stepOK_saved _ _
      · split at hb
        · rw [bind_ok] at hb
          obtain ⟨r, hr, hb⟩ := hb
          obtain ⟨nd, s3⟩ := r
          cases hb
          exact deleteDisabled_step hr
        · cases hb; exact stepOK_refl _) h2
    exact stepOK_trans (stepOK_trans (putFile_step _ _ _) stepFold) (putFile_step _ _ _)
  · cases h
    exact putFile_step _ _ _

theorem dsmp_succ (n : Nat) (ih : StepAllP n) :
    ∀ fid e st st', deleteSchemaMacroPatch (n+1) fid e st = .ok st' → StepOK st st' := by
  intro fid e st st' h
  simp only [deleteSchemaMacroPatch] at h
  rw [bind_ok] at h
  obtain ⟨sf, _, h⟩ := h
  split at h
  · split at h
    · split at h
      · rw [bind_ok] at h
        obtain ⟨_, _, h⟩ := h
        rw [bind_ok] at h
        obtain ⟨s1, h1, h⟩ := h
        rw [bind_ok] at h
        obtain ⟨nf, _, h⟩ := h
        have hTail := stepOK_trans (ih.dmf _ _ _ _ h1)
          (stepOK_trans (putFile_step _ _ _) (addToPpFiles_step h))
        exact stepOK_trans (stepOK_trans (putFile_step _ _ _) (stepOK_saved _ _)) hTail
      · cases h
        exact stepOK_trans (putFile_step _ _ _) (stepOK_saved _ _)
    · cases h
      exact putFile_step _ _ _
  · cases h; exact stepOK_refl _

theorem dmf_succ (n : Nat) (ih : StepAllP n) :
    ∀ fid b st st', deleteMacroFile (n+1) fid b st = .ok st' → StepOK st st' := by
  intro fid b st st' h
  simp only [deleteMacroFile] at h
  rw [bind_ok] at h
  obtain ⟨source_file, _, h⟩ := h
  rw [bind_ok] at h
  obtain ⟨s1, h1, h⟩ := h
  rw [bind_ok] at h
  obtain ⟨s2, h2, h⟩ := h
  refine stepOK_trans (checkForSpecialDeletedMacros_step h1)
    (stepOK_trans (ih.hmfl _ _ _ _ h2) ?_)
  split at h
  · cases h; exact stepOK_saved _ _
  · cases h; exact stepOK_refl _

theorem hmfl_succ (n : Nat) (ih : StepAllP n) :
    ∀ fid b st st', handleMacroFileLinks (n+1) fid b st = .ok st' → StepOK st st' := by
  intro fid b st st' h
  simp only [handleMacroFileLinks] at h
  rw [bind_ok] at h
  obtain ⟨source_file, _, h⟩ := h
  exact stepOK_foldME (fun s a s' hb => ih.homl _ _ _ _ _ hb) h

theorem homl_succ (n : Nat) (ih : StepAllP n) :
    ∀ fid b uid st st', handleOneMacroLink (n+1) fid b uid st = .ok st' → StepOK st st' := by
  intro fid b uid st st' h
  simp only [handleOneMacroLink] at h
  split at h
  · rw [bind_ok] at h
    obtain ⟨sf, _, h⟩ := h
    split at h
    · cases h; exact putFile_step _ _ _
    · cases h; exact stepOK_refl _
  · rw [bind_ok] at h
    obtain ⟨bmac, _, h⟩ := h
    split at h
    · -- follow references
      rw [bind_ok] at h
      obtain ⟨referencing_nodes, _, h⟩ := h
      rw [bind_ok] at h
      obtain ⟨y, hy, h⟩ := h
      have sA := stepOK_trans (stepOK_saved st _) (ih.smn _ _ _ hy)
      split at h
      · split at h
        · rw [bind_ok] at h
          obtain ⟨schema_file, _, h⟩ := h
          split at h
          · rw [bind_ok] at h
            obtain ⟨a, ha, _⟩ := h
            exact absurd ha (by simp)
          · rw [bind_ok] at h
            obtain ⟨s3, h3, h⟩ := h
            rw [bind_ok] at h
            obtain ⟨s4, h4, h⟩ := h
            have sB := stepOK_trans sA (stepOK_trans (ih.dsmp _ _ _ _ h3) (mergePatch_step h4))
            rw [bind_ok] at h
            obtain ⟨sfx, _, h⟩ := h
            split at h
            · cases h; exact stepOK_trans sB (putFile_step _ _ _)
            · cases h; exact sB
        · rw [bind_ok] at h
          obtain ⟨y2, hy2, h⟩ := h
          obtain rfl := ok_inj hy2
          rw [bind_ok] at h
          obtain ⟨sfx, _, h⟩ := h
          split at h
          · cases h; exact stepOK_trans sA (putFile_step _ _ _)
          · cases h; exact sA
      · rw [bind_ok] at h
        obtain ⟨y2, hy2, h⟩ := h
        obtain rfl := ok_inj hy2
        rw [bind_ok] at h
        obtain ⟨sfx, _, h⟩ := h
        split at h
        · cases h; exact stepOK_trans sA (putFile_step _ _ _)
        · cases h; exact sA
    · -- no reference following
      rw [bind_ok] at h
      obtain ⟨y, hy, h⟩ := h
      obtain rfl := ok_inj hy
      have sA := stepOK_saved st { st.saved with macros := aerase st.saved.macros uid }
      split at h
      · split at h
        · rw [bind_ok] at h
          obtain ⟨schema_file, _, h⟩ := h
          split at h
          · rw [bind_ok] at h
            obtain ⟨a, ha, _⟩ := h
            exact absurd ha (by simp)
          · rw [bind_ok] at h
            obtain ⟨s3, h3, h⟩ := h
            rw [bind_ok] at h
            obtain ⟨s4, h4, h⟩ := h
            have sB := stepOK_trans sA (stepOK_trans (ih.dsmp _ _ _ _ h3) (mergePatch_step h4))
            rw [bind_ok] at h
            obtain ⟨sfx, _, h⟩ := h
            split at h
            · cases h; exact stepOK_trans sB (putFile_step _ _ _)
            · cases h; exact sB
        · rw [bind_ok] at h
          obtain ⟨y2, hy2, h⟩ := h
          obtain rfl := ok_inj hy2
          rw [bind_ok] at h
          obtain ⟨sfx, _, h⟩ := h
          split at h
          · cases h; exact stepOK_trans sA (putFile_step _ _ _)
          · cases h; exact sA
      · rw [bind_ok] at h
        obtain ⟨y2, hy2, h⟩ := h
        obtain rfl := ok_inj hy2
        rw [bind_ok] at h
        obtain ⟨sfx, _, h⟩ := h
        split at h
        · cases h; exact stepOK_trans sA (putFile_step _ _ _)
        · cases h; exact sA

end PP

namespace PP

theorem smn_succ (n : Nat) (ih : StepAllP n) :
    ∀ uids st st', scheduleMacroNodes (n+1) uids st = .ok st' → StepOK st st' := by
  intro uids st st' h
  simp only [scheduleMacroNodes] at h
  exact stepOK_foldME (fun s a s' hb => ih.somn _ _ _ hb) h

theorem somn_succ (n : Nat) (ih : StepAllP n) :
    ∀ uid st st', scheduleOneMacroNode (n+1) uid st = .ok st' → StepOK st st' := by
  intro uid st st' h
  simp only [scheduleOneMacroNode] at h
  split at h
  · split at h
    · -- generic test
      rw [bind_ok] at h
      obtain ⟨schema_file, _, h⟩ := h
      split at h
      · split at h
        · split at h
          · rw [bind_ok] at h
            obtain ⟨s1, h1, h⟩ := h
            rw [bind_ok] at h
            obtain ⟨s2, h2, h⟩ := h
            rw [bind_ok] at h
            obtain ⟨sf2, _, h⟩ := h
            refine stepOK_trans (ih.dsml _ _ _ _ _ h1) (stepOK_trans (mergePatch_step h2) ?_)
            split at h
            · cases h; exact putFile_step _ _ _
            · cases h; exact stepOK_refl _
          · split at h
            · split at h
              · rw [bind_ok] at h
                obtain ⟨s1, h1, h⟩ := h
                rw [bind_ok] at h
                obtain ⟨s2, h2, h⟩ := h
                exact stepOK_trans (ih.rsot _ _ _ h1)
                  (stepOK_trans (ih.dss _ _ _ _ h2) (mergePatch_step h))
              · rw [bind_ok] at h
                obtain ⟨y, hy, h⟩ := h
                obtain rfl := ok_inj hy
                rw [bind_ok] at h
                obtain ⟨s2, h2, h⟩ := h
                exact stepOK_trans (ih.dss _ _ _ _ h2) (mergePatch_step h)
            · cases h; exact stepOK_refl _
        · cases h; exact stepOK_refl _
      · cases h; exact stepOK_refl _
    · -- plain node
      split at h
      · rw [bind_ok] at h
        obtain ⟨source_file, _, h⟩ := h
        rw [bind_ok] at h
        obtain ⟨s1, h1, h⟩ := h
        rw [bind_ok] at h
        obtain ⟨nf, _, h⟩ := h
        exact stepOK_trans (ih.rmf _ _ _ h1)
          (stepOK_trans (putFile_step _ _ _) (addToPpFiles_step h))
      · cases h; exact stepOK_refl _
  · split at h
    · split at h
      · rw [bind_ok] at h
        obtain ⟨s1, h1, h⟩ := h
        rw [bind_ok] at h
        obtain ⟨nf, _, h⟩ := h
        exact stepOK_trans (ih.dmf _ _ _ _ h1)
          (stepOK_trans (putFile_step _ _ _) (addToPpFiles_step h))
      · cases h; exact stepOK_refl _
    · cases h; exact stepOK_refl _

theorem dsml_succ (n : Nat) (ih : StepAllP n) :
    ∀ fid dk e st st', deleteSchemaMssaLinks (n+1) fid dk e st = .ok st' → StepOK st st' := by
  intro fid dk e st st' h
  simp only [deleteSchemaMssaLinks] at h
  rw [bind_ok] at h
  obtain ⟨sf, _, h⟩ := h
  rw [bind_ok] at h
  obtain ⟨pfx, _, h⟩ := h
  rw [bind_ok] at h
  obtain ⟨ids, _, h⟩ := h
  rw [bind_ok] at h
  obtain ⟨s1, h1, h⟩ := h
  have stepFold := stepOK_foldME (fun s a s' hb => by
    split at hb
    · split at hb
      · -- node present in nodes
        rw [bind_ok] at hb
        obtain ⟨r, hr, hb⟩ := hb
        obtain rfl := ok_inj hr
        rw [bind_ok] at hb
        obtain ⟨y2, hy2, hb⟩ := hb
        have sFold := stepOK_foldME (fun t nd t' htb => by
            split at htb
            · rw [bind_ok] at htb
              obtain ⟨nf, _, htb⟩ := htb
              rw [bind_ok] at htb
              obtain ⟨y0, hy0, htb⟩ := htb
              obtain rfl := ok_inj hy0
              rw [bind_ok] at htb
              obtain ⟨source_file, _, htb⟩ := htb
              rw [bind_ok] at htb
              obtain ⟨t3, ht3, htb⟩ := htb
              have sA := stepOK_trans (putFile_step _ _ _) (addToPpFiles_step ht3)
              split at htb
              · rw [bind_ok] at htb
                obtain ⟨t4, ht4, htb⟩ := htb
                have sB := stepOK_trans sA (ih.srn _ _ _ ht4)
                split at htb
                · exact stepOK_trans sB (ih.srn _ _ _ htb)
                · cases htb; exact sB
              · rw [bind_ok] at htb
                obtain ⟨t4, ht4, htb⟩ := htb
                obtain rfl := ok_inj ht4
                split at htb
                · exact stepOK_trans sA (ih.srn _ _ _ htb)
                · cases htb; exact sA
            · rw [bind_ok] at htb
              obtain ⟨y0, hy0, htb⟩ := htb
              obtain rfl := ok_inj hy0
              rw [bind_ok] at htb
              obtain ⟨source_file, _, htb⟩ := htb
              rw [bind_ok] at htb
              obtain ⟨t3, ht3, htb⟩ := htb
              have sA := addToPpFiles_step ht3
              split at htb
              · rw [bind_ok] at htb
                obtain ⟨t4, ht4, htb⟩ := htb
                have sB := stepOK_trans sA (ih.srn _ _ _ ht4)
                split at htb
                · exact stepOK_trans sB (ih.srn _ _ _ htb)
                · cases htb; exact sB
              · rw [bind_ok] at htb
                obtain ⟨t4, ht4, htb⟩ := htb
                obtain rfl := ok_inj ht4
                split at htb
                · exact stepOK_trans sA (ih.srn _ _ _ htb)
                · cases htb; exact sA) hy2
        rw [bind_ok] at hb
        obtain ⟨sf2, _, hb⟩ := hb
        rw [bind_ok] at hb
        obtain ⟨np, _, hb⟩ := hb
        cases hb
        exact stepOK_trans (stepOK_trans (stepOK_saved _ _) sFold) (putFile_step _ _ _)
      · -- node in disabled
        rw [bind_ok] at hb
        obtain ⟨p, hp, hb⟩ := hb
        rw [bind_ok] at hb
        obtain ⟨r, hr, hb⟩ := hb
        obtain rfl := ok_inj hr
        rw [bind_ok] at hb
        obtain ⟨y2, hy2, hb⟩ := hb
        have sFold := stepOK_foldME (fun t nd t' htb => by
            split at htb
            · rw [bind_ok] at htb
              obtain ⟨nf, _, htb⟩ := htb
              rw [bind_ok] at htb
              obtain ⟨y0, hy0, htb⟩ := htb
              obtain rfl := ok_inj hy0
              rw [bind_ok] at htb
              obtain ⟨source_file, _, htb⟩ := htb
              rw [bind_ok] at htb
              obtain ⟨t3, ht3, htb⟩ := htb
              have sA := stepOK_trans (putFile_step _ _ _) (addToPpFiles_step ht3)
              split at htb
              · rw [bind_ok] at htb
                obtain ⟨t4, ht4, htb⟩ := htb
                have sB := stepOK_trans sA (ih.srn _ _ _ ht4)
                split at htb
                · exact stepOK_trans sB (ih.srn _ _ _ htb)
                · cases htb; exact sB
              · rw [bind_ok] at htb
                obtain ⟨t4, ht4, htb⟩ := htb
                obtain rfl := ok_inj ht4
                split at htb
                · exact stepOK_trans sA (ih.srn _ _ _ htb)
                · cases htb; exact sA
            · rw [bind_ok] at htb
              obtain ⟨y0, hy0, htb⟩ := htb
              obtain rfl := ok_inj hy0
              rw [bind_ok] at htb
              obtain ⟨source_file, _, htb⟩ := htb
              rw [bind_ok] at htb
              obtain ⟨t3, ht3, htb⟩ := htb
              have sA := addToPpFiles_step ht3
              split at htb
              · rw [bind_ok] at htb
                obtain ⟨t4, ht4, htb⟩ := htb
                have sB := stepOK_trans sA (ih.srn _ _ _ ht4)
                split at htb
                · exact stepOK_trans sB (ih.srn _ _ _ htb)
                · cases htb; exact sB
              · rw [bind_ok] at htb
                obtain ⟨t4, ht4, htb⟩ := htb
                obtain rfl := ok_inj ht4
                split at htb
                · exact stepOK_trans sA (ih.srn _ _ _ htb)
                · cases htb; exact sA) hy2
        rw [bind_ok] at hb
        obtain ⟨sf2, _, hb⟩ := hb
        rw [bind_ok] at hb
        obtain ⟨np, _, hb⟩ := hb
        cases hb
        exact stepOK_trans (stepOK_trans (stepOK_saved _ _) sFold) (putFile_step _ _ _)
    · rw [bind_ok] at hb
      obtain ⟨y, hy, hb⟩ := hb
      obtain rfl := ok_inj hy
      rw [bind_ok] at hb
      obtain ⟨sf2, _, hb⟩ := hb
      rw [bind_ok] at hb
      obtain ⟨np, _, hb⟩ := hb
      cases hb
      exact putFile_step _ _ _) h1
  refine stepOK_trans stepFold ?_
  split at h
  · exact removeTestsSt_step h
  · cases h; exact stepOK_refl _

end PP

namespace PP

theorem rsot_succ (n : Nat) (ih : StepAllP n) :
    ∀ e st st', removeSourceOverrideTarget (n+1) e st = .ok st' → StepOK st st' := by
  intro e st st' h
  simp only [removeSourceOverrideTarget] at h
  rw [bind_ok] at h
  obtain ⟨r, _, h⟩ := h
  split at h
  · rw [bind_ok] at h
    obtain ⟨s1, h1, h⟩ := h
    rw [bind_ok] at h
    obtain ⟨s2, h2, h⟩ := h
    rw [bind_ok] at h
    obtain ⟨sf, _, h⟩ := h
    exact stepOK_trans (ih.dss _ _ _ _ h1)
      (stepOK_trans (mergePatch_step h2) (addToPpFiles_step h))
  · cases h; exact stepOK_refl _

theorem ats_succ (n : Nat) (ih : StepAllP n) :
    ∀ fid st st', addToSaved (n+1) fid st = .ok st' → StepOK st st' := by
  intro fid st st' h
  simp only [addToSaved] at h
  rw [bind_ok] at h
  obtain ⟨source_file, _, h⟩ := h
  split at h
  · rw [bind_ok] at h
    obtain ⟨r, hr, h⟩ := h
    obtain ⟨sfr, str⟩ := r
    exact stepOK_trans (ih.hasf _ _ _ hr)
      (stepOK_trans (putFile_step _ _ _) (addToPpFiles_step h))
  · exact stepOK_trans (putFile_step _ _ _) (addToPpFiles_step h)

theorem hasf_succ (n : Nat) (ih : StepAllP n) :
    ∀ sf st r, handleAddedSchemaFile (n+1) sf st = .ok r → StepOK st r.2 := by
  intro sf st r h
  simp only [handleAddedSchemaFile] at h
  split at h
  · rw [bind_ok] at h
    obtain ⟨s1, h1, h⟩ := h
    cases h
    refine stepOK_foldME (fun s a s' hb => ?_) h1
    split at hb
    · exact ih.rsot _ _ _ hb
    · cases hb; exact stepOK_refl _
  · cases h; exact stepOK_refl _

theorem ddn_succ (n : Nat) (ih : StepAllP n) :
    ∀ fid st st', deleteDocNode (n+1) fid st = .ok st' → StepOK st st' := by
  intro fid st st' h
  simp only [deleteDocNode] at h
  rw [bind_ok] at h
  obtain ⟨source_file, _, h⟩ := h
  rw [bind_ok] at h
  obtain ⟨s1, h1, h⟩ := h
  have stepFold := stepOK_foldME (fun s a s' hb => by
    rw [bind_ok] at hb
    obtain ⟨d, _, hb⟩ := hb
    rw [bind_ok] at hb
    obtain ⟨sf2, _, hb⟩ := hb
    rw [bind_ok] at hb
    obtain ⟨l, _, hb⟩ := hb
    cases hb
    exact stepOK_trans (stepOK_saved _ _) (putFile_step _ _ _)) h1
  rw [bind_ok] at h
  obtain ⟨sf3, _, h⟩ := h
  rw [bind_ok] at h
  obtain ⟨s2, h2, h⟩ := h
  rw [bind_ok] at h
  obtain ⟨sf4, _, h⟩ := h
  rw [bind_ok] at h
  obtain ⟨p, _, h⟩ := h
  cases h
  exact stepOK_trans stepFold (stepOK_trans (ih.snp _ _ _ h2)
    (stepOK_trans (putFile_step _ _ _) (stepOK_saved _ _)))

theorem dfn_succ (n : Nat) (ih : StepAllP n) :
    ∀ fid st st', deleteFixtureNode (n+1) fid st = .ok st' → StepOK st st' := by
  intro fid st st' h
  simp only [deleteFixtureNode] at h
  rw [bind_ok] at h
  obtain ⟨source_file, _, h⟩ := h
  split at h
  · rw [bind_ok] at h
    obtain ⟨u, hu, h⟩ := h
    obtain rfl := ok_inj hu
    rw [bind_ok] at h
    obtain ⟨fx, _, h⟩ := h
    rw [bind_ok] at h
    obtain ⟨s1, h1, h⟩ := h
    have stepFold := stepOK_foldME (fun s a s' hb => by
      rw [bind_ok] at hb
      obtain ⟨ut, _, hb⟩ := hb
      rw [bind_ok] at hb
      obtain ⟨s2, h2, hb⟩ := hb
      rw [bind_ok] at hb
      obtain ⟨sf2, _, hb⟩ := hb
      rw [bind_ok] at hb
      obtain ⟨l, _, hb⟩ := hb
      cases hb
      exact stepOK_trans (stepOK_saved _ _)
        (stepOK_trans (ih.sfp _ _ _ _ _ _ h2) (putFile_step _ _ _))) h1
    rw [bind_ok] at h
    obtain ⟨p, _, h⟩ := h
    cases h
    exact stepOK_trans (stepOK_saved _ _) (stepOK_trans stepFold (stepOK_saved _ _))
  · rw [bind_ok] at h
    obtain ⟨a, ha, _⟩ := h
    exact absurd ha (by simp)

theorem dfs_succ (n : Nat) (ih : StepAllP n) :
    ∀ fid st st', deleteFromSaved (n+1) fid st = .ok st' → StepOK st st' := by
  intro fid st st' h
  simp only [deleteFromSaved] at h
  rw [bind_ok] at h
  obtain ⟨sf0, _, h⟩ := h
  split at h
  · rw [bind_ok] at h
    obtain ⟨s1, h1, h⟩ := h
    rw [bind_ok] at h
    obtain ⟨p, _, h⟩ := h
    cases h
    exact stepOK_trans (ih.rmf _ _ _ h1) (stepOK_saved _ _)
  · split at h
    · exact ih.dmf _ _ _ _ h
    · split at h
      · exact ih.ddn _ _ _ h
      · split at h
        · exact ih.dfn _ _ _ h
        · cases h; exact stepOK_refl _

end PP

namespace PP

theorem csf_succ (n : Nat) (ih : StepAllP n) :
    ∀ fid st st', changeSchemaFile (n+1) fid st = .ok st' → StepOK st st' := by
  intro fid st st' h
  simp only [changeSchemaFile] at h
  rw [bind_ok] at h
  obtain ⟨saved_schema_file, _, h⟩ := h
  rw [bind_ok] at h
  obtain ⟨new_schema_file, _, h⟩ := h
  rw [bind_ok] at h
  obtain ⟨s1, h1, h⟩ := h
  rw [bind_ok] at h
  obtain ⟨sf, _, h⟩ := h
  exact stepOK_trans (putFile_step _ _ _) (stepOK_trans (ih.hsfc _ _ _ _ _ h1)
    (stepOK_trans (putFile_step _ _ _) (addToPpFiles_step h)))

theorem dschf_succ (n : Nat) (ih : StepAllP n) :
    ∀ fid st st', deleteSchemaFile (n+1) fid st = .ok st' → StepOK st st' := by
  intro fid st st' h
  simp only [deleteSchemaFile] at h
  rw [bind_ok] at h
  obtain ⟨sf, _, h⟩ := h
  rw [bind_ok] at h
  obtain ⟨s1, h1, h⟩ := h
  rw [bind_ok] at h
  obtain ⟨p, _, h⟩ := h
  cases h
  exact stepOK_trans (ih.hsfc _ _ _ _ _ h1) (stepOK_saved _ _)

theorem hsfc_succ (n : Nat) (ih : StepAllP n) :
    ∀ fid sy ny st st', handleSchemaFileChanges (n+1) fid sy ny st = .ok st' → StepOK st st' := by
  intro fid sy ny st st' h
  simp only [handleSchemaFileChanges] at h
  rw [bind_ok] at h
  obtain ⟨s1, h1, h⟩ := h
  rw [bind_ok] at h
  obtain ⟨s2, h2, h⟩ := h
  rw [bind_ok] at h
  obtain ⟨s3, h3, h⟩ := h
  rw [bind_ok] at h
  obtain ⟨s4, h4, h⟩ := h
  rw [bind_ok] at h
  obtain ⟨s5, h5, h⟩ := h
  rw [bind_ok] at h
  obtain ⟨s6, h6, h⟩ := h
  rw [bind_ok] at h
  obtain ⟨s7, h7, h⟩ := h
  rw [bind_ok] at h
  obtain ⟨s8, h8, h⟩ := h
  rw [bind_ok] at h
  obtain ⟨s9, h9, h⟩ := h
  refine stepOK_trans (stepOK_foldME (fun s a s' hb => ih.pmk _ _ _ _ _ _ _ hb) h1) ?_
  refine stepOK_trans (ih.psk _ _ _ _ _ _ h2) ?_
  refine stepOK_trans (ih.hec _ _ _ _ _ _ _ _ h3) ?_
  refine stepOK_trans (ih.hec _ _ _ _ _ _ _ _ h4) ?_
  refine stepOK_trans (ih.hec _ _ _ _ _ _ _ _ h5) ?_
  refine stepOK_trans (ih.hec _ _ _ _ _ _ _ _ h6) ?_
  refine stepOK_trans (ih.hec _ _ _ _ _ _ _ _ h7) ?_
  refine stepOK_trans (ih.hec _ _ _ _ _ _ _ _ h8) ?_
  exact stepOK_trans (ih.hec _ _ _ _ _ _ _ _ h9) (ih.hec _ _ _ _ _ _ _ _ h)

theorem pmk_succ (n : Nat) (ih : StepAllP n) :
    ∀ fid dk sy ny ev st st', processMssaKey (n+1) fid dk sy ny ev st = .ok st' → StepOK st st' := by
  intro fid dk sy ny ev st st' h
  simp only [processMssaKey] at h
  rw [bind_ok] at h
  obtain ⟨s1, h1, h⟩ := h
  rw [bind_ok] at h
  obtain ⟨s2, h2, h⟩ := h
  rw [bind_ok] at h
  obtain ⟨s3, h3, h⟩ := h
  have stepA := stepOK_foldME (fun s a s' hb => by
    split at hb
    · rw [bind_ok] at hb
      obtain ⟨sx, hx, hb⟩ := hb
      rw [bind_ok] at hb
      obtain ⟨sy, hy, hb⟩ := hb
      exact stepOK_trans (deleteYamlSnapshot_step hx)
        (stepOK_trans (ih.dsml _ _ _ _ _ hy) (mergePatch_step hb))
    · rw [bind_ok] at hb
      obtain ⟨y, hy0, hb⟩ := hb
      obtain rfl := ok_inj hy0
      rw [bind_ok] at hb
      obtain ⟨sy, hy, hb⟩ := hb
      exact stepOK_trans (ih.dsml _ _ _ _ _ hy) (mergePatch_step hb)) h1
  have stepB := stepOK_foldME (fun s a s' hb => by
    split at hb
    · rw [bind_ok] at hb
      obtain ⟨sx, hx, hb⟩ := hb
      exact stepOK_trans (deleteYamlSnapshot_step hx) (ih.dsml _ _ _ _ _ hb)
    · rw [bind_ok] at hb
      obtain ⟨y, hy0, hb⟩ := hb
      obtain rfl := ok_inj hy0
      exact ih.dsml _ _ _ _ _ hb) h2
  have stepC := stepOK_foldME (fun s a s' hb => mergePatch_step hb) h3
  refine stepOK_trans (stepOK_trans stepA (stepOK_trans stepB stepC)) ?_
  split at h
  · split at h
    · rw [bind_ok] at h
      obtain ⟨c, hc, h⟩ := h
      obtain rfl := ok_inj hc
      refine stepOK_foldME (fun s a s' hb => ?_) h
      split at hb
      · cases hb; exact stepOK_refl _
      · split at hb
        · split at hb
          · rw [bind_ok] at hb
            obtain ⟨sx, hx, hb⟩ := hb
            rw [bind_ok] at hb
            obtain ⟨sy, hy, hb⟩ := hb
            exact stepOK_trans (deleteYamlSnapshot_step hx)
              (stepOK_trans (ih.dsml _ _ _ _ _ hy) (mergePatch_step hb))
          · rw [bind_ok] at hb
            obtain ⟨y, hy0, hb⟩ := hb
            obtain rfl := ok_inj hy0
            rw [bind_ok] at hb
            obtain ⟨sy, hy, hb⟩ := hb
            exact stepOK_trans (ih.dsml _ _ _ _ _ hy) (mergePatch_step hb)
        · cases hb; exact stepOK_refl _
    · rw [bind_ok] at h
      obtain ⟨a, ha, _⟩ := h
      exact absurd ha (by simp)
  · cases h; exact stepOK_refl _

theorem psk_succ (n : Nat) (ih : StepAllP n) :
    ∀ fid sy ny ev st st', processSourcesKey (n+1) fid sy ny ev st = .ok st' → StepOK st st' := by
  intro fid sy ny ev st st' h
  simp only [processSourcesKey] at h
  rw [bind_ok] at h
  obtain ⟨s1, h1, h⟩ := h
  rw [bind_ok] at h
  obtain ⟨s2, h2, h⟩ := h
  rw [bind_ok] at h
  obtain ⟨s3, h3, h⟩ := h
  have stepA := stepOK_foldME (fun s a s' hb => by
    split at hb
    · rw [bind_ok] at hb
      obtain ⟨sx, hx, hb⟩ := hb
      rw [bind_ok] at hb
      obtain ⟨sy, hy, hb⟩ := hb
      exact stepOK_trans (ih.rsot _ _ _ hx)
        (stepOK_trans (ih.dss _ _ _ _ hy) (mergePatch_step hb))
    · rw [bind_ok] at hb
      obtain ⟨y, hy0, hb⟩ := hb
      obtain rfl := ok_inj hy0
      rw [bind_ok] at hb
      obtain ⟨sy, hy, hb⟩ := hb
      exact stepOK_trans (ih.dss _ _ _ _ hy) (mergePatch_step hb)) h1
  have stepB := stepOK_foldME (fun s a s' hb => by
    split at hb
    · rw [bind_ok] at hb
      obtain ⟨sx, hx, hb⟩ := hb
      exact stepOK_trans (ih.rsot _ _ _ hx) (ih.dss _ _ _ _ hb)
    · rw [bind_ok] at hb
      obtain ⟨y, hy0, hb⟩ := hb
      obtain rfl := ok_inj hy0
      exact ih.dss _ _ _ _ hb) h2
  have stepC := stepOK_foldME (fun s a s' hb => by
    split at hb
    · rw [bind_ok] at hb
      obtain ⟨sx, hx, hb⟩ := hb
      exact stepOK_trans (ih.rsot _ _ _ hx) (mergePatch_step hb)
    · rw [bind_ok] at hb
      obtain ⟨y, hy0, hb⟩ := hb
      obtain rfl := ok_inj hy0
      exact mergePatch_step hb) h3
  refine stepOK_trans (stepOK_trans stepA (stepOK_trans stepB stepC)) ?_
  split at h
  · split at h
    · rw [bind_ok] at h
      obtain ⟨c, hc, h⟩ := h
      obtain rfl := ok_inj hc
      refine stepOK_foldME (fun s a s' hb => ?_) h
      split at hb
      · cases hb; exact stepOK_refl _
      · split at hb
        · split at hb
          · rw [bind_ok] at hb
            obtain ⟨sx, hx, hb⟩ := hb
            rw [bind_ok] at hb
            obtain ⟨sy, hy, hb⟩ := hb
            exact stepOK_trans (ih.rsot _ _ _ hx)
              (stepOK_trans (ih.dss _ _ _ _ hy) (mergePatch_step hb))
          · rw [bind_ok] at hb
            obtain ⟨y, hy0, hb⟩ := hb
            obtain rfl := ok_inj hy0
            rw [bind_ok] at hb
            obtain ⟨sy, hy, hb⟩ := hb
            exact stepOK_trans (ih.dss _ _ _ _ hy) (mergePatch_step hb)
        · cases hb; exact stepOK_refl _
    · rw [bind_ok] at h
      obtain ⟨a, ha, _⟩ := h
      exact absurd ha (by simp)
  · cases h; exact stepOK_refl _

theorem hec_succ (n : Nat) (ih : StepAllP n) :
    ∀ fid sy ny ev dk k st st', handleElementChange (n+1) fid sy ny ev dk k st = .ok st' → StepOK st st' := by
  intro fid sy ny ev dk k st st' h
  simp only [handleElementChange] at h
  rw [bind_ok] at h
  obtain ⟨s1, h1, h⟩ := h
  rw [bind_ok] at h
  obtain ⟨s2, h2, h⟩ := h
  rw [bind_ok] at h
  obtain ⟨s3, h3, h⟩ := h
  have stepA := stepOK_foldME (fun s a s' hb => by
    rw [bind_ok] at hb
    obtain ⟨sx, hx, hb⟩ := hb
    exact stepOK_trans (ih.rd _ _ _ _ _ hx) (mergePatch_step hb)) h1
  have stepB := stepOK_foldME (fun s a s' hb => ih.rd _ _ _ _ _ hb) h2
  have stepC := stepOK_foldME (fun s a s' hb => mergePatch_step hb) h3
  refine stepOK_trans (stepOK_trans stepA (stepOK_trans stepB stepC)) ?_
  split at h
  · split at h
    · rw [bind_ok] at h
      obtain ⟨c, hc, h⟩ := h
      obtain rfl := ok_inj hc
      refine stepOK_foldME (fun s a s' hb => ?_) h
      split at hb
      · cases hb; exact stepOK_refl _
      · split at hb
        · rw [bind_ok] at hb
          obtain ⟨sx, hx, hb⟩ := hb
          exact stepOK_trans (ih.rd _ _ _ _ _ hx) (mergePatch_step hb)
        · cases hb; exact stepOK_refl _
    · rw [bind_ok] at h
      obtain ⟨a, ha, _⟩ := h
      exact absurd ha (by simp)
  · cases h; exact stepOK_refl _

end PP

namespace PP

theorem stepAllP_succ (n : Nat) (ih : StepAllP n) : StepAllP (n+1) where
  rnis := rnis_succ n ih
  rnf := rnf_succ n ih
  umis := umis_succ n ih
  umacs := umacs_succ n ih
  udocs := udocs_succ n ih
  ufixs := ufixs_succ n ih
  uis := uis_succ n ih
  rmf := rmf_succ n ih
  srn := srn_succ n ih
  snp := snp_succ n ih
  son := son_succ n ih
  sfp := sfp_succ n ih
  rd := rd_succ n ih
  dss := dss_succ n ih
  dsg := dsg_succ n ih
  dsmet := dsmet_succ n ih
  dssq := dssq_succ n ih
  dssem := dssem_succ n ih
  dsmp := dsmp_succ n ih
  dmf := dmf_succ n ih
  hmfl := hmfl_succ n ih
  homl := homl_succ n ih
  smn := smn_succ n ih
  somn := somn_succ n ih
  dsml := dsml_succ n ih
  rsot := rsot_succ n ih
  ats := ats_succ n ih
  hasf := hasf_succ n ih
  ddn := ddn_succ n ih
  dfn := dfn_succ n ih
  dfs := dfs_succ n ih
  csf := csf_succ n ih
  dschf := dschf_succ n ih
  hsfc := hsfc_succ n ih
  pmk := pmk_succ n ih
  psk := psk_succ n ih
  hec := hec_succ n ih

theorem stepAll : ∀ n, StepAllP n := by
  intro n
  induction n with
  | zero => exact stepAllP_zero
  | succ n ih => exact stepAllP_succ n ih

end PP

namespace PP

/-- A completed run of the planner is a step: inputs are frozen, the flag is
monotone, the plan grows monotonically and keeps its invariant; the returned
plan is either empty (skip) or exactly the final state's plan. -/
theorem getParsingFiles_step (n : Nat) (st : PState)
    (pr : Assoc (Assoc (List String)) × PState)
    (h : getParsingFiles n st = .ok pr) :
    StepOK st pr.2 ∧ (pr.1 = [] ∨ pr.1 = pr.2.plan) := by
  simp only [getParsingFiles] at h
  split at h
  · cases h
    exact ⟨stepOK_refl _, Or.inl rfl⟩
  · rw [bind_ok] at h
    obtain ⟨s1, h1, h⟩ := h
    rw [bind_ok] at h
    obtain ⟨s2, h2, h⟩ := h
    rw [bind_ok] at h
    obtain ⟨s3, h3, h⟩ := h
    rw [bind_ok] at h
    obtain ⟨s4, h4, h⟩ := h
    rw [bind_ok] at h
    obtain ⟨s5, h5, h⟩ := h
    cases h
    refine ⟨?_, Or.inr rfl⟩
    have A := stepOK_foldME (fun s a s' hb =>
      stepOK_trans (stepOK_proc s (some a)) ((stepAll n).ats _ _ _ hb)) h1
    have B := stepOK_foldME (fun s a s' hb =>
      stepOK_trans (stepOK_proc s (some a)) ((stepAll n).csf _ _ _ hb)) h2
    have C := stepOK_foldME (fun s a s' hb =>
      stepOK_trans (stepOK_proc s (some a)) ((stepAll n).dschf _ _ _ hb)) h3
    have D := stepOK_foldME (fun s a s' hb =>
      stepOK_trans (stepOK_proc s (some a)) ((stepAll n).dfs _ _ _ hb)) h4
    have E := stepOK_foldME (fun s a s' hb =>
      stepOK_trans (stepOK_proc s (some a)) ((stepAll n).uis _ _ _ hb)) h5
    exact stepOK_trans A (stepOK_trans B (stepOK_trans C (stepOK_trans D E)))

end PP

namespace PP

/-- An empty file diff, used in concrete witness states. -/
def blankDiff : FileDiff :=
  { deleted := [], deleted_schema_files := [], added := [], changed := []
    changed_schema_files := [], unchanged := [] }

/-- A state whose plan is empty satisfies the plan invariant. -/
theorem planOK_of_plan_nil (st : PState) (h : st.plan = []) : PlanOK st := by
  intro p pm hp
  rw [h] at hp
  simp [alookup] at hp

/-- `dict[key]` succeeds exactly on a stored binding. -/
theorem getE_ok {α : Type} {m : Assoc α} {k : String} {v : α} :
    getE m k = .ok v ↔ alookup m k = some v := by
  unfold getE
  cases h : alookup m k <;> simp

/-- C2: `skip_parsing` is true exactly when the five actionable diff sets
(added, changed, deleted, changed_schema_files, deleted_schema_files) are all
empty — the unchanged set plays no role — and a skipped run of
`get_parsing_files` returns the empty plan with the state unchanged. -/
theorem C2_skip_parsing (st : PState) :
    (skipParsing st = true ↔
      st.fileDiff.added = [] ∧ st.fileDiff.changed = [] ∧ st.fileDiff.deleted = [] ∧
      st.fileDiff.changed_schema_files = [] ∧ st.fileDiff.deleted_schema_files = []) ∧
    (skipParsing st = true → ∀ n, getParsingFiles n st = .ok ([], st)) := by
  constructor
  · simp only [skipParsing, Bool.and_eq_true, List.isEmpty_iff]
    tauto
  · intro h n
    simp [getParsingFiles, h]

/-- Witness for C2: the planner built from an empty project skips and
returns the empty plan unchanged. -/
def c2st : PState := initPP blankManifest [] (fun _ => none) (fun _ => [])

theorem C2_skip_parsing_witness :
    skipParsing c2st = true ∧ getParsingFiles 3 c2st = .ok ([], c2st) :=
  ⟨rfl, (C2_skip_parsing c2st).2 rfl 3⟩

/-- C4: the plan invariant — every `plan[project][parser]` list is
duplicate-free and contains no id of the deleted diff sets — holds at
initialisation and is preserved by a completed planner run; and
`add_to_pp_files` appends the file id to its project/parser list exactly
under the source's guard (not already present, not in `deleted`, not in
`deleted_schema_files`), leaving every other list unchanged in content. -/
theorem C4_plan_invariant :
    (∀ saved nf ge bm, PlanOK (initPP saved nf ge bm)) ∧
    (∀ n st pr, getParsingFiles n st = .ok pr → PlanOK st → PlanOK pr.2) ∧
    (∀ st f st', addToPpFiles st f = .ok st' →
      planList st' f.project_name (parserNameOf f.pft) =
        (if addCond st f
         then planList st f.project_name (parserNameOf f.pft) ++ [f.file_id]
         else planList st f.project_name (parserNameOf f.pft))) := by
  refine ⟨?_, ?_, ?_⟩
  · intro saved nf ge bm
    exact planOK_of_plan_nil _ rfl
  · intro n st pr h h0
    obtain ⟨-, -, -, -, -, -, -, -, hq⟩ := (getParsingFiles_step n st pr h).1
    exact hq h0
  · intro st f st' h
    have he := addToPpFiles_ok_elim h
    subst he
    simp [planList, planAfterAdd, alookup_aset_self]

/-- Witness scenario for C4: a saved project with one model and a new file
map adding a second model. -/
def c4st : PState := initPP
  { blankManifest with files :=
      [("proj://m1.sql", { blankFile with file_id := "proj://m1.sql", checksum := 1 })] }
  [("proj://m1.sql", { blankFile with file_id := "proj://m1.sql", checksum := 1 }),
   ("proj://m2.sql", { blankFile with file_id := "proj://m2.sql", checksum := 2 })]
  (fun _ => none) (fun _ => [])

def c4pr : Assoc (Assoc (List String)) × PState :=
  match getParsingFiles 20 c4st with
  | .ok pr => pr
  | .error _ => ([], c4st)

theorem C4_plan_invariant_witness :
    getParsingFiles 20 c4st = .ok c4pr ∧
    c4pr.1 = [("proj", [("ModelParser", ["proj://m2.sql"])])] ∧
    PlanOK c4pr.2 :=
  ⟨rfl, rfl, C4_plan_invariant.2.1 20 c4st c4pr rfl (planOK_of_plan_nil c4st rfl)⟩

end PP

namespace PP

/-- The condition under which one popped macro unique id sets the
special-override flag in `check_for_special_deleted_macros`: the macro is
still in the saved table, its package (second dotted component of the
unique id) is not the built-in package "dbt", and its local name is one of
the six override macros. -/
def specialTriggerB (st : PState) (uid : String) : Bool :=
  match alookup st.saved.macros uid with
  | none => false
  | some mac =>
    match (pySplitDot uid).get? 1 with
    | none => false
    | some pkg => decide (pkg ≠ "dbt") && decide (mac.name ∈ specialOverrideNames)

/-- The loop of `check_for_special_deleted_macros` only sets the flag, and
sets it exactly when some listed unique id triggers. -/
theorem checkSpecialLoop_char : ∀ (uids : List String) (st st' : PState),
    checkSpecialLoop st uids = .ok st' →
    st' = { st with specialOverrideFlag :=
      st.specialOverrideFlag || uids.any (specialTriggerB st) } := by
  intro uids
  induction uids with
  | nil =>
    intro st st' h
    simp only [checkSpecialLoop] at h
    cases h
    simp
  | cons uid rest ih =>
    intro st st' h
    simp only [checkSpecialLoop] at h
    split at h
    · rename_i hmem
      obtain ⟨mac, hmac⟩ := Option.isSome_iff_exists.mp hmem
      split at h
    
      · exact absurd h (by simp)
      · rename_i pkg hpkg
        rw [List.get?_eq_getElem?] at hpkg
        split at h
        · rename_i hdbt
          have := ih st st' h
          subst this
          congr 1
          simp [List.any_cons, specialTriggerB, hmac, hpkg, hdbt]
        · rename_i hdbt
          rw [bind_ok] at h
          obtain ⟨mac2, hget, h⟩ := h
          have hmac2 : alookup st.saved.macros uid = some mac2 := getE_ok.mp hget
          rw [hmac] at hmac2
          obtain rfl : mac = mac2 := by injection hmac2
          by_cases hname : mac.name ∈ specialOverrideNames
          · rw [if_pos hname] at h
            have := ih _ st' h
            subst this
            congr 1
            simp [List.any_cons, specialTriggerB, hmac, hpkg, hdbt, hname]
          · rw [if_neg hname] at h
            have := ih st st' h
            subst this
            congr 1
            simp [List.any_cons, specialTriggerB, hmac, hpkg, hdbt, hname]
    · rename_i hmem
      have hnone : alookup st.saved.macros uid = none := by
        simp only [amem, Bool.not_eq_true] at hmem
        cases halu : alookup st.saved.macros uid with
        | none => rfl
        | some v => rw [halu] at hmem; simp at hmem
      have := ih st st' h
      subst this
      congr 1
      simp [List.any_cons, specialTriggerB, hnone]

/-- C7: the special-override flag starts false; a run of
`check_for_special_deleted_macros` over a source file leaves the flag true
exactly when it was already true or some macro of the file is a still-saved
non-built-in macro named among the six override macros (in particular a
macro of the built-in package "dbt" never sets it); and `delete_macro_file`
on a file owning such a triggering macro always ends with the flag set. -/
theorem C7_override_macro_bailout :
    (∀ saved nf ge bm, (initPP saved nf ge bm).specialOverrideFlag = false) ∧
    (∀ st sf st', checkForSpecialDeletedMacros st sf = .ok st' →
      (st'.specialOverrideFlag = true ↔
        st.specialOverrideFlag = true ∨
          ∃ uid ∈ sf.macros, specialTriggerB st uid = true)) ∧
    (∀ n fid b st st', deleteMacroFile n fid b st = .ok st' →
      ∀ sf, getFileE st fid = .ok sf →
      (∃ uid ∈ sf.macros, specialTriggerB st uid = true) →
      st'.specialOverrideFlag = true) := by
  refine ⟨fun saved nf ge bm => rfl, ?_, ?_⟩
  · intro st sf st' h
    have := checkSpecialLoop_char sf.macros st st' h
    subst this
    simp [List.any_eq_true]
  · intro n fid b st st' h sf hsf htrig
    match n with
    | 0 => simp [deleteMacroFile] at h
    | Nat.succ n =>
      simp only [deleteMacroFile] at h
      rw [bind_ok] at h
      obtain ⟨sf2, hsf2, h⟩ := h
      rw [hsf] at hsf2
      obtain rfl : sf = sf2 := by injection hsf2
      rw [bind_ok] at h
      obtain ⟨s1, h1, h⟩ := h
      rw [bind_ok] at h
      obtain ⟨s2, h2, h⟩ := h
      have hs1 := checkSpecialLoop_char sf.macros st s1 h1
      subst hs1
      have hflag1 : (({ st with specialOverrideFlag :=
          st.specialOverrideFlag || sf.macros.any (specialTriggerB st) } : PState)).specialOverrideFlag = true := by
        simp [List.any_eq_true]
        right
        exact htrig
      have hflag2 : s2.specialOverrideFlag = true :=
        ((stepAll n).hmfl _ _ _ _ h2).2.2.2.2.2.2.1 hflag1
      split at h <;> cases h <;> simpa using hflag2
end PP

namespace PP

/-- Witness scenario for C7: a project-package macro file owning an
override of `ref`. -/
def c7sf : SFile :=
  { blankFile with
    file_id := "proj://macros.sql",
    pft := PFT.macroFile,
    macros := ["macro.my_pkg.ref"] }

def c7mac : MMacro :=
  { name := "ref", file_id := "proj://macros.sql", patch_path := none }

def c7saved : Manifest :=
  { blankManifest with
    files := [("proj://macros.sql", c7sf)],
    macros := [("macro.my_pkg.ref", c7mac)] }

def c7st : PState :=
  { saved := c7saved,
    newFiles := [],
    plan := [],
    macroChildMap := [],
    envChangedSrcFiles := [],
    envChangedSchemaFiles := [],
    fileDiff := blankDiff,
    processingFile := none,
    specialOverrideFlag := false,
    disabledByFileId := [] }

def c7res : PState :=
  match deleteMacroFile 10 "proj://macros.sql" true c7st with
  | .ok s => s
  | .error _ => c7st

theorem C7_override_macro_bailout_witness :
    deleteMacroFile 10 "proj://macros.sql" true c7st = .ok c7res ∧
    c7res.specialOverrideFlag = true :=
  ⟨rfl, C7_override_macro_bailout.2.2 10 "proj://macros.sql" true c7st c7res rfl c7sf rfl
    ⟨"macro.my_pkg.ref", by decide, by rfl⟩⟩

end PP

namespace PP

theorem aset_aset {α : Type} (m : Assoc α) (k : String) (v w : α) :
    aset (aset m k v) k w = aset m k w := by
  induction m with
  | nil => simp [aset]
  | cons kv rest ih =>
    by_cases h : kv.1 = k
    · obtain ⟨k1, v1⟩ := kv
      simp only at h
      simp [aset, h]
    · obtain ⟨k1, v1⟩ := kv
      simp only at h
      simp [aset, h, ih]

theorem aset_self_of_lookup {α : Type} (m : Assoc α) (k : String) (v : α)
    (h : alookup m k = some v) : aset m k v = m := by
  induction m with
  | nil => simp [alookup] at h
  | cons kv rest ih =>
    obtain ⟨k1, v1⟩ := kv
    by_cases hk : k1 = k
    · subst hk
      simp only [alookup, if_pos rfl] at h
      obtain rfl : v1 = v := by injection h
      simp [aset]
    · simp only [alookup, if_neg hk] at h
      simp [aset, hk, ih h]

theorem mem_lremove_of_ne {α : Type} [DecidableEq α] {x a : α} (l : List α) (h : x ≠ a) :
    x ∈ lremove l a ↔ x ∈ l := by
  induction l with
  | nil => simp [lremove]
  | cons y rest ih =>
    by_cases hy : y = a
    · simp [lremove, hy, h]
    · simp [lremove, hy, ih]

theorem foldl_lremove_self {α : Type} [DecidableEq α] :
    ∀ l : List α, l.foldl lremove l = [] := by
  intro l
  induction l with
  | nil => rfl
  | cons x rest ih =>
    show List.foldl lremove (lremove (x :: rest) x) rest = []
    simp only [lremove, if_pos rfl]
    exact ih

/-- Loop of `handle_macro_file_links` when every listed macro unique id is
already gone from the saved macro table: each pass only edits the file's
own macro list. -/
theorem homl_absent_loop (n : Nat) (fid : String) (b : Bool) :
    ∀ (L : List String) (st : PState) (sf : SFile),
    alookup st.saved.files fid = some sf →
    L.Nodup → (∀ uid ∈ L, uid ∈ sf.macros) →
    (∀ uid ∈ L, alookup st.saved.macros uid = none) →
    foldME (fun s uid => handleOneMacroLink (n+1) fid b uid s) st L =
      .ok (putFile st fid { sf with macros := L.foldl lremove sf.macros }) := by
  intro L
  induction L with
  | nil =>
    intro st sf hsf _ _ _
    simp only [foldME, List.foldl]
    rw [show ({ sf with macros := sf.macros } : SFile) = sf from rfl]
    rw [show putFile st fid sf = st from ?_]
    simp only [putFile]
    rw [aset_self_of_lookup st.saved.files fid sf hsf]
  | cons uid rest ih =>
    intro st sf hsf hnd hsub habs
    simp only [foldME]
    rw [show handleOneMacroLink (n+1) fid b uid st =
      .ok (putFile st fid { sf with macros := lremove sf.macros uid }) from ?_]
    · rw [bind_ok]
      refine ⟨_, rfl, ?_⟩
      have hsf1 : alookup (putFile st fid { sf with macros := lremove sf.macros uid }).saved.files fid
          = some { sf with macros := lremove sf.macros uid } := by
        simp [putFile, alookup_aset_self]
      have hres := ih (putFile st fid { sf with macros := lremove sf.macros uid })
        { sf with macros := lremove sf.macros uid } hsf1 hnd.of_cons
        (fun x hx => (mem_lremove_of_ne sf.macros
          (by intro hxe; exact (List.nodup_cons.mp hnd).1 (hxe ▸ hx))).mpr
          (hsub x (List.mem_cons_of_mem _ hx)))
        (fun x hx => habs x (List.mem_cons_of_mem _ hx))
      rw [hres]
      simp only [putFile, aset_aset]
      rfl
    · simp only [handleOneMacroLink]
      rw [if_pos ?_]
      · simp only [getFileE, getE, hsf, bind_ok]
        refine ⟨sf, rfl, ?_⟩
        rw [if_pos (hsub uid (List.mem_cons_self _ _))]
      · simp [amem, habs uid (List.mem_cons_self _ _)]

end PP

namespace PP

/-- C9: popping an already-evicted unique id is silent.  When the id is no
longer in `saved_manifest.nodes` and the disabled-table guard fails,
`remove_node_in_saved` returns with the state untouched; and when every
macro id of a file is already gone from `saved_manifest.macros`,
`handle_macro_file_links` raises nothing and only clears the file's own
macro list, leaving every saved-manifest table unchanged. -/
theorem C9_silent_absence :
    (∀ n sf uid st, alookup st.saved.nodes uid = none →
      (amem st.disabledByFileId sf.file_id && amem st.saved.disabled uid) = false →
      removeNodeInSaved (n+1) sf uid st = .ok st) ∧
    (∀ n fid b st sf, alookup st.saved.files fid = some sf →
      sf.macros.Nodup →
      (∀ uid ∈ sf.macros, alookup st.saved.macros uid = none) →
      handleMacroFileLinks (n+2) fid b st =
        .ok (putFile st fid { sf with macros := [] })) := by
  constructor
  · intro n sf uid st h1 h2
    simp only [removeNodeInSaved, h1, h2]
    rfl
  · intro n fid b st sf hsf hnd habs
    have hres := homl_absent_loop n fid b sf.macros st sf hsf hnd (fun u hu => hu) habs
    rw [foldl_lremove_self] at hres
    simp only [handleMacroFileLinks, getFileE, getE, hsf]
    rw [bind_ok]
    exact ⟨sf, rfl, hres⟩

/-- Witness scenario for C9: a macro file whose only macro id is absent
from the saved macro table, and a node id absent everywhere. -/
def c9sf : SFile :=
  { blankFile with
    file_id := "proj://macros.sql",
    pft := PFT.macroFile,
    macros := ["macro.my_pkg.m1"] }

def c9st : PState :=
  { saved := { blankManifest with files := [("proj://macros.sql", c9sf)] },
    newFiles := [],
    plan := [],
    macroChildMap := [],
    envChangedSrcFiles := [],
    envChangedSchemaFiles := [],
    fileDiff := blankDiff,
    processingFile := none,
    specialOverrideFlag := false,
    disabledByFileId := [] }

theorem C9_silent_absence_witness :
    removeNodeInSaved 4 blankFile "model.proj.gone" c9st = .ok c9st ∧
    handleMacroFileLinks 4 "proj://macros.sql" true c9st =
      .ok (putFile c9st "proj://macros.sql" { c9sf with macros := [] }) :=
  ⟨C9_silent_absence.1 3 blankFile "model.proj.gone" c9st rfl rfl,
   C9_silent_absence.2 2 "proj://macros.sql" true c9st c9sf rfl (by decide)
     (fun uid _ => rfl)⟩

end PP

namespace PP

/-- Membership in the schema side of the deleted split. -/
theorem mem_splitDeleted_fst (saved : Assoc SFile) :
    ∀ (l : List String) (fid : String),
    fid ∈ (splitDeleted saved l).1 ↔
      fid ∈ l ∧ ∃ sf, alookup saved fid = some sf ∧ sf.pft = PFT.schema := by
  intro l
  induction l with
  | nil => intro fid; simp [splitDeleted]
  | cons a rest ih =>
    intro fid
    simp only [splitDeleted]
    cases ha : alookup saved a with
    | none =>
      simp only [List.mem_cons, ih]
      constructor
      · rintro ⟨hr, hsf⟩
        exact ⟨Or.inr hr, hsf⟩
      · rintro ⟨ha2 | hr, sf, hsf, hpft⟩
        · rw [ha2] at hsf
          rw [ha] at hsf
          cases hsf
        · exact ⟨hr, sf, hsf, hpft⟩
    | some sf =>
      by_cases hpft : sf.pft = PFT.schema
      · simp only [if_pos hpft, List.mem_cons, ih]
        constructor
        · rintro (rfl | ⟨hr, h⟩)
          · exact ⟨Or.inl rfl, sf, ha, hpft⟩
          · exact ⟨Or.inr hr, h⟩
        · rintro ⟨rfl | hr, h⟩
          · exact Or.inl rfl
          · exact Or.inr ⟨hr, h⟩
      · simp only [if_neg hpft, List.mem_cons, ih]
        constructor
        · rintro ⟨hr, h⟩
          exact ⟨Or.inr hr, h⟩
        · rintro ⟨rfl | hr, sf2, hsf2, hpft2⟩
          · rw [ha] at hsf2
            obtain rfl : sf = sf2 := by injection hsf2
            exact absurd hpft2 hpft
          · exact ⟨hr, sf2, hsf2, hpft2⟩

/-- Membership in the non-schema side of the deleted split. -/
theorem mem_splitDeleted_snd (saved : Assoc SFile) :
    ∀ (l : List String) (fid : String),
    fid ∈ (splitDeleted saved l).2.1 ↔
      fid ∈ l ∧ ∃ sf, alookup saved fid = some sf ∧ sf.pft ≠ PFT.schema := by
  intro l
  induction l with
  | nil => intro fid; simp [splitDeleted]
  | cons a rest ih =>
    intro fid
    simp only [splitDeleted]
    cases ha : alookup saved a with
    | none =>
      simp only [List.mem_cons, ih]
      constructor
      · rintro ⟨hr, hsf⟩
        exact ⟨Or.inr hr, hsf⟩
      · rintro ⟨ha2 | hr, sf, hsf, hpft⟩
        · rw [ha2] at hsf
          rw [ha] at hsf
          cases hsf
        · exact ⟨hr, sf, hsf, hpft⟩
    | some sf =>
      by_cases hpft : sf.pft = PFT.schema
      · simp only [if_pos hpft, List.mem_cons, ih]
        constructor
        · rintro ⟨hr, h⟩
          exact ⟨Or.inr hr, h⟩
        · rintro ⟨rfl | hr, sf2, hsf2, hpft2⟩
          · rw [ha] at hsf2
            obtain rfl : sf = sf2 := by injection hsf2
            exact absurd hpft hpft2
          · exact ⟨hr, sf2, hsf2, hpft2⟩
      · simp only [if_neg hpft, List.mem_cons, ih]
        constructor
        · rintro (rfl | ⟨hr, h⟩)
          · exact ⟨Or.inl rfl, sf, ha, hpft⟩
          · exact ⟨Or.inr hr, h⟩
        · rintro ⟨rfl | hr, h⟩
          · exact Or.inl rfl
          · exact Or.inr ⟨hr, h⟩

end PP

namespace PP

/-- Membership in the changed list of the common-id split. -/
theorem mem_splitChanged_changed (s n : Assoc SFile) :
    ∀ (l : List String) (fid : String),
    fid ∈ (splitChanged s n l).1 ↔
      fid ∈ l ∧ ∃ sf nf, alookup s fid = some sf ∧ alookup n fid = some nf ∧
        sf.checksum ≠ nf.checksum ∧ sf.pft ≠ PFT.schema := by
  intro l
  induction l with
  | nil => intro fid; simp [splitChanged]
  | cons a rest ih =>
    intro fid
    simp only [splitChanged]
    cases ha : alookup s a with
    | none =>
      simp only [List.mem_cons, ih]
      constructor
      · rintro ⟨hr, h⟩
        exact ⟨Or.inr hr, h⟩
      · rintro ⟨rfl | hr, sf, nf, hsf, h⟩
        · rw [ha] at hsf
          cases hsf
        · exact ⟨hr, sf, nf, hsf, h⟩
    | some sf =>
      cases hn : alookup n a with
      | none =>
        simp only [List.mem_cons, ih]
        constructor
        · rintro ⟨hr, h⟩
          exact ⟨Or.inr hr, h⟩
        · rintro ⟨rfl | hr, sf2, nf, hsf, hnf, h⟩
          · rw [hn] at hnf
            cases hnf
          · exact ⟨hr, sf2, nf, hsf, hnf, h⟩
      | some nf =>
        by_cases hck : sf.checksum = nf.checksum
        · simp only [if_pos hck, List.mem_cons, ih]
          constructor
          · rintro ⟨hr, h⟩
            exact ⟨Or.inr hr, h⟩
          · rintro ⟨rfl | hr, sf2, nf2, hsf, hnf, hck2, hpft⟩
            · rw [ha] at hsf
              rw [hn] at hnf
              obtain rfl : sf = sf2 := by injection hsf
              obtain rfl : nf = nf2 := by injection hnf
              exact absurd hck hck2
            · exact ⟨hr, sf2, nf2, hsf, hnf, hck2, hpft⟩
        · simp only [if_neg hck]
          by_cases hpft : sf.pft = PFT.schema
          · simp only [if_pos hpft, List.mem_cons, ih]
            constructor
            · rintro ⟨hr, h⟩
              exact ⟨Or.inr hr, h⟩
            · rintro ⟨rfl | hr, sf2, nf2, hsf, hnf, hck2, hpft2⟩
              · rw [ha] at hsf
                obtain rfl : sf = sf2 := by injection hsf
                exact absurd hpft hpft2
              · exact ⟨hr, sf2, nf2, hsf, hnf, hck2, hpft2⟩
          · simp only [if_neg hpft, List.mem_cons, ih]
            constructor
            · rintro (rfl | ⟨hr, h⟩)
              · exact ⟨Or.inl rfl, sf, nf, ha, hn, hck, hpft⟩
              · exact ⟨Or.inr hr, h⟩
            · rintro ⟨rfl | hr, h⟩
              · exact Or.inl rfl
              · exact Or.inr ⟨hr, h⟩

/-- Membership in the changed-schema list of the common-id split. -/
theorem mem_splitChanged_schema (s n : Assoc SFile) :
    ∀ (l : List String) (fid : String),
    fid ∈ (splitChanged s n l).2.1 ↔
      fid ∈ l ∧ ∃ sf nf, alookup s fid = some sf ∧ alookup n fid = some nf ∧
        sf.checksum ≠ nf.checksum ∧ sf.pft = PFT.schema := by
  intro l
  induction l with
  | nil => intro fid; simp [splitChanged]
  | cons a rest ih =>
    intro fid
    simp only [splitChanged]
    cases ha : alookup s a with
    | none =>
      simp only [List.mem_cons, ih]
      constructor
      · rintro ⟨hr, h⟩
        exact ⟨Or.inr hr, h⟩
      · rintro ⟨rfl | hr, sf, nf, hsf, h⟩
        · rw [ha] at hsf
          cases hsf
        · exact ⟨hr, sf, nf, hsf, h⟩
    | some sf =>
      cases hn : alookup n a with
      | none =>
        simp only [List.mem_cons, ih]
        constructor
        · rintro ⟨hr, h⟩
          exact ⟨Or.inr hr, h⟩
        · rintro ⟨rfl | hr, sf2, nf, hsf, hnf, h⟩
          · rw [hn] at hnf
            cases hnf
          · exact ⟨hr, sf2, nf, hsf, hnf, h⟩
      | some nf =>
        by_cases hck : sf.checksum = nf.checksum
        · simp only [if_pos hck, List.mem_cons, ih]
          constructor
          · rintro ⟨hr, h⟩
            exact ⟨Or.inr hr, h⟩
          · rintro ⟨rfl | hr, sf2, nf2, hsf, hnf, hck2, hpft⟩
            · rw [ha] at hsf
              rw [hn] at hnf
              obtain rfl : sf = sf2 := by injection hsf
              obtain rfl : nf = nf2 := by injection hnf
              exact absurd hck hck2
            · exact ⟨hr, sf2, nf2, hsf, hnf, hck2, hpft⟩
        · simp only [if_neg hck]
          by_cases hpft : sf.pft = PFT.schema
          · simp only [if_pos hpft, List.mem_cons, ih]
            constructor
            · rintro (rfl | ⟨hr, h⟩)
              · exact ⟨Or.inl rfl, sf, nf, ha, hn, hck, hpft⟩
              · exact ⟨Or.inr hr, h⟩
            · rintro ⟨rfl | hr, h⟩
              · exact Or.inl rfl
              · exact Or.inr ⟨hr, h⟩
          · simp only [if_neg hpft, List.mem_cons, ih]
            constructor
            · rintro ⟨hr, h⟩
              exact ⟨Or.inr hr, h⟩
            · rintro ⟨rfl | hr, sf2, nf2, hsf, hnf, hck2, hpft2⟩
              · rw [ha] at hsf
                obtain rfl : sf = sf2 := by injection hsf
                exact absurd hpft2 hpft
              · exact ⟨hr, sf2, nf2, hsf, hnf, hck2, hpft2⟩

/-- Membership in the unchanged list of the common-id split. -/
theorem mem_splitChanged_unchanged (s n : Assoc SFile) :
    ∀ (l : List String) (fid : String),
    fid ∈ (splitChanged s n l).2.2.1 ↔
      fid ∈ l ∧ ∃ sf nf, alookup s fid = some sf ∧ alookup n fid = some nf ∧
        sf.checksum = nf.checksum := by
  intro l
  induction l with
  | nil => intro fid; simp [splitChanged]
  | cons a rest ih =>
    intro fid
    simp only [splitChanged]
    cases ha : alookup s a with
    | none =>
      simp only [List.mem_cons, ih]
      constructor
      · rintro ⟨hr, h⟩
        exact ⟨Or.inr hr, h⟩
      · rintro ⟨rfl | hr, sf, nf, hsf, h⟩
        · rw [ha] at hsf
          cases hsf
        · exact ⟨hr, sf, nf, hsf, h⟩
    | some sf =>
      cases hn : alookup n a with
      | none =>
        simp only [List.mem_cons, ih]
        constructor
        · rintro ⟨hr, h⟩
          exact ⟨Or.inr hr, h⟩
        · rintro ⟨rfl | hr, sf2, nf, hsf, hnf, h⟩
          · rw [hn] at hnf
            cases hnf
          · exact ⟨hr, sf2, nf, hsf, hnf, h⟩
      | some nf =>
        by_cases hck : sf.checksum = nf.checksum
        · simp only [if_pos hck, List.mem_cons, ih]
          constructor
          · rintro (rfl | ⟨hr, h⟩)
            · exact ⟨Or.inl rfl, sf, nf, ha, hn, hck⟩
            · exact ⟨Or.inr hr, h⟩
          · rintro ⟨rfl | hr, h⟩
            · exact Or.inl rfl
            · exact Or.inr ⟨hr, h⟩
        · simp only [if_neg hck]
          have htail : ∀ p : List String × List String × List String × Bool,
              fid ∈ (if sf.pft = PFT.schema then (p.1, a :: p.2.1, p.2.2.1, p.2.2.2)
                else (a :: p.1, p.2.1, p.2.2.1, isMg sf.pft || p.2.2.2)).2.2.1 ↔
              fid ∈ p.2.2.1 := by
            intro p
            split <;> rfl
          rw [htail]
          rw [ih]
          simp only [List.mem_cons]
          constructor
          · rintro ⟨hr, h⟩
            exact ⟨Or.inr hr, h⟩
          · rintro ⟨rfl | hr, sf2, nf2, hsf, hnf, hck2⟩
            · rw [ha] at hsf
              rw [hn] at hnf
              obtain rfl : sf = sf2 := by injection hsf
              obtain rfl : nf = nf2 := by injection hnf
              exact absurd hck2 hck
            · exact ⟨hr, sf2, nf2, hsf, hnf, hck2⟩

/-- Membership after the env-var augmentation loop. -/
theorem mem_augmentChanged (del : List String) :
    ∀ (env changed : List String) (fid : String),
    fid ∈ augmentChanged del changed env ↔
      fid ∈ changed ∨ (fid ∈ env ∧ fid ∉ del) := by
  intro env
  induction env with
  | nil => intro changed fid; simp [augmentChanged]
  | cons a rest ih =>
    intro changed fid
    simp only [augmentChanged]
    split
    · rename_i hcond
      rw [ih]
      constructor
      · rintro (hc | ⟨hr, hd⟩)
        · exact Or.inl hc
        · exact Or.inr ⟨List.mem_cons_of_mem _ hr, hd⟩
      · rintro (hc | ⟨ha, hd⟩)
        · exact Or.inl hc
        · rcases List.mem_cons.mp ha with rfl | hr
          · rcases hcond with hdel | hch
            · exact absurd hdel hd
            · exact Or.inl hch
          · exact Or.inr ⟨hr, hd⟩
    · rename_i hcond
      push_neg at hcond
      rw [ih]
      constructor
      · rintro (hc | ⟨hr, hd⟩)
        · rcases List.mem_append.mp hc with hc1 | hc2
          · exact Or.inl hc1
          · rw [List.mem_singleton] at hc2
            subst hc2
            exact Or.inr ⟨List.mem_cons_self _ _, hcond.1⟩
        · exact Or.inr ⟨List.mem_cons_of_mem _ hr, hd⟩
      · rintro (hc | ⟨ha2, hd⟩)
        · exact Or.inl (List.mem_append.mpr (Or.inl hc))
        · rcases List.mem_cons.mp ha2 with rfl | hr
          · exact Or.inl (List.mem_append.mpr (Or.inr (List.mem_singleton.mpr rfl)))
          · exact Or.inr ⟨hr, hd⟩

end PP

namespace PP

theorem amem_eq_false_iff {α : Type} (m : Assoc α) (k : String) :
    amem m k = false ↔ alookup m k = none := by
  cases h : alookup m k <;> simp [amem, h]

theorem amem_eq_true_iff {α : Type} (m : Assoc α) (k : String) :
    amem m k = true ↔ ∃ v, alookup m k = some v := by
  cases h : alookup m k <;> simp [amem, h]

theorem mem_diff_added (s n : Assoc SFile) (es : List String)
    (eh : Assoc (Assoc (List String))) (fid : String) :
    fid ∈ (buildFileDiff s n es eh).1.added ↔
      fid ∈ n.map Prod.fst ∧ alookup s fid = none := by
  simp only [buildFileDiff, List.mem_filter, Bool.not_eq_true', amem_eq_false_iff]

theorem mem_diff_deleted (s n : Assoc SFile) (es : List String)
    (eh : Assoc (Assoc (List String))) (fid : String) :
    fid ∈ (buildFileDiff s n es eh).1.deleted ↔
      (fid ∈ s.map Prod.fst ∧ alookup n fid = none) ∧
        ∃ sf, alookup s fid = some sf ∧ sf.pft ≠ PFT.schema := by
  simp only [buildFileDiff]
  rw [mem_splitDeleted_snd]
  simp only [List.mem_filter, Bool.not_eq_true', amem_eq_false_iff]

theorem mem_diff_deleted_schema (s n : Assoc SFile) (es : List String)
    (eh : Assoc (Assoc (List String))) (fid : String) :
    fid ∈ (buildFileDiff s n es eh).1.deleted_schema_files ↔
      (fid ∈ s.map Prod.fst ∧ alookup n fid = none) ∧
        ∃ sf, alookup s fid = some sf ∧ sf.pft = PFT.schema := by
  simp only [buildFileDiff]
  rw [mem_splitDeleted_fst]
  simp only [List.mem_filter, Bool.not_eq_true', amem_eq_false_iff]

theorem mem_diff_changed (s n : Assoc SFile) (es : List String)
    (eh : Assoc (Assoc (List String))) (fid : String) :
    fid ∈ (buildFileDiff s n es eh).1.changed ↔
      (fid ∈ (s.map Prod.fst).filter (fun i => amem n i) ∧
        ∃ sf nf, alookup s fid = some sf ∧ alookup n fid = some nf ∧
          sf.checksum ≠ nf.checksum ∧ sf.pft ≠ PFT.schema) ∨
      (fid ∈ es ∧ fid ∉ (buildFileDiff s n es eh).1.deleted) := by
  simp only [buildFileDiff]
  rw [mem_augmentChanged, mem_splitChanged_changed]

theorem mem_diff_changed_schema (s n : Assoc SFile) (es : List String)
    (eh : Assoc (Assoc (List String))) (fid : String) :
    fid ∈ (buildFileDiff s n es eh).1.changed_schema_files ↔
      (fid ∈ (s.map Prod.fst).filter (fun i => amem n i) ∧
        ∃ sf nf, alookup s fid = some sf ∧ alookup n fid = some nf ∧
          sf.checksum ≠ nf.checksum ∧ sf.pft = PFT.schema) ∨
      (fid ∈ eh.map Prod.fst ∧
        fid ∉ (buildFileDiff s n es eh).1.deleted_schema_files) := by
  simp only [buildFileDiff]
  rw [mem_augmentChanged, mem_splitChanged_schema]

theorem mem_diff_unchanged (s n : Assoc SFile) (es : List String)
    (eh : Assoc (Assoc (List String))) (fid : String) :
    fid ∈ (buildFileDiff s n es eh).1.unchanged ↔
      fid ∈ (s.map Prod.fst).filter (fun i => amem n i) ∧
        ∃ sf nf, alookup s fid = some sf ∧ alookup n fid = some nf ∧
          sf.checksum = nf.checksum := by
  simp only [buildFileDiff]
  rw [mem_splitChanged_unchanged]

end PP

namespace PP

/-- Two id lists with no common member. -/
def Disj (xs ys : List String) : Prop := ∀ fid, fid ∈ xs → fid ∈ ys → False

/-- C3, amended: of the six diff sets, all pairs are disjoint except that
the env-var augmentation may put a file id that is also `unchanged` (equal
checksums) into `changed` or `changed_schema_files`.  The hypotheses say
that the env-var scan lists only refer to saved source files of the
matching parse kind, which is how `build_env_vars_to_files` produces them. -/
theorem C3_diff_disjointness (s n : Assoc SFile) (es : List String)
    (eh : Assoc (Assoc (List String)))
    (hsrc : ∀ fid ∈ es, ∃ sf, alookup s fid = some sf ∧ sf.pft ≠ PFT.schema)
    (hsch : ∀ fid ∈ eh.map Prod.fst, ∃ sf, alookup s fid = some sf ∧ sf.pft = PFT.schema) :
    Disj (buildFileDiff s n es eh).1.added (buildFileDiff s n es eh).1.deleted ∧
    Disj (buildFileDiff s n es eh).1.added (buildFileDiff s n es eh).1.deleted_schema_files ∧
    Disj (buildFileDiff s n es eh).1.added (buildFileDiff s n es eh).1.changed ∧
    Disj (buildFileDiff s n es eh).1.added (buildFileDiff s n es eh).1.changed_schema_files ∧
    Disj (buildFileDiff s n es eh).1.added (buildFileDiff s n es eh).1.unchanged ∧
    Disj (buildFileDiff s n es eh).1.deleted (buildFileDiff s n es eh).1.deleted_schema_files ∧
    Disj (buildFileDiff s n es eh).1.deleted (buildFileDiff s n es eh).1.changed ∧
    Disj (buildFileDiff s n es eh).1.deleted (buildFileDiff s n es eh).1.changed_schema_files ∧
    Disj (buildFileDiff s n es eh).1.deleted (buildFileDiff s n es eh).1.unchanged ∧
    Disj (buildFileDiff s n es eh).1.deleted_schema_files (buildFileDiff s n es eh).1.changed ∧
    Disj (buildFileDiff s n es eh).1.deleted_schema_files (buildFileDiff s n es eh).1.changed_schema_files ∧
    Disj (buildFileDiff s n es eh).1.deleted_schema_files (buildFileDiff s n es eh).1.unchanged ∧
    Disj (buildFileDiff s n es eh).1.changed (buildFileDiff s n es eh).1.changed_schema_files := by
  refine ⟨?_, ?_, ?_, ?_, ?_, ?_, ?_, ?_, ?_, ?_, ?_, ?_, ?_⟩
  · intro fid hx hy
    obtain ⟨-, hnone⟩ := (mem_diff_added s n es eh fid).mp hx
    obtain ⟨-, sf, hs, -⟩ := (mem_diff_deleted s n es eh fid).mp hy
    rw [hnone] at hs
    cases hs
  · intro fid hx hy
    obtain ⟨-, hnone⟩ := (mem_diff_added s n es eh fid).mp hx
    obtain ⟨-, sf, hs, -⟩ := (mem_diff_deleted_schema s n es eh fid).mp hy
    rw [hnone] at hs
    cases hs
  · intro fid hx hy
    obtain ⟨-, hnone⟩ := (mem_diff_added s n es eh fid).mp hx
    rcases (mem_diff_changed s n es eh fid).mp hy with ⟨-, sf, nf, hs, -⟩ | ⟨hes, -⟩
    · rw [hnone] at hs
      cases hs
    · obtain ⟨sf, hs, -⟩ := hsrc fid hes
      rw [hnone] at hs
      cases hs
  · intro fid hx hy
    obtain ⟨-, hnone⟩ := (mem_diff_added s n es eh fid).mp hx
    rcases (mem_diff_changed_schema s n es eh fid).mp hy with ⟨-, sf, nf, hs, -⟩ | ⟨heh, -⟩
    · rw [hnone] at hs
      cases hs
    · obtain ⟨sf, hs, -⟩ := hsch fid heh
      rw [hnone] at hs
      cases hs
  · intro fid hx hy
    obtain ⟨-, hnone⟩ := (mem_diff_added s n es eh fid).mp hx
    obtain ⟨-, sf, nf, hs, -⟩ := (mem_diff_unchanged s n es eh fid).mp hy
    rw [hnone] at hs
    cases hs
  · intro fid hx hy
    obtain ⟨-, sf, hs, hnsch⟩ := (mem_diff_deleted s n es eh fid).mp hx
    obtain ⟨-, sf2, hs2, hsch2⟩ := (mem_diff_deleted_schema s n es eh fid).mp hy
    rw [hs] at hs2
    obtain rfl : sf = sf2 := by injection hs2
    exact hnsch hsch2
  · intro fid hx hy
    obtain ⟨⟨-, hnnone⟩, -⟩ := (mem_diff_deleted s n es eh fid).mp hx
    rcases (mem_diff_changed s n es eh fid).mp hy with ⟨-, sf, nf, -, hn2, -⟩ | ⟨-, hnd⟩
    · rw [hnnone] at hn2
      cases hn2
    · exact hnd hx
  · intro fid hx hy
    obtain ⟨⟨-, hnnone⟩, sf, hs, hnsch⟩ := (mem_diff_deleted s n es eh fid).mp hx
    rcases (mem_diff_changed_schema s n es eh fid).mp hy with ⟨-, sf2, nf, -, hn2, -⟩ | ⟨heh, -⟩
    · rw [hnnone] at hn2
      cases hn2
    · obtain ⟨sf2, hs2, hsch2⟩ := hsch fid heh
      rw [hs] at hs2
      obtain rfl : sf = sf2 := by injection hs2
      exact hnsch hsch2
  · intro fid hx hy
    obtain ⟨⟨-, hnnone⟩, -⟩ := (mem_diff_deleted s n es eh fid).mp hx
    obtain ⟨-, sf, nf, -, hn2, -⟩ := (mem_diff_unchanged s n es eh fid).mp hy
    rw [hnnone] at hn2
    cases hn2
  · intro fid hx hy
    obtain ⟨⟨-, hnnone⟩, sf, hs, hsch2⟩ := (mem_diff_deleted_schema s n es eh fid).mp hx
    rcases (mem_diff_changed s n es eh fid).mp hy with ⟨-, sf2, nf, -, hn2, -⟩ | ⟨hes, -⟩
    · rw [hnnone] at hn2
      cases hn2
    · obtain ⟨sf2, hs2, hnsch2⟩ := hsrc fid hes
      rw [hs] at hs2
      obtain rfl : sf = sf2 := by injection hs2
      exact hnsch2 hsch2
  · intro fid hx hy
    obtain ⟨⟨-, hnnone⟩, -⟩ := (mem_diff_deleted_schema s n es eh fid).mp hx
    rcases (mem_diff_changed_schema s n es eh fid).mp hy with ⟨-, sf, nf, -, hn2, -⟩ | ⟨-, hnds⟩
    · rw [hnnone] at hn2
      cases hn2
    · exact hnds hx
  · intro fid hx hy
    obtain ⟨⟨-, hnnone⟩, -⟩ := (mem_diff_deleted_schema s n es eh fid).mp hx
    obtain ⟨-, sf, nf, -, hn2, -⟩ := (mem_diff_unchanged s n es eh fid).mp hy
    rw [hnnone] at hn2
    cases hn2
  · intro fid hx hy
    have hxs : ∃ sf, alookup s fid = some sf ∧ sf.pft ≠ PFT.schema := by
      rcases (mem_diff_changed s n es eh fid).mp hx with ⟨-, sf, nf, hs, -, -, hnsch⟩ | ⟨hes, -⟩
      · exact ⟨sf, hs, hnsch⟩
      · exact hsrc fid hes
    have hys : ∃ sf, alookup s fid = some sf ∧ sf.pft = PFT.schema := by
      rcases (mem_diff_changed_schema s n es eh fid).mp hy with ⟨-, sf, nf, hs, -, -, hsch2⟩ | ⟨heh, -⟩
      · exact ⟨sf, hs, hsch2⟩
      · exact hsch fid heh
    obtain ⟨sfx, hsx, hnschx⟩ := hxs
    obtain ⟨sfy, hsy, hschy⟩ := hys
    rw [hsx] at hsy
    obtain rfl : sfx = sfy := by injection hsy
    exact hnschx hschy

/-- Counterexample scenario for C3: one saved source file, unchanged on
disk, whose recorded env vars changed. -/
def c3file : SFile := { blankFile with file_id := "proj://m1.sql", checksum := 1 }

def c3saved : Assoc SFile := [("proj://m1.sql", c3file)]

/-- C3 counterexample: an env-var-affected file with an unchanged checksum
lands in both `changed` and `unchanged`, so the six sets are not pairwise
disjoint as claimed. -/
theorem C3_disjointness_counterexample :
    "proj://m1.sql" ∈ (buildFileDiff c3saved c3saved ["proj://m1.sql"] []).1.changed ∧
    "proj://m1.sql" ∈ (buildFileDiff c3saved c3saved ["proj://m1.sql"] []).1.unchanged := by
  decide

theorem C3_diff_disjointness_witness :
    Disj (buildFileDiff c3saved c3saved ["proj://m1.sql"] []).1.added
      (buildFileDiff c3saved c3saved ["proj://m1.sql"] []).1.deleted :=
  (C3_diff_disjointness c3saved c3saved ["proj://m1.sql"] []
    (by
      intro fid hf
      rw [List.mem_singleton] at hf
      subst hf
      exact ⟨c3file, rfl, by decide⟩)
    (by
      intro fid hf
      simp at hf)).1

end PP

namespace PP

theorem isMg_ne_schema {t : PFT} (h : isMg t = true) : t ≠ PFT.schema := by
  cases t <;> simp_all [isMg]

/-- The deleted split raises its flag exactly for a deleted macro or
generic-test file. -/
theorem splitDeleted_flag (s : Assoc SFile) :
    ∀ l : List String,
    (splitDeleted s l).2.2 = true ↔
      ∃ fid ∈ l, ∃ sf, alookup s fid = some sf ∧ isMg sf.pft = true := by
  intro l
  induction l with
  | nil => simp [splitDeleted]
  | cons a rest ih =>
    simp only [splitDeleted]
    cases ha : alookup s a with
    | none =>
      rw [ih]
      constructor
      · rintro ⟨fid, hr, h⟩
        exact ⟨fid, List.mem_cons_of_mem _ hr, h⟩
      · rintro ⟨fid, hf, sf, hs, hmg⟩
        rcases List.mem_cons.mp hf with rfl | hr
        · rw [ha] at hs
          cases hs
        · exact ⟨fid, hr, sf, hs, hmg⟩
    | some sf =>
      by_cases hpft : sf.pft = PFT.schema
      · simp only [if_pos hpft]
        rw [ih]
        constructor
        · rintro ⟨fid, hr, h⟩
          exact ⟨fid, List.mem_cons_of_mem _ hr, h⟩
        · rintro ⟨fid, hf, sf2, hs, hmg⟩
          rcases List.mem_cons.mp hf with rfl | hr
          · rw [ha] at hs
            obtain rfl : sf = sf2 := by injection hs
            exact absurd hpft (isMg_ne_schema hmg)
          · exact ⟨fid, hr, sf2, hs, hmg⟩
      · simp only [if_neg hpft, Bool.or_eq_true]
        rw [ih]
        constructor
        · rintro (hmg | ⟨fid, hr, h⟩)
          · exact ⟨a, List.mem_cons_self _ _, sf, ha, hmg⟩
          · exact ⟨fid, List.mem_cons_of_mem _ hr, h⟩
        · rintro ⟨fid, hf, sf2, hs, hmg⟩
          rcases List.mem_cons.mp hf with rfl | hr
          · rw [ha] at hs
            obtain rfl : sf = sf2 := by injection hs
            exact Or.inl hmg
          · exact Or.inr ⟨fid, hr, sf2, hs, hmg⟩

/-- The common-id split raises its flag exactly for a checksum-changed
macro or generic-test file. -/
theorem splitChanged_flag (s n : Assoc SFile) :
    ∀ l : List String,
    (splitChanged s n l).2.2.2 = true ↔
      ∃ fid ∈ l, ∃ sf nf, alookup s fid = some sf ∧ alookup n fid = some nf ∧
        sf.checksum ≠ nf.checksum ∧ isMg sf.pft = true := by
  intro l
  induction l with
  | nil => simp [splitChanged]
  | cons a rest ih =>
    simp only [splitChanged]
    cases ha : alookup s a with
    | none =>
      rw [ih]
      constructor
      · rintro ⟨fid, hr, h⟩
        exact ⟨fid, List.mem_cons_of_mem _ hr, h⟩
      · rintro ⟨fid, hf, sf, nf, hs, h⟩
        rcases List.mem_cons.mp hf with rfl | hr
        · rw [ha] at hs
          cases hs
        · exact ⟨fid, hr, sf, nf, hs, h⟩
    | some sf =>
      cases hn : alookup n a with
      | none =>
        rw [ih]
        constructor
        · rintro ⟨fid, hr, h⟩
          exact ⟨fid, List.mem_cons_of_mem _ hr, h⟩
        · rintro ⟨fid, hf, sf2, nf, hs, hn2, h⟩
          rcases List.mem_cons.mp hf with rfl | hr
          · rw [hn] at hn2
            cases hn2
          · exact ⟨fid, hr, sf2, nf, hs, hn2, h⟩
      | some nf =>
        by_cases hck : sf.checksum = nf.checksum
        · simp only [if_pos hck]
          rw [ih]
          constructor
          · rintro ⟨fid, hr, h⟩
            exact ⟨fid, List.mem_cons_of_mem _ hr, h⟩
          · rintro ⟨fid, hf, sf2, nf2, hs, hn2, hck2, hmg⟩
            rcases List.mem_cons.mp hf with rfl | hr
            · rw [ha] at hs
              rw [hn] at hn2
              obtain rfl : sf = sf2 := by injection hs
              obtain rfl : nf = nf2 := by injection hn2
              exact absurd hck hck2
            · exact ⟨fid, hr, sf2, nf2, hs, hn2, hck2, hmg⟩
        · simp only [if_neg hck]
          by_cases hpft : sf.pft = PFT.schema
          · simp only [if_pos hpft]
            rw [ih]
            constructor
            · rintro ⟨fid, hr, h⟩
              exact ⟨fid, List.mem_cons_of_mem _ hr, h⟩
            · rintro ⟨fid, hf, sf2, nf2, hs, hn2, hck2, hmg⟩
              rcases List.mem_cons.mp hf with rfl | hr
              · rw [ha] at hs
                obtain rfl : sf = sf2 := by injection hs
                exact absurd hpft (isMg_ne_schema hmg)
              · exact ⟨fid, hr, sf2, nf2, hs, hn2, hck2, hmg⟩
          · simp only [if_neg hpft, Bool.or_eq_true]
            rw [ih]
            constructor
            · rintro (hmg | ⟨fid, hr, h⟩)
              · exact ⟨a, List.mem_cons_self _ _, sf, nf, ha, hn, hck, hmg⟩
              · exact ⟨fid, List.mem_cons_of_mem _ hr, h⟩
            · rintro ⟨fid, hf, sf2, nf2, hs, hn2, hck2, hmg⟩
              rcases List.mem_cons.mp hf with rfl | hr
              · rw [ha] at hs
                rw [hn] at hn2
                obtain rfl : sf = sf2 := by injection hs
                obtain rfl : nf = nf2 := by injection hn2
                exact Or.inl hmg
              · exact Or.inr ⟨fid, hr, sf2, nf2, hs, hn2, hck2, hmg⟩

end PP

namespace PP

/-- C8, amended: `changed_or_deleted_macro_file` is computed from the
deleted files and the checksum-differing common files only — a macro or
generic-test file that enters `changed` through the env-var augmentation
does not raise it — and `macro_child_map` is built at engine construction
exactly when the flag is raised. -/
theorem C8_macro_flag (s n : Assoc SFile) (es : List String)
    (eh : Assoc (Assoc (List String))) :
    ((buildFileDiff s n es eh).2 = true ↔
      (∃ fid ∈ (buildFileDiff s n es eh).1.deleted,
        ∃ sf, alookup s fid = some sf ∧ isMg sf.pft = true) ∨
      (∃ fid ∈ (s.map Prod.fst).filter (fun i => amem n i),
        ∃ sf nf, alookup s fid = some sf ∧ alookup n fid = some nf ∧
          sf.checksum ≠ nf.checksum ∧ isMg sf.pft = true)) ∧
    (∀ saved newFiles ge bm, (initPP saved newFiles ge bm).macroChildMap =
      (if (buildFileDiff (buildEnvVarsToFiles ge saved).1.files newFiles
            (buildEnvVarsToFiles ge saved).2.1 (buildEnvVarsToFiles ge saved).2.2).2
       then bm (buildEnvVarsToFiles ge saved).1 else [])) := by
  constructor
  · constructor
    · intro hflag
      have : (splitDeleted s ((s.map Prod.fst).filter (fun i => !amem n i))).2.2 = true ∨
          (splitChanged s n ((s.map Prod.fst).filter (fun i => amem n i))).2.2.2 = true := by
        simpa [buildFileDiff, Bool.or_eq_true] using hflag
      rcases this with hd | hc
      · rw [splitDeleted_flag] at hd
        obtain ⟨fid, hall, sf, hs, hmg⟩ := hd
        refine Or.inl ⟨fid, ?_, sf, hs, hmg⟩
        rw [mem_diff_deleted]
        simp only [List.mem_filter, Bool.not_eq_true', amem_eq_false_iff] at hall
        exact ⟨hall, sf, hs, isMg_ne_schema hmg⟩
      · rw [splitChanged_flag] at hc
        exact Or.inr hc
    · intro h
      have hgoal : (splitDeleted s ((s.map Prod.fst).filter (fun i => !amem n i))).2.2 = true ∨
          (splitChanged s n ((s.map Prod.fst).filter (fun i => amem n i))).2.2.2 = true := by
        rcases h with ⟨fid, hdel, sf, hs, hmg⟩ | hc
        · left
          rw [splitDeleted_flag]
          rw [mem_diff_deleted] at hdel
          refine ⟨fid, ?_, sf, hs, hmg⟩
          simp only [List.mem_filter, Bool.not_eq_true', amem_eq_false_iff]
          exact hdel.1
        · right
          rw [splitChanged_flag]
          exact hc
      simpa [buildFileDiff, Bool.or_eq_true] using hgoal
  · intro saved newFiles ge bm
    rfl

/-- Counterexample scenario for C8: a macro file present and byte-identical
in saved and new, whose recorded env var changed under the process
environment. -/
def c8sfv : SFile :=
  { blankFile with
    file_id := "proj://macros.sql",
    pft := PFT.macroFile,
    checksum := 1,
    env_vars := ["V"] }

def c8manifest : Manifest :=
  { blankManifest with
    files := [("proj://macros.sql", c8sfv)],
    envVars := [("V", "old")] }

def c8st : PState :=
  initPP c8manifest [("proj://macros.sql", c8sfv)]
    (fun v => if v = "V" then some "new" else none)
    (fun _ => [("macro.my_pkg.m", ["model.proj.m1"])])

/-- C8 counterexample: the env-var cascade puts a macro file into the final
`changed` set, yet `changed_or_deleted_macro_file` stays false and
`macro_child_map` is not built. -/
theorem C8_macro_flag_counterexample :
    "proj://macros.sql" ∈ c8st.fileDiff.changed ∧
    alookup c8st.saved.files "proj://macros.sql" = some c8sfv ∧
    isMg c8sfv.pft = true ∧
    c8st.fileDiff.deleted = [] ∧
    c8st.macroChildMap = [] := by
  decide

end PP

namespace PP

/-- A file reported as already scheduled is in the plan. -/
theorem alreadyScheduled_planMem (st : PState) (f : SFile)
    (h : alreadyScheduled st f = true) :
    planMem st f.project_name (parserNameOf f.pft) f.file_id := by
  unfold alreadyScheduled at h
  split at h
  · cases h
  · rename_i pm hpm
    split at h
    · cases h
    · rename_i lst hlst
      exact ⟨pm, lst, hpm, hlst, of_decide_eq_true h⟩

/-- `add_to_pp_files` leaves the file id in the plan whenever the id is not
in a deleted diff set. -/
theorem addToPpFiles_plans {st : PState} {f : SFile} {st' : PState}
    (h : addToPpFiles st f = .ok st')
    (hd : f.file_id ∉ st.fileDiff.deleted)
    (hds : f.file_id ∉ st.fileDiff.deleted_schema_files) :
    planMem st' f.project_name (parserNameOf f.pft) f.file_id := by
  have he := addToPpFiles_ok_elim h
  subst he
  refine ⟨_, _, alookup_aset_self _ _ _, alookup_aset_self _ _ _, ?_⟩
  by_cases hc : addCond st f
  · rw [if_pos hc]
    exact List.mem_append_right _ (List.mem_singleton.mpr rfl)
  · rw [if_neg hc]
    unfold addCond at hc
    push_neg at hc
    exact not_not.mp (fun hmem => absurd (hc hmem hd) hds)

/-- Free the plan membership of a step's target state. -/
theorem planMem_of_stepOK {st st' : PState} (h : StepOK st st')
    {p q fid : String} (hm : planMem st p q fid) : planMem st' p q fid := by
  obtain ⟨-, -, -, -, -, -, -, hp, -⟩ := h
  exact hp p q fid hm

theorem updateMssatInSaved_plans (n : Nat) (new old : SFile) (st st' : PState)
    (hid : old.file_id = new.file_id)
    (hd : new.file_id ∉ st.fileDiff.deleted)
    (hds : new.file_id ∉ st.fileDiff.deleted_schema_files)
    (h : updateMssatInSaved (n+1) new old st = .ok st') :
    ∃ p q, planMem st' p q new.file_id := by
  simp only [updateMssatInSaved] at h
  split at h
  · rename_i hsched
    cases h
    exact ⟨_, _, hid ▸ alreadyScheduled_planMem st old hsched⟩
  · rw [bind_ok] at h
    obtain ⟨s2, h2, h⟩ := h
    have hpm := addToPpFiles_plans h2 hd hds
    have hstep := stepOK_foldME
      (fun s a s' hb => (stepAll n).rnis _ _ _ _ hb) h
    exact ⟨_, _, planMem_of_stepOK hstep hpm⟩

theorem updateMacroInSaved_plans (n : Nat) (new old : SFile) (st st' : PState)
    (hid : old.file_id = new.file_id)
    (hd : new.file_id ∉ st.fileDiff.deleted)
    (hds : new.file_id ∉ st.fileDiff.deleted_schema_files)
    (h : updateMacroInSaved (n+1) new old st = .ok st') :
    ∃ p q, planMem st' p q new.file_id := by
  simp only [updateMacroInSaved] at h
  split at h
  · rename_i hsched
    cases h
    exact ⟨_, _, hid ▸ alreadyScheduled_planMem st old hsched⟩
  · rw [bind_ok] at h
    obtain ⟨s1, h1, h⟩ := h
    obtain ⟨-, hdf, -⟩ := (stepAll n).hmfl _ _ _ _ h1
    refine ⟨_, _, addToPpFiles_plans h ?_ ?_⟩
    · show new.file_id ∉ (putFile s1 new.file_id new).fileDiff.deleted
      rw [show (putFile s1 new.file_id new).fileDiff = s1.fileDiff from rfl, hdf]
      exact hd
    · show new.file_id ∉ (putFile s1 new.file_id new).fileDiff.deleted_schema_files
      rw [show (putFile s1 new.file_id new).fileDiff = s1.fileDiff from rfl, hdf]
      exact hds

theorem updateDocInSaved_plans (n : Nat) (new old : SFile) (st st' : PState)
    (hid : old.file_id = new.file_id)
    (hd : new.file_id ∉ st.fileDiff.deleted)
    (hds : new.file_id ∉ st.fileDiff.deleted_schema_files)
    (h : updateDocInSaved (n+1) new old st = .ok st') :
    ∃ p q, planMem st' p q new.file_id := by
  simp only [updateDocInSaved] at h
  split at h
  · rename_i hsched
    cases h
    exact ⟨_, _, hid ▸ alreadyScheduled_planMem st old hsched⟩
  · rw [bind_ok] at h
    obtain ⟨s1, h1, h⟩ := h
    obtain ⟨-, hdf, -⟩ := (stepAll n).ddn _ _ _ h1
    refine ⟨_, _, addToPpFiles_plans h ?_ ?_⟩
    · show new.file_id ∉ (putFile s1 new.file_id new).fileDiff.deleted
      rw [show (putFile s1 new.file_id new).fileDiff = s1.fileDiff from rfl, hdf]
      exact hd
    · show new.file_id ∉ (putFile s1 new.file_id new).fileDiff.deleted_schema_files
      rw [show (putFile s1 new.file_id new).fileDiff = s1.fileDiff from rfl, hdf]
      exact hds

theorem updateFixtureInSaved_plans (n : Nat) (new old : SFile) (st st' : PState)
    (hid : old.file_id = new.file_id)
    (hd : new.file_id ∉ st.fileDiff.deleted)
    (hds : new.file_id ∉ st.fileDiff.deleted_schema_files)
    (h : updateFixtureInSaved (n+1) new old st = .ok st') :
    ∃ p q, planMem st' p q new.file_id := by
  simp only [updateFixtureInSaved] at h
  split at h
  · rename_i hsched
    cases h
    exact ⟨_, _, hid ▸ alreadyScheduled_planMem st old hsched⟩
  · rw [bind_ok] at h
    obtain ⟨s1, h1, h⟩ := h
    obtain ⟨-, hdf, -⟩ := (stepAll n).dfn _ _ _ h1
    refine ⟨_, _, addToPpFiles_plans h ?_ ?_⟩
    · show new.file_id ∉ (putFile s1 new.file_id new).fileDiff.deleted
      rw [show (putFile s1 new.file_id new).fileDiff = s1.fileDiff from rfl, hdf]
      exact hd
    · show new.file_id ∉ (putFile s1 new.file_id new).fileDiff.deleted_schema_files
      rw [show (putFile s1 new.file_id new).fileDiff = s1.fileDiff from rfl, hdf]
      exact hds

/-- `update_in_saved` on a changed file whose map keys agree with its
`file_id` field ends with that id in the plan. -/
theorem updateInSaved_plans (n : Nat) (fid : String) (st st' : PState) (nf oldf : SFile)
    (hnew : alookup st.newFiles fid = some nf)
    (hnid : nf.file_id = fid)
    (hold : alookup st.saved.files fid = some oldf)
    (hoid : oldf.file_id = fid)
    (hd : fid ∉ st.fileDiff.deleted)
    (hds : fid ∉ st.fileDiff.deleted_schema_files)
    (h : updateInSaved (n+2) fid st = .ok st') :
    ∃ p q, planMem st' p q fid := by
  simp only [updateInSaved] at h
  rw [bind_ok] at h
  obtain ⟨nf2, hnf2, h⟩ := h
  rw [getE_ok] at hnf2
  rw [hnew] at hnf2
  obtain rfl : nf = nf2 := by injection hnf2
  rw [bind_ok] at h
  obtain ⟨oldf2, hold2, h⟩ := h
  rw [getFileE, getE_ok] at hold2
  rw [hold] at hold2
  obtain rfl : oldf = oldf2 := by injection hold2
  have hid : oldf.file_id = nf.file_id := by rw [hoid, hnid]
  split at h
  · exact hnid ▸ updateMssatInSaved_plans n nf oldf st st' hid
      (hnid.symm ▸ hd) (hnid.symm ▸ hds) h
  · split at h
    · exact hnid ▸ updateMacroInSaved_plans n nf oldf st st' hid
        (hnid.symm ▸ hd) (hnid.symm ▸ hds) h
    · split at h
      · exact hnid ▸ updateDocInSaved_plans n nf oldf st st' hid
          (hnid.symm ▸ hd) (hnid.symm ▸ hds) h
      · split at h
        · exact hnid ▸ updateFixtureInSaved_plans n nf oldf st st' hid
            (hnid.symm ▸ hd) (hnid.symm ▸ hds) h
        · cases h

end PP

namespace PP

/-- Membership in the source-file list of the env scan. -/
theorem scan_fst_mem (cv : List String) (fid : String) :
    ∀ (files : Assoc SFile) (acc : List String × Assoc (Assoc (List String))),
    fid ∈ (files.foldl (envScanStep cv) acc).1 ↔
      fid ∈ acc.1 ∨ ∃ p ∈ files, p.2.pft ≠ PFT.fixture ∧ p.2.pft ≠ PFT.schema ∧
        p.2.file_id = fid ∧ p.2.env_vars.any (fun v => decide (v ∈ cv)) = true := by
  intro files
  induction files with
  | nil => intro acc; simp
  | cons kv rest ih =>
    intro acc
    rw [List.foldl_cons, ih, List.exists_mem_cons_iff]
    simp only [envScanStep]
    by_cases h1 : kv.2.pft = PFT.fixture
    · simp [h1]
    · by_cases h2 : kv.2.pft = PFT.schema
      · by_cases h3 : kv.2.env_vars_yaml = []
        · simp [h1, h2, h3]
        · simp [h1, h2, h3]
      · by_cases h3 : kv.2.env_vars = []
        · simp [h1, h2, h3]
        · by_cases h4 : kv.2.env_vars.any (fun v => decide (v ∈ cv)) = true
          · simp only [if_neg h1, if_neg h2, if_neg h3, if_pos h4]
            simp only [List.mem_append, List.mem_singleton]
            constructor
            · rintro ((hacc | rfl) | hx)
              · exact Or.inl hacc
              · exact Or.inr (Or.inl ⟨h1, h2, rfl, h4⟩)
              · exact Or.inr (Or.inr hx)
            · rintro (hacc | (⟨-, -, hfid, -⟩ | hx))
              · exact Or.inl (Or.inl hacc)
              · exact Or.inl (Or.inr hfid.symm)
              · exact Or.inr hx
          · simp [h1, h2, h3, h4]

/-- C6, amended: the env-var cascade holds for non-fixture files.  The
scan of `build_env_vars_to_files` lists exactly the saved non-fixture
non-schema files with a changed recorded env var; any listed file that is
also in the new map is in the final `changed` diff set; `update_in_saved`
on a changed file (keys agreeing with `file_id`, id not deleted) ends with
the id in the plan; and plan membership persists to the end of a run of
`get_parsing_files`.  Fixture files are skipped by the scan — see the
counterexample — so the claim's "every saved file" is amended to every
saved non-fixture file (schema files cascade through the separate
yaml-keyed record instead of the flat `env_vars` list). -/
theorem C6_env_cascade :
    (∀ ge m fid, fid ∈ (buildEnvVarsToFiles ge m).2.1 ↔
      ∃ p ∈ m.files, p.2.pft ≠ PFT.fixture ∧ p.2.pft ≠ PFT.schema ∧
        p.2.file_id = fid ∧
        p.2.env_vars.any
          (fun v => decide (v ∈ (classifyEnvVars ge m.envVars).1)) = true) ∧
    (∀ s n es eh fid nf, fid ∈ es → alookup n fid = some nf →
      fid ∈ (buildFileDiff s n es eh).1.changed) ∧
    (∀ n fid st st' nf oldf,
      alookup st.newFiles fid = some nf → nf.file_id = fid →
      alookup st.saved.files fid = some oldf → oldf.file_id = fid →
      fid ∉ st.fileDiff.deleted → fid ∉ st.fileDiff.deleted_schema_files →
      updateInSaved (n+2) fid st = .ok st' → ∃ p q, planMem st' p q fid) ∧
    (∀ n st pr p q fid, getParsingFiles n st = .ok pr →
      planMem st p q fid → planMem pr.2 p q fid) := by
  refine ⟨?_, ?_, ?_, ?_⟩
  · intro ge m fid
    simp only [buildEnvVarsToFiles]
    rw [scan_fst_mem]
    simp
  · intro s n es eh fid nf hes hn
    rw [mem_diff_changed]
    refine Or.inr ⟨hes, ?_⟩
    intro hdel
    rw [mem_diff_deleted] at hdel
    obtain ⟨⟨-, hnone⟩, -⟩ := hdel
    rw [hnone] at hn
    cases hn
  · intro n fid st st' nf oldf h1 h2 h3 h4 h5 h6 h
    exact updateInSaved_plans n fid st st' nf oldf h1 h2 h3 h4 h5 h6 h
  · intro n st pr p q fid h hm
    exact planMem_of_stepOK (getParsingFiles_step n st pr h).1 hm

/-- Counterexample scenario for C6: a fixture file, identical in saved and
new, whose recorded env var changed. -/
def c6f : SFile :=
  { blankFile with
    file_id := "proj://fix.csv",
    pft := PFT.fixture,
    checksum := 1,
    env_vars := ["V"] }

def c6m : Manifest :=
  { blankManifest with
    files := [("proj://fix.csv", c6f)],
    envVars := [("V", "old")] }

def c6ge : String → Option String := fun v => if v = "V" then some "new" else none

def c6st : PState := initPP c6m [("proj://fix.csv", c6f)] c6ge (fun _ => [])

/-- C6 counterexample: a fixture file with a changed recorded env var is
skipped by the env scan, so the planner skips entirely and the file never
reaches the plan. -/
theorem C6_env_cascade_counterexample :
    c6f.env_vars = ["V"] ∧
    (classifyEnvVars c6ge c6m.envVars).1 = ["V"] ∧
    alookup c6st.newFiles "proj://fix.csv" = some c6f ∧
    alookup c6st.saved.files "proj://fix.csv" = some c6f ∧
    (buildEnvVarsToFiles c6ge c6m).2.1 = [] ∧
    getParsingFiles 5 c6st = .ok ([], c6st) :=
  ⟨rfl, rfl, rfl, rfl, rfl, rfl⟩

end PP

namespace PP

/-! ### A store model of the YAML object graph for `get_diff_for`

`get_diff_for` returns element *objects*; the claim about it concerns
Python aliasing (`dict.copy()` is shallow), which the value-level
embedding above cannot express.  This section models YAML values as a heap
of objects addressed by natural numbers, so that sharing and in-place
mutation are visible. -/

/-- A Python object: leaves, or a list/dict of references into the store. -/
inductive PyObj where
  | pstr (s : String)
  | pint (n : Int)
  | plist (elems : List Nat)
  | pdict (fields : List (String × Nat))
deriving DecidableEq

/-- The object heap: address `a` holds `σ.get? a`. -/
abbrev Store := List PyObj

def storeGet (σ : Store) (a : Nat) : Option PyObj := σ.get? a

/-- The value tree reachable from an address, to state frame properties.
`tbad` marks a dangling reference or exhausted fuel. -/
inductive PyTree where
  | tstr (s : String)
  | tint (n : Int)
  | tlist (elems : List PyTree)
  | tdict (fields : List (String × PyTree))
  | tbad

def decode (σ : Store) : Nat → Nat → PyTree
  | 0, _ => .tbad
  | Nat.succ n, a =>
    match storeGet σ a with
    | none => .tbad
    | some (.pstr s) => .tstr s
    | some (.pint i) => .tint i
    | some (.plist es) => .tlist (es.map (decode σ n))
    | some (.pdict fs) => .tdict (fs.map (fun kv => (kv.1, decode σ n kv.2)))

/-- Every reference reachable from `a` within the fuel resolves. -/
def noTbad (σ : Store) : Nat → Nat → Bool
  | 0, _ => false
  | Nat.succ n, a =>
    match storeGet σ a with
    | none => false
    | some (.pstr _) => true
    | some (.pint _) => true
    | some (.plist es) => es.all (noTbad σ n)
    | some (.pdict fs) => fs.all (fun kv => noTbad σ n kv.2)

/-- Python structural equality `==` on decoded values: order-sensitive for
lists, key-based for dicts. -/
def pyEqT : Nat → PyTree → PyTree → Bool
  | 0, _, _ => false
  | Nat.succ _, .tstr a, .tstr b => a == b
  | Nat.succ _, .tint a, .tint b => a == b
  | Nat.succ n, .tlist as, .tlist bs =>
    as.length == bs.length && (as.zip bs).all (fun p => pyEqT n p.1 p.2)
  | Nat.succ n, .tdict fa, .tdict fb =>
    fa.all (fun kv =>
      match alookup fb kv.1 with
      | some b => pyEqT n kv.2 b
      | none => false) &&
    fb.all (fun kv => amem fa kv.1)
  | Nat.succ _, _, _ => false

/-- `element["name"]` of a stored element dict. -/
def getNameOf (σ : Store) (a : Nat) : M String :=
  match storeGet σ a with
  | some (.pdict fs) =>
    match alookup fs "name" with
    | some na =>
      match storeGet σ na with
      | some (.pstr s) => .ok s
      | _ => .error "TypeError: name is not a string"
    | none => .error "KeyError: name"
  | _ => .error "TypeError: element is not a dict"

/-- The section list under `key` of a stored yaml dict, with a flag for
`key in yaml_dict`. -/
def elementsOf (σ : Store) (da : Nat) (key : String) : M (List Nat × Bool) :=
  match storeGet σ da with
  | some (.pdict fs) =>
    match alookup fs key with
    | some la =>
      match storeGet σ la with
      | some (.plist es) => .ok (es, true)
      | _ => .error "TypeError: section is not a list"
    | none => .ok ([], false)
  | _ => .error "TypeError: yaml dict"

/-- `elements_by_name`: later elements with the same name win, as for a
Python dict assignment loop. -/
def byName (σ : Store) (es : List Nat) : M (Assoc Nat) :=
  foldME (fun acc a => do
    let nm ← getNameOf σ a
    .ok (aset acc nm a)) [] es

/-- `[elements_by_name[name].copy() for name in names]`: shallow copies,
each a fresh `pdict` sharing the field addresses of the original. -/
def copyElems (σ : Store) (bn : Assoc Nat) : List String → M (Store × List Nat)
  | [] => .ok (σ, [])
  | nm :: rest =>
    match alookup bn nm with
    | none => .error "KeyError"
    | some a =>
      match storeGet σ a with
      | some (.pdict fs) => do
        let r ← copyElems (σ ++ [.pdict fs]) bn rest
        .ok (r.1, σ.length :: r.2)
      | _ => .error "TypeError: element is not a dict"

/-- The result of `get_diff_for`: the three element lists (addresses into
the extended store), the `changed_or_deleted_names` entry (absent on the
early return), and the store after the copies. -/
structure PyDiff where
  deleted : List Nat
  added : List Nat
  changed : List Nat
  cdn : Option (List String)
  store : Store
deriving DecidableEq

/-- Embedding of `PartialParsing.get_diff_for` over the store model.  The
set differences and the intersection iterate in insertion order. -/
def getDiffForS (fuel : Nat) (σ : Store) (key : String) (sd nd : Nat) : M PyDiff := do
  let se ← elementsOf σ sd key
  let nel ← elementsOf σ nd key
  if !se.2 && !nel.2 then .ok ⟨[], [], [], none, σ⟩
  else do
    let sbn ← byName σ se.1
    let nbn ← byName σ nel.1
    let savedNames := sbn.map Prod.fst
    let newNames := nbn.map Prod.fst
    let deletedN := savedNames.filter (fun nm => !(amem nbn nm))
    let addedN := newNames.filter (fun nm => !(amem sbn nm))
    let commonN := savedNames.filter (fun nm => amem nbn nm)
    let changedN := commonN.filter (fun nm =>
      match alookup sbn nm, alookup nbn nm with
      | some sa, some na => !(pyEqT fuel (decode σ fuel sa) (decode σ fuel na))
      | _, _ => false)
    let d1 ← copyElems σ sbn deletedN
    let d2 ← copyElems d1.1 nbn addedN
    let d3 ← copyElems d2.1 nbn changedN
    .ok ⟨d1.2, d2.2, d3.2, some (changedN ++ deletedN), d3.1⟩

end PP

namespace PP

theorem storeGet_lt {σ : Store} {a : Nat} {o : PyObj} (h : storeGet σ a = some o) :
    a < σ.length := by
  unfold storeGet at h
  rw [List.get?_eq_some] at h
  exact h.1

/-- Decoding only looks below the store length, so any store agreeing
there decodes identically. -/
theorem decode_agree {σ σ' : Store}
    (hagree : ∀ i, i < σ.length → storeGet σ' i = storeGet σ i) :
    ∀ n a, noTbad σ n a = true → decode σ' n a = decode σ n a := by
  intro n
  induction n with
  | zero =>
    intro a h
    simp [noTbad] at h
  | succ n ih =>
    intro a h
    simp only [noTbad] at h
    simp only [decode]
    cases ho : storeGet σ a with
    | none =>
      rw [ho] at h
      cases h
    | some o =>
      rw [ho] at h
      have hlt := storeGet_lt ho
      rw [hagree a hlt, ho]
      cases o with
      | pstr s => rfl
      | pint i => rfl
      | plist es =>
        have h' : es.all (noTbad σ n) = true := h
        simp only [PyTree.tlist.injEq]
        apply List.map_congr_left
        intro e he
        exact ih e (List.all_eq_true.mp h' e he)
      | pdict fs =>
        have h' : fs.all (fun kv => noTbad σ n kv.2) = true := h
        simp only [PyTree.tdict.injEq]
        apply List.map_congr_left
        intro kv hkv
        rw [ih kv.2 (List.all_eq_true.mp h' kv hkv)]

theorem agree_of_append {σ τ : Store} :
    ∀ i, i < σ.length → storeGet (σ ++ τ) i = storeGet σ i := by
  intro i hi
  unfold storeGet
  simp only [List.get?_eq_getElem?]
  exact List.getElem?_append_left hi

theorem agree_of_append_set {σ τ : Store} {b : Nat} {o : PyObj} (hb : σ.length ≤ b) :
    ∀ i, i < σ.length → storeGet ((σ ++ τ).set b o) i = storeGet σ i := by
  intro i hi
  unfold storeGet
  simp only [List.get?_eq_getElem?]
  rw [List.getElem?_set_ne (by omega)]
  exact List.getElem?_append_left hi

theorem copyElems_extends (bn : Assoc Nat) :
    ∀ (names : List String) (σ σ' : Store) (addrs : List Nat),
    copyElems σ bn names = .ok (σ', addrs) →
    (∃ τ, σ' = σ ++ τ) ∧ ∀ a ∈ addrs, σ.length ≤ a := by
  intro names
  induction names with
  | nil =>
    intro σ σ' addrs h
    simp only [copyElems] at h
    cases h
    exact ⟨⟨[], by simp⟩, by simp⟩
  | cons nm rest ih =>
    intro σ σ' addrs h
    simp only [copyElems] at h
    split at h
    · cases h
    · rename_i a ha
      split at h
      all_goals try cases h
      rename_i fs hfs
      rw [bind_ok] at h
      obtain ⟨r, hr, h⟩ := h
      cases h
      obtain ⟨⟨τ, hτ⟩, haddr⟩ := ih (σ ++ [PyObj.pdict fs]) r.1 r.2 hr
      constructor
      · refine ⟨PyObj.pdict fs :: τ, ?_⟩
        rw [hτ]
        simp
      · intro x hx
        rcases List.mem_cons.mp hx with rfl | hx2
        · exact Nat.le_refl _
        · have := haddr x hx2
          simp only [List.length_append, List.length_singleton] at this
          omega

end PP

namespace PP

theorem mem_keys_iff_amem {α : Type} (m : Assoc α) (k : String) :
    k ∈ m.map Prod.fst ↔ amem m k = true := by
  induction m with
  | nil => simp [amem, alookup]
  | cons kv rest ih =>
    by_cases h : kv.1 = k
    · simp [amem, alookup, h]
    · simp only [List.map_cons, List.mem_cons, amem, alookup, if_neg h]
      rw [← amem]
      rw [ih]
      constructor
      · rintro (rfl | hm)
        · exact absurd rfl h
        · exact hm
      · intro hm
        exact Or.inr hm

theorem agree_of_set {σ : Store} {b : Nat} {o : PyObj} (hb : σ.length ≤ b) :
    ∀ i, i < σ.length → storeGet (σ.set b o) i = storeGet σ i := by
  intro i hi
  unfold storeGet
  simp only [List.get?_eq_getElem?]
  rw [List.getElem?_set_ne (by omega)]

/-- C10, amended: the elements `get_diff_for` returns are fresh *shallow*
copies.  Every returned element address is new, so replacing a returned
element wholesale leaves both yaml dicts intact (the frame property), and
the `changed_or_deleted_names` record classifies a name as changed exactly
when it is present in both sections with structurally unequal subtrees and
as deleted when present only in the saved section.  Because the copies
share their field addresses with the originals, mutation *below* the top
level is not covered — see the counterexample. -/
theorem C10_get_diff_for (fuel m : Nat) (σ : Store) (key : String) (sd nd : Nat)
    (r : PyDiff) (h : getDiffForS fuel σ key sd nd = .ok r) :
    ((∃ τ, r.store = σ ++ τ) ∧
     (∀ a, (a ∈ r.deleted ∨ a ∈ r.added ∨ a ∈ r.changed) → σ.length ≤ a) ∧
     (∀ b o, σ.length ≤ b → noTbad σ m sd = true →
        decode (r.store.set b o) m sd = decode σ m sd) ∧
     (∀ b o, σ.length ≤ b → noTbad σ m nd = true →
        decode (r.store.set b o) m nd = decode σ m nd)) ∧
    (∀ sel nel sIn nIn sbn nbn l nm,
      elementsOf σ sd key = .ok (sel, sIn) →
      elementsOf σ nd key = .ok (nel, nIn) →
      byName σ sel = .ok sbn →
      byName σ nel = .ok nbn →
      r.cdn = some l →
      (nm ∈ l ↔
        (∃ sa na, alookup sbn nm = some sa ∧ alookup nbn nm = some na ∧
          pyEqT fuel (decode σ fuel sa) (decode σ fuel na) = false) ∨
        (amem sbn nm = true ∧ amem nbn nm = false))) := by
  simp only [getDiffForS] at h
  rw [bind_ok] at h
  obtain ⟨se0, hse0, h⟩ := h
  rw [bind_ok] at h
  obtain ⟨ne0, hne0, h⟩ := h
  split at h
  · cases h
    constructor
    · refine ⟨⟨[], by simp⟩, ?_, ?_, ?_⟩
      · intro a ha
        simp at ha
      · intro b o hb hno
        exact decode_agree (agree_of_set hb) m sd hno
      · intro b o hb hno
        exact decode_agree (agree_of_set hb) m nd hno
    · intro sel nel sIn nIn sbn nbn l nm h1 h2 h3 h4 hcdn
      simp at hcdn
  · rw [bind_ok] at h
    obtain ⟨sbn0, hsbn0, h⟩ := h
    rw [bind_ok] at h
    obtain ⟨nbn0, hnbn0, h⟩ := h
    rw [bind_ok] at h
    obtain ⟨d1, hd1, h⟩ := h
    rw [bind_ok] at h
    obtain ⟨d2, hd2, h⟩ := h
    rw [bind_ok] at h
    obtain ⟨d3, hd3, h⟩ := h
    cases h
    obtain ⟨⟨t1, ht1⟩, ha1⟩ := copyElems_extends _ _ _ _ _ hd1
    obtain ⟨⟨t2, ht2⟩, ha2⟩ := copyElems_extends _ _ _ _ _ hd2
    obtain ⟨⟨t3, ht3⟩, ha3⟩ := copyElems_extends _ _ _ _ _ hd3
    have hstore : d3.1 = σ ++ (t1 ++ (t2 ++ t3)) := by
      rw [ht3, ht2, ht1]
      simp [List.append_assoc]
    constructor
    · refine ⟨⟨_, hstore⟩, ?_, ?_, ?_⟩
      · intro a ha
        rcases ha with ha | ha | ha
        · exact ha1 a ha
        · have h2l := ha2 a ha
          rw [ht1] at h2l
          simp only [List.length_append] at h2l
          omega
        · have h3l := ha3 a ha
          rw [ht2, ht1] at h3l
          simp only [List.length_append] at h3l
          omega
      · intro b o hb hno
        show decode ((d3.1).set b o) m sd = decode σ m sd
        rw [hstore]
        exact decode_agree (agree_of_append_set hb) m sd hno
      · intro b o hb hno
        show decode ((d3.1).set b o) m nd = decode σ m nd
        rw [hstore]
        exact decode_agree (agree_of_append_set hb) m nd hno
    · intro sel nel sIn nIn sbn nbn l nm h1 h2 h3 h4 hcdn
      rw [h1] at hse0
      obtain rfl := ok_inj hse0
      rw [h2] at hne0
      obtain rfl := ok_inj hne0
      rw [h3] at hsbn0
      obtain rfl := ok_inj hsbn0
      rw [h4] at hnbn0
      obtain rfl := ok_inj hnbn0
      obtain rfl : _ = l := by injection hcdn
      rw [List.mem_append]
      constructor
      · rintro (hch | hdel)
        · rw [List.mem_filter] at hch
          obtain ⟨hcom, hpred⟩ := hch
          rw [List.mem_filter] at hcom
          obtain ⟨hsv, hamem⟩ := hcom
          obtain ⟨sa, hsa⟩ := (amem_eq_true_iff sbn nm).mp ((mem_keys_iff_amem sbn nm).mp hsv)
          obtain ⟨na, hna⟩ := (amem_eq_true_iff nbn nm).mp hamem
          rw [hsa, hna] at hpred
          refine Or.inl ⟨sa, na, hsa, hna, ?_⟩
          simpa using hpred
        · rw [List.mem_filter] at hdel
          obtain ⟨hsv, hnot⟩ := hdel
          refine Or.inr ⟨(mem_keys_iff_amem sbn nm).mp hsv, ?_⟩
          simpa using hnot
      · rintro (⟨sa, na, hsa, hna, hne⟩ | ⟨hs, hn⟩)
        · refine Or.inl ?_
          rw [List.mem_filter]
          refine ⟨?_, ?_⟩
          · rw [List.mem_filter]
            refine ⟨(mem_keys_iff_amem sbn nm).mpr ?_, ?_⟩
            · rw [amem_eq_true_iff]
              exact ⟨sa, hsa⟩
            · rw [amem_eq_true_iff]
              exact ⟨na, hna⟩
          · rw [hsa, hna]
            simp [hne]
        · refine Or.inr ?_
          rw [List.mem_filter]
          exact ⟨(mem_keys_iff_amem sbn nm).mpr hs, by simp [hn]⟩

end PP


namespace PP

/-- Counterexample scenario for C10: a one-model section whose `config`
sub-dict changed, so the element is classified changed and copied. -/
def c10store : Store :=
  [PyObj.pstr "m1",
   PyObj.pint 1,
   PyObj.pdict [("a", 1)],
   PyObj.pdict [("name", 0), ("config", 2)],
   PyObj.plist [3],
   PyObj.pdict [("models", 4)],
   PyObj.pstr "m1",
   PyObj.pint 2,
   PyObj.pdict [("a", 7)],
   PyObj.pdict [("name", 6), ("config", 8)],
   PyObj.plist [9],
   PyObj.pdict [("models", 10)]]


/-- The diff `get_diff_for` computes on the scenario: the changed element
is copied to the fresh address 12, sharing field addresses 6 and 8. -/
def c10diff : PyDiff :=
  ⟨[], [], [12], some ["m1"],
   [PyObj.pstr "m1",
    PyObj.pint 1,
    PyObj.pdict [("a", 1)],
    PyObj.pdict [("name", 0), ("config", 2)],
    PyObj.plist [3],
    PyObj.pdict [("models", 4)],
    PyObj.pstr "m1",
    PyObj.pint 2,
    PyObj.pdict [("a", 7)],
    PyObj.pdict [("name", 6), ("config", 8)],
    PyObj.plist [9],
    PyObj.pdict [("models", 10)],
    PyObj.pdict [("name", 6), ("config", 8)]]⟩

/-- The store after mutating the copy's shared `config` sub-dict in place
(`changed_element["config"].clear()`). -/
def c10mut : Store :=
  [PyObj.pstr "m1",
   PyObj.pint 1,
   PyObj.pdict [("a", 1)],
   PyObj.pdict [("name", 0), ("config", 2)],
   PyObj.plist [3],
   PyObj.pdict [("models", 4)],
   PyObj.pstr "m1",
   PyObj.pint 2,
   PyObj.pdict [],
   PyObj.pdict [("name", 6), ("config", 8)],
   PyObj.plist [9],
   PyObj.pdict [("models", 10)],
   PyObj.pdict [("name", 6), ("config", 8)]]

/-- C10 counterexample: the changed element returned by `get_diff_for` is a
shallow copy sharing its `config` sub-dict (address 8) with the new yaml
dict, so mutating that sub-dict through the returned element changes the
new yaml dictionary: the copies are not deep. -/
theorem C10_get_diff_for_counterexample :
    getDiffForS 10 c10store "models" 5 11 = .ok c10diff ∧
    c10diff.changed = [12] ∧
    storeGet c10diff.store 12 = some (PyObj.pdict [("name", 6), ("config", 8)]) ∧
    decode c10diff.store 10 11 =
      PyTree.tdict [("models", PyTree.tlist [PyTree.tdict
        [("name", PyTree.tstr "m1"), ("config", PyTree.tdict [("a", PyTree.tint 2)])]])] ∧
    decode c10store 10 11 =
      PyTree.tdict [("models", PyTree.tlist [PyTree.tdict
        [("name", PyTree.tstr "m1"), ("config", PyTree.tdict [("a", PyTree.tint 2)])]])] ∧
    (c10diff.store).set 8 (PyObj.pdict []) = c10mut ∧
    decode c10mut 10 11 =
      PyTree.tdict [("models", PyTree.tlist [PyTree.tdict
        [("name", PyTree.tstr "m1"), ("config", PyTree.tdict [])]])] ∧
    decode c10mut 10 11 ≠ decode c10store 10 11 := by
  refine ⟨rfl, rfl, rfl, rfl, rfl, rfl, rfl, ?_⟩
  intro hEq
  have h1 : decode c10mut 10 11 =
      PyTree.tdict [("models", PyTree.tlist [PyTree.tdict
        [("name", PyTree.tstr "m1"), ("config", PyTree.tdict [])]])] := rfl
  have h2 : decode c10store 10 11 =
      PyTree.tdict [("models", PyTree.tlist [PyTree.tdict
        [("name", PyTree.tstr "m1"), ("config", PyTree.tdict [("a", PyTree.tint 2)])]])] := rfl
  rw [h1, h2] at hEq
  simp at hEq

theorem C10_get_diff_for_witness :
    noTbad c10store 10 5 = true ∧
    decode ((c10diff.store).set 20 (PyObj.pint 0)) 10 5 = decode c10store 10 5 :=
  ⟨rfl, (C10_get_diff_for 10 10 c10store "models" 5 11 c10diff rfl).1.2.2.1 20
    (PyObj.pint 0) (by decide) rfl⟩

end PP

namespace PP

theorem parserNameOf_ne_empty (t : PFT) : parserNameOf t ≠ "" := by
  cases t <;> simp [parserNameOf]

theorem bind_ok_left {α β : Type} (a : α) (k : α → M β) :
    ((Except.ok a : M α) >>= k) = k a := rfl

theorem foldl_id {α β : Type} (f : α → β → α) (hf : ∀ a b, f a b = a) :
    ∀ (l : List β) (a : α), List.foldl f a l = a := by
  intro l
  induction l with
  | nil => intro a; rfl
  | cons b rest ih => intro a; rw [List.foldl_cons, hf, ih]

theorem envScanSchema_nil (fid : String) (evy : Assoc (Assoc (List String)))
    (acc : Assoc (Assoc (List String))) : envScanSchema [] fid evy acc = acc := by
  unfold envScanSchema
  refine foldl_id _ ?_ evy acc
  intro a kv
  refine foldl_id _ ?_ kv.2 a
  intro a2 nv
  rw [if_neg]
  intro hc
  rw [List.any_eq_true] at hc
  obtain ⟨v, -, hv⟩ := hc
  simp at hv

theorem scan_snd_nil :
    ∀ (files : Assoc SFile) (acc : List String × Assoc (Assoc (List String))),
    (files.foldl (envScanStep []) acc).2 = acc.2 := by
  intro files
  induction files with
  | nil => intro acc; rfl
  | cons kv rest ih =>
    intro acc
    rw [List.foldl_cons, ih]
    simp only [envScanStep]
    by_cases h1 : kv.2.pft = PFT.fixture
    · rw [if_pos h1]
    · rw [if_neg h1]
      by_cases h2 : kv.2.pft = PFT.schema
      · rw [if_pos h2]
        by_cases h3 : kv.2.env_vars_yaml = []
        · rw [if_pos h3]
        · rw [if_neg h3, envScanSchema_nil]
      · rw [if_neg h2]
        by_cases h3 : kv.2.env_vars = []
        · rw [if_pos h3]
        · rw [if_neg h3]
          rw [if_neg]
          intro hc
          rw [List.any_eq_true] at hc
          obtain ⟨v, -, hv⟩ := hc
          simp at hv

/-- When no recorded env var is classified changed or deleted, the env-var
pass is a no-op: the manifest is returned as is and both scan outputs are
empty. -/
theorem buildEnv_noop (ge : String → Option String) (m : Manifest)
    (hge : classifyEnvVars ge m.envVars = ([], [])) :
    buildEnvVarsToFiles ge m = (m, [], []) := by
  simp only [buildEnvVarsToFiles, hge]
  refine Prod.ext rfl (Prod.ext ?_ ?_)
  · rw [List.eq_nil_iff_forall_not_mem]
    intro fid hmem
    rw [scan_fst_mem] at hmem
    rcases hmem with hacc | ⟨p, -, -, -, -, hany⟩
    · simp at hacc
    · rw [List.any_eq_true] at hany
      obtain ⟨v, -, hv⟩ := hany
      simp at hv
  · exact scan_snd_nil m.files ([], [])

/-- `initPP` under a no-op env pass. -/
theorem initPP_noop (ge : String → Option String) (m : Manifest) (nf : Assoc SFile)
    (bm : Manifest → Assoc (List String))
    (hge : classifyEnvVars ge m.envVars = ([], [])) :
    initPP m nf ge bm =
      { saved := m
        newFiles := nf
        plan := []
        macroChildMap := if (buildFileDiff m.files nf [] []).2 then bm m else []
        envChangedSrcFiles := []
        envChangedSchemaFiles := []
        fileDiff := (buildFileDiff m.files nf [] []).1
        processingFile := none
        specialOverrideFlag := false
        disabledByFileId := buildDisabledByFileId m } := by
  simp only [initPP]
  rw [buildEnv_noop ge m hge]

end PP


namespace PP

/-!
Infrastructure for the general idempotence theorem: a second mutual
induction over the recursive clique tracking, beyond the frozen inputs of
`StepOK`, how every write to the saved file table relates the stored
checksums and parse kinds to the new file map.
-/

/-- Binding membership behind a successful lookup. -/
theorem alookup_mem {α : Type} {m : Assoc α} {k : String} {v : α}
    (h : alookup m k = some v) : (k, v) ∈ m := by
  induction m with
  | nil => exact absurd h (by simp [alookup])
  | cons kv rest ih =>
    obtain ⟨a, b⟩ := kv
    simp only [alookup] at h
    by_cases ha : a = k
    · rw [if_pos ha] at h
      obtain rfl : b = v := by injection h
      subst ha
      exact List.mem_cons_self _ _
    · rw [if_neg ha] at h
      exact List.mem_cons_of_mem _ (ih h)

/-- Bindings survive `dict.pop` of another key. -/
theorem mem_aerase {α : Type} {m : Assoc α} {k : String} {x : String × α}
    (h : x ∈ aerase m k) : x ∈ m := by
  induction m with
  | nil => simp [aerase] at h
  | cons kv rest ih =>
    obtain ⟨a, b⟩ := kv
    simp only [aerase] at h
    by_cases ha : a = k
    · rw [if_pos ha] at h
      exact List.mem_cons_of_mem _ h
    · rw [if_neg ha] at h
      rcases List.mem_cons.mp h with rfl | hm
      · exact List.mem_cons_self _ _
      · exact List.mem_cons_of_mem _ (ih hm)

/-- Bindings of an updated dictionary are old bindings or the update. -/
theorem mem_aset {α : Type} {m : Assoc α} {k : String} {v : α} {x : String × α}
    (h : x ∈ aset m k v) : x ∈ m ∨ x = (k, v) := by
  induction m with
  | nil =>
    simp only [aset] at h
    exact Or.inr (List.mem_singleton.mp h)
  | cons kv rest ih =>
    obtain ⟨a, b⟩ := kv
    simp only [aset] at h
    by_cases ha : a = k
    · rw [if_pos ha] at h
      rcases List.mem_cons.mp h with rfl | hm
      · exact Or.inr (by rw [ha])
      · exact Or.inl (List.mem_cons_of_mem _ hm)
    · rw [if_neg ha] at h
      rcases List.mem_cons.mp h with rfl | hm
      · exact Or.inl (List.mem_cons_self _ _)
      · rcases ih hm with hm2 | hm2
        · exact Or.inl (List.mem_cons_of_mem _ hm2)
        · exact Or.inr hm2

/-- Popping one key does not touch lookups of another. -/
theorem alookup_aerase_ne {α : Type} (m : Assoc α) (k g : String) (h : g ≠ k) :
    alookup (aerase m k) g = alookup m g := by
  induction m with
  | nil => rfl
  | cons kv rest ih =>
    obtain ⟨a, b⟩ := kv
    simp only [aerase]
    by_cases ha : a = k
    · rw [if_pos ha]
      have hag : ¬ a = g := by rw [ha]; exact fun he => h he.symm
      rw [show alookup ((a, b) :: rest) g = alookup rest g from by
        simp only [alookup, if_neg hag]]
    · rw [if_neg ha]
      by_cases hg : a = g
      · simp only [alookup, if_pos hg]
      · simp only [alookup, if_neg hg]
        exact ih

/-- A key outside the key list has no lookup. -/
theorem alookup_none_of_not_mem_keys {α : Type} {m : Assoc α} {k : String}
    (h : k ∉ m.map Prod.fst) : alookup m k = none := by
  induction m with
  | nil => rfl
  | cons kv rest ih =>
    obtain ⟨a, b⟩ := kv
    simp only [List.map_cons, List.mem_cons] at h
    push_neg at h
    have hak : ¬ a = k := fun he => h.1 he.symm
    simp only [alookup, if_neg hak]
    exact ih h.2

/-- With duplicate-free keys, popping a key removes it entirely. -/
theorem alookup_aerase_self {α : Type} {m : Assoc α} {k : String}
    (h : (m.map Prod.fst).Nodup) : alookup (aerase m k) k = none := by
  induction m with
  | nil => rfl
  | cons kv rest ih =>
    obtain ⟨a, b⟩ := kv
    simp only [List.map_cons, List.nodup_cons] at h
    simp only [aerase]
    by_cases ha : a = k
    · rw [if_pos ha]
      subst ha
      exact alookup_none_of_not_mem_keys h.1
    · rw [if_neg ha]
      simp only [alookup, if_neg ha]
      exact ih h.2

/-- The key list of a popped dictionary is a sublist of the original. -/
theorem keys_aerase_sublist {α : Type} (m : Assoc α) (k : String) :
    List.Sublist ((aerase m k).map Prod.fst) (m.map Prod.fst) := by
  induction m with
  | nil => exact List.Sublist.refl _
  | cons kv rest ih =>
    obtain ⟨a, b⟩ := kv
    simp only [aerase]
    by_cases ha : a = k
    · rw [if_pos ha]
      exact List.Sublist.cons _ (List.Sublist.refl _)
    · rw [if_neg ha]
      exact List.Sublist.cons₂ _ ih

/-- Popping preserves duplicate-free keys. -/
theorem nodup_keys_aerase {α : Type} {m : Assoc α} (k : String)
    (h : (m.map Prod.fst).Nodup) : ((aerase m k).map Prod.fst).Nodup :=
  h.sublist (keys_aerase_sublist m k)

/-- Keys of an updated dictionary are old keys or the updated key. -/
theorem keys_aset_cases {α : Type} {m : Assoc α} {k : String} {v : α} {x : String}
    (h : x ∈ (aset m k v).map Prod.fst) : x ∈ m.map Prod.fst ∨ x = k := by
  induction m with
  | nil =>
    simp only [aset, List.map_cons, List.map_nil] at h
    exact Or.inr (List.mem_singleton.mp h)
  | cons kv rest ih =>
    obtain ⟨a, b⟩ := kv
    simp only [aset] at h
    by_cases ha : a = k
    · rw [if_pos ha] at h
      simp only [List.map_cons, List.mem_cons] at h
      rcases h with rfl | hm
      · exact Or.inl (List.mem_cons_self _ _)
      · exact Or.inl (List.mem_cons_of_mem _ hm)
    · rw [if_neg ha] at h
      simp only [List.map_cons, List.mem_cons] at h
      rcases h with rfl | hm
      · exact Or.inl (List.mem_cons_self _ _)
      · rcases ih hm with hm2 | hm2
        · exact Or.inl (List.mem_cons_of_mem _ hm2)
        · exact Or.inr hm2

/-- Updating preserves duplicate-free keys. -/
theorem nodup_keys_aset {α : Type} {m : Assoc α} (k : String) (v : α)
    (h : (m.map Prod.fst).Nodup) : ((aset m k v).map Prod.fst).Nodup := by
  induction m with
  | nil => simp [aset]
  | cons kv rest ih =>
    obtain ⟨a, b⟩ := kv
    simp only [List.map_cons, List.nodup_cons] at h
    simp only [aset]
    by_cases ha : a = k
    · rw [if_pos ha]
      simp only [List.map_cons, List.nodup_cons]
      exact h
    · rw [if_neg ha]
      simp only [List.map_cons, List.nodup_cons]
      refine ⟨?_, ih h.2⟩
      intro hc
      rcases keys_aset_cases hc with hm | hm
      · exact h.1 hm
      · exact ha hm

/-- Every key has a lookup. -/
theorem alookup_of_mem_keys {α : Type} {m : Assoc α} {k : String}
    (h : k ∈ m.map Prod.fst) : ∃ v, alookup m k = some v := by
  induction m with
  | nil => simp at h
  | cons kv rest ih =>
    obtain ⟨a, b⟩ := kv
    by_cases ha : a = k
    · exact ⟨b, by simp [alookup, ha]⟩
    · simp only [List.map_cons, List.mem_cons] at h
      rcases h with rfl | hm
      · exact absurd rfl ha
      · obtain ⟨v, hv⟩ := ih hm
        exact ⟨v, by simp [alookup, if_neg ha, hv]⟩

/-- Characterisation of a successful `dict.pop`. -/
theorem apopE_ok {α : Type} {m : Assoc α} {k : String} {p : α × Assoc α}
    (h : apopE m k = .ok p) : alookup m k = some p.1 ∧ p.2 = aerase m k := by
  unfold apopE at h
  split at h
  · next v hv =>
    obtain rfl : (v, aerase m k) = p := by injection h
    exact ⟨hv, rfl⟩
  · exact absurd h (by simp)

end PP

namespace PP

/-- A file id whose saved entry agrees in checksum with its new-map entry:
re-parsing from the new map would classify it unchanged. -/
def Nice (st : PState) (g : String) : Prop :=
  ∃ e f, alookup st.saved.files g = some e ∧ alookup st.newFiles g = some f ∧
    e.checksum = f.checksum

/-- A safe merge target: its saved entry (if any) is a schema file, or the
id is not in the changed diff set, or it already agrees with the new map.
Exactly the property needed so that enqueueing the file cannot starve a
pending checksum update. -/
def GoodT (st : PState) (g : String) : Prop :=
  ∀ e, alookup st.saved.files g = some e →
    e.pft = PFT.schema ∨ g ∉ st.fileDiff.changed ∨ Nice st g

/-- Keys of the new file map agree with the stored file ids. -/
def NewWF (st : PState) : Prop :=
  ∀ k f, alookup st.newFiles k = some f → f.file_id = k

/-- Keys of the saved file table agree with the stored file ids. -/
def SavedWF (st : PState) : Prop :=
  ∀ k e, alookup st.saved.files k = some e → e.file_id = k

/-- The saved file table has duplicate-free keys. -/
def NodupFK (st : PState) : Prop := (st.saved.files.map Prod.fst).Nodup

/-- Saved and new entries of a common id have the same parse kind. -/
def KindsOK (st : PState) : Prop :=
  ∀ k e f, alookup st.saved.files k = some e → alookup st.newFiles k = some f →
    e.pft = f.pft

/-- Side facts about the frozen diff lists: changed ids are in the new map,
deleted ids are not, and the two changed sets do not overlap. -/
structure DiffWF (st : PState) : Prop where
  chmem : ∀ g, g ∈ st.fileDiff.changed → amem st.newFiles g = true
  csmem : ∀ g, g ∈ st.fileDiff.changed_schema_files → amem st.newFiles g = true
  dlout : ∀ g, g ∈ st.fileDiff.deleted → amem st.newFiles g = false
  dslout : ∀ g, g ∈ st.fileDiff.deleted_schema_files → amem st.newFiles g = false
  disj : ∀ g, g ∈ st.fileDiff.changed → g ∈ st.fileDiff.changed_schema_files → False

/-- Every saved entry is either already reconciled with the new map or
still listed in the diff set that will process it, with the matching parse
kind. -/
def EntOK (st : PState) : Prop :=
  ∀ g e, alookup st.saved.files g = some e →
    Nice st g ∨ g ∈ st.fileDiff.deleted ∨ g ∈ st.fileDiff.deleted_schema_files ∨
    (e.pft = PFT.schema ∧ g ∈ st.fileDiff.changed_schema_files) ∨
    (e.pft ≠ PFT.schema ∧ g ∈ st.fileDiff.changed)

/-- All patch-path style references of the manifest point at safe merge
targets. -/
structure PatchWF (st : PState) : Prop where
  nodes : ∀ uid nd, (uid, nd) ∈ st.saved.nodes → ∀ pf, nd.patch_path = some pf →
    GoodT st pf
  gen : ∀ uid nd, (uid, nd) ∈ st.saved.nodes → nd.resource_type = NType.test →
    nd.test_node_type = "generic" → GoodT st nd.file_id
  dis : ∀ uid l, (uid, l) ∈ st.saved.disabled → ∀ nd, nd ∈ l →
    ∀ pf, nd.patch_path = some pf → GoodT st pf
  macs : ∀ uid mac, (uid, mac) ∈ st.saved.macros → ∀ pf, mac.patch_path = some pf →
    GoodT st pf
  srcs : ∀ uid src, (uid, src) ∈ st.saved.sources → GoodT st src.file_id

/-- Every planned non-deleted id whose saved entry is a non-schema file
already agrees with the new map (scheduling always copies the new file in
first; schema files are reconciled by the schema stage instead). -/
def PlanNice (st : PState) : Prop :=
  ∀ p q g, planMem st p q g → g ∉ st.fileDiff.deleted →
    g ∉ st.fileDiff.deleted_schema_files →
    ∀ e, alookup st.saved.files g = some e → e.pft ≠ PFT.schema → Nice st g

/-- The state invariant of the idempotence induction. -/
structure Ctx (st : PState) : Prop where
  newwf : NewWF st
  savedwf : SavedWF st
  nodup : NodupFK st
  kinds : KindsOK st
  dwf : DiffWF st
  ent : EntOK st
  patch : PatchWF st
  plannice : PlanNice st

/-- One planner step of the idempotence induction: the inputs are frozen,
the invariant is preserved, surviving entries inherit kind and checksum
from an old entry or from the new map, ids absent from both maps stay
absent, and reconciled ids stay reconciled. -/
structure EStep (st st' : PState) : Prop where
  newf : st'.newFiles = st.newFiles
  diff : st'.fileDiff = st.fileDiff
  env : st'.saved.envVars = st.saved.envVars
  gone : ∀ g, alookup st.saved.files g = none → amem st.newFiles g = false →
    alookup st'.saved.files g = none
  line : Ctx st → ∀ g e2, alookup st'.saved.files g = some e2 →
    ((∃ e, alookup st.saved.files g = some e ∧ e2.pft = e.pft) ∨
      (∃ f, alookup st.newFiles g = some f ∧ e2.pft = f.pft)) ∧
    ((∃ e, alookup st.saved.files g = some e ∧ e2.checksum = e.checksum) ∨
      (∃ f, alookup st.newFiles g = some f ∧ e2.checksum = f.checksum))
  ctx : Ctx st → Ctx st'
  nice : Ctx st → ∀ g, Nice st g → Nice st' g

/-- A planner step that deletes the saved entry of one id: as `EStep`
except that only the other ids keep their reconciliation, and the target id
ends with no saved entry. -/
structure EStepDel (k : String) (st st' : PState) : Prop where
  newf : st'.newFiles = st.newFiles
  diff : st'.fileDiff = st.fileDiff
  env : st'.saved.envVars = st.saved.envVars
  gone : ∀ g, alookup st.saved.files g = none → amem st.newFiles g = false →
    alookup st'.saved.files g = none
  line : Ctx st → ∀ g e2, alookup st'.saved.files g = some e2 →
    ((∃ e, alookup st.saved.files g = some e ∧ e2.pft = e.pft) ∨
      (∃ f, alookup st.newFiles g = some f ∧ e2.pft = f.pft)) ∧
    ((∃ e, alookup st.saved.files g = some e ∧ e2.checksum = e.checksum) ∨
      (∃ f, alookup st.newFiles g = some f ∧ e2.checksum = f.checksum))
  ctx : Ctx st → Ctx st'
  niceg : Ctx st → ∀ g, g ≠ k → Nice st g → Nice st' g
  nonef : Ctx st → alookup st'.saved.files k = none

/-- The identity step. -/
theorem estep_refl (st : PState) : EStep st st where
  newf := rfl
  diff := rfl
  env := rfl
  gone := fun _ h _ => h
  line := fun _ g e2 he2 => ⟨Or.inl ⟨e2, he2, rfl⟩, Or.inl ⟨e2, he2, rfl⟩⟩
  ctx := fun h => h
  nice := fun _ _ h => h

/-- Steps compose. -/
theorem estep_trans {a b c : PState} (h1 : EStep a b) (h2 : EStep b c) : EStep a c where
  newf := h2.newf.trans h1.newf
  diff := h2.diff.trans h1.diff
  env := h2.env.trans h1.env
  gone := fun g hn hm =>
    h2.gone g (h1.gone g hn hm) (by rw [h1.newf]; exact hm)
  line := by
    intro hc g e2 he2
    have hcb := h1.ctx hc
    obtain ⟨hp2, hk2⟩ := h2.line hcb g e2 he2
    constructor
    · rcases hp2 with ⟨e1, he1, hpe⟩ | ⟨f, hf, hpe⟩
      · rcases (h1.line hc g e1 he1).1 with ⟨e0, he0, hpe0⟩ | ⟨f0, hf0, hpe0⟩
        · exact Or.inl ⟨e0, he0, hpe.trans hpe0⟩
        · exact Or.inr ⟨f0, hf0, hpe.trans hpe0⟩
      · rw [h1.newf] at hf
        exact Or.inr ⟨f, hf, hpe⟩
    · rcases hk2 with ⟨e1, he1, hke⟩ | ⟨f, hf, hke⟩
      · rcases (h1.line hc g e1 he1).2 with ⟨e0, he0, hke0⟩ | ⟨f0, hf0, hke0⟩
        · exact Or.inl ⟨e0, he0, hke.trans hke0⟩
        · exact Or.inr ⟨f0, hf0, hke.trans hke0⟩
      · rw [h1.newf] at hf
        exact Or.inr ⟨f, hf, hke⟩
  ctx := fun hc => h2.ctx (h1.ctx hc)
  nice := fun hc g hn => h2.nice (h1.ctx hc) g (h1.nice hc g hn)

/-- A step followed by a deleting step deletes. -/
theorem estep_trans_del {k : String} {a b c : PState} (h1 : EStep a b)
    (h2 : EStepDel k b c) : EStepDel k a c where
  newf := h2.newf.trans h1.newf
  diff := h2.diff.trans h1.diff
  env := h2.env.trans h1.env
  gone := fun g hn hm =>
    h2.gone g (h1.gone g hn hm) (by rw [h1.newf]; exact hm)
  line := by
    intro hc g e2 he2
    have hcb := h1.ctx hc
    obtain ⟨hp2, hk2⟩ := h2.line hcb g e2 he2
    constructor
    · rcases hp2 with ⟨e1, he1, hpe⟩ | ⟨f, hf, hpe⟩
      · rcases (h1.line hc g e1 he1).1 with ⟨e0, he0, hpe0⟩ | ⟨f0, hf0, hpe0⟩
        · exact Or.inl ⟨e0, he0, hpe.trans hpe0⟩
        · exact Or.inr ⟨f0, hf0, hpe.trans hpe0⟩
      · rw [h1.newf] at hf
        exact Or.inr ⟨f, hf, hpe⟩
    · rcases hk2 with ⟨e1, he1, hke⟩ | ⟨f, hf, hke⟩
      · rcases (h1.line hc g e1 he1).2 with ⟨e0, he0, hke0⟩ | ⟨f0, hf0, hke0⟩
        · exact Or.inl ⟨e0, he0, hke.trans hke0⟩
        · exact Or.inr ⟨f0, hf0, hke.trans hke0⟩
      · rw [h1.newf] at hf
        exact Or.inr ⟨f, hf, hke⟩
  ctx := fun hc => h2.ctx (h1.ctx hc)
  niceg := fun hc g hne hn => h2.niceg (h1.ctx hc) g hne (h1.nice hc g hn)
  nonef := fun hc => h2.nonef (h1.ctx hc)

/-- A step that happens to end with the target id absent deletes it. -/
theorem estep_to_del {k : String} {a b : PState} (h : EStep a b)
    (hn : Ctx a → alookup b.saved.files k = none) : EStepDel k a b where
  newf := h.newf
  diff := h.diff
  env := h.env
  gone := h.gone
  line := h.line
  ctx := h.ctx
  niceg := fun hc g _ => h.nice hc g
  nonef := hn

/-- Reconciliation only reads the file tables. -/
theorem nice_iff_of_eqs {st st' : PState} (hf : st'.saved.files = st.saved.files)
    (hn : st'.newFiles = st.newFiles) (g : String) : Nice st' g ↔ Nice st g := by
  unfold Nice
  rw [hf, hn]

/-- Merge safety only reads the file tables and the frozen diff. -/
theorem goodT_iff_of_eqs {st st' : PState} (hf : st'.saved.files = st.saved.files)
    (hn : st'.newFiles = st.newFiles) (hd : st'.fileDiff = st.fileDiff) (g : String) :
    GoodT st' g ↔ GoodT st g := by
  unfold GoodT Nice
  rw [hf, hn, hd]

/-- Plan membership only reads the plan. -/
theorem planMem_iff_of_eqs {st st' : PState} (hp : st'.plan = st.plan)
    (p q g : String) : planMem st' p q g ↔ planMem st p q g := by
  unfold planMem
  rw [hp]

/-- The diff side facts only read the diff and the new file map. -/
theorem diffWF_of_eqs {st st' : PState} (hd : st'.fileDiff = st.fileDiff)
    (hn : st'.newFiles = st.newFiles) (h : DiffWF st) : DiffWF st' where
  chmem := fun g hg => by rw [hn]; exact h.chmem g (by rw [hd] at hg; exact hg)
  csmem := fun g hg => by rw [hn]; exact h.csmem g (by rw [hd] at hg; exact hg)
  dlout := fun g hg => by rw [hn]; exact h.dlout g (by rw [hd] at hg; exact hg)
  dslout := fun g hg => by rw [hn]; exact h.dslout g (by rw [hd] at hg; exact hg)
  disj := fun g hg hg2 => by
    rw [hd] at hg hg2
    exact h.disj g hg hg2

/-- A state change that keeps the file tables, the plan and the diff, and
only shrinks the node, disabled, macro and source tables (or clears
disabled patch paths), is a step. -/
theorem estep_tables {st st' : PState}
    (hfiles : st'.saved.files = st.saved.files)
    (henv : st'.saved.envVars = st.saved.envVars)
    (hnodes : ∀ x, x ∈ st'.saved.nodes → x ∈ st.saved.nodes)
    (hdis : ∀ u l, (u, l) ∈ st'.saved.disabled → ∀ nd, nd ∈ l →
      (∃ l0, (u, l0) ∈ st.saved.disabled ∧ nd ∈ l0) ∨ nd.patch_path = none)
    (hmacs : ∀ x, x ∈ st'.saved.macros → x ∈ st.saved.macros)
    (hsrcs : ∀ x, x ∈ st'.saved.sources → x ∈ st.saved.sources)
    (hnf : st'.newFiles = st.newFiles)
    (hpl : st'.plan = st.plan)
    (hdf : st'.fileDiff = st.fileDiff) : EStep st st' where
  newf := hnf
  diff := hdf
  env := henv
  gone := fun g h _ => by rw [hfiles]; exact h
  line := fun _ g e2 he2 => by
    rw [hfiles] at he2
    exact ⟨Or.inl ⟨e2, he2, rfl⟩, Or.inl ⟨e2, he2, rfl⟩⟩
  ctx := by
    intro hc
    refine ⟨?_, ?_, ?_, ?_, ?_, ?_, ?_, ?_⟩
    · intro k f hk
      rw [hnf] at hk
      exact hc.newwf k f hk
    · intro k e hk
      rw [hfiles] at hk
      exact hc.savedwf k e hk
    · unfold NodupFK
      rw [hfiles]
      exact hc.nodup
    · intro k e f hk hk2
      rw [hfiles] at hk
      rw [hnf] at hk2
      exact hc.kinds k e f hk hk2
    · refine ⟨?_, ?_, ?_, ?_, ?_⟩
      · intro g hg
        rw [hdf] at hg
        rw [hnf]
        exact hc.dwf.chmem g hg
      · intro g hg
        rw [hdf] at hg
        rw [hnf]
        exact hc.dwf.csmem g hg
      · intro g hg
        rw [hdf] at hg
        rw [hnf]
        exact hc.dwf.dlout g hg
      · intro g hg
        rw [hdf] at hg
        rw [hnf]
        exact hc.dwf.dslout g hg
      · intro g hg hg2
        rw [hdf] at hg hg2
        exact hc.dwf.disj g hg hg2
    · intro g e hg
      rw [hfiles] at hg
      rcases hc.ent g e hg with h1 | h1 | h1 | h1 | h1
      · exact Or.inl ((nice_iff_of_eqs hfiles hnf g).mpr h1)
      · exact Or.inr (Or.inl (by rw [hdf]; exact h1))
      · exact Or.inr (Or.inr (Or.inl (by rw [hdf]; exact h1)))
      · exact Or.inr (Or.inr (Or.inr (Or.inl ⟨h1.1, by rw [hdf]; exact h1.2⟩)))
      · exact Or.inr (Or.inr (Or.inr (Or.inr ⟨h1.1, by rw [hdf]; exact h1.2⟩)))
    · refine ⟨?_, ?_, ?_, ?_, ?_⟩
      · intro uid nd hm pf hpf
        exact (goodT_iff_of_eqs hfiles hnf hdf pf).mpr
          (hc.patch.nodes uid nd (hnodes _ hm) pf hpf)
      · intro uid nd hm h1 h2
        exact (goodT_iff_of_eqs hfiles hnf hdf _).mpr
          (hc.patch.gen uid nd (hnodes _ hm) h1 h2)
      · intro uid l hm nd hnd pf hpf
        rcases hdis uid l hm nd hnd with ⟨l0, hl0, hnd0⟩ | hnone
        · exact (goodT_iff_of_eqs hfiles hnf hdf pf).mpr
            (hc.patch.dis uid l0 hl0 nd hnd0 pf hpf)
        · rw [hnone] at hpf
          cases hpf
      · intro uid mac hm pf hpf
        exact (goodT_iff_of_eqs hfiles hnf hdf pf).mpr
          (hc.patch.macs uid mac (hmacs _ hm) pf hpf)
      · intro uid src hm
        exact (goodT_iff_of_eqs hfiles hnf hdf _).mpr
          (hc.patch.srcs uid src (hsrcs _ hm))
    · intro p q g hm hd1 hd2 e hge hp
      rw [hdf] at hd1 hd2
      rw [hfiles] at hge
      exact (nice_iff_of_eqs hfiles hnf g).mpr
        (hc.plannice p q g ((planMem_iff_of_eqs hpl p q g).mp hm) hd1 hd2 e hge hp)
  nice := fun _ g hn => (nice_iff_of_eqs hfiles hnf g).mpr hn

/-- Setting the processing marker is a step. -/
theorem estep_proc (st : PState) (x : Option String) :
    EStep st { st with processingFile := x } :=
  estep_tables rfl rfl (fun _ h => h) (fun _ _ h nd hnd => Or.inl ⟨_, h, hnd⟩)
    (fun _ h => h) (fun _ h => h) rfl rfl rfl

/-- Setting the special-override flag is a step. -/
theorem estep_flag (st : PState) (b : Bool) :
    EStep st { st with specialOverrideFlag := b } :=
  estep_tables rfl rfl (fun _ h => h) (fun _ _ h nd hnd => Or.inl ⟨_, h, hnd⟩)
    (fun _ h => h) (fun _ h => h) rfl rfl rfl

/-- Rewriting a saved entry without touching its checksum, parse kind or
stored file id is a step. -/
theorem putFile_e_old {st : PState} {k : String} {e v : SFile}
    (he : alookup st.saved.files k = some e)
    (hck : v.checksum = e.checksum) (hpft : v.pft = e.pft)
    (hid : v.file_id = e.file_id) : EStep st (putFile st k v) := by
  have hset : (putFile st k v).saved.files = aset st.saved.files k v := rfl
  have hnice : ∀ g, Nice st g → Nice (putFile st k v) g := by
    intro g hn
    obtain ⟨e1, f1, he1, hf1, hck1⟩ := hn
    by_cases hgk : g = k
    · subst hgk
      have hee : e1 = e := by
        rw [he1] at he
        injection he
      subst hee
      refine ⟨v, f1, ?_, hf1, ?_⟩
      · rw [hset]
        exact alookup_aset_self _ _ _
      · rw [hck]
        exact hck1
    · exact ⟨e1, f1, by rw [hset, alookup_aset_ne _ _ _ _ (Ne.symm hgk)]; exact he1,
        hf1, hck1⟩
  have hgoodT : ∀ g, GoodT st g → GoodT (putFile st k v) g := by
    intro g hg e2 he2
    rw [hset] at he2
    by_cases hgk : g = k
    · subst hgk
      rw [alookup_aset_self] at he2
      obtain rfl : v = e2 := by injection he2
      rcases hg e he with h1 | h1 | h1
      · exact Or.inl (by rw [hpft]; exact h1)
      · exact Or.inr (Or.inl h1)
      · exact Or.inr (Or.inr (hnice g h1))
    · rw [alookup_aset_ne _ _ _ _ (Ne.symm hgk)] at he2
      rcases hg e2 he2 with h1 | h1 | h1
      · exact Or.inl h1
      · exact Or.inr (Or.inl h1)
      · exact Or.inr (Or.inr (hnice g h1))
  refine ⟨rfl, rfl, rfl, ?_, ?_, ?_, fun _ => hnice⟩
  · intro g hn _
    have hgk : g ≠ k := by
      intro hgk
      rw [hgk, he] at hn
      cases hn
    rw [hset, alookup_aset_ne _ _ _ _ (Ne.symm hgk)]
    exact hn
  · intro _ g e2 he2
    rw [hset] at he2
    by_cases hgk : g = k
    · subst hgk
      rw [alookup_aset_self] at he2
      obtain rfl : v = e2 := by injection he2
      exact ⟨Or.inl ⟨e, he, hpft⟩, Or.inl ⟨e, he, hck⟩⟩
    · rw [alookup_aset_ne _ _ _ _ (Ne.symm hgk)] at he2
      exact ⟨Or.inl ⟨e2, he2, rfl⟩, Or.inl ⟨e2, he2, rfl⟩⟩
  · intro hc
    refine ⟨hc.newwf, ?_, ?_, ?_, diffWF_of_eqs (Eq.refl st.fileDiff) (Eq.refl st.newFiles) hc.dwf, ?_, ?_, ?_⟩
    · intro k2 e2 hk2
      rw [hset] at hk2
      by_cases hgk : k2 = k
      · subst hgk
        rw [alookup_aset_self] at hk2
        obtain rfl : v = e2 := by injection hk2
        rw [hid]
        exact hc.savedwf k2 e he
      · rw [alookup_aset_ne _ _ _ _ (Ne.symm hgk)] at hk2
        exact hc.savedwf k2 e2 hk2
    · unfold NodupFK
      rw [hset]
      exact nodup_keys_aset k v hc.nodup
    · intro k2 e2 f hk2 hf
      rw [hset] at hk2
      by_cases hgk : k2 = k
      · subst hgk
        rw [alookup_aset_self] at hk2
        obtain rfl : v = e2 := by injection hk2
        rw [hpft]
        exact hc.kinds k2 e f he hf
      · rw [alookup_aset_ne _ _ _ _ (Ne.symm hgk)] at hk2
        exact hc.kinds k2 e2 f hk2 hf
    · intro g e2 hg
      rw [hset] at hg
      by_cases hgk : g = k
      · subst hgk
        rw [alookup_aset_self] at hg
        obtain rfl : v = e2 := by injection hg
        rcases hc.ent g e he with h1 | h1 | h1 | ⟨hp1, hm1⟩ | ⟨hp1, hm1⟩
        · exact Or.inl (hnice g h1)
        · exact Or.inr (Or.inl h1)
        · exact Or.inr (Or.inr (Or.inl h1))
        · exact Or.inr (Or.inr (Or.inr (Or.inl ⟨by rw [hpft]; exact hp1, hm1⟩)))
        · exact Or.inr (Or.inr (Or.inr (Or.inr ⟨by rw [hpft]; exact hp1, hm1⟩)))
      · rw [alookup_aset_ne _ _ _ _ (Ne.symm hgk)] at hg
        rcases hc.ent g e2 hg with h1 | h1 | h1 | h1 | h1
        · exact Or.inl (hnice g h1)
        · exact Or.inr (Or.inl h1)
        · exact Or.inr (Or.inr (Or.inl h1))
        · exact Or.inr (Or.inr (Or.inr (Or.inl h1)))
        · exact Or.inr (Or.inr (Or.inr (Or.inr h1)))
    · exact ⟨fun uid nd hm pf hpf => hgoodT pf (hc.patch.nodes uid nd hm pf hpf),
        fun uid nd hm h1 h2 => hgoodT _ (hc.patch.gen uid nd hm h1 h2),
        fun uid l hm nd hnd pf hpf => hgoodT pf (hc.patch.dis uid l hm nd hnd pf hpf),
        fun uid mac hm pf hpf => hgoodT pf (hc.patch.macs uid mac hm pf hpf),
        fun uid src hm => hgoodT _ (hc.patch.srcs uid src hm)⟩
    · intro p q g hm hd1 hd2 e2 hge hp
      rw [hset] at hge
      by_cases hgk : g = k
      · subst hgk
        rw [alookup_aset_self] at hge
        obtain rfl : v = e2 := by injection hge
        rw [hpft] at hp
        exact hnice g (hc.plannice p q g hm hd1 hd2 e he hp)
      · rw [alookup_aset_ne _ _ _ _ (Ne.symm hgk)] at hge
        exact hnice g (hc.plannice p q g hm hd1 hd2 e2 hge hp)

/-- Writing a copy of a new-map file (same checksum, parse kind and file
id) into the saved table is a step and reconciles the written id. -/
theorem putFile_e_new {st : PState} {k : String} {f v : SFile}
    (hf : alookup st.newFiles k = some f)
    (hck : v.checksum = f.checksum) (hpft : v.pft = f.pft)
    (hid : v.file_id = f.file_id) :
    EStep st (putFile st k v) ∧ Nice (putFile st k v) k := by
  have hset : (putFile st k v).saved.files = aset st.saved.files k v := rfl
  have hnicek : Nice (putFile st k v) k :=
    ⟨v, f, by rw [hset]; exact alookup_aset_self _ _ _, hf, hck⟩
  have hnice : ∀ g, Nice st g → Nice (putFile st k v) g := by
    intro g hn
    by_cases hgk : g = k
    · subst hgk
      exact hnicek
    · obtain ⟨e1, f1, he1, hf1, hck1⟩ := hn
      exact ⟨e1, f1, by rw [hset, alookup_aset_ne _ _ _ _ (Ne.symm hgk)]; exact he1,
        hf1, hck1⟩
  have hgoodT : ∀ g, GoodT st g → GoodT (putFile st k v) g := by
    intro g hg e2 he2
    rw [hset] at he2
    by_cases hgk : g = k
    · subst hgk
      exact Or.inr (Or.inr hnicek)
    · rw [alookup_aset_ne _ _ _ _ (Ne.symm hgk)] at he2
      rcases hg e2 he2 with h1 | h1 | h1
      · exact Or.inl h1
      · exact Or.inr (Or.inl h1)
      · exact Or.inr (Or.inr (hnice g h1))
  refine ⟨⟨rfl, rfl, rfl, ?_, ?_, ?_, fun _ => hnice⟩, hnicek⟩
  · intro g hn hm
    have hgk : g ≠ k := by
      intro hgk
      rw [hgk] at hm
      rw [(amem_eq_false_iff _ _).mp hm] at hf
      cases hf
    rw [hset, alookup_aset_ne _ _ _ _ (Ne.symm hgk)]
    exact hn
  · intro _ g e2 he2
    rw [hset] at he2
    by_cases hgk : g = k
    · subst hgk
      rw [alookup_aset_self] at he2
      obtain rfl : v = e2 := by injection he2
      exact ⟨Or.inr ⟨f, hf, hpft⟩, Or.inr ⟨f, hf, hck⟩⟩
    · rw [alookup_aset_ne _ _ _ _ (Ne.symm hgk)] at he2
      exact ⟨Or.inl ⟨e2, he2, rfl⟩, Or.inl ⟨e2, he2, rfl⟩⟩
  · intro hc
    refine ⟨hc.newwf, ?_, ?_, ?_, diffWF_of_eqs (Eq.refl st.fileDiff) (Eq.refl st.newFiles) hc.dwf, ?_, ?_, ?_⟩
    · intro k2 e2 hk2
      rw [hset] at hk2
      by_cases hgk : k2 = k
      · subst hgk
        rw [alookup_aset_self] at hk2
        obtain rfl : v = e2 := by injection hk2
        rw [hid]
        exact hc.newwf k2 f hf
      · rw [alookup_aset_ne _ _ _ _ (Ne.symm hgk)] at hk2
        exact hc.savedwf k2 e2 hk2
    · unfold NodupFK
      rw [hset]
      exact nodup_keys_aset k v hc.nodup
    · intro k2 e2 f2 hk2 hf2
      rw [hset] at hk2
      by_cases hgk : k2 = k
      · subst hgk
        rw [alookup_aset_self] at hk2
        obtain rfl : v = e2 := by injection hk2
        have hf2x : alookup st.newFiles k2 = some f2 := hf2
        rw [hf] at hf2x
        obtain rfl : f = f2 := by injection hf2x
        exact hpft
      · rw [alookup_aset_ne _ _ _ _ (Ne.symm hgk)] at hk2
        exact hc.kinds k2 e2 f2 hk2 hf2
    · intro g e2 hg
      rw [hset] at hg
      by_cases hgk : g = k
      · subst hgk
        exact Or.inl hnicek
      · rw [alookup_aset_ne _ _ _ _ (Ne.symm hgk)] at hg
        rcases hc.ent g e2 hg with h1 | h1 | h1 | h1 | h1
        · exact Or.inl (hnice g h1)
        · exact Or.inr (Or.inl h1)
        · exact Or.inr (Or.inr (Or.inl h1))
        · exact Or.inr (Or.inr (Or.inr (Or.inl h1)))
        · exact Or.inr (Or.inr (Or.inr (Or.inr h1)))
    · exact ⟨fun uid nd hm pf hpf => hgoodT pf (hc.patch.nodes uid nd hm pf hpf),
        fun uid nd hm h1 h2 => hgoodT _ (hc.patch.gen uid nd hm h1 h2),
        fun uid l hm nd hnd pf hpf => hgoodT pf (hc.patch.dis uid l hm nd hnd pf hpf),
        fun uid mac hm pf hpf => hgoodT pf (hc.patch.macs uid mac hm pf hpf),
        fun uid src hm => hgoodT _ (hc.patch.srcs uid src hm)⟩
    · intro p q g hm hd1 hd2 e2 hge hp
      by_cases hgk : g = k
      · subst hgk
        exact hnicek
      · rw [hset, alookup_aset_ne _ _ _ _ (Ne.symm hgk)] at hge
        exact hnice g (hc.plannice p q g hm hd1 hd2 e2 hge hp)

/-- Popping a saved entry is a deleting step. -/
theorem erase_e (st : PState) (k : String) :
    EStepDel k st { st with saved := { st.saved with files := aerase st.saved.files k } } := by
  set st' := { st with saved := { st.saved with files := aerase st.saved.files k } } with hst
  have hset : st'.saved.files = aerase st.saved.files k := rfl
  have hnice : Ctx st → ∀ g, g ≠ k → Nice st g → Nice st' g := by
    intro _ g hgk hn
    obtain ⟨e1, f1, he1, hf1, hck1⟩ := hn
    exact ⟨e1, f1, by rw [hset, alookup_aerase_ne _ _ _ hgk]; exact he1, hf1, hck1⟩
  have hlook : Ctx st → ∀ g, g ≠ k → alookup st'.saved.files g = alookup st.saved.files g := by
    intro _ g hgk
    rw [hset]
    exact alookup_aerase_ne _ _ _ hgk
  have hnone : Ctx st → alookup st'.saved.files k = none := by
    intro hc
    rw [hset]
    exact alookup_aerase_self hc.nodup
  have hgoodT : Ctx st → ∀ g, GoodT st g → GoodT st' g := by
    intro hc g hg e2 he2
    by_cases hgk : g = k
    · subst hgk
      rw [hnone hc] at he2
      cases he2
    · rw [hlook hc g hgk] at he2
      rcases hg e2 he2 with h1 | h1 | h1
      · exact Or.inl h1
      · exact Or.inr (Or.inl h1)
      · exact Or.inr (Or.inr (hnice hc g hgk h1))
  refine ⟨rfl, rfl, rfl, ?_, ?_, ?_, hnice, hnone⟩
  · intro g hn _
    rw [hset]
    by_cases hgk : g = k
    · subst hgk
      have : g ∉ st.saved.files.map Prod.fst := by
        intro hmem
        obtain ⟨w, hw⟩ := alookup_of_mem_keys hmem
        rw [hw] at hn
        cases hn
      rw [alookup_none_of_not_mem_keys
        (fun hmem => this ((keys_aerase_sublist _ _).mem hmem))]
    · rw [alookup_aerase_ne _ _ _ hgk]
      exact hn
  · intro hc g e2 he2
    by_cases hgk : g = k
    · subst hgk
      rw [hnone hc] at he2
      cases he2
    · rw [hlook hc g hgk] at he2
      exact ⟨Or.inl ⟨e2, he2, rfl⟩, Or.inl ⟨e2, he2, rfl⟩⟩
  · intro hc
    refine ⟨hc.newwf, ?_, ?_, ?_, diffWF_of_eqs (Eq.refl st.fileDiff) (Eq.refl st.newFiles) hc.dwf, ?_, ?_, ?_⟩
    · intro k2 e2 hk2
      by_cases hgk : k2 = k
      · subst hgk
        rw [hnone hc] at hk2
        cases hk2
      · rw [hlook hc k2 hgk] at hk2
        exact hc.savedwf k2 e2 hk2
    · unfold NodupFK
      rw [hset]
      exact nodup_keys_aerase k hc.nodup
    · intro k2 e2 f hk2 hf
      by_cases hgk : k2 = k
      · subst hgk
        rw [hnone hc] at hk2
        cases hk2
      · rw [hlook hc k2 hgk] at hk2
        exact hc.kinds k2 e2 f hk2 hf
    · intro g e2 hg
      by_cases hgk : g = k
      · subst hgk
        rw [hnone hc] at hg
        cases hg
      · rw [hlook hc g hgk] at hg
        rcases hc.ent g e2 hg with h1 | h1 | h1 | h1 | h1
        · exact Or.inl (hnice hc g hgk h1)
        · exact Or.inr (Or.inl h1)
        · exact Or.inr (Or.inr (Or.inl h1))
        · exact Or.inr (Or.inr (Or.inr (Or.inl h1)))
        · exact Or.inr (Or.inr (Or.inr (Or.inr h1)))
    · exact ⟨fun uid nd hm pf hpf => hgoodT hc pf (hc.patch.nodes uid nd hm pf hpf),
        fun uid nd hm h1 h2 => hgoodT hc _ (hc.patch.gen uid nd hm h1 h2),
        fun uid l hm nd hnd pf hpf => hgoodT hc pf (hc.patch.dis uid l hm nd hnd pf hpf),
        fun uid mac hm pf hpf => hgoodT hc pf (hc.patch.macs uid mac hm pf hpf),
        fun uid src hm => hgoodT hc _ (hc.patch.srcs uid src hm)⟩
    · intro p q g hm hd1 hd2 e2 hge hp
      by_cases hgk : g = k
      · subst hgk
        rw [hnone hc] at hge
        cases hge
      · rw [hlook hc g hgk] at hge
        exact hnice hc g hgk (hc.plannice p q g hm hd1 hd2 e2 hge hp)

/-- Re-adding a copy of the new-map file after a deleting step restores a
plain step. -/
theorem estepdel_putnew {st s1 : PState} {k : String} {f v : SFile}
    (hd : EStepDel k st s1) (hf : alookup s1.newFiles k = some f)
    (hck : v.checksum = f.checksum) (hpft : v.pft = f.pft)
    (hid : v.file_id = f.file_id) : EStep st (putFile s1 k v) := by
  obtain ⟨h2, hnicek⟩ := @putFile_e_new s1 k f v hf hck hpft hid
  have hf0 : alookup st.newFiles k = some f := by
    rw [← hd.newf]
    exact hf
  refine ⟨h2.newf.trans hd.newf, h2.diff.trans hd.diff, h2.env.trans hd.env, ?_, ?_, ?_, ?_⟩
  · intro g hn hm
    refine h2.gone g (hd.gone g hn hm) ?_
    rw [hd.newf]
    exact hm
  · intro hc g e2 he2
    have hset : (putFile s1 k v).saved.files = aset s1.saved.files k v := rfl
    rw [hset] at he2
    by_cases hgk : g = k
    · subst hgk
      rw [alookup_aset_self] at he2
      obtain rfl : v = e2 := by injection he2
      exact ⟨Or.inr ⟨f, hf0, hpft⟩, Or.inr ⟨f, hf0, hck⟩⟩
    · rw [alookup_aset_ne _ _ _ _ (Ne.symm hgk)] at he2
      exact hd.line hc g e2 he2
  · intro hc
    exact h2.ctx (hd.ctx hc)
  · intro hc g hn
    by_cases hgk : g = k
    · subst hgk
      exact hnicek
    · exact h2.nice (hd.ctx hc) g (hd.niceg hc g hgk hn)

/-- A member of a per-parser plan list is a plan member. -/
theorem planMem_of_mem_planList {st : PState} {p q g : String}
    (hg : g ∈ planList st p q) : planMem st p q g := by
  unfold planList at hg
  cases hp : alookup st.plan p with
  | none =>
    rw [hp] at hg
    simp [alookup] at hg
  | some pm =>
    rw [hp] at hg
    simp only [Option.getD_some] at hg
    cases hq : alookup pm q with
    | none =>
      rw [hq] at hg
      simp at hg
    | some lst =>
      rw [hq] at hg
      simp only [Option.getD_some] at hg
      exact ⟨pm, lst, hp, hq, hg⟩

/-- Plan membership after `add_to_pp_files`: an old member or the added
file id. -/
theorem planMem_planAfterAdd {st : PState} {f : SFile} {p q g : String}
    (h : planMem { st with plan := planAfterAdd st f } p q g) :
    planMem st p q g ∨ g = f.file_id := by
  obtain ⟨pm, lst, hp, hq, hg⟩ := h
  simp only [planAfterAdd] at hp
  by_cases hproj : f.project_name = p
  · subst hproj
    rw [alookup_aset_self] at hp
    obtain rfl : _ = pm := by injection hp
    by_cases hpn : parserNameOf f.pft = q
    · subst hpn
      rw [alookup_aset_self] at hq
      obtain rfl : _ = lst := by injection hq
      by_cases hcnd : addCond st f
      · rw [if_pos hcnd] at hg
        rcases List.mem_append.mp hg with hg2 | hg2
        · exact Or.inl (planMem_of_mem_planList hg2)
        · exact Or.inr (List.mem_singleton.mp hg2)
      · rw [if_neg hcnd] at hg
        exact Or.inl (planMem_of_mem_planList hg)
    · rw [alookup_aset_ne _ _ _ _ hpn] at hq
      refine Or.inl ?_
      cases hpl : alookup st.plan f.project_name with
      | none =>
        rw [hpl] at hq
        simp [alookup] at hq
      | some pm0 =>
        rw [hpl] at hq
        simp only [Option.getD_some] at hq
        exact ⟨pm0, lst, hpl, hq, hg⟩
  · rw [alookup_aset_ne _ _ _ _ hproj] at hp
    exact Or.inl ⟨pm, lst, hp, hq, hg⟩

/-- Enqueueing a file is a step, provided the file would be reconciled if
its id were planned while holding a non-schema saved entry. -/
theorem addToPpFiles_e {st st' : PState} {f : SFile}
    (h : addToPpFiles st f = .ok st')
    (hn : f.file_id ∉ st.fileDiff.deleted →
      f.file_id ∉ st.fileDiff.deleted_schema_files →
      ∀ e, alookup st.saved.files f.file_id = some e → e.pft ≠ PFT.schema →
      Nice st f.file_id) : EStep st st' := by
  have he := addToPpFiles_ok_elim h
  subst he
  refine ⟨rfl, rfl, rfl, fun g hg _ => hg,
    fun _ g e2 he2 => ⟨Or.inl ⟨e2, he2, rfl⟩, Or.inl ⟨e2, he2, rfl⟩⟩, ?_,
    fun _ g hg => hg⟩
  intro hc
  refine ⟨hc.newwf, hc.savedwf, hc.nodup, hc.kinds,
    diffWF_of_eqs (Eq.refl st.fileDiff) (Eq.refl st.newFiles) hc.dwf, hc.ent,
    ⟨hc.patch.nodes, hc.patch.gen, hc.patch.dis, hc.patch.macs, hc.patch.srcs⟩, ?_⟩
  intro p q g hm hd1 hd2 e hge hp
  rcases planMem_planAfterAdd hm with hm0 | rfl
  · exact hc.plannice p q g hm0 hd1 hd2 e hge hp
  · exact hn hd1 hd2 e hge hp

/-- Merge safety survives a step. -/
theorem goodT_mono {st st' : PState} {g : String} (h : EStep st st') (hc : Ctx st)
    (hg : GoodT st g) : GoodT st' g := by
  intro e2 he2
  obtain ⟨hpl, hkl⟩ := h.line hc g e2 he2
  rcases hkl with ⟨e, he, hck⟩ | ⟨f, hf, hck⟩
  · rcases hg e he with hsch | hncl | hnice
    · rcases hpl with ⟨e1, he1, hp1⟩ | ⟨f1, hf1, hp1⟩
      · have hee : e1 = e := by
          rw [he1] at he
          injection he
        subst hee
        exact Or.inl (hp1.trans hsch)
      · refine Or.inl (hp1.trans ?_)
        rw [← hc.kinds g e f1 he hf1]
        exact hsch
    · exact Or.inr (Or.inl (by rw [h.diff]; exact hncl))
    · obtain ⟨e1, f1, he1, hf1, hck1⟩ := hnice
      have hee : e1 = e := by
        rw [he1] at he
        injection he
      subst hee
      exact Or.inr (Or.inr ⟨e2, f1, he2, by rw [h.newf]; exact hf1, hck.trans hck1⟩)
  · exact Or.inr (Or.inr ⟨e2, f, he2, by rw [h.newf]; exact hf, hck⟩)

/-- Under the invariant, a safe non-schema target that is not pending
deletion is reconciled. -/
theorem nice_of_goodT {st : PState} {g : String} (hc : Ctx st) (hgt : GoodT st g)
    (hdl : g ∉ st.fileDiff.deleted) (hdsl : g ∉ st.fileDiff.deleted_schema_files)
    {e : SFile} (he : alookup st.saved.files g = some e) (hp : e.pft ≠ PFT.schema) :
    Nice st g := by
  rcases hc.ent g e he with h1 | h1 | h1 | ⟨hps, _⟩ | ⟨_, hcl⟩
  · exact h1
  · exact absurd h1 hdl
  · exact absurd h1 hdsl
  · exact absurd hps hp
  · rcases hgt e he with h2 | h2 | h2
    · exact absurd h2 hp
    · exact absurd hcl h2
    · exact h2

/-- Effectful folds compose steps, threading an accumulated step from a
fixed base state to each loop iteration. -/
theorem estep_foldME {α : Type} {F : PState → α → M PState} {l : List α} {st0 : PState} :
    ∀ {st st' : PState}, foldME F st l = .ok st' → EStep st0 st →
    (∀ s a s', a ∈ l → F s a = .ok s' → EStep st0 s → EStep s s') →
    EStep st0 st' := by
  induction l with
  | nil =>
    intro st st' h acc _
    simp only [foldME] at h
    obtain rfl : st = st' := by injection h
    exact acc
  | cons a rest ih =>
    intro st st' h acc hf
    simp only [foldME] at h
    rw [bind_ok] at h
    obtain ⟨s1, h1, h2⟩ := h
    have e1 := hf st a s1 (List.mem_cons_self _ _) h1 acc
    exact ih h2 (estep_trans acc e1)
      (fun s b s2 hb => hf s b s2 (List.mem_cons_of_mem _ hb))

/-- Pure folds of steps compose. -/
theorem estep_foldl {α : Type} {G : PState → α → PState}
    (hg : ∀ s a, EStep s (G s a)) :
    ∀ (l : List α) (st : PState), EStep st (List.foldl G st l) := by
  intro l
  induction l with
  | nil => intro st; exact estep_refl st
  | cons a rest ih => intro st; exact estep_trans (hg st a) (ih (G st a))

/-- Clearing an env-var record keeps checksum, kind and id. -/
theorem dfev_fields (f : SFile) (k n : String) :
    (f.delete_from_env_vars k n).checksum = f.checksum ∧
    (f.delete_from_env_vars k n).pft = f.pft ∧
    (f.delete_from_env_vars k n).file_id = f.file_id := by
  unfold SFile.delete_from_env_vars
  split <;> exact ⟨rfl, rfl, rfl⟩

/-- Clearing an unrendered-config record keeps checksum, kind and id. -/
theorem dfuc_fields (f : SFile) (k n : String) :
    (f.delete_from_unrendered_configs k n).checksum = f.checksum ∧
    (f.delete_from_unrendered_configs k n).pft = f.pft ∧
    (f.delete_from_unrendered_configs k n).file_id = f.file_id := by
  unfold SFile.delete_from_unrendered_configs
  split <;> exact ⟨rfl, rfl, rfl⟩

/-- Dropping a test record keeps checksum, kind and id. -/
theorem rte_fields (f : SFile) (k n : String) :
    (f.remove_tests_entry k n).checksum = f.checksum ∧
    (f.remove_tests_entry k n).pft = f.pft ∧
    (f.remove_tests_entry k n).file_id = f.file_id := by
  unfold SFile.remove_tests_entry
  split <;> exact ⟨rfl, rfl, rfl⟩

end PP

namespace PP
/-- The extracted disabled shadow and the remainder come from the original
list. -/
theorem extractFirstNode_facts :
    ∀ (l : List MNode) (fid : String) (x : MNode) (r : List MNode),
    extractFirstNode l fid = some (x, r) → x ∈ l ∧ ∀ y ∈ r, y ∈ l := by
  intro l
  induction l with
  | nil =>
    intro fid x r h
    simp [extractFirstNode] at h
  | cons nd rest ih =>
    intro fid x r h
    simp only [extractFirstNode] at h
    by_cases hf : nd.file_id = fid
    · rw [if_pos hf] at h
      have h2 := Option.some.inj h
      injection h2 with h3 h4
      subst h3
      subst h4
      exact ⟨List.mem_cons_self _ _, fun y hy => List.mem_cons_of_mem _ hy⟩
    · rw [if_neg hf] at h
      split at h
      · rename_i x0 l0 hx0
        have h2 := Option.some.inj h
        injection h2 with h3 h4
        subst h3
        subst h4
        obtain ⟨hm, hs⟩ := ih fid x0 l0 hx0
        refine ⟨List.mem_cons_of_mem _ hm, ?_⟩
        intro y hy
        rcases List.mem_cons.mp hy with rfl | hy2
        · exact List.mem_cons_self _ _
        · exact List.mem_cons_of_mem _ (hs y hy2)
      · exact absurd h (by simp)

/-- Popping a disabled shadow is a step and returns a stored shadow. -/
theorem deleteDisabled_e {st : PState} {uid fid : String} {nd : MNode} {st' : PState}
    (h : deleteDisabled st uid fid = .ok (nd, st')) :
    EStep st st' ∧ ∃ l, (uid, l) ∈ st.saved.disabled ∧ nd ∈ l := by
  simp only [deleteDisabled] at h
  rw [bind_ok] at h
  obtain ⟨lst, hl, h⟩ := h
  rw [getE_ok] at hl
  split at h
  · exact absurd h (by simp)
  · rename_i node0 rest0 hx
    have h2 := Except.ok.inj h
    injection h2 with h3 h4
    subst h3
    rw [← h4]
    obtain ⟨hmem, hsub⟩ := extractFirstNode_facts lst fid node0 rest0 hx
    refine ⟨?_, lst, alookup_mem hl, hmem⟩
    by_cases hl2 : rest0 = []
    · rw [if_pos hl2]
      exact estep_tables rfl rfl (fun _ hm => hm)
        (fun u l hm nd2 hnd2 => Or.inl ⟨l, mem_aerase hm, hnd2⟩)
        (fun _ hm => hm) (fun _ hm => hm) rfl rfl rfl
    · rw [if_neg hl2]
      refine estep_tables rfl rfl (fun _ hm => hm) ?_
        (fun _ hm => hm) (fun _ hm => hm) rfl rfl rfl
      intro u l hm nd2 hnd2
      rcases mem_aset hm with hm2 | hm2
      · exact Or.inl ⟨l, hm2, hnd2⟩
      · have h5 : u = uid := by injection hm2
        have h6 : l = rest0 := by injection hm2
        subst h5
        subst h6
        exact Or.inl ⟨lst, alookup_mem hl, hsub nd2 hnd2⟩

/-- Core of `mergePatch_e`, with the written file abstracted. -/
theorem mergePatch_aux {st : PState} {fid : String} {sf sf1 : SFile} {st' : PState}
    (hsf : alookup st.saved.files fid = some sf)
    (hck : sf1.checksum = sf.checksum) (hpft : sf1.pft = sf.pft)
    (hid : sf1.file_id = sf.file_id)
    (h : addToPpFiles (putFile st fid sf1) sf1 = .ok st')
    (hc : Ctx st) (hg : GoodT st fid) : EStep st st' := by
  have e1 : EStep st (putFile st fid sf1) := putFile_e_old hsf hck hpft hid
  have hc1 : Ctx (putFile st fid sf1) := e1.ctx hc
  have hfid : sf1.file_id = fid := by
    rw [hid]
    exact hc.savedwf fid sf hsf
  refine estep_trans e1 (addToPpFiles_e h ?_)
  intro hdl hdsl e2 he2 hp2
  rw [hfid] at hdl hdsl he2 ⊢
  exact nice_of_goodT hc1 (goodT_mono e1 hc hg) hdl hdsl he2 hp2

/-- Merging a patch into a safe target is a step. -/
theorem mergePatch_e {st : PState} {fid key : String} {p : Elem} {b : Bool} {st' : PState}
    (h : mergePatch st fid key p b = .ok st') (hc : Ctx st) (hg : GoodT st fid) :
    EStep st st' := by
  simp only [mergePatch] at h
  rw [bind_ok] at h
  obtain ⟨sf, hsf, h⟩ := h
  simp only [getFileE] at hsf
  rw [getE_ok] at hsf
  refine mergePatch_aux hsf ?_ ?_ ?_ h hc hg
  · rw [(dfuc_fields _ _ _).1, (dfev_fields _ _ _).1]
  · rw [(dfuc_fields _ _ _).2.1, (dfev_fields _ _ _).2.1]
  · rw [(dfuc_fields _ _ _).2.2, (dfev_fields _ _ _).2.2]

/-- The special-macro scan only sets the override flag. -/
theorem checkSpecialLoop_e : ∀ (l : List String) (st st' : PState),
    checkSpecialLoop st l = .ok st' → EStep st st' := by
  intro l
  induction l with
  | nil =>
    intro st st' h
    simp only [checkSpecialLoop] at h
    obtain rfl : st = st' := by injection h
    exact estep_refl st
  | cons uid rest ih =>
    intro st st' h
    simp only [checkSpecialLoop] at h
    split at h
    · split at h
      · exact absurd h (by simp)
      · split at h
        · exact ih st st' h
        · rw [bind_ok] at h
          obtain ⟨mac, hmac, h⟩ := h
          split at h
          · exact estep_trans (estep_flag st true) (ih _ st' h)
          · exact ih st st' h
    · exact ih st st' h

/-- Link of `check_for_special_deleted_macros` to the scan. -/
theorem checkForSpecialDeletedMacros_e {st : PState} {f : SFile} {st' : PState}
    (h : checkForSpecialDeletedMacros st f = .ok st') : EStep st st' :=
  checkSpecialLoop_e f.macros st st' h

/-- Dropping the tests of a named element is a step. -/
theorem removeTestsSt_e {st : PState} {fid k nm : String} {st' : PState}
    (h : removeTestsSt st fid k nm = .ok st') : EStep st st' := by
  simp only [removeTestsSt] at h
  rw [bind_ok] at h
  obtain ⟨sf, hsf, h⟩ := h
  rw [bind_ok] at h
  obtain ⟨sf2, hsf2, h⟩ := h
  obtain rfl : _ = st' := by injection h
  simp only [getFileE] at hsf2
  rw [getE_ok] at hsf2
  refine estep_trans (estep_foldl ?_ _ st) (putFile_e_old hsf2 (rte_fields _ _ _).1
    (rte_fields _ _ _).2.1 (rte_fields _ _ _).2.2)
  intro s a
  split
  · exact estep_tables rfl rfl (fun _ hm => mem_aerase hm)
      (fun _ _ hm nd hnd => Or.inl ⟨_, hm, hnd⟩) (fun _ hm => hm) (fun _ hm => hm)
      rfl rfl rfl
  · exact estep_refl _

/-- Deleting a yaml snapshot is a step. -/
theorem deleteYamlSnapshot_e {st : PState} {fid : String} {e : Elem} {st' : PState}
    (h : deleteYamlSnapshot st fid e = .ok st') : EStep st st' := by
  simp only [deleteYamlSnapshot] at h
  rw [bind_ok] at h
  obtain ⟨sf, hsf, h⟩ := h
  refine estep_foldME h (estep_refl st) ?_
  intro s a s' _ hb _
  split at hb
  · split at hb
    · rw [bind_ok] at hb
      obtain ⟨sf2, hsf2, hb⟩ := hb
      rw [bind_ok] at hb
      obtain ⟨l, hl, hb⟩ := hb
      obtain rfl : _ = s' := by injection hb
      simp only [getFileE] at hsf2
      rw [getE_ok] at hsf2
      refine estep_trans ?_ (putFile_e_old hsf2 rfl rfl rfl)
      exact estep_tables rfl rfl
        (fun _ hm => mem_aerase hm) (fun _ _ hm nd hnd => Or.inl ⟨_, hm, hnd⟩)
        (fun _ hm => hm) (fun _ hm => hm) rfl rfl rfl
    · obtain rfl : s = s' := by injection hb
      exact estep_refl _
  · split at hb
    · rw [bind_ok] at hb
      obtain ⟨r, hr, hb⟩ := hb
      rw [bind_ok] at hb
      obtain ⟨sf2, hsf2, hb⟩ := hb
      rw [bind_ok] at hb
      obtain ⟨l, hl, hb⟩ := hb
      obtain rfl : _ = s' := by injection hb
      simp only [getFileE] at hsf2
      rw [getE_ok] at hsf2
      exact estep_trans (deleteDisabled_e hr).1 (putFile_e_old hsf2 rfl rfl rfl)
    · obtain rfl : s = s' := by injection hb
      exact estep_refl _

/-- Deleting a schema exposure is a step. -/
theorem deleteSchemaExposure_e {st : PState} {fid : String} {e : Elem} {st' : PState}
    (h : deleteSchemaExposure st fid e = .ok st') : EStep st st' := by
  simp only [deleteSchemaExposure] at h
  rw [bind_ok] at h
  obtain ⟨sf, hsf, h⟩ := h
  refine estep_foldME h (estep_refl st) ?_
  intro s a s' _ hb _
  split at hb
  · split at hb
    · rw [bind_ok] at hb
      obtain ⟨sf2, hsf2, hb⟩ := hb
      rw [bind_ok] at hb
      obtain ⟨l, hl, hb⟩ := hb
      obtain rfl : _ = s' := by injection hb
      simp only [getFileE] at hsf2
      rw [getE_ok] at hsf2
      refine estep_trans ?_ (putFile_e_old hsf2 rfl rfl rfl)
      exact estep_tables rfl rfl
        (fun _ hm => hm) (fun _ _ hm nd hnd => Or.inl ⟨_, hm, hnd⟩)
        (fun _ hm => hm) (fun _ hm => hm) rfl rfl rfl
    · obtain rfl : s = s' := by injection hb
      exact estep_refl _
  · split at hb
    · rw [bind_ok] at hb
      obtain ⟨r, hr, hb⟩ := hb
      cases hb
      exact (deleteDisabled_e hr).1
    · obtain rfl : s = s' := by injection hb
      exact estep_refl _

/-- Deleting a schema unit test is a step. -/
theorem deleteSchemaUnitTest_e {st : PState} {fid : String} {e : Elem} {st' : PState}
    (h : deleteSchemaUnitTest st fid e = .ok st') : EStep st st' := by
  simp only [deleteSchemaUnitTest] at h
  rw [bind_ok] at h
  obtain ⟨sf, hsf, h⟩ := h
  refine estep_foldME h (estep_refl st) ?_
  intro s a s' _ hb _
  split at hb
  · split at hb
    · rw [bind_ok] at hb
      obtain ⟨sf2, hsf2, hb⟩ := hb
      rw [bind_ok] at hb
      obtain ⟨l, hl, hb⟩ := hb
      obtain rfl : _ = s' := by injection hb
      simp only [getFileE] at hsf2
      rw [getE_ok] at hsf2
      refine estep_trans ?_ (putFile_e_old hsf2 rfl rfl rfl)
      exact estep_tables rfl rfl
        (fun _ hm => hm) (fun _ _ hm nd hnd => Or.inl ⟨_, hm, hnd⟩)
        (fun _ hm => hm) (fun _ hm => hm) rfl rfl rfl
    · obtain rfl : s = s' := by injection hb
      exact estep_refl _
  · obtain rfl : s = s' := by injection hb
    exact estep_refl _

/-- Deleting a singular-test patch is a step. -/
theorem deleteSchemaDataTestPatch_e {st : PState} {fid : String} {e : Elem} {st' : PState}
    (h : deleteSchemaDataTestPatch st fid e = .ok st') (hc : Ctx st) : EStep st st' := by
  simp only [deleteSchemaDataTestPatch] at h
  rw [bind_ok] at h
  obtain ⟨sf, hsf, h⟩ := h
  rw [bind_ok] at h
  obtain ⟨dtu, hdtu, h⟩ := h
  split at h
  · rename_i uid
    split at h
    · rename_i nd hnd
      have e1 : EStep st { st with saved := { st.saved with
          nodes := aerase st.saved.nodes uid } } :=
        estep_tables rfl rfl (fun _ hm => mem_aerase hm)
          (fun _ _ hm nd2 hnd2 => Or.inl ⟨_, hm, hnd2⟩) (fun _ hm => hm)
          (fun _ hm => hm) rfl rfl rfl
      have hc1 := e1.ctx hc
      split at h
      · rw [bind_ok] at h
        obtain ⟨nf, hnf, h⟩ := h
        rw [getE_ok] at hnf
        have hnf2 : alookup ({ st with saved := { st.saved with
            nodes := aerase st.saved.nodes uid } } : PState).newFiles nd.file_id =
            some nf := hnf
        refine estep_trans e1 (estep_trans ?_ (addToPpFiles_e h ?_))
        · exact (putFile_e_new hnf2 rfl rfl rfl).1
        · intro _ _ e3 he3 hp3
          have hid : nf.file_id = nd.file_id := hc1.newwf nd.file_id nf hnf
          rw [hid]
          exact (putFile_e_new hnf2 rfl rfl rfl).2
      · obtain rfl : _ = st' := by injection h
        exact e1
    · obtain rfl : st = st' := by injection h
      exact estep_refl _
  · obtain rfl : st = st' := by injection h
    exact estep_refl _

/-- The source-override resolution returns the file id of a stored source
definition and does not change the state. -/
theorem gsofad_facts {st : PState} {src : Elem} {r : String × SFile × Option Elem}
    (h : getSourceOverrideFileAndDict st src = .ok r) :
    ∃ uid s0, (uid, s0) ∈ st.saved.sources ∧ r.1 = s0.file_id := by
  simp only [getSourceOverrideFileAndDict] at h
  split at h
  · rw [bind_ok] at h
    obtain ⟨package, hpk, h⟩ := h
    split at h
    · exact absurd h (by simp)
    · rename_i fid sf hs
      rw [bind_ok] at h
      obtain ⟨os, hos, h⟩ := h
      obtain rfl : (fid, sf, getSchemaElement os src.name) = r := by injection h
      simp only [getSchemaFileForSource] at hs
      split at hs
      · exact absurd hs (by simp)
      · rename_i kv hkv
        split at hs
        · rename_i f2 hf2
          have h2 := Option.some.inj hs
          have h3 : kv.2.file_id = fid := by injection h2
          exact ⟨kv.1, kv.2, by
            have := List.mem_of_find?_eq_some hkv
            exact this, h3.symm⟩
        · exact absurd hs (by simp)
  · rw [bind_ok] at h
    obtain ⟨y, hy, -⟩ := h
    exact absurd hy (by simp)

end PP

namespace PP

/-- The idempotence step property for every state-transforming procedure of
the recursive clique, at a given fuel, under the state invariant.  The
update procedures additionally report that the processed id ends
reconciled, the deleting procedures that the processed id ends without a
saved entry, and the schema-change procedures carry the merge-safety of
their target.  Proved for all fuels by induction. -/
structure EAllP (n : Nat) : Prop where
  rnis : ∀ sf uid st st', removeNodeInSaved n sf uid st = .ok st' → Ctx st → EStep st st'
  rnf : ∀ sf uid nd st st', removeNodeFinish n sf uid nd st = .ok st' → Ctx st →
    (∀ pf, nd.patch_path = some pf → GoodT st pf) → EStep st st'
  umis : ∀ nw od st st', updateMssatInSaved n nw od st = .ok st' → Ctx st →
    alookup st.newFiles nw.file_id = some nw →
    alookup st.saved.files od.file_id = some od →
    nw.file_id = od.file_id → od.pft ≠ PFT.schema →
    EStep st st' ∧ (nw.file_id ∉ st.fileDiff.deleted →
      nw.file_id ∉ st.fileDiff.deleted_schema_files → Nice st' nw.file_id)
  umacs : ∀ nw od st st', updateMacroInSaved n nw od st = .ok st' → Ctx st →
    alookup st.newFiles nw.file_id = some nw →
    alookup st.saved.files od.file_id = some od →
    nw.file_id = od.file_id → od.pft ≠ PFT.schema →
    EStep st st' ∧ (nw.file_id ∉ st.fileDiff.deleted →
      nw.file_id ∉ st.fileDiff.deleted_schema_files → Nice st' nw.file_id)
  udocs : ∀ nw od st st', updateDocInSaved n nw od st = .ok st' → Ctx st →
    alookup st.newFiles nw.file_id = some nw →
    alookup st.saved.files od.file_id = some od →
    nw.file_id = od.file_id → od.pft ≠ PFT.schema →
    EStep st st' ∧ (nw.file_id ∉ st.fileDiff.deleted →
      nw.file_id ∉ st.fileDiff.deleted_schema_files → Nice st' nw.file_id)
  ufixs : ∀ nw od st st', updateFixtureInSaved n nw od st = .ok st' → Ctx st →
    alookup st.newFiles nw.file_id = some nw →
    alookup st.saved.files od.file_id = some od →
    nw.file_id = od.file_id → od.pft ≠ PFT.schema →
    EStep st st' ∧ (nw.file_id ∉ st.fileDiff.deleted →
      nw.file_id ∉ st.fileDiff.deleted_schema_files → Nice st' nw.file_id)
  uis : ∀ fid st st', updateInSaved n fid st = .ok st' → Ctx st →
    EStep st st' ∧ (fid ∉ st.fileDiff.deleted →
      fid ∉ st.fileDiff.deleted_schema_files → Nice st' fid)
  rmf : ∀ sf st st', removeMssatFile n sf st = .ok st' → Ctx st → EStep st st'
  srn : ∀ uid st st', scheduleReferencingNodes n uid st = .ok st' → Ctx st → EStep st st'
  snp : ∀ uids st st', scheduleNodesForParsing n uids st = .ok st' → Ctx st → EStep st st'
  son : ∀ uid st st', scheduleOneNode n uid st = .ok st' → Ctx st → EStep st st'
  sfp : ∀ k dk fid nm st st', schedForParsing n k dk fid nm st = .ok st' → Ctx st →
    EStep st st'
  rd : ∀ k fid e st st', runDelete n k fid e st = .ok st' → Ctx st → EStep st st'
  dss : ∀ fid e st st', deleteSchemaSource n fid e st = .ok st' → Ctx st → EStep st st'
  dsg : ∀ fid e st st', deleteSchemaGroup n fid e st = .ok st' → Ctx st → EStep st st'
  dsmet : ∀ fid e st st', deleteSchemaMetric n fid e st = .ok st' → Ctx st → EStep st st'
  dssq : ∀ fid e st st', deleteSchemaSavedQuery n fid e st = .ok st' → Ctx st →
    EStep st st'
  dssem : ∀ fid e st st', deleteSchemaSemanticModel n fid e st = .ok st' → Ctx st →
    EStep st st'
  dsmp : ∀ fid e st st', deleteSchemaMacroPatch n fid e st = .ok st' → Ctx st →
    EStep st st'
  dmf : ∀ fid b st st', deleteMacroFile n fid b st = .ok st' → Ctx st → EStepDel fid st st'
  hmfl : ∀ fid b st st', handleMacroFileLinks n fid b st = .ok st' → Ctx st → EStep st st'
  homl : ∀ fid b uid st st', handleOneMacroLink n fid b uid st = .ok st' → Ctx st →
    EStep st st'
  smn : ∀ uids st st', scheduleMacroNodes n uids st = .ok st' → Ctx st → EStep st st'
  somn : ∀ uid st st', scheduleOneMacroNode n uid st = .ok st' → Ctx st → EStep st st'
  dsml : ∀ fid dk e st st', deleteSchemaMssaLinks n fid dk e st = .ok st' → Ctx st →
    EStep st st'
  rsot : ∀ e st st', removeSourceOverrideTarget n e st = .ok st' → Ctx st → EStep st st'
  ats : ∀ fid st st', addToSaved n fid st = .ok st' → Ctx st →
    EStep st st' ∧ Nice st' fid
  hasf : ∀ sf st r, handleAddedSchemaFile n sf st = .ok r → Ctx st →
    EStep st r.2 ∧ r.1.checksum = sf.checksum ∧ r.1.pft = sf.pft ∧
      r.1.file_id = sf.file_id
  ddn : ∀ fid st st', deleteDocNode n fid st = .ok st' → Ctx st → EStepDel fid st st'
  dfn : ∀ fid st st', deleteFixtureNode n fid st = .ok st' → Ctx st → EStepDel fid st st'
  dfs : ∀ fid st st', deleteFromSaved n fid st = .ok st' → Ctx st →
    (∀ e, alookup st.saved.files fid = some e → e.pft ≠ PFT.schema) →
    EStepDel fid st st'
  csf : ∀ fid st st', changeSchemaFile n fid st = .ok st' → Ctx st → GoodT st fid →
    EStep st st' ∧ Nice st' fid
  dschf : ∀ fid st st', deleteSchemaFile n fid st = .ok st' → Ctx st → GoodT st fid →
    EStepDel fid st st'
  hsfc : ∀ fid sy ny st st', handleSchemaFileChanges n fid sy ny st = .ok st' → Ctx st →
    GoodT st fid → EStep st st'
  pmk : ∀ fid dk sy ny ev st st', processMssaKey n fid dk sy ny ev st = .ok st' →
    Ctx st → GoodT st fid → EStep st st'
  psk : ∀ fid sy ny ev st st', processSourcesKey n fid sy ny ev st = .ok st' → Ctx st →
    GoodT st fid → EStep st st'
  hec : ∀ fid sy ny ev dk k st st', handleElementChange n fid sy ny ev dk k st = .ok st' →
    Ctx st → GoodT st fid → EStep st st'

theorem eAllP_zero : EAllP 0 where
  rnis := fun _ _ _ _ h => by simp [removeNodeInSaved] at h
  rnf := fun _ _ _ _ _ h => by simp [removeNodeFinish] at h
  umis := fun _ _ _ _ h => by simp [updateMssatInSaved] at h
  umacs := fun _ _ _ _ h => by simp [updateMacroInSaved] at h
  udocs := fun _ _ _ _ h => by simp [updateDocInSaved] at h
  ufixs := fun _ _ _ _ h => by simp [updateFixtureInSaved] at h
  uis := fun _ _ _ h => by simp [updateInSaved] at h
  rmf := fun _ _ _ h => by simp [removeMssatFile] at h
  srn := fun _ _ _ h => by simp [scheduleReferencingNodes] at h
  snp := fun _ _ _ h => by simp [scheduleNodesForParsing] at h
  son := fun _ _ _ h => by simp [scheduleOneNode] at h
  sfp := fun _ _ _ _ _ _ h => by simp [schedForParsing] at h
  rd := fun _ _ _ _ _ h => by simp [runDelete] at h
  dss := fun _ _ _ _ h => by simp [deleteSchemaSource] at h
  dsg := fun _ _ _ _ h => by simp [deleteSchemaGroup] at h
  dsmet := fun _ _ _ _ h => by simp [deleteSchemaMetric] at h
  dssq := fun _ _ _ _ h => by simp [deleteSchemaSavedQuery] at h
  dssem := fun _ _ _ _ h => by simp [deleteSchemaSemanticModel] at h
  dsmp := fun _ _ _ _ h => by simp [deleteSchemaMacroPatch] at h
  dmf := fun _ _ _ _ h => by simp [deleteMacroFile] at h
  hmfl := fun _ _ _ _ h => by simp [handleMacroFileLinks] at h
  homl := fun _ _ _ _ _ h => by simp [handleOneMacroLink] at h
  smn := fun _ _ _ h => by simp [scheduleMacroNodes] at h
  somn := fun _ _ _ h => by simp [scheduleOneMacroNode] at h
  dsml := fun _ _ _ _ _ h => by simp [deleteSchemaMssaLinks] at h
  rsot := fun _ _ _ h => by simp [removeSourceOverrideTarget] at h
  ats := fun _ _ _ h => by simp [addToSaved] at h
  hasf := fun _ _ _ h => by simp [handleAddedSchemaFile] at h
  ddn := fun _ _ _ h => by simp [deleteDocNode] at h
  dfn := fun _ _ _ h => by simp [deleteFixtureNode] at h
  dfs := fun _ _ _ h => by simp [deleteFromSaved] at h
  csf := fun _ _ _ h => by simp [changeSchemaFile] at h
  dschf := fun _ _ _ h => by simp [deleteSchemaFile] at h
  hsfc := fun _ _ _ _ _ h => by simp [handleSchemaFileChanges] at h
  pmk := fun _ _ _ _ _ _ _ h => by simp [processMssaKey] at h
  psk := fun _ _ _ _ _ _ h => by simp [processSourcesKey] at h
  hec := fun _ _ _ _ _ _ _ _ h => by simp [handleElementChange] at h

end PP

namespace PP

/-- Erasing a node is a step. -/
theorem estep_erase_nodes (st : PState) (uid : String) :
    EStep st { st with saved := { st.saved with nodes := aerase st.saved.nodes uid } } :=
  estep_tables rfl rfl (fun _ hm => mem_aerase hm)
    (fun _ _ hm nd hnd => Or.inl ⟨_, hm, hnd⟩) (fun _ hm => hm) (fun _ hm => hm)
    rfl rfl rfl

/-- Erasing a macro is a step. -/
theorem estep_erase_macros (st : PState) (uid : String) :
    EStep st { st with saved := { st.saved with macros := aerase st.saved.macros uid } } :=
  estep_tables rfl rfl (fun _ hm => hm)
    (fun _ _ hm nd hnd => Or.inl ⟨_, hm, hnd⟩) (fun _ hm => mem_aerase hm)
    (fun _ hm => hm) rfl rfl rfl

/-- Erasing a source definition is a step. -/
theorem estep_erase_sources (st : PState) (uid : String) :
    EStep st { st with saved := { st.saved with sources := aerase st.saved.sources uid } } :=
  estep_tables rfl rfl (fun _ hm => hm)
    (fun _ _ hm nd hnd => Or.inl ⟨_, hm, hnd⟩) (fun _ hm => hm)
    (fun _ hm => mem_aerase hm) rfl rfl rfl

/-- A saved-manifest change away from the constrained tables is a step. -/
theorem estep_saved_other {st : PState} (m : Manifest)
    (hf : m.files = st.saved.files) (he : m.envVars = st.saved.envVars)
    (hn : m.nodes = st.saved.nodes) (hd : m.disabled = st.saved.disabled)
    (hm : m.macros = st.saved.macros) (hs : m.sources = st.saved.sources) :
    EStep st { st with saved := m } :=
  estep_tables hf he (fun _ hx => hn ▸ hx)
    (fun _ l hx nd hnd => Or.inl ⟨l, hd ▸ hx, hnd⟩) (fun _ hx => hm ▸ hx)
    (fun _ hx => hs ▸ hx) rfl rfl rfl

/-- Clearing the patch paths of the disabled shadows of an id is a step. -/
theorem estep_disabled_clear (s : PState) (uid : String) :
    EStep s { s with saved := { s.saved with disabled := aset s.saved.disabled uid (((alookup s.saved.disabled uid).getD []).map (fun nd => { nd with patch_path := none })) } } := by
  refine estep_tables rfl rfl (fun _ hm => hm) ?_ (fun _ hm => hm) (fun _ hm => hm)
    rfl rfl rfl
  intro u l hm nd hnd
  rcases mem_aset hm with hm2 | hm2
  · exact Or.inl ⟨l, hm2, hnd⟩
  · have h6 : l = ((alookup s.saved.disabled uid).getD []).map
        (fun nd => { nd with patch_path := none }) := by injection hm2
    rw [h6] at hnd
    obtain ⟨nd0, -, rfl⟩ := List.mem_map.mp hnd
    exact Or.inr rfl

/-- A non-schema parse kind among the mssat kinds. -/
theorem isMssat_ne_schema {t : PFT} (h : isMssat t = true) : t ≠ PFT.schema := by
  intro hcon
  subst hcon
  simp [isMssat] at h

theorem rnis_e (n : Nat) (ih : EAllP n) :
    ∀ sf uid st st', removeNodeInSaved (n+1) sf uid st = .ok st' → Ctx st →
    EStep st st' := by
  intro sf uid st st' h hc
  simp only [removeNodeInSaved] at h
  split at h
  · rename_i node heq
    have e1 := estep_erase_nodes st uid
    refine estep_trans e1 (ih.rnf _ _ _ _ _ h (e1.ctx hc) ?_)
    intro pf hpf
    exact goodT_mono e1 hc (hc.patch.nodes uid node (alookup_mem heq) pf hpf)
  · split at h
    · rw [bind_ok] at h
      obtain ⟨r, hr, h⟩ := h
      obtain ⟨nd, s2⟩ := r
      obtain ⟨e1, l0, hl0, hnd0⟩ := deleteDisabled_e hr
      refine estep_trans e1 (ih.rnf _ _ _ _ _ h (e1.ctx hc) ?_)
      intro pf hpf
      exact goodT_mono e1 hc (hc.patch.dis uid l0 hl0 nd hnd0 pf hpf)
    · obtain rfl : st = st' := by injection h
      exact estep_refl _

theorem rnf_e (n : Nat) (ih : EAllP n) :
    ∀ sf uid nd st st', removeNodeFinish (n+1) sf uid nd st = .ok st' → Ctx st →
    (∀ pf, nd.patch_path = some pf → GoodT st pf) → EStep st st' := by
  intro sf uid nd st st' h hc hnode
  simp only [removeNodeFinish] at h
  split at h
  · obtain rfl : st = st' := by injection h
    exact estep_refl _
  · rename_i file_id hpp
    have hg : GoodT st file_id := hnode file_id hpp
    split at h
    · rw [bind_ok] at h
      obtain ⟨schema_file, _, h⟩ := h
      split at h
      · rw [bind_ok] at h
        obtain ⟨y, hy, h⟩ := h
        obtain rfl := ok_inj hy
        split at h
        · obtain rfl : _ = st' := by injection h
          exact estep_disabled_clear st uid
        · obtain rfl : st = st' := by injection h
          exact estep_refl _
      · rw [bind_ok] at h
        obtain ⟨sa, ha, h⟩ := h
        rw [bind_ok] at h
        obtain ⟨sb, hb, h⟩ := h
        rw [bind_ok] at h
        obtain ⟨sf2, hsf2, h⟩ := h
        have e1 := ih.dsml _ _ _ _ _ ha hc
        have e2 := mergePatch_e hb (e1.ctx hc) (goodT_mono e1 hc hg)
        have e12 := estep_trans e1 e2
        simp only [getFileE] at hsf2
        rw [getE_ok] at hsf2
        refine estep_trans e12 ?_
        split at h
        · rw [bind_ok] at h
          obtain ⟨y, hy, h⟩ := h
          obtain rfl := ok_inj hy
          split at h
          · obtain rfl : _ = st' := by injection h
            have e3 : EStep sb (putFile sb file_id
                { sf2 with node_patches := lremove sf2.node_patches uid }) :=
              putFile_e_old hsf2 rfl rfl rfl
            exact estep_trans e3 (estep_disabled_clear _ uid)
          · obtain rfl : _ = st' := by injection h
            exact putFile_e_old hsf2 rfl rfl rfl
        · rw [bind_ok] at h
          obtain ⟨y, hy, h⟩ := h
          obtain rfl := ok_inj hy
          split at h
          · obtain rfl : _ = st' := by injection h
            exact estep_disabled_clear sb uid
          · obtain rfl : sb = st' := by injection h
            exact estep_refl _
    · rw [bind_ok] at h
      obtain ⟨y, hy, h⟩ := h
      obtain rfl := ok_inj hy
      split at h
      · obtain rfl : _ = st' := by injection h
        exact estep_disabled_clear st uid
      · obtain rfl : st = st' := by injection h
        exact estep_refl _

theorem umis_e (n : Nat) (ih : EAllP n) :
    ∀ nw od st st', updateMssatInSaved (n+1) nw od st = .ok st' → Ctx st →
    alookup st.newFiles nw.file_id = some nw →
    alookup st.saved.files od.file_id = some od →
    nw.file_id = od.file_id → od.pft ≠ PFT.schema →
    EStep st st' ∧ (nw.file_id ∉ st.fileDiff.deleted →
      nw.file_id ∉ st.fileDiff.deleted_schema_files → Nice st' nw.file_id) := by
  intro nw od st st' h hc hnf hold hid hpft
  simp only [updateMssatInSaved] at h
  split at h
  · rename_i hsch
    obtain rfl : st = st' := by injection h
    refine ⟨estep_refl _, ?_⟩
    intro hdl hdsl
    rw [hid] at hdl hdsl ⊢
    exact hc.plannice _ _ _ (alreadyScheduled_planMem st od hsch) hdl hdsl od hold hpft
  · rw [bind_ok] at h
    obtain ⟨s1, h1, h⟩ := h
    obtain ⟨e1, hn1⟩ := putFile_e_new hnf rfl rfl rfl
    have e2 : EStep (putFile st nw.file_id nw) s1 :=
      addToPpFiles_e h1 (fun _ _ _ _ _ => hn1)
    have acc : EStep st s1 := estep_trans e1 e2
    have e3 : EStep s1 st' :=
      estep_foldME h (estep_refl s1)
        (fun s a s2 _ hb acc2 => ih.rnis _ _ _ _ hb (acc2.ctx (acc.ctx hc)))
    exact ⟨estep_trans acc e3,
      fun _ _ => e3.nice (acc.ctx hc) _ (e2.nice (e1.ctx hc) _ hn1)⟩

theorem umacs_e (n : Nat) (ih : EAllP n) :
    ∀ nw od st st', updateMacroInSaved (n+1) nw od st = .ok st' → Ctx st →
    alookup st.newFiles nw.file_id = some nw →
    alookup st.saved.files od.file_id = some od →
    nw.file_id = od.file_id → od.pft ≠ PFT.schema →
    EStep st st' ∧ (nw.file_id ∉ st.fileDiff.deleted →
      nw.file_id ∉ st.fileDiff.deleted_schema_files → Nice st' nw.file_id) := by
  intro nw od st st' h hc hnf hold hid hpft
  simp only [updateMacroInSaved] at h
  split at h
  · rename_i hsch
    obtain rfl : st = st' := by injection h
    refine ⟨estep_refl _, ?_⟩
    intro hdl hdsl
    rw [hid] at hdl hdsl ⊢
    exact hc.plannice _ _ _ (alreadyScheduled_planMem st od hsch) hdl hdsl od hold hpft
  · rw [bind_ok] at h
    obtain ⟨s1, h1, h⟩ := h
    have e1 := ih.hmfl _ _ _ _ h1 hc
    have hc1 := e1.ctx hc
    have hnf1 : alookup s1.newFiles nw.file_id = some nw := by
      rw [e1.newf]
      exact hnf
    obtain ⟨e2, hn2⟩ := putFile_e_new hnf1 rfl rfl rfl
    have e3 := addToPpFiles_e h (fun _ _ _ _ _ => hn2)
    exact ⟨estep_trans e1 (estep_trans e2 e3),
      fun _ _ => e3.nice (e2.ctx hc1) _ hn2⟩

theorem udocs_e (n : Nat) (ih : EAllP n) :
    ∀ nw od st st', updateDocInSaved (n+1) nw od st = .ok st' → Ctx st →
    alookup st.newFiles nw.file_id = some nw →
    alookup st.saved.files od.file_id = some od →
    nw.file_id = od.file_id → od.pft ≠ PFT.schema →
    EStep st st' ∧ (nw.file_id ∉ st.fileDiff.deleted →
      nw.file_id ∉ st.fileDiff.deleted_schema_files → Nice st' nw.file_id) := by
  intro nw od st st' h hc hnf hold hid hpft
  simp only [updateDocInSaved] at h
  split at h
  · rename_i hsch
    obtain rfl : st = st' := by injection h
    refine ⟨estep_refl _, ?_⟩
    intro hdl hdsl
    rw [hid] at hdl hdsl ⊢
    exact hc.plannice _ _ _ (alreadyScheduled_planMem st od hsch) hdl hdsl od hold hpft
  · rw [bind_ok] at h
    obtain ⟨s1, h1, h⟩ := h
    have d1 : EStepDel nw.file_id st s1 := hid ▸ ih.ddn _ _ _ h1 hc
    have hnf1 : alookup s1.newFiles nw.file_id = some nw := by
      rw [d1.newf]
      exact hnf
    have e12 : EStep st (putFile s1 nw.file_id nw) :=
      estepdel_putnew d1 hnf1 rfl rfl rfl
    have e3 := addToPpFiles_e h (fun _ _ _ _ _ => (putFile_e_new hnf1 rfl rfl rfl).2)
    exact ⟨estep_trans e12 e3,
      fun _ _ => e3.nice (e12.ctx hc) _ (putFile_e_new hnf1 rfl rfl rfl).2⟩

theorem ufixs_e (n : Nat) (ih : EAllP n) :
    ∀ nw od st st', updateFixtureInSaved (n+1) nw od st = .ok st' → Ctx st →
    alookup st.newFiles nw.file_id = some nw →
    alookup st.saved.files od.file_id = some od →
    nw.file_id = od.file_id → od.pft ≠ PFT.schema →
    EStep st st' ∧ (nw.file_id ∉ st.fileDiff.deleted →
      nw.file_id ∉ st.fileDiff.deleted_schema_files → Nice st' nw.file_id) := by
  intro nw od st st' h hc hnf hold hid hpft
  simp only [updateFixtureInSaved] at h
  split at h
  · rename_i hsch
    obtain rfl : st = st' := by injection h
    refine ⟨estep_refl _, ?_⟩
    intro hdl hdsl
    rw [hid] at hdl hdsl ⊢
    exact hc.plannice _ _ _ (alreadyScheduled_planMem st od hsch) hdl hdsl od hold hpft
  · rw [bind_ok] at h
    obtain ⟨s1, h1, h⟩ := h
    have d1 : EStepDel nw.file_id st s1 := hid ▸ ih.dfn _ _ _ h1 hc
    have hnf1 : alookup s1.newFiles nw.file_id = some nw := by
      rw [d1.newf]
      exact hnf
    have e12 : EStep st (putFile s1 nw.file_id nw) :=
      estepdel_putnew d1 hnf1 rfl rfl rfl
    have e3 := addToPpFiles_e h (fun _ _ _ _ _ => (putFile_e_new hnf1 rfl rfl rfl).2)
    exact ⟨estep_trans e12 e3,
      fun _ _ => e3.nice (e12.ctx hc) _ (putFile_e_new hnf1 rfl rfl rfl).2⟩

theorem uis_e (n : Nat) (ih : EAllP n) :
    ∀ fid st st', updateInSaved (n+1) fid st = .ok st' → Ctx st →
    EStep st st' ∧ (fid ∉ st.fileDiff.deleted →
      fid ∉ st.fileDiff.deleted_schema_files → Nice st' fid) := by
  intro fid st st' h hc
  simp only [updateInSaved] at h
  rw [bind_ok] at h
  obtain ⟨nw, hnw, h⟩ := h
  rw [bind_ok] at h
  obtain ⟨od, hod, h⟩ := h
  rw [getE_ok] at hnw
  simp only [getFileE] at hod
  rw [getE_ok] at hod
  have hnid : nw.file_id = fid := hc.newwf fid nw hnw
  have hoid : od.file_id = fid := hc.savedwf fid od hod
  have hkind : od.pft = nw.pft := hc.kinds fid od nw hod hnw
  have hnw2 : alookup st.newFiles nw.file_id = some nw := by
    rw [hnid]
    exact hnw
  have hod2 : alookup st.saved.files od.file_id = some od := by
    rw [hoid]
    exact hod
  have hid2 : nw.file_id = od.file_id := by rw [hnid, hoid]
  split at h
  · rename_i hmss
    have hpft : od.pft ≠ PFT.schema := by
      rw [hkind]
      exact isMssat_ne_schema hmss
    have hr := ih.umis _ _ _ _ h hc hnw2 hod2 hid2 hpft
    rw [hnid] at hr
    exact hr
  · split at h
    · rename_i hmg
      have hpft : od.pft ≠ PFT.schema := by
        rw [hkind]
        exact isMg_ne_schema hmg
      have hr := ih.umacs _ _ _ _ h hc hnw2 hod2 hid2 hpft
      rw [hnid] at hr
      exact hr
    · split at h
      · rename_i hdoc
        have hpft : od.pft ≠ PFT.schema := by
          rw [hkind, hdoc]
          decide
        have hr := ih.udocs _ _ _ _ h hc hnw2 hod2 hid2 hpft
        rw [hnid] at hr
        exact hr
      · split at h
        · rename_i hfix
          have hpft : od.pft ≠ PFT.schema := by
            rw [hkind, hfix]
            decide
          have hr := ih.ufixs _ _ _ _ h hc hnw2 hod2 hid2 hpft
          rw [hnid] at hr
          exact hr
        · exact absurd h (by simp)

theorem rmf_e (n : Nat) (ih : EAllP n) :
    ∀ sf st st', removeMssatFile (n+1) sf st = .ok st' → Ctx st → EStep st st' := by
  intro sf st st' h hc
  simp only [removeMssatFile] at h
  split at h
  · obtain rfl : st = st' := by injection h
    exact estep_refl _
  · refine estep_foldME h (estep_refl st) ?_
    intro s a s2 _ hb acc
    rw [bind_ok] at hb
    obtain ⟨s1, h1, h2⟩ := hb
    have e1 := ih.rnis _ _ _ _ h1 (acc.ctx hc)
    exact estep_trans e1 (ih.srn _ _ _ h2 (e1.ctx (acc.ctx hc)))

theorem srn_e (n : Nat) (ih : EAllP n) :
    ∀ uid st st', scheduleReferencingNodes (n+1) uid st = .ok st' → Ctx st →
    EStep st st' := by
  intro uid st st' h hc
  simp only [scheduleReferencingNodes] at h
  split at h
  · exact ih.snp _ _ _ h hc
  · obtain rfl : st = st' := by injection h
    exact estep_refl _

theorem snp_e (n : Nat) (ih : EAllP n) :
    ∀ uids st st', scheduleNodesForParsing (n+1) uids st = .ok st' → Ctx st →
    EStep st st' := by
  intro uids st st' h hc
  simp only [scheduleNodesForParsing] at h
  exact estep_foldME h (estep_refl st)
    (fun s a s2 _ hb acc => ih.son _ _ _ hb (acc.ctx hc))

theorem smn_e (n : Nat) (ih : EAllP n) :
    ∀ uids st st', scheduleMacroNodes (n+1) uids st = .ok st' → Ctx st →
    EStep st st' := by
  intro uids st st' h hc
  simp only [scheduleMacroNodes] at h
  exact estep_foldME h (estep_refl st)
    (fun s a s2 _ hb acc => ih.somn _ _ _ hb (acc.ctx hc))

end PP

namespace PP

theorem son_e (n : Nat) (ih : EAllP n) :
    ∀ uid st st', scheduleOneNode (n+1) uid st = .ok st' → Ctx st → EStep st st' := by
  intro uid st st' h hc
  simp only [scheduleOneNode] at h
  split at h
  · rename_i node hnd
    split at h
    · obtain rfl : st = st' := by injection h
      exact estep_refl _
    · split at h
      · rw [bind_ok] at h
        obtain ⟨source_file, _, h⟩ := h
        rw [bind_ok] at h
        obtain ⟨s1, h1, h⟩ := h
        rw [bind_ok] at h
        obtain ⟨nf, hnf, h⟩ := h
        have e1 := ih.rmf _ _ _ h1 hc
        rw [getE_ok] at hnf
        have hid : nf.file_id = node.file_id := (e1.ctx hc).newwf _ nf hnf
        obtain ⟨e2, hn2⟩ := putFile_e_new hnf rfl rfl rfl
        have e3 := addToPpFiles_e h (fun _ _ _ _ _ => by rw [hid]; exact hn2)
        exact estep_trans e1 (estep_trans e2 e3)
      · obtain rfl : st = st' := by injection h
        exact estep_refl _
  · split at h
    · exact ih.sfp _ _ _ _ _ _ h hc
    · split at h
      · exact ih.sfp _ _ _ _ _ _ h hc
      · split at h
        · exact ih.sfp _ _ _ _ _ _ h hc
        · split at h
          · exact ih.sfp _ _ _ _ _ _ h hc
          · split at h
            · exact ih.sfp _ _ _ _ _ _ h hc
            · split at h
              · rename_i mac hmac
                split at h
                · rw [bind_ok] at h
                  obtain ⟨s1, h1, h⟩ := h
                  rw [bind_ok] at h
                  obtain ⟨nf, hnf, h⟩ := h
                  have d1 := ih.dmf _ _ _ _ h1 hc
                  rw [getE_ok] at hnf
                  have hid : nf.file_id = mac.file_id := (d1.ctx hc).newwf _ nf hnf
                  have e12 := estepdel_putnew d1 hnf rfl rfl rfl
                  have hn2 := (putFile_e_new hnf rfl rfl rfl).2
                  have e3 := addToPpFiles_e h (fun _ _ _ _ _ => by rw [hid]; exact hn2)
                  exact estep_trans e12 e3
                · obtain rfl : st = st' := by injection h
                  exact estep_refl _
              · split at h
                · exact ih.sfp _ _ _ _ _ _ h hc
                · obtain rfl : st = st' := by injection h
                  exact estep_refl _

theorem sfp_e (n : Nat) (ih : EAllP n) :
    ∀ k dk fid nm st st', schedForParsing (n+1) k dk fid nm st = .ok st' → Ctx st →
    EStep st st' := by
  intro k dk fid nm st st' h hc
  simp only [schedForParsing] at h
  split at h
  · rw [bind_ok] at h
    obtain ⟨schema_file, hsf, h⟩ := h
    split at h
    · exact absurd h (by simp)
    · rename_i hsch
      have hpft : schema_file.pft = PFT.schema := not_not.mp hsch
      simp only [getFileE] at hsf
      rw [getE_ok] at hsf
      have hg : GoodT st fid := by
        intro e2 he2
        rw [hsf] at he2
        obtain rfl : schema_file = e2 := by injection he2
        exact Or.inl hpft
      split at h
      · rw [bind_ok] at h
        obtain ⟨s1, h1, h⟩ := h
        have e1 := ih.rd _ _ _ _ _ h1 hc
        exact estep_trans e1 (mergePatch_e h (e1.ctx hc) (goodT_mono e1 hc hg))
      · obtain rfl : st = st' := by injection h
        exact estep_refl _
  · obtain rfl : st = st' := by injection h
    exact estep_refl _

theorem rd_e (n : Nat) (ih : EAllP n) :
    ∀ k fid e st st', runDelete (n+1) k fid e st = .ok st' → Ctx st → EStep st st' := by
  intro k fid e st st' h hc
  simp only [runDelete] at h
  cases k with
  | src => exact ih.dss _ _ _ _ h hc
  | expo => exact deleteSchemaExposure_e h
  | metric => exact ih.dsmet _ _ _ _ h hc
  | group => exact ih.dsg _ _ _ _ h hc
  | semModel => exact ih.dssem _ _ _ _ h hc
  | savedQuery => exact ih.dssq _ _ _ _ h hc
  | unitTest => exact deleteSchemaUnitTest_e h
  | macroPatch => exact ih.dsmp _ _ _ _ h hc
  | dataTestPatch => exact deleteSchemaDataTestPatch_e h hc

theorem dss_e (n : Nat) (ih : EAllP n) :
    ∀ fid e st st', deleteSchemaSource (n+1) fid e st = .ok st' → Ctx st →
    EStep st st' := by
  intro fid e st st' h hc
  simp only [deleteSchemaSource] at h
  rw [bind_ok] at h
  obtain ⟨sf, _, h⟩ := h
  rw [bind_ok] at h
  obtain ⟨s1, h1, h⟩ := h
  have e1 : EStep st s1 := by
    refine estep_foldME h1 (estep_refl st) ?_
    intro s a s2 _ hb acc
    split at hb
    · split at hb
      · rw [bind_ok] at hb
        obtain ⟨sf2, hsf2, hb⟩ := hb
        rw [bind_ok] at hb
        obtain ⟨l, _, hb⟩ := hb
        have ea := estep_erase_sources s a
        have hsf2b : alookup ({ s with saved := { s.saved with
            sources := aerase s.saved.sources a } } : PState).saved.files fid = some sf2 := by
          simp only [getFileE] at hsf2
          rw [getE_ok] at hsf2
          exact hsf2
        have eb : EStep ({ s with saved := { s.saved with
              sources := aerase s.saved.sources a } } : PState)
            (putFile { s with saved := { s.saved with
              sources := aerase s.saved.sources a } } fid { sf2 with sources := l }) :=
          putFile_e_old hsf2b rfl rfl rfl
        exact estep_trans ea (estep_trans eb
          (ih.srn _ _ _ hb (eb.ctx (ea.ctx (acc.ctx hc)))))
      · obtain rfl : s = s2 := by injection hb
        exact estep_refl _
    · obtain rfl : s = s2 := by injection hb
      exact estep_refl _
  exact estep_trans e1 (removeTestsSt_e h)

theorem dsg_e (n : Nat) (ih : EAllP n) :
    ∀ fid e st st', deleteSchemaGroup (n+1) fid e st = .ok st' → Ctx st →
    EStep st st' := by
  intro fid e st st' h hc
  simp only [deleteSchemaGroup] at h
  rw [bind_ok] at h
  obtain ⟨sf, _, h⟩ := h
  refine estep_foldME h (estep_refl st) ?_
  intro s a s2 _ hb acc
  split at hb
  · split at hb
    · rw [bind_ok] at hb
      obtain ⟨kids, _, hb⟩ := hb
      rw [bind_ok] at hb
      obtain ⟨s1, h1, hb⟩ := hb
      rw [bind_ok] at hb
      obtain ⟨sf2, hsf2, hb⟩ := hb
      rw [bind_ok] at hb
      obtain ⟨l, _, hb⟩ := hb
      obtain rfl : _ = s2 := by injection hb
      have ea := ih.snp _ _ _ h1 (acc.ctx hc)
      have eb : EStep s1 { s1 with saved := { s1.saved with
          groups := aerase s1.saved.groups a } } :=
        estep_saved_other _ rfl rfl rfl rfl rfl rfl
      have hsf2b : alookup ({ s1 with saved := { s1.saved with
          groups := aerase s1.saved.groups a } } : PState).saved.files fid = some sf2 := by
        simp only [getFileE] at hsf2
        rw [getE_ok] at hsf2
        exact hsf2
      exact estep_trans ea (estep_trans eb (putFile_e_old hsf2b rfl rfl rfl))
    · obtain rfl : s = s2 := by injection hb
      exact estep_refl _
  · obtain rfl : s = s2 := by injection hb
    exact estep_refl _

theorem dsmet_e (n : Nat) (ih : EAllP n) :
    ∀ fid e st st', deleteSchemaMetric (n+1) fid e st = .ok st' → Ctx st →
    EStep st st' := by
  intro fid e st st' h hc
  simp only [deleteSchemaMetric] at h
  rw [bind_ok] at h
  obtain ⟨sf, _, h⟩ := h
  refine estep_foldME h (estep_refl st) ?_
  intro s a s2 _ hb acc
  split at hb
  · split at hb
    · split at hb
      · rw [bind_ok] at hb
        obtain ⟨y, hy, hb⟩ := hb
        rw [bind_ok] at hb
        obtain ⟨sf2, hsf2, hb⟩ := hb
        rw [bind_ok] at hb
        obtain ⟨l, _, hb⟩ := hb
        obtain rfl : _ = s2 := by injection hb
        have ea := ih.snp _ _ _ hy (acc.ctx hc)
        have eb : EStep y { y with saved := { y.saved with
            metrics := aerase y.saved.metrics a } } :=
          estep_saved_other _ rfl rfl rfl rfl rfl rfl
        have hsf2b : alookup ({ y with saved := { y.saved with
            metrics := aerase y.saved.metrics a } } : PState).saved.files fid = some sf2 := by
          simp only [getFileE] at hsf2
          rw [getE_ok] at hsf2
          exact hsf2
        exact estep_trans ea (estep_trans eb (putFile_e_old hsf2b rfl rfl rfl))
      · rw [bind_ok] at hb
        obtain ⟨y, hy, hb⟩ := hb
        obtain rfl := ok_inj hy
        rw [bind_ok] at hb
        obtain ⟨sf2, hsf2, hb⟩ := hb
        rw [bind_ok] at hb
        obtain ⟨l, _, hb⟩ := hb
        obtain rfl : _ = s2 := by injection hb
        have eb : EStep s { s with saved := { s.saved with
            metrics := aerase s.saved.metrics a } } :=
          estep_saved_other _ rfl rfl rfl rfl rfl rfl
        have hsf2b : alookup ({ s with saved := { s.saved with
            metrics := aerase s.saved.metrics a } } : PState).saved.files fid = some sf2 := by
          simp only [getFileE] at hsf2
          rw [getE_ok] at hsf2
          exact hsf2
        exact estep_trans eb (putFile_e_old hsf2b rfl rfl rfl)
    · obtain rfl : s = s2 := by injection hb
      exact estep_refl _
  · split at hb
    · rw [bind_ok] at hb
      obtain ⟨r, hr, hb⟩ := hb
      obtain ⟨nd, s4⟩ := r
      obtain rfl : s4 = s2 := by injection hb
      exact (deleteDisabled_e hr).1
    · obtain rfl : s = s2 := by injection hb
      exact estep_refl _

theorem dssq_e (n : Nat) (ih : EAllP n) :
    ∀ fid e st st', deleteSchemaSavedQuery (n+1) fid e st = .ok st' → Ctx st →
    EStep st st' := by
  intro fid e st st' h hc
  simp only [deleteSchemaSavedQuery] at h
  rw [bind_ok] at h
  obtain ⟨sf, _, h⟩ := h
  refine estep_foldME h (estep_refl st) ?_
  intro s a s2 _ hb acc
  split at hb
  · split at hb
    · split at hb
      · rw [bind_ok] at hb
        obtain ⟨y, hy, hb⟩ := hb
        obtain rfl : _ = s2 := by injection hb
        have ea := ih.snp _ _ _ hy (acc.ctx hc)
        refine estep_trans ea (estep_saved_other _ rfl rfl rfl rfl rfl rfl)
      · rw [bind_ok] at hb
        obtain ⟨y, hy, hb⟩ := hb
        obtain rfl := ok_inj hy
        obtain rfl : _ = s2 := by injection hb
        exact estep_saved_other _ rfl rfl rfl rfl rfl rfl
    · obtain rfl : s = s2 := by injection hb
      exact estep_refl _
  · split at hb
    · rw [bind_ok] at hb
      obtain ⟨r, hr, hb⟩ := hb
      obtain ⟨nd, s4⟩ := r
      obtain rfl : s4 = s2 := by injection hb
      exact (deleteDisabled_e hr).1
    · obtain rfl : s = s2 := by injection hb
      exact estep_refl _

theorem dssem_e (n : Nat) (ih : EAllP n) :
    ∀ fid e st st', deleteSchemaSemanticModel (n+1) fid e st = .ok st' → Ctx st →
    EStep st st' := by
  intro fid e st st' h hc
  simp only [deleteSchemaSemanticModel] at h
  rw [bind_ok] at h
  obtain ⟨sf, _, h⟩ := h
  rw [bind_ok] at h
  obtain ⟨s1, h1, h⟩ := h
  have e1 : EStep st s1 := by
    refine estep_foldME h1 (estep_refl st) ?_
    intro s a s2 _ hb acc
    split at hb
    · split at hb
      · split at hb
        · rw [bind_ok] at hb
          obtain ⟨y, hy, hb⟩ := hb
          rw [bind_ok] at hb
          obtain ⟨sf2, hsf2, hb⟩ := hb
          rw [bind_ok] at hb
          obtain ⟨l, _, hb⟩ := hb
          obtain rfl : _ = s2 := by injection hb
          have ea := ih.snp _ _ _ hy (acc.ctx hc)
          have eb : EStep y { y with saved := { y.saved with
              semanticModels := aerase y.saved.semanticModels a } } :=
            estep_saved_other _ rfl rfl rfl rfl rfl rfl
          have hsf2b : alookup ({ y with saved := { y.saved with
              semanticModels := aerase y.saved.semanticModels a } } : PState).saved.files
              fid = some sf2 := by
            simp only [getFileE] at hsf2
            rw [getE_ok] at hsf2
            exact hsf2
          exact estep_trans ea (estep_trans eb (putFile_e_old hsf2b rfl rfl rfl))
        · rw [bind_ok] at hb
          obtain ⟨y, hy, hb⟩ := hb
          obtain rfl := ok_inj hy
          rw [bind_ok] at hb
          obtain ⟨sf2, hsf2, hb⟩ := hb
          rw [bind_ok] at hb
          obtain ⟨l, _, hb⟩ := hb
          obtain rfl : _ = s2 := by injection hb
          have eb : EStep s { s with saved := { s.saved with
              semanticModels := aerase s.saved.semanticModels a } } :=
            estep_saved_other _ rfl rfl rfl rfl rfl rfl
          have hsf2b : alookup ({ s with saved := { s.saved with
              semanticModels := aerase s.saved.semanticModels a } } : PState).saved.files
              fid = some sf2 := by
            simp only [getFileE] at hsf2
            rw [getE_ok] at hsf2
            exact hsf2
          exact estep_trans eb (putFile_e_old hsf2b rfl rfl rfl)
      · obtain rfl : s = s2 := by injection hb
        exact estep_refl _
    · split at hb
      · rw [bind_ok] at hb
        obtain ⟨r, hr, hb⟩ := hb
        obtain ⟨nd, s4⟩ := r
        obtain rfl : s4 = s2 := by injection hb
        exact (deleteDisabled_e hr).1
      · obtain rfl : s = s2 := by injection hb
        exact estep_refl _
  rw [bind_ok] at h
  obtain ⟨sf2, hsf2, h⟩ := h
  simp only [getFileE] at hsf2
  rw [getE_ok] at hsf2
  have e2 : EStep s1 (putFile s1 fid
      (if sf2.generated_metrics.isEmpty then sf2 else sf2.fix_metrics_from_measures)) :=
    putFile_e_old hsf2 (by split <;> rfl) (by split <;> rfl) (by split <;> rfl)
  refine estep_trans e1 (estep_trans e2 ?_)
  split at h
  · rw [bind_ok] at h
    obtain ⟨s2, h2, h⟩ := h
    rw [bind_ok] at h
    obtain ⟨sf4, hsf4, h⟩ := h
    obtain rfl : _ = st' := by injection h
    have e3 : EStep (putFile s1 fid
        (if sf2.generated_metrics.isEmpty then sf2 else sf2.fix_metrics_from_measures)) s2 := by
      refine estep_foldME h2 (estep_refl _) ?_
      intro s a s3 _ hb acc
      split at hb
      · obtain rfl : _ = s3 := by injection hb
        exact estep_saved_other _ rfl rfl rfl rfl rfl rfl
      · split at hb
        · rw [bind_ok] at hb
          obtain ⟨r, hr, hb⟩ := hb
          obtain ⟨nd, s4⟩ := r
          obtain rfl : s4 = s3 := by injection hb
          exact (deleteDisabled_e hr).1
        · obtain rfl : s = s3 := by injection hb
          exact estep_refl _
    simp only [getFileE] at hsf4
    rw [getE_ok] at hsf4
    exact estep_trans e3 (putFile_e_old hsf4 rfl rfl rfl)
  · obtain rfl : _ = st' := by injection h
    exact estep_refl _

theorem dsmp_e (n : Nat) (ih : EAllP n) :
    ∀ fid e st st', deleteSchemaMacroPatch (n+1) fid e st = .ok st' → Ctx st →
    EStep st st' := by
  intro fid e st st' h hc
  simp only [deleteSchemaMacroPatch] at h
  rw [bind_ok] at h
  obtain ⟨sf, hsf, h⟩ := h
  simp only [getFileE] at hsf
  rw [getE_ok] at hsf
  split at h
  · rename_i muid hmu
    have e1 : EStep st (putFile st fid
        { sf with macro_patches := aerase sf.macro_patches e.name }) :=
      putFile_e_old hsf rfl rfl rfl
    split at h
    · rename_i mac hmac
      have e2 := estep_erase_macros (putFile st fid
        { sf with macro_patches := aerase sf.macro_patches e.name }) muid
      split at h
      · rw [bind_ok] at h
        obtain ⟨_, _, h⟩ := h
        rw [bind_ok] at h
        obtain ⟨s3, h3, h⟩ := h
        rw [bind_ok] at h
        obtain ⟨nf, hnf, h⟩ := h
        have hc2 := e2.ctx (e1.ctx hc)
        have d3 := ih.dmf _ _ _ _ h3 hc2
        rw [getE_ok] at hnf
        have hid : nf.file_id = mac.file_id := (d3.ctx hc2).newwf _ nf hnf
        have e4 := estepdel_putnew d3 hnf rfl rfl rfl
        have hn4 := (putFile_e_new hnf rfl rfl rfl).2
        have e5 := addToPpFiles_e h (fun _ _ _ _ _ => by rw [hid]; exact hn4)
        exact estep_trans e1 (estep_trans e2 (estep_trans e4 e5))
      · obtain rfl : _ = st' := by injection h
        exact estep_trans e1 e2
    · obtain rfl : _ = st' := by injection h
      exact e1
  · obtain rfl : st = st' := by injection h
    exact estep_refl _

end PP

namespace PP

theorem dmf_e (n : Nat) (ih : EAllP n) :
    ∀ fid b st st', deleteMacroFile (n+1) fid b st = .ok st' → Ctx st →
    EStepDel fid st st' := by
  intro fid b st st' h hc
  simp only [deleteMacroFile] at h
  rw [bind_ok] at h
  obtain ⟨source_file, _, h⟩ := h
  rw [bind_ok] at h
  obtain ⟨s1, h1, h⟩ := h
  rw [bind_ok] at h
  obtain ⟨s2, h2, h⟩ := h
  have e1 := checkForSpecialDeletedMacros_e h1
  have e2 := ih.hmfl _ _ _ _ h2 (e1.ctx hc)
  have e12 := estep_trans e1 e2
  split at h
  · obtain rfl : _ = st' := by injection h
    exact estep_trans_del e12 (erase_e s2 fid)
  · rename_i hmem
    obtain rfl : s2 = st' := by injection h
    refine estep_to_del e12 (fun _ => ?_)
    have hf : amem s2.saved.files fid = false := by
      revert hmem
      cases amem s2.saved.files fid <;> simp
    exact (amem_eq_false_iff _ _).mp hf

theorem hmfl_e (n : Nat) (ih : EAllP n) :
    ∀ fid b st st', handleMacroFileLinks (n+1) fid b st = .ok st' → Ctx st →
    EStep st st' := by
  intro fid b st st' h hc
  simp only [handleMacroFileLinks] at h
  rw [bind_ok] at h
  obtain ⟨source_file, _, h⟩ := h
  exact estep_foldME h (estep_refl st)
    (fun s a s2 _ hb acc => ih.homl _ _ _ _ _ hb (acc.ctx hc))

theorem homl_e (n : Nat) (ih : EAllP n) :
    ∀ fid b uid st st', handleOneMacroLink (n+1) fid b uid st = .ok st' → Ctx st →
    EStep st st' := by
  intro fid b uid st st' h hc
  simp only [handleOneMacroLink] at h
  split at h
  · rw [bind_ok] at h
    obtain ⟨sf, hsf, h⟩ := h
    simp only [getFileE] at hsf
    rw [getE_ok] at hsf
    split at h
    · obtain rfl : _ = st' := by injection h
      exact putFile_e_old hsf rfl rfl rfl
    · obtain rfl : st = st' := by injection h
      exact estep_refl _
  · rw [bind_ok] at h
    obtain ⟨bmac, hbm, h⟩ := h
    rw [getE_ok] at hbm
    have e0 := estep_erase_macros st uid
    have hc0 := e0.ctx hc
    split at h
    · rw [bind_ok] at h
      obtain ⟨referencing_nodes, _, h⟩ := h
      rw [bind_ok] at h
      obtain ⟨y, hy, h⟩ := h
      have sA : EStep st y := estep_trans e0 (ih.smn _ _ _ hy hc0)
      have hcy := sA.ctx hc
      split at h
      · rename_i pfid hpp
        have hg : GoodT st pfid := hc.patch.macs uid bmac (alookup_mem hbm) pfid hpp
        have hgy := goodT_mono sA hc hg
        split at h
        · rw [bind_ok] at h
          obtain ⟨schema_file, _, h⟩ := h
          split at h
          · rw [bind_ok] at h
            obtain ⟨a2, ha2, _⟩ := h
            exact absurd ha2 (by simp)
          · rw [bind_ok] at h
            obtain ⟨s3, h3, h⟩ := h
            rw [bind_ok] at h
            obtain ⟨s4, h4, h⟩ := h
            have e3 := ih.dsmp _ _ _ _ h3 hcy
            have e4 := mergePatch_e h4 (e3.ctx hcy) (goodT_mono e3 hcy hgy)
            have sB := estep_trans sA (estep_trans e3 e4)
            rw [bind_ok] at h
            obtain ⟨sfx, hsfx, h⟩ := h
            simp only [getFileE] at hsfx
            rw [getE_ok] at hsfx
            split at h
            · obtain rfl : _ = st' := by injection h
              exact estep_trans sB (putFile_e_old hsfx rfl rfl rfl)
            · obtain rfl : _ = st' := by injection h
              exact sB
        · rw [bind_ok] at h
          obtain ⟨y2, hy2, h⟩ := h
          obtain rfl := ok_inj hy2
          rw [bind_ok] at h
          obtain ⟨sfx, hsfx, h⟩ := h
          simp only [getFileE] at hsfx
          rw [getE_ok] at hsfx
          split at h
          · obtain rfl : _ = st' := by injection h
            exact estep_trans sA (putFile_e_old hsfx rfl rfl rfl)
          · obtain rfl : _ = st' := by injection h
            exact sA
      · rw [bind_ok] at h
        obtain ⟨y2, hy2, h⟩ := h
        obtain rfl := ok_inj hy2
        rw [bind_ok] at h
        obtain ⟨sfx, hsfx, h⟩ := h
        simp only [getFileE] at hsfx
        rw [getE_ok] at hsfx
        split at h
        · obtain rfl : _ = st' := by injection h
          exact estep_trans sA (putFile_e_old hsfx rfl rfl rfl)
        · obtain rfl : _ = st' := by injection h
          exact sA
    · rw [bind_ok] at h
      obtain ⟨y, hy, h⟩ := h
      obtain rfl := ok_inj hy
      have sA : EStep st { st with saved := { st.saved with
          macros := aerase st.saved.macros uid } } := e0
      have hcy := sA.ctx hc
      split at h
      · rename_i pfid hpp
        have hg : GoodT st pfid := hc.patch.macs uid bmac (alookup_mem hbm) pfid hpp
        have hgy := goodT_mono sA hc hg
        split at h
        · rw [bind_ok] at h
          obtain ⟨schema_file, _, h⟩ := h
          split at h
          · rw [bind_ok] at h
            obtain ⟨a2, ha2, _⟩ := h
            exact absurd ha2 (by simp)
          · rw [bind_ok] at h
            obtain ⟨s3, h3, h⟩ := h
            rw [bind_ok] at h
            obtain ⟨s4, h4, h⟩ := h
            have e3 := ih.dsmp _ _ _ _ h3 hcy
            have e4 := mergePatch_e h4 (e3.ctx hcy) (goodT_mono e3 hcy hgy)
            have sB := estep_trans sA (estep_trans e3 e4)
            rw [bind_ok] at h
            obtain ⟨sfx, hsfx, h⟩ := h
            simp only [getFileE] at hsfx
            rw [getE_ok] at hsfx
            split at h
            · obtain rfl : _ = st' := by injection h
              exact estep_trans sB (putFile_e_old hsfx rfl rfl rfl)
            · obtain rfl : _ = st' := by injection h
              exact sB
        · rw [bind_ok] at h
          obtain ⟨y2, hy2, h⟩ := h
          obtain rfl := ok_inj hy2
          rw [bind_ok] at h
          obtain ⟨sfx, hsfx, h⟩ := h
          simp only [getFileE] at hsfx
          rw [getE_ok] at hsfx
          split at h
          · obtain rfl : _ = st' := by injection h
            exact estep_trans sA (putFile_e_old hsfx rfl rfl rfl)
          · obtain rfl : _ = st' := by injection h
            exact sA
      · rw [bind_ok] at h
        obtain ⟨y2, hy2, h⟩ := h
        obtain rfl := ok_inj hy2
        rw [bind_ok] at h
        obtain ⟨sfx, hsfx, h⟩ := h
        simp only [getFileE] at hsfx
        rw [getE_ok] at hsfx
        split at h
        · obtain rfl : _ = st' := by injection h
          exact estep_trans sA (putFile_e_old hsfx rfl rfl rfl)
        · obtain rfl : _ = st' := by injection h
          exact sA

theorem somn_e (n : Nat) (ih : EAllP n) :
    ∀ uid st st', scheduleOneMacroNode (n+1) uid st = .ok st' → Ctx st →
    EStep st st' := by
  intro uid st st' h hc
  simp only [scheduleOneMacroNode] at h
  split at h
  · rename_i node hnd
    split at h
    · rename_i hgen
      have hg : GoodT st node.file_id :=
        hc.patch.gen _ _ (alookup_mem hnd) hgen.1 hgen.2
      rw [bind_ok] at h
      obtain ⟨schema_file, _, h⟩ := h
      split at h
      · split at h
        · split at h
          · rw [bind_ok] at h
            obtain ⟨s1, h1, h⟩ := h
            rw [bind_ok] at h
            obtain ⟨s2, h2, h⟩ := h
            rw [bind_ok] at h
            obtain ⟨sf2, hsf2, h⟩ := h
            have e1 := ih.dsml _ _ _ _ _ h1 hc
            have e2 := mergePatch_e h2 (e1.ctx hc) (goodT_mono e1 hc hg)
            have e12 := estep_trans e1 e2
            simp only [getFileE] at hsf2
            rw [getE_ok] at hsf2
            split at h
            · obtain rfl : _ = st' := by injection h
              exact estep_trans e12 (putFile_e_old hsf2 rfl rfl rfl)
            · obtain rfl : s2 = st' := by injection h
              exact e12
          · split at h
            · split at h
              · rw [bind_ok] at h
                obtain ⟨s1, h1, h⟩ := h
                rw [bind_ok] at h
                obtain ⟨s2, h2, h⟩ := h
                have e1 := ih.rsot _ _ _ h1 hc
                have e2 := ih.dss _ _ _ _ h2 (e1.ctx hc)
                have e12 := estep_trans e1 e2
                exact estep_trans e12
                  (mergePatch_e h (e12.ctx hc) (goodT_mono e12 hc hg))
              · rw [bind_ok] at h
                obtain ⟨y, hy, h⟩ := h
                obtain rfl := ok_inj hy
                rw [bind_ok] at h
                obtain ⟨s2, h2, h⟩ := h
                have e2 := ih.dss _ _ _ _ h2 hc
                exact estep_trans e2
                  (mergePatch_e h (e2.ctx hc) (goodT_mono e2 hc hg))
            · obtain rfl : st = st' := by injection h
              exact estep_refl _
        · obtain rfl : st = st' := by injection h
          exact estep_refl _
      · obtain rfl : st = st' := by injection h
        exact estep_refl _
    · split at h
      · rw [bind_ok] at h
        obtain ⟨source_file, _, h⟩ := h
        rw [bind_ok] at h
        obtain ⟨s1, h1, h⟩ := h
        rw [bind_ok] at h
        obtain ⟨nf, hnf, h⟩ := h
        have e1 := ih.rmf _ _ _ h1 hc
        rw [getE_ok] at hnf
        have hid : nf.file_id = node.file_id := (e1.ctx hc).newwf _ nf hnf
        obtain ⟨e2, hn2⟩ := putFile_e_new hnf rfl rfl rfl
        have e3 := addToPpFiles_e h (fun _ _ _ _ _ => by rw [hid]; exact hn2)
        exact estep_trans e1 (estep_trans e2 e3)
      · obtain rfl : st = st' := by injection h
        exact estep_refl _
  · split at h
    · rename_i mac hmac
      split at h
      · rw [bind_ok] at h
        obtain ⟨s1, h1, h⟩ := h
        rw [bind_ok] at h
        obtain ⟨nf, hnf, h⟩ := h
        have d1 := ih.dmf _ _ _ _ h1 hc
        rw [getE_ok] at hnf
        have hid : nf.file_id = mac.file_id := (d1.ctx hc).newwf _ nf hnf
        have e12 := estepdel_putnew d1 hnf rfl rfl rfl
        have hn2 := (putFile_e_new hnf rfl rfl rfl).2
        have e3 := addToPpFiles_e h (fun _ _ _ _ _ => by rw [hid]; exact hn2)
        exact estep_trans e12 e3
      · obtain rfl : st = st' := by injection h
        exact estep_refl _
    · obtain rfl : st = st' := by injection h
      exact estep_refl _

theorem rsot_e (n : Nat) (ih : EAllP n) :
    ∀ e st st', removeSourceOverrideTarget (n+1) e st = .ok st' → Ctx st →
    EStep st st' := by
  intro e st st' h hc
  simp only [removeSourceOverrideTarget] at h
  rw [bind_ok] at h
  obtain ⟨r, hrr, h⟩ := h
  split at h
  · rename_i orig hor
    obtain ⟨uid, s0, hmem, hr1⟩ := gsofad_facts hrr
    have hg : GoodT st r.1 := by
      rw [hr1]
      exact hc.patch.srcs uid s0 hmem
    rw [bind_ok] at h
    obtain ⟨s1, h1, h⟩ := h
    rw [bind_ok] at h
    obtain ⟨s2, h2, h⟩ := h
    rw [bind_ok] at h
    obtain ⟨sfq, hsfq, h⟩ := h
    have e1 := ih.dss _ _ _ _ h1 hc
    have e2 := mergePatch_e h2 (e1.ctx hc) (goodT_mono e1 hc hg)
    have e12 := estep_trans e1 e2
    have hc2 := e12.ctx hc
    have hg2 := goodT_mono e12 hc hg
    simp only [getFileE] at hsfq
    rw [getE_ok] at hsfq
    have hsid : sfq.file_id = r.1 := hc2.savedwf _ _ hsfq
    refine estep_trans e12 (addToPpFiles_e h ?_)
    intro hdl hdsl e2x he2 hp2
    rw [hsid] at hdl hdsl he2 ⊢
    exact nice_of_goodT hc2 hg2 hdl hdsl he2 hp2
  · obtain rfl : st = st' := by injection h
    exact estep_refl _

end PP

namespace PP

theorem dsml_e (n : Nat) (ih : EAllP n) :
    ∀ fid dk e st st', deleteSchemaMssaLinks (n+1) fid dk e st = .ok st' → Ctx st →
    EStep st st' := by
  intro fid dk e st st' h hc
  simp only [deleteSchemaMssaLinks] at h
  rw [bind_ok] at h
  obtain ⟨sf, _, h⟩ := h
  rw [bind_ok] at h
  obtain ⟨pfx, _, h⟩ := h
  rw [bind_ok] at h
  obtain ⟨ids, _, h⟩ := h
  rw [bind_ok] at h
  obtain ⟨s1, h1, h⟩ := h
  have eFold : EStep st s1 := by
    refine estep_foldME h1 (estep_refl st) ?_
    intro s a s2 _ hb acc
    split at hb
    · split at hb
      · rename_i nd hnd
        rw [bind_ok] at hb
        obtain ⟨r, hr, hb⟩ := hb
        obtain rfl := ok_inj hr
        rw [bind_ok] at hb
        obtain ⟨y2, hy2, hb⟩ := hb
        have eA := estep_erase_nodes s a
        have hcA := eA.ctx (acc.ctx hc)
        have eF : EStep ({ s with saved := { s.saved with
            nodes := aerase s.saved.nodes a } } : PState) y2 := by
          refine estep_foldME hy2 (estep_refl _) ?_
          intro t ndx t2 _ htb acc2
          have hct : Ctx t := acc2.ctx hcA
          split at htb
          · rw [bind_ok] at htb
            obtain ⟨nf, hnf, htb⟩ := htb
            rw [bind_ok] at htb
            obtain ⟨y0, hy0, htb⟩ := htb
            obtain rfl := ok_inj hy0
            rw [bind_ok] at htb
            obtain ⟨source_file, hsrcf, htb⟩ := htb
            rw [bind_ok] at htb
            obtain ⟨t3, ht3, htb⟩ := htb
            rw [getE_ok] at hnf
            have hid : nf.file_id = ndx.file_id := hct.newwf _ nf hnf
            obtain ⟨eP, hnP⟩ := putFile_e_new hnf rfl rfl rfl
            have hsrcf2 : alookup (aset t.saved.files ndx.file_id nf) ndx.file_id =
                some source_file := by
              simp only [getFileE] at hsrcf
              rw [getE_ok] at hsrcf
              exact hsrcf
            rw [alookup_aset_self] at hsrcf2
            obtain rfl : nf = source_file := by injection hsrcf2
            have eA2 := addToPpFiles_e ht3 (fun _ _ _ _ _ => by rw [hid]; exact hnP)
            have sA := estep_trans eP eA2
            have hct3 : Ctx t3 := sA.ctx hct
            split at htb
            · rw [bind_ok] at htb
              obtain ⟨t4, ht4, htb⟩ := htb
              have sB := estep_trans sA (ih.srn _ _ _ ht4 hct3)
              split at htb
              · exact estep_trans sB (ih.srn _ _ _ htb (sB.ctx hct))
              · obtain rfl : t4 = t2 := by injection htb
                exact sB
            · rw [bind_ok] at htb
              obtain ⟨t4, ht4, htb⟩ := htb
              obtain rfl := ok_inj ht4
              split at htb
              · exact estep_trans sA (ih.srn _ _ _ htb hct3)
              · obtain rfl : t3 = t2 := by injection htb
                exact sA
          · rename_i hcond
            rw [bind_ok] at htb
            obtain ⟨y0, hy0, htb⟩ := htb
            obtain rfl := ok_inj hy0
            rw [bind_ok] at htb
            obtain ⟨source_file, hsrcf, htb⟩ := htb
            rw [bind_ok] at htb
            obtain ⟨t3, ht3, htb⟩ := htb
            simp only [getFileE] at hsrcf
            rw [getE_ok] at hsrcf
            have hsid : source_file.file_id = ndx.file_id := hct.savedwf _ _ hsrcf
            have sA : EStep t t3 := by
              refine addToPpFiles_e ht3 ?_
              intro hdl hdsl e2 he2 hp2
              rw [hsid] at hdl hdsl he2 ⊢
              rw [hsrcf] at he2
              obtain rfl : source_file = e2 := by injection he2
              rcases hct.ent _ _ hsrcf with hN | hd2 | hd2 | ⟨hps, _⟩ | ⟨_, hcl⟩
              · exact hN
              · exact absurd hd2 hdl
              · exact absurd hd2 hdsl
              · exact absurd hps hp2
              · exact absurd (hct.dwf.chmem _ hcl) hcond
            have hct3 : Ctx t3 := sA.ctx hct
            split at htb
            · rw [bind_ok] at htb
              obtain ⟨t4, ht4, htb⟩ := htb
              have sB := estep_trans sA (ih.srn _ _ _ ht4 hct3)
              split at htb
              · exact estep_trans sB (ih.srn _ _ _ htb (sB.ctx hct))
              · obtain rfl : t4 = t2 := by injection htb
                exact sB
            · rw [bind_ok] at htb
              obtain ⟨t4, ht4, htb⟩ := htb
              obtain rfl := ok_inj ht4
              split at htb
              · exact estep_trans sA (ih.srn _ _ _ htb hct3)
              · obtain rfl : t3 = t2 := by injection htb
                exact sA
        rw [bind_ok] at hb
        obtain ⟨sf2, hsf2, hb⟩ := hb
        rw [bind_ok] at hb
        obtain ⟨np, _, hb⟩ := hb
        obtain rfl : _ = s2 := by injection hb
        simp only [getFileE] at hsf2
        rw [getE_ok] at hsf2
        exact estep_trans eA (estep_trans eF (putFile_e_old hsf2 rfl rfl rfl))
      · rw [bind_ok] at hb
        obtain ⟨p, hp, hb⟩ := hb
        rw [bind_ok] at hb
        obtain ⟨r, hr, hb⟩ := hb
        obtain rfl := ok_inj hr
        rw [bind_ok] at hb
        obtain ⟨y2, hy2, hb⟩ := hb
        have hp2 := (apopE_ok hp).2
        have eA : EStep s { s with saved := { s.saved with disabled := p.2 } } :=
          estep_tables rfl rfl (fun _ hm => hm)
            (fun u l hm nd hnd =>
              Or.inl ⟨l, by rw [hp2] at hm; exact mem_aerase hm, hnd⟩)
            (fun _ hm => hm) (fun _ hm => hm) rfl rfl rfl
        have hcA := eA.ctx (acc.ctx hc)
        have eF : EStep ({ s with saved := { s.saved with disabled := p.2 } } : PState)
            y2 := by
          refine estep_foldME hy2 (estep_refl _) ?_
          intro t ndx t2 _ htb acc2
          have hct : Ctx t := acc2.ctx hcA
          split at htb
          · rw [bind_ok] at htb
            obtain ⟨nf, hnf, htb⟩ := htb
            rw [bind_ok] at htb
            obtain ⟨y0, hy0, htb⟩ := htb
            obtain rfl := ok_inj hy0
            rw [bind_ok] at htb
            obtain ⟨source_file, hsrcf, htb⟩ := htb
            rw [bind_ok] at htb
            obtain ⟨t3, ht3, htb⟩ := htb
            rw [getE_ok] at hnf
            have hid : nf.file_id = ndx.file_id := hct.newwf _ nf hnf
            obtain ⟨eP, hnP⟩ := putFile_e_new hnf rfl rfl rfl
            have hsrcf2 : alookup (aset t.saved.files ndx.file_id nf) ndx.file_id =
                some source_file := by
              simp only [getFileE] at hsrcf
              rw [getE_ok] at hsrcf
              exact hsrcf
            rw [alookup_aset_self] at hsrcf2
            obtain rfl : nf = source_file := by injection hsrcf2
            have eA2 := addToPpFiles_e ht3 (fun _ _ _ _ _ => by rw [hid]; exact hnP)
            have sA := estep_trans eP eA2
            have hct3 : Ctx t3 := sA.ctx hct
            split at htb
            · rw [bind_ok] at htb
              obtain ⟨t4, ht4, htb⟩ := htb
              have sB := estep_trans sA (ih.srn _ _ _ ht4 hct3)
              split at htb
              · exact estep_trans sB (ih.srn _ _ _ htb (sB.ctx hct))
              · obtain rfl : t4 = t2 := by injection htb
                exact sB
            · rw [bind_ok] at htb
              obtain ⟨t4, ht4, htb⟩ := htb
              obtain rfl := ok_inj ht4
              split at htb
              · exact estep_trans sA (ih.srn _ _ _ htb hct3)
              · obtain rfl : t3 = t2 := by injection htb
                exact sA
          · rename_i hcond
            rw [bind_ok] at htb
            obtain ⟨y0, hy0, htb⟩ := htb
            obtain rfl := ok_inj hy0
            rw [bind_ok] at htb
            obtain ⟨source_file, hsrcf, htb⟩ := htb
            rw [bind_ok] at htb
            obtain ⟨t3, ht3, htb⟩ := htb
            simp only [getFileE] at hsrcf
            rw [getE_ok] at hsrcf
            have hsid : source_file.file_id = ndx.file_id := hct.savedwf _ _ hsrcf
            have sA : EStep t t3 := by
              refine addToPpFiles_e ht3 ?_
              intro hdl hdsl e2 he2 hp2
              rw [hsid] at hdl hdsl he2 ⊢
              rw [hsrcf] at he2
              obtain rfl : source_file = e2 := by injection he2
              rcases hct.ent _ _ hsrcf with hN | hd2 | hd2 | ⟨hps, _⟩ | ⟨_, hcl⟩
              · exact hN
              · exact absurd hd2 hdl
              · exact absurd hd2 hdsl
              · exact absurd hps hp2
              · exact absurd (hct.dwf.chmem _ hcl) hcond
            have hct3 : Ctx t3 := sA.ctx hct
            split at htb
            · rw [bind_ok] at htb
              obtain ⟨t4, ht4, htb⟩ := htb
              have sB := estep_trans sA (ih.srn _ _ _ ht4 hct3)
              split at htb
              · exact estep_trans sB (ih.srn _ _ _ htb (sB.ctx hct))
              · obtain rfl : t4 = t2 := by injection htb
                exact sB
            · rw [bind_ok] at htb
              obtain ⟨t4, ht4, htb⟩ := htb
              obtain rfl := ok_inj ht4
              split at htb
              · exact estep_trans sA (ih.srn _ _ _ htb hct3)
              · obtain rfl : t3 = t2 := by injection htb
                exact sA
        rw [bind_ok] at hb
        obtain ⟨sf2, hsf2, hb⟩ := hb
        rw [bind_ok] at hb
        obtain ⟨np, _, hb⟩ := hb
        obtain rfl : _ = s2 := by injection hb
        simp only [getFileE] at hsf2
        rw [getE_ok] at hsf2
        exact estep_trans eA (estep_trans eF (putFile_e_old hsf2 rfl rfl rfl))
    · rw [bind_ok] at hb
      obtain ⟨y, hy, hb⟩ := hb
      obtain rfl := ok_inj hy
      rw [bind_ok] at hb
      obtain ⟨sf2, hsf2, hb⟩ := hb
      rw [bind_ok] at hb
      obtain ⟨np, _, hb⟩ := hb
      obtain rfl : _ = s2 := by injection hb
      simp only [getFileE] at hsf2
      rw [getE_ok] at hsf2
      exact putFile_e_old hsf2 rfl rfl rfl
  refine estep_trans eFold ?_
  split at h
  · exact removeTestsSt_e h
  · obtain rfl : s1 = st' := by injection h
    exact estep_refl _

end PP

namespace PP

/-- The parse kinds outside the four update families are exactly schema. -/
theorem pft_exhaust (t : PFT) (h1 : isMssat t = false) (h2 : isMg t = false)
    (h3 : t ≠ PFT.documentation) (h4 : t ≠ PFT.fixture) : t = PFT.schema := by
  cases t <;> simp_all [isMssat, isMg]

theorem ats_e (n : Nat) (ih : EAllP n) :
    ∀ fid st st', addToSaved (n+1) fid st = .ok st' → Ctx st →
    EStep st st' ∧ Nice st' fid := by
  intro fid st st' h hc
  simp only [addToSaved] at h
  rw [bind_ok] at h
  obtain ⟨source_file, hsrc, h⟩ := h
  rw [getE_ok] at hsrc
  have hsid : source_file.file_id = fid := hc.newwf _ _ hsrc
  split at h
  · rw [bind_ok] at h
    obtain ⟨r, hr, h⟩ := h
    obtain ⟨e1, hck, hpft, hid⟩ := ih.hasf _ _ _ hr hc
    have hsrc2 : alookup r.2.newFiles fid = some source_file := by
      rw [e1.newf]
      exact hsrc
    obtain ⟨e2, hn2⟩ := putFile_e_new hsrc2 hck hpft hid
    have e3 := addToPpFiles_e h (fun _ _ _ _ _ => by rw [hid, hsid]; exact hn2)
    refine ⟨estep_trans e1 (estep_trans e2 e3), ?_⟩
    exact e3.nice (e2.ctx (e1.ctx hc)) _ hn2
  · obtain ⟨e2, hn2⟩ := putFile_e_new hsrc rfl rfl rfl
    have e3 := addToPpFiles_e h (fun _ _ _ _ _ => by rw [hsid]; exact hn2)
    exact ⟨estep_trans e2 e3, e3.nice (e2.ctx hc) _ hn2⟩

theorem hasf_e (n : Nat) (ih : EAllP n) :
    ∀ sf st r, handleAddedSchemaFile (n+1) sf st = .ok r → Ctx st →
    EStep st r.2 ∧ r.1.checksum = sf.checksum ∧ r.1.pft = sf.pft ∧
      r.1.file_id = sf.file_id := by
  intro sf st r h hc
  simp only [handleAddedSchemaFile] at h
  split at h
  · rw [bind_ok] at h
    obtain ⟨s1, h1, h⟩ := h
    obtain rfl : _ = r := by injection h
    refine ⟨?_, rfl, rfl, rfl⟩
    refine estep_foldME h1 (estep_refl st) ?_
    intro s a s2 _ hb acc
    split at hb
    · exact ih.rsot _ _ _ hb (acc.ctx hc)
    · obtain rfl : s = s2 := by injection hb
      exact estep_refl _
  · obtain rfl : _ = r := by injection h
    exact ⟨estep_refl _, rfl, rfl, rfl⟩

theorem ddn_e (n : Nat) (ih : EAllP n) :
    ∀ fid st st', deleteDocNode (n+1) fid st = .ok st' → Ctx st →
    EStepDel fid st st' := by
  intro fid st st' h hc
  simp only [deleteDocNode] at h
  rw [bind_ok] at h
  obtain ⟨source_file, _, h⟩ := h
  rw [bind_ok] at h
  obtain ⟨s1, h1, h⟩ := h
  have eFold : EStep st s1 := by
    refine estep_foldME h1 (estep_refl st) ?_
    intro s a s2 _ hb acc
    rw [bind_ok] at hb
    obtain ⟨d, _, hb⟩ := hb
    rw [bind_ok] at hb
    obtain ⟨sf2, hsf2, hb⟩ := hb
    rw [bind_ok] at hb
    obtain ⟨l, _, hb⟩ := hb
    obtain rfl : _ = s2 := by injection hb
    have ea : EStep s { s with saved := { s.saved with docs := d } } :=
      estep_saved_other _ rfl rfl rfl rfl rfl rfl
    have hsf2b : alookup ({ s with saved := { s.saved with
        docs := d } } : PState).saved.files fid = some sf2 := by
      simp only [getFileE] at hsf2
      rw [getE_ok] at hsf2
      exact hsf2
    exact estep_trans ea (putFile_e_old hsf2b rfl rfl rfl)
  rw [bind_ok] at h
  obtain ⟨sf3, _, h⟩ := h
  rw [bind_ok] at h
  obtain ⟨s2, h2, h⟩ := h
  rw [bind_ok] at h
  obtain ⟨sf4, hsf4, h⟩ := h
  rw [bind_ok] at h
  obtain ⟨p, hp, h⟩ := h
  obtain rfl : _ = st' := by injection h
  have e2 := ih.snp _ _ _ h2 (eFold.ctx hc)
  simp only [getFileE] at hsf4
  rw [getE_ok] at hsf4
  have e3 : EStep s2 (putFile s2 fid { sf4 with nodes := [] }) :=
    putFile_e_old hsf4 rfl rfl rfl
  have chain := estep_trans eFold (estep_trans e2 e3)
  rw [(apopE_ok hp).2]
  exact estep_trans_del chain (erase_e _ fid)

theorem dfn_e (n : Nat) (ih : EAllP n) :
    ∀ fid st st', deleteFixtureNode (n+1) fid st = .ok st' → Ctx st →
    EStepDel fid st st' := by
  intro fid st st' h hc
  simp only [deleteFixtureNode] at h
  rw [bind_ok] at h
  obtain ⟨source_file, _, h⟩ := h
  split at h
  · rw [bind_ok] at h
    obtain ⟨u, hu, h⟩ := h
    obtain rfl := ok_inj hu
    rw [bind_ok] at h
    obtain ⟨fx, _, h⟩ := h
    rw [bind_ok] at h
    obtain ⟨s1, h1, h⟩ := h
    have e0 : EStep st { st with saved := { st.saved with fixtures := fx } } :=
      estep_saved_other _ rfl rfl rfl rfl rfl rfl
    have eFold : EStep ({ st with saved := { st.saved with
        fixtures := fx } } : PState) s1 := by
      refine estep_foldME h1 (estep_refl _) ?_
      intro s a s2 _ hb acc
      rw [bind_ok] at hb
      obtain ⟨ut, _, hb⟩ := hb
      rw [bind_ok] at hb
      obtain ⟨s3, h3, hb⟩ := hb
      rw [bind_ok] at hb
      obtain ⟨sf2, hsf2, hb⟩ := hb
      rw [bind_ok] at hb
      obtain ⟨l, _, hb⟩ := hb
      obtain rfl : _ = s2 := by injection hb
      have ea : EStep s { s with saved := { s.saved with
          unitTests := aerase s.saved.unitTests a } } :=
        estep_saved_other _ rfl rfl rfl rfl rfl rfl
      have e3 := ih.sfp _ _ _ _ _ _ h3 (ea.ctx (acc.ctx (e0.ctx hc)))
      simp only [getFileE] at hsf2
      rw [getE_ok] at hsf2
      exact estep_trans ea (estep_trans e3 (putFile_e_old hsf2 rfl rfl rfl))
    rw [bind_ok] at h
    obtain ⟨p, hp, h⟩ := h
    obtain rfl : _ = st' := by injection h
    have chain := estep_trans e0 eFold
    rw [(apopE_ok hp).2]
    exact estep_trans_del chain (erase_e _ fid)
  · rw [bind_ok] at h
    obtain ⟨a, ha, _⟩ := h
    exact absurd ha (by simp)

theorem dfs_e (n : Nat) (ih : EAllP n) :
    ∀ fid st st', deleteFromSaved (n+1) fid st = .ok st' → Ctx st →
    (∀ e, alookup st.saved.files fid = some e → e.pft ≠ PFT.schema) →
    EStepDel fid st st' := by
  intro fid st st' h hc hns
  simp only [deleteFromSaved] at h
  rw [bind_ok] at h
  obtain ⟨ssf, hssf, h⟩ := h
  simp only [getFileE] at hssf
  rw [getE_ok] at hssf
  split at h
  · rw [bind_ok] at h
    obtain ⟨s1, h1, h⟩ := h
    rw [bind_ok] at h
    obtain ⟨p, hp, h⟩ := h
    obtain rfl : _ = st' := by injection h
    have e1 := ih.rmf _ _ _ h1 hc
    rw [(apopE_ok hp).2]
    exact estep_trans_del e1 (erase_e s1 fid)
  · split at h
    · exact ih.dmf _ _ _ _ h hc
    · split at h
      · exact ih.ddn _ _ _ h hc
      · split at h
        · exact ih.dfn _ _ _ h hc
        · rename_i hm1 hm2 hm3 hm4
          exact absurd (pft_exhaust ssf.pft
            (by revert hm1; cases isMssat ssf.pft <;> simp)
            (by revert hm2; cases isMg ssf.pft <;> simp) hm3 hm4) (hns ssf hssf)

theorem csf_e (n : Nat) (ih : EAllP n) :
    ∀ fid st st', changeSchemaFile (n+1) fid st = .ok st' → Ctx st → GoodT st fid →
    EStep st st' ∧ Nice st' fid := by
  intro fid st st' h hc hg
  simp only [changeSchemaFile] at h
  rw [bind_ok] at h
  obtain ⟨ssf, hssf, h⟩ := h
  rw [bind_ok] at h
  obtain ⟨nsf, hnsf, h⟩ := h
  rw [bind_ok] at h
  obtain ⟨s2, h1, h⟩ := h
  rw [bind_ok] at h
  obtain ⟨sfm, hsfm, h⟩ := h
  simp only [getFileE] at hssf
  rw [getE_ok] at hssf
  rw [getE_ok] at hnsf
  have e1 : EStep st (putFile st fid { ssf with pp_dict := some [] }) :=
    putFile_e_old hssf rfl rfl rfl
  have hc1 := e1.ctx hc
  have e2 := ih.hsfc _ _ _ _ _ h1 hc1 (goodT_mono e1 hc hg)
  have e12 := estep_trans e1 e2
  have hnf2 : alookup s2.newFiles fid = some nsf := by
    rw [e12.newf]
    exact hnsf
  simp only [getFileE] at hsfm
  rw [getE_ok] at hsfm
  have hc2 := e12.ctx hc
  have hkind : sfm.pft = nsf.pft := hc2.kinds _ _ _ hsfm hnf2
  have hsid : sfm.file_id = fid := hc2.savedwf _ _ hsfm
  have hnid : nsf.file_id = fid := hc2.newwf _ _ hnf2
  have e3full : EStep s2 (putFile s2 fid { sfm with contents := nsf.contents, checksum := nsf.checksum, dfy := nsf.dfy }) ∧ Nice (putFile s2 fid { sfm with contents := nsf.contents, checksum := nsf.checksum, dfy := nsf.dfy }) fid :=
    putFile_e_new hnf2 rfl hkind (hsid.trans hnid.symm)
  obtain ⟨e3, hn3⟩ := e3full
  have hvid : ({ sfm with contents := nsf.contents, checksum := nsf.checksum, dfy := nsf.dfy } : SFile).file_id = fid := hsid
  have e4 := addToPpFiles_e h (fun _ _ _ _ _ =>
    Eq.mpr (congrArg (Nice (putFile s2 fid { sfm with contents := nsf.contents, checksum := nsf.checksum, dfy := nsf.dfy })) hvid) hn3)
  refine ⟨estep_trans e12 (estep_trans e3 e4), ?_⟩
  exact e4.nice (e3.ctx hc2) _ hn3

theorem dschf_e (n : Nat) (ih : EAllP n) :
    ∀ fid st st', deleteSchemaFile (n+1) fid st = .ok st' → Ctx st → GoodT st fid →
    EStepDel fid st st' := by
  intro fid st st' h hc hg
  simp only [deleteSchemaFile] at h
  rw [bind_ok] at h
  obtain ⟨ssf, _, h⟩ := h
  rw [bind_ok] at h
  obtain ⟨s1, h1, h⟩ := h
  rw [bind_ok] at h
  obtain ⟨p, hp, h⟩ := h
  obtain rfl : _ = st' := by injection h
  have e1 := ih.hsfc _ _ _ _ _ h1 hc hg
  rw [(apopE_ok hp).2]
  exact estep_trans_del e1 (erase_e s1 fid)

theorem hsfc_e (n : Nat) (ih : EAllP n) :
    ∀ fid sy ny st st', handleSchemaFileChanges (n+1) fid sy ny st = .ok st' → Ctx st →
    GoodT st fid → EStep st st' := by
  intro fid sy ny st st' h hc hg
  simp only [handleSchemaFileChanges] at h
  rw [bind_ok] at h
  obtain ⟨s1, h1, h⟩ := h
  rw [bind_ok] at h
  obtain ⟨s2, h2, h⟩ := h
  rw [bind_ok] at h
  obtain ⟨s3, h3, h⟩ := h
  rw [bind_ok] at h
  obtain ⟨s4, h4, h⟩ := h
  rw [bind_ok] at h
  obtain ⟨s5, h5, h⟩ := h
  rw [bind_ok] at h
  obtain ⟨s6, h6, h⟩ := h
  rw [bind_ok] at h
  obtain ⟨s7, h7, h⟩ := h
  rw [bind_ok] at h
  obtain ⟨s8, h8, h⟩ := h
  rw [bind_ok] at h
  obtain ⟨s9, h9, h⟩ := h
  have E1 : EStep st s1 :=
    estep_foldME h1 (estep_refl st)
      (fun s a s2x _ hb acc =>
        ih.pmk _ _ _ _ _ _ _ hb (acc.ctx hc) (goodT_mono acc hc hg))
  have E2 : EStep st s2 :=
    estep_trans E1 (ih.psk _ _ _ _ _ _ h2 (E1.ctx hc) (goodT_mono E1 hc hg))
  have E3 : EStep st s3 :=
    estep_trans E2 (ih.hec _ _ _ _ _ _ _ _ h3 (E2.ctx hc) (goodT_mono E2 hc hg))
  have E4 : EStep st s4 :=
    estep_trans E3 (ih.hec _ _ _ _ _ _ _ _ h4 (E3.ctx hc) (goodT_mono E3 hc hg))
  have E5 : EStep st s5 :=
    estep_trans E4 (ih.hec _ _ _ _ _ _ _ _ h5 (E4.ctx hc) (goodT_mono E4 hc hg))
  have E6 : EStep st s6 :=
    estep_trans E5 (ih.hec _ _ _ _ _ _ _ _ h6 (E5.ctx hc) (goodT_mono E5 hc hg))
  have E7 : EStep st s7 :=
    estep_trans E6 (ih.hec _ _ _ _ _ _ _ _ h7 (E6.ctx hc) (goodT_mono E6 hc hg))
  have E8 : EStep st s8 :=
    estep_trans E7 (ih.hec _ _ _ _ _ _ _ _ h8 (E7.ctx hc) (goodT_mono E7 hc hg))
  have E9 : EStep st s9 :=
    estep_trans E8 (ih.hec _ _ _ _ _ _ _ _ h9 (E8.ctx hc) (goodT_mono E8 hc hg))
  exact estep_trans E9 (ih.hec _ _ _ _ _ _ _ _ h (E9.ctx hc) (goodT_mono E9 hc hg))

theorem pmk_e (n : Nat) (ih : EAllP n) :
    ∀ fid dk sy ny ev st st', processMssaKey (n+1) fid dk sy ny ev st = .ok st' →
    Ctx st → GoodT st fid → EStep st st' := by
  intro fid dk sy ny ev st st' h hc hg
  simp only [processMssaKey] at h
  rw [bind_ok] at h
  obtain ⟨s1, h1, h⟩ := h
  rw [bind_ok] at h
  obtain ⟨s2, h2, h⟩ := h
  rw [bind_ok] at h
  obtain ⟨s3, h3, h⟩ := h
  have EA : EStep st s1 := by
    refine estep_foldME h1 (estep_refl st) ?_
    intro s a s2x _ hb acc
    have hcs := acc.ctx hc
    have hgs := goodT_mono acc hc hg
    split at hb
    · rw [bind_ok] at hb
      obtain ⟨sx, hx, hb⟩ := hb
      rw [bind_ok] at hb
      obtain ⟨sy, hy, hb⟩ := hb
      have ex := deleteYamlSnapshot_e hx
      have ey := ih.dsml _ _ _ _ _ hy (ex.ctx hcs)
      have exy := estep_trans ex ey
      exact estep_trans exy (mergePatch_e hb (exy.ctx hcs) (goodT_mono exy hcs hgs))
    · rw [bind_ok] at hb
      obtain ⟨y, hy0, hb⟩ := hb
      obtain rfl := ok_inj hy0
      rw [bind_ok] at hb
      obtain ⟨sy, hy, hb⟩ := hb
      have ey := ih.dsml _ _ _ _ _ hy hcs
      exact estep_trans ey (mergePatch_e hb (ey.ctx hcs) (goodT_mono ey hcs hgs))
  have hc1 := EA.ctx hc
  have hg1 := goodT_mono EA hc hg
  have EB : EStep s1 s2 := by
    refine estep_foldME h2 (estep_refl s1) ?_
    intro s a s2x _ hb acc
    have hcs := acc.ctx hc1
    split at hb
    · rw [bind_ok] at hb
      obtain ⟨sx, hx, hb⟩ := hb
      have ex := deleteYamlSnapshot_e hx
      exact estep_trans ex (ih.dsml _ _ _ _ _ hb (ex.ctx hcs))
    · rw [bind_ok] at hb
      obtain ⟨y, hy0, hb⟩ := hb
      obtain rfl := ok_inj hy0
      exact ih.dsml _ _ _ _ _ hb hcs
  have EAB := estep_trans EA EB
  have hc2 := EAB.ctx hc
  have hg2 := goodT_mono EAB hc hg
  have EC : EStep s2 s3 := by
    refine estep_foldME h3 (estep_refl s2) ?_
    intro s a s2x _ hb acc
    exact mergePatch_e hb (acc.ctx hc2) (goodT_mono acc hc2 hg2)
  have EABC := estep_trans EAB EC
  have hc3 := EABC.ctx hc
  have hg3 := goodT_mono EABC hc hg
  refine estep_trans EABC ?_
  split at h
  · split at h
    · rw [bind_ok] at h
      obtain ⟨c, hcd, h⟩ := h
      obtain rfl := ok_inj hcd
      refine estep_foldME h (estep_refl s3) ?_
      intro s a s2x _ hb acc
      have hcs := acc.ctx hc3
      have hgs := goodT_mono acc hc3 hg3
      split at hb
      · obtain rfl : s = s2x := by injection hb
        exact estep_refl _
      · split at hb
        · split at hb
          · rw [bind_ok] at hb
            obtain ⟨sx, hx, hb⟩ := hb
            rw [bind_ok] at hb
            obtain ⟨sy, hy, hb⟩ := hb
            have ex := deleteYamlSnapshot_e hx
            have ey := ih.dsml _ _ _ _ _ hy (ex.ctx hcs)
            have exy := estep_trans ex ey
            exact estep_trans exy
              (mergePatch_e hb (exy.ctx hcs) (goodT_mono exy hcs hgs))
          · rw [bind_ok] at hb
            obtain ⟨y, hy0, hb⟩ := hb
            obtain rfl := ok_inj hy0
            rw [bind_ok] at hb
            obtain ⟨sy, hy, hb⟩ := hb
            have ey := ih.dsml _ _ _ _ _ hy hcs
            exact estep_trans ey
              (mergePatch_e hb (ey.ctx hcs) (goodT_mono ey hcs hgs))
        · obtain rfl : s = s2x := by injection hb
          exact estep_refl _
    · rw [bind_ok] at h
      obtain ⟨a, ha, _⟩ := h
      exact absurd ha (by simp)
  · obtain rfl : s3 = st' := by injection h
    exact estep_refl _

theorem psk_e (n : Nat) (ih : EAllP n) :
    ∀ fid sy ny ev st st', processSourcesKey (n+1) fid sy ny ev st = .ok st' → Ctx st →
    GoodT st fid → EStep st st' := by
  intro fid sy ny ev st st' h hc hg
  simp only [processSourcesKey] at h
  rw [bind_ok] at h
  obtain ⟨s1, h1, h⟩ := h
  rw [bind_ok] at h
  obtain ⟨s2, h2, h⟩ := h
  rw [bind_ok] at h
  obtain ⟨s3, h3, h⟩ := h
  have EA : EStep st s1 := by
    refine estep_foldME h1 (estep_refl st) ?_
    intro s a s2x _ hb acc
    have hcs := acc.ctx hc
    have hgs := goodT_mono acc hc hg
    split at hb
    · rw [bind_ok] at hb
      obtain ⟨sx, hx, hb⟩ := hb
      rw [bind_ok] at hb
      obtain ⟨sy, hy, hb⟩ := hb
      have ex := ih.rsot _ _ _ hx hcs
      have ey := ih.dss _ _ _ _ hy (ex.ctx hcs)
      have exy := estep_trans ex ey
      exact estep_trans exy (mergePatch_e hb (exy.ctx hcs) (goodT_mono exy hcs hgs))
    · rw [bind_ok] at hb
      obtain ⟨y, hy0, hb⟩ := hb
      obtain rfl := ok_inj hy0
      rw [bind_ok] at hb
      obtain ⟨sy, hy, hb⟩ := hb
      have ey := ih.dss _ _ _ _ hy hcs
      exact estep_trans ey (mergePatch_e hb (ey.ctx hcs) (goodT_mono ey hcs hgs))
  have hc1 := EA.ctx hc
  have EB : EStep s1 s2 := by
    refine estep_foldME h2 (estep_refl s1) ?_
    intro s a s2x _ hb acc
    have hcs := acc.ctx hc1
    split at hb
    · rw [bind_ok] at hb
      obtain ⟨sx, hx, hb⟩ := hb
      have ex := ih.rsot _ _ _ hx hcs
      exact estep_trans ex (ih.dss _ _ _ _ hb (ex.ctx hcs))
    · rw [bind_ok] at hb
      obtain ⟨y, hy0, hb⟩ := hb
      obtain rfl := ok_inj hy0
      exact ih.dss _ _ _ _ hb hcs
  have EAB := estep_trans EA EB
  have hc2 := EAB.ctx hc
  have hg2 := goodT_mono EAB hc hg
  have EC : EStep s2 s3 := by
    refine estep_foldME h3 (estep_refl s2) ?_
    intro s a s2x _ hb acc
    have hcs := acc.ctx hc2
    have hgs := goodT_mono acc hc2 hg2
    split at hb
    · rw [bind_ok] at hb
      obtain ⟨sx, hx, hb⟩ := hb
      have ex := ih.rsot _ _ _ hx hcs
      exact estep_trans ex (mergePatch_e hb (ex.ctx hcs) (goodT_mono ex hcs hgs))
    · rw [bind_ok] at hb
      obtain ⟨y, hy0, hb⟩ := hb
      obtain rfl := ok_inj hy0
      exact mergePatch_e hb hcs hgs
  have EABC := estep_trans EAB EC
  have hc3 := EABC.ctx hc
  have hg3 := goodT_mono EABC hc hg
  refine estep_trans EABC ?_
  split at h
  · split at h
    · rw [bind_ok] at h
      obtain ⟨c, hcd, h⟩ := h
      obtain rfl := ok_inj hcd
      refine estep_foldME h (estep_refl s3) ?_
      intro s a s2x _ hb acc
      have hcs := acc.ctx hc3
      have hgs := goodT_mono acc hc3 hg3
      split at hb
      · obtain rfl : s = s2x := by injection hb
        exact estep_refl _
      · split at hb
        · split at hb
          · rw [bind_ok] at hb
            obtain ⟨sx, hx, hb⟩ := hb
            rw [bind_ok] at hb
            obtain ⟨sy, hy, hb⟩ := hb
            have ex := ih.rsot _ _ _ hx hcs
            have ey := ih.dss _ _ _ _ hy (ex.ctx hcs)
            have exy := estep_trans ex ey
            exact estep_trans exy
              (mergePatch_e hb (exy.ctx hcs) (goodT_mono exy hcs hgs))
          · rw [bind_ok] at hb
            obtain ⟨y, hy0, hb⟩ := hb
            obtain rfl := ok_inj hy0
            rw [bind_ok] at hb
            obtain ⟨sy, hy, hb⟩ := hb
            have ey := ih.dss _ _ _ _ hy hcs
            exact estep_trans ey
              (mergePatch_e hb (ey.ctx hcs) (goodT_mono ey hcs hgs))
        · obtain rfl : s = s2x := by injection hb
          exact estep_refl _
    · rw [bind_ok] at h
      obtain ⟨a, ha, _⟩ := h
      exact absurd ha (by simp)
  · obtain rfl : s3 = st' := by injection h
    exact estep_refl _

theorem hec_e (n : Nat) (ih : EAllP n) :
    ∀ fid sy ny ev dk k st st', handleElementChange (n+1) fid sy ny ev dk k st = .ok st' →
    Ctx st → GoodT st fid → EStep st st' := by
  intro fid sy ny ev dk k st st' h hc hg
  simp only [handleElementChange] at h
  rw [bind_ok] at h
  obtain ⟨s1, h1, h⟩ := h
  rw [bind_ok] at h
  obtain ⟨s2, h2, h⟩ := h
  rw [bind_ok] at h
  obtain ⟨s3, h3, h⟩ := h
  have EA : EStep st s1 := by
    refine estep_foldME h1 (estep_refl st) ?_
    intro s a s2x _ hb acc
    have hcs := acc.ctx hc
    have hgs := goodT_mono acc hc hg
    rw [bind_ok] at hb
    obtain ⟨sx, hx, hb⟩ := hb
    have ex := ih.rd _ _ _ _ _ hx hcs
    exact estep_trans ex (mergePatch_e hb (ex.ctx hcs) (goodT_mono ex hcs hgs))
  have hc1 := EA.ctx hc
  have EB : EStep s1 s2 := by
    refine estep_foldME h2 (estep_refl s1) ?_
    intro s a s2x _ hb acc
    exact ih.rd _ _ _ _ _ hb (acc.ctx hc1)
  have EAB := estep_trans EA EB
  have hc2 := EAB.ctx hc
  have hg2 := goodT_mono EAB hc hg
  have EC : EStep s2 s3 := by
    refine estep_foldME h3 (estep_refl s2) ?_
    intro s a s2x _ hb acc
    exact mergePatch_e hb (acc.ctx hc2) (goodT_mono acc hc2 hg2)
  have EABC := estep_trans EAB EC
  have hc3 := EABC.ctx hc
  have hg3 := goodT_mono EABC hc hg
  refine estep_trans EABC ?_
  split at h
  · split at h
    · rw [bind_ok] at h
      obtain ⟨c, hcd, h⟩ := h
      obtain rfl := ok_inj hcd
      refine estep_foldME h (estep_refl s3) ?_
      intro s a s2x _ hb acc
      have hcs := acc.ctx hc3
      have hgs := goodT_mono acc hc3 hg3
      split at hb
      · obtain rfl : s = s2x := by injection hb
        exact estep_refl _
      · split at hb
        · rw [bind_ok] at hb
          obtain ⟨sx, hx, hb⟩ := hb
          have ex := ih.rd _ _ _ _ _ hx hcs
          exact estep_trans ex
            (mergePatch_e hb (ex.ctx hcs) (goodT_mono ex hcs hgs))
        · obtain rfl : s = s2x := by injection hb
          exact estep_refl _
    · rw [bind_ok] at h
      obtain ⟨a, ha, _⟩ := h
      exact absurd ha (by simp)
  · obtain rfl : s3 = st' := by injection h
    exact estep_refl _

theorem eAllP_succ (n : Nat) (ih : EAllP n) : EAllP (n+1) where
  rnis := rnis_e n ih
  rnf := rnf_e n ih
  umis := umis_e n ih
  umacs := umacs_e n ih
  udocs := udocs_e n ih
  ufixs := ufixs_e n ih
  uis := uis_e n ih
  rmf := rmf_e n ih
  srn := srn_e n ih
  snp := snp_e n ih
  son := son_e n ih
  sfp := sfp_e n ih
  rd := rd_e n ih
  dss := dss_e n ih
  dsg := dsg_e n ih
  dsmet := dsmet_e n ih
  dssq := dssq_e n ih
  dssem := dssem_e n ih
  dsmp := dsmp_e n ih
  dmf := dmf_e n ih
  hmfl := hmfl_e n ih
  homl := homl_e n ih
  smn := smn_e n ih
  somn := somn_e n ih
  dsml := dsml_e n ih
  rsot := rsot_e n ih
  ats := ats_e n ih
  hasf := hasf_e n ih
  ddn := ddn_e n ih
  dfn := dfn_e n ih
  dfs := dfs_e n ih
  csf := csf_e n ih
  dschf := dschf_e n ih
  hsfc := hsfc_e n ih
  pmk := pmk_e n ih
  psk := psk_e n ih
  hec := hec_e n ih

theorem eAll : ∀ n, EAllP n := by
  intro n
  induction n with
  | zero => exact eAllP_zero
  | succ n ih => exact eAllP_succ n ih

end PP

namespace PP

/-- Accumulated facts along a completed prefix of the planner run: inputs
frozen, invariant established, parse kinds inherited from the initial
state, initially-absent ids still absent, and reconciliation preserved
away from the deletion lists. -/
structure RunE (st0 s : PState) : Prop where
  newf : s.newFiles = st0.newFiles
  diff : s.fileDiff = st0.fileDiff
  env : s.saved.envVars = st0.saved.envVars
  gone : ∀ g, alookup st0.saved.files g = none → amem st0.newFiles g = false →
    alookup s.saved.files g = none
  line : ∀ g e2, alookup s.saved.files g = some e2 →
    (∃ e, alookup st0.saved.files g = some e ∧ e2.pft = e.pft) ∨
    (∃ f, alookup st0.newFiles g = some f ∧ e2.pft = f.pft)
  ctx : Ctx s
  nice : ∀ g, g ∉ st0.fileDiff.deleted → g ∉ st0.fileDiff.deleted_schema_files →
    Nice st0 g → Nice s g

theorem runE_refl {st0 : PState} (hc : Ctx st0) : RunE st0 st0 where
  newf := rfl
  diff := rfl
  env := rfl
  gone := fun _ hn _ => hn
  line := fun _ e2 he2 => Or.inl ⟨e2, he2, rfl⟩
  ctx := hc
  nice := fun _ _ _ hn => hn

theorem runE_estep {st0 s s' : PState} (r : RunE st0 s) (e : EStep s s') :
    RunE st0 s' where
  newf := e.newf.trans r.newf
  diff := e.diff.trans r.diff
  env := e.env.trans r.env
  gone := fun g hn hm => e.gone g (r.gone g hn hm) (by rw [r.newf]; exact hm)
  line := by
    intro g e2 he2
    rcases (e.line r.ctx g e2 he2).1 with ⟨e1, he1, hp⟩ | ⟨f, hf, hp⟩
    · rcases r.line g e1 he1 with ⟨e0, he0, hp0⟩ | ⟨f0, hf0, hp0⟩
      · exact Or.inl ⟨e0, he0, hp.trans hp0⟩
      · exact Or.inr ⟨f0, hf0, hp.trans hp0⟩
    · rw [r.newf] at hf
      exact Or.inr ⟨f, hf, hp⟩
  ctx := e.ctx r.ctx
  nice := fun g hd1 hd2 hn => e.nice r.ctx g (r.nice g hd1 hd2 hn)

theorem runE_del {st0 s s' : PState} {k : String} (r : RunE st0 s) (d : EStepDel k s s')
    (hk : k ∈ st0.fileDiff.deleted ∨ k ∈ st0.fileDiff.deleted_schema_files) :
    RunE st0 s' where
  newf := d.newf.trans r.newf
  diff := d.diff.trans r.diff
  env := d.env.trans r.env
  gone := fun g hn hm => d.gone g (r.gone g hn hm) (by rw [r.newf]; exact hm)
  line := by
    intro g e2 he2
    rcases (d.line r.ctx g e2 he2).1 with ⟨e1, he1, hp⟩ | ⟨f, hf, hp⟩
    · rcases r.line g e1 he1 with ⟨e0, he0, hp0⟩ | ⟨f0, hf0, hp0⟩
      · exact Or.inl ⟨e0, he0, hp.trans hp0⟩
      · exact Or.inr ⟨f0, hf0, hp.trans hp0⟩
    · rw [r.newf] at hf
      exact Or.inr ⟨f, hf, hp⟩
  ctx := d.ctx r.ctx
  nice := by
    intro g hd1 hd2 hn
    refine d.niceg r.ctx g ?_ (r.nice g hd1 hd2 hn)
    rintro rfl
    rcases hk with hk2 | hk2
    · exact hd1 hk2
    · exact hd2 hk2

/-- A file id outside the changed set is a safe merge target. -/
theorem goodT_of_not_changed {s : PState} {g : String}
    (h : g ∉ s.fileDiff.changed) : GoodT s g :=
  fun _ _ => Or.inr (Or.inl h)

/-- A stage built from per-item reconciling steps: the run facts are
maintained, reconciliation and absence propagate, and every processed id
ends reconciled. -/
theorem foldE_nice {st0 : PState} {F : PState → String → M PState} :
    ∀ {l : List String},
    (∀ s a s', a ∈ l → F s a = .ok s' → RunE st0 s → EStep s s' ∧ Nice s' a) →
    ∀ {s s' : PState}, foldME F s l = .ok s' → RunE st0 s →
    RunE st0 s' ∧ (∀ g, Nice s g → Nice s' g) ∧
    (∀ g, alookup s.saved.files g = none → amem st0.newFiles g = false →
      alookup s'.saved.files g = none) ∧
    (∀ a ∈ l, Nice s' a) := by
  intro l
  induction l with
  | nil =>
    intro _ s s' h r
    simp only [foldME] at h
    obtain rfl : s = s' := by injection h
    exact ⟨r, fun _ hg => hg, fun _ hg _ => hg,
      fun a ha => absurd ha (List.not_mem_nil _)⟩
  | cons a rest ih =>
    intro hF s s' h r
    simp only [foldME] at h
    rw [bind_ok] at h
    obtain ⟨s1, h1, h2⟩ := h
    obtain ⟨e1, hn1⟩ := hF s a s1 (List.mem_cons_self _ _) h1 r
    have r1 := runE_estep r e1
    obtain ⟨rfin, hpres, hgone, hitems⟩ :=
      ih (fun s2 b s3 hb => hF s2 b s3 (List.mem_cons_of_mem _ hb)) h2 r1
    refine ⟨rfin, fun g hg => hpres g (e1.nice r.ctx g hg), ?_, ?_⟩
    · intro g hg hm
      exact hgone g (e1.gone g hg (by rw [r.newf]; exact hm)) hm
    · intro b hb
      rcases List.mem_cons.mp hb with rfl | hb2
      · exact hpres b hn1
      · exact hitems b hb2

/-- A stage built from per-item deletion steps over ids of the deletion
lists: the run facts are maintained, reconciliation propagates away from
the deletion lists, absence propagates, and every processed id ends with
no saved entry. -/
theorem foldE_del {st0 : PState} {F : PState → String → M PState} :
    ∀ {l : List String},
    (∀ a ∈ l, a ∈ st0.fileDiff.deleted ∨ a ∈ st0.fileDiff.deleted_schema_files) →
    (∀ a ∈ l, amem st0.newFiles a = false) →
    (∀ s a s', a ∈ l → F s a = .ok s' → RunE st0 s → EStepDel a s s') →
    ∀ {s s' : PState}, foldME F s l = .ok s' → RunE st0 s →
    RunE st0 s' ∧
    (∀ g, g ∉ st0.fileDiff.deleted → g ∉ st0.fileDiff.deleted_schema_files →
      Nice s g → Nice s' g) ∧
    (∀ g, alookup s.saved.files g = none → amem st0.newFiles g = false →
      alookup s'.saved.files g = none) ∧
    (∀ a ∈ l, alookup s'.saved.files a = none) := by
  intro l
  induction l with
  | nil =>
    intro _ _ _ s s' h r
    simp only [foldME] at h
    obtain rfl : s = s' := by injection h
    exact ⟨r, fun _ _ _ hg => hg, fun _ hg _ => hg,
      fun a ha => absurd ha (List.not_mem_nil _)⟩
  | cons a rest ih =>
    intro hsub hout hF s s' h r
    simp only [foldME] at h
    rw [bind_ok] at h
    obtain ⟨s1, h1, h2⟩ := h
    have d1 := hF s a s1 (List.mem_cons_self _ _) h1 r
    have r1 := runE_del r d1 (hsub a (List.mem_cons_self _ _))
    obtain ⟨rfin, hpres, hgone, hitems⟩ :=
      ih (fun b hb => hsub b (List.mem_cons_of_mem _ hb))
        (fun b hb => hout b (List.mem_cons_of_mem _ hb))
        (fun s2 b s3 hb => hF s2 b s3 (List.mem_cons_of_mem _ hb)) h2 r1
    refine ⟨rfin, ?_, ?_, ?_⟩
    · intro g hg1 hg2 hn
      refine hpres g hg1 hg2 (d1.niceg r.ctx g ?_ hn)
      rintro rfl
      rcases hsub g (List.mem_cons_self _ _) with hk2 | hk2
      · exact hg1 hk2
      · exact hg2 hk2
    · intro g hg hm
      exact hgone g (d1.gone g hg (by rw [r.newf]; exact hm)) hm
    · intro b hb
      rcases List.mem_cons.mp hb with rfl | hb2
      · exact hgone b (d1.nonef r.ctx) (hout b (List.mem_cons_self _ _))
      · exact hitems b hb2

end PP

namespace PP

/-- The invariant holds at the freshly constructed planner state (no-op
env pass): the diff facts follow from the diff construction, every saved
entry is covered by one of the diff cases, patch targets are schema files
by hypothesis, and the plan is empty. -/
theorem ctx_init (saved : Manifest) (nf : Assoc SFile)
    (mcm dbf : Assoc (List String))
    (hnew : ∀ k f, alookup nf k = some f → f.file_id = k)
    (hsaved : ∀ k e, alookup saved.files k = some e → e.file_id = k)
    (hnodup : (saved.files.map Prod.fst).Nodup)
    (hkinds : ∀ k e f, alookup saved.files k = some e → alookup nf k = some f →
      e.pft = f.pft)
    (hpn : ∀ uid nd, (uid, nd) ∈ saved.nodes → ∀ pf, nd.patch_path = some pf →
      ∀ e, alookup saved.files pf = some e → e.pft = PFT.schema)
    (hgt : ∀ uid nd, (uid, nd) ∈ saved.nodes → nd.resource_type = NType.test →
      nd.test_node_type = "generic" → ∀ e, alookup saved.files nd.file_id = some e →
      e.pft = PFT.schema)
    (hpd : ∀ uid l, (uid, l) ∈ saved.disabled → ∀ nd, nd ∈ l →
      ∀ pf, nd.patch_path = some pf → ∀ e, alookup saved.files pf = some e →
      e.pft = PFT.schema)
    (hpm : ∀ uid mac, (uid, mac) ∈ saved.macros → ∀ pf, mac.patch_path = some pf →
      ∀ e, alookup saved.files pf = some e → e.pft = PFT.schema)
    (hps : ∀ uid src, (uid, src) ∈ saved.sources →
      ∀ e, alookup saved.files src.file_id = some e → e.pft = PFT.schema) :
    Ctx { saved := saved
          newFiles := nf
          plan := []
          macroChildMap := mcm
          envChangedSrcFiles := []
          envChangedSchemaFiles := []
          fileDiff := (buildFileDiff saved.files nf [] []).1
          processingFile := none
          specialOverrideFlag := false
          disabledByFileId := dbf } := by
  refine ⟨hnew, hsaved, hnodup, hkinds, ⟨?_, ?_, ?_, ?_, ?_⟩, ?_,
    ⟨fun uid nd hm pf hpf e he => Or.inl (hpn uid nd hm pf hpf e he),
     fun uid nd hm h1 h2 e he => Or.inl (hgt uid nd hm h1 h2 e he),
     fun uid l hm nd hnd pf hpf e he => Or.inl (hpd uid l hm nd hnd pf hpf e he),
     fun uid mac hm pf hpf e he => Or.inl (hpm uid mac hm pf hpf e he),
     fun uid src hm e he => Or.inl (hps uid src hm e he)⟩, ?_⟩
  · intro g hg
    have hg2 : g ∈ (buildFileDiff saved.files nf [] []).1.changed := hg
    rw [mem_diff_changed] at hg2
    rcases hg2 with ⟨-, sf, nfv, -, hnfv, -, -⟩ | ⟨hes, -⟩
    · show amem nf g = true
      exact (amem_eq_true_iff nf g).mpr ⟨nfv, hnfv⟩
    · exact absurd hes (List.not_mem_nil _)
  · intro g hg
    have hg2 : g ∈ (buildFileDiff saved.files nf [] []).1.changed_schema_files := hg
    rw [mem_diff_changed_schema] at hg2
    rcases hg2 with ⟨-, sf, nfv, -, hnfv, -, -⟩ | ⟨hes, -⟩
    · show amem nf g = true
      exact (amem_eq_true_iff nf g).mpr ⟨nfv, hnfv⟩
    · exact absurd hes (List.not_mem_nil _)
  · intro g hg
    have hg2 : g ∈ (buildFileDiff saved.files nf [] []).1.deleted := hg
    rw [mem_diff_deleted] at hg2
    obtain ⟨⟨-, hnone⟩, -⟩ := hg2
    show amem nf g = false
    exact (amem_eq_false_iff nf g).mpr hnone
  · intro g hg
    have hg2 : g ∈ (buildFileDiff saved.files nf [] []).1.deleted_schema_files := hg
    rw [mem_diff_deleted_schema] at hg2
    obtain ⟨⟨-, hnone⟩, -⟩ := hg2
    show amem nf g = false
    exact (amem_eq_false_iff nf g).mpr hnone
  · intro g h1 h2
    have h1b : g ∈ (buildFileDiff saved.files nf [] []).1.changed := h1
    have h2b : g ∈ (buildFileDiff saved.files nf [] []).1.changed_schema_files := h2
    rw [mem_diff_changed] at h1b
    rw [mem_diff_changed_schema] at h2b
    rcases h1b with ⟨-, sf, nfv, hsf, -, -, hnsch⟩ | ⟨hes, -⟩
    · rcases h2b with ⟨-, sf2, nfv2, hsf2, -, -, hsch⟩ | ⟨heh, -⟩
      · rw [hsf] at hsf2
        obtain rfl : sf = sf2 := by injection hsf2
        exact hnsch hsch
      · exact absurd heh (List.not_mem_nil _)
    · exact absurd hes (List.not_mem_nil _)
  · intro g e he
    have he2 : alookup saved.files g = some e := he
    have hdom : g ∈ saved.files.map Prod.fst :=
      List.mem_map.mpr ⟨(g, e), alookup_mem he2, rfl⟩
    by_cases hm : amem nf g = true
    · obtain ⟨f, hf⟩ := (amem_eq_true_iff nf g).mp hm
      by_cases hck : e.checksum = f.checksum
      · exact Or.inl ⟨e, f, he, hf, hck⟩
      · by_cases hsch : e.pft = PFT.schema
        · refine Or.inr (Or.inr (Or.inr (Or.inl ⟨hsch, ?_⟩)))
          show g ∈ (buildFileDiff saved.files nf [] []).1.changed_schema_files
          rw [mem_diff_changed_schema]
          exact Or.inl ⟨List.mem_filter.mpr ⟨hdom, hm⟩, e, f, he2, hf, hck, hsch⟩
        · refine Or.inr (Or.inr (Or.inr (Or.inr ⟨hsch, ?_⟩)))
          show g ∈ (buildFileDiff saved.files nf [] []).1.changed
          rw [mem_diff_changed]
          exact Or.inl ⟨List.mem_filter.mpr ⟨hdom, hm⟩, e, f, he2, hf, hck, hsch⟩
    · have hnone : alookup nf g = none := by
        refine (amem_eq_false_iff nf g).mp ?_
        revert hm
        cases amem nf g <;> simp
      by_cases hsch : e.pft = PFT.schema
      · refine Or.inr (Or.inr (Or.inl ?_))
        show g ∈ (buildFileDiff saved.files nf [] []).1.deleted_schema_files
        rw [mem_diff_deleted_schema]
        exact ⟨⟨hdom, hnone⟩, e, he2, hsch⟩
      · refine Or.inr (Or.inl ?_)
        show g ∈ (buildFileDiff saved.files nf [] []).1.deleted
        rw [mem_diff_deleted]
        exact ⟨⟨hdom, hnone⟩, e, he2, hsch⟩
  · intro p q g hpm2 _ _ e _ _
    exfalso
    obtain ⟨pm, lst, h1, -, -⟩ := hpm2
    have h1b : alookup ([] : Assoc (Assoc (List String))) p = some pm := h1
    simp [alookup] at h1b

end PP

namespace PP

/-- C5: idempotence of the planner modulo env-var drift.  When the saved
env-var table agrees with the process environment (no recorded variable
classified changed or deleted — the necessary amendment, since the planner
never writes current values back into `manifest.env_vars`, see the
counterexample), any completed `get_parsing_files` run — whatever mix of
added, checksum-changed, deleted, schema edits and schema deletions the
diff contains — leaves a manifest from which a planner rebuilt over the
same new files skips.  The hypotheses are the well-formedness facts of the
inputs: file-map keys match the stored file ids on both sides, the saved
keys are duplicate-free, common ids keep their parse kind, and every
patch-path style reference of the manifest (node patches, generic tests,
disabled shadows, macro patches, source definitions) points at a schema
file. -/
theorem C5_idempotence (saved : Manifest) (nf : Assoc SFile)
    (ge : String → Option String) (bm : Manifest → Assoc (List String)) (n : Nat)
    (pr : Assoc (Assoc (List String)) × PState)
    (hge : classifyEnvVars ge saved.envVars = ([], []))
    (hnew : ∀ k f, alookup nf k = some f → f.file_id = k)
    (hsaved : ∀ k e, alookup saved.files k = some e → e.file_id = k)
    (hnodup : (saved.files.map Prod.fst).Nodup)
    (hkinds : ∀ k e f, alookup saved.files k = some e → alookup nf k = some f →
      e.pft = f.pft)
    (hpn : ∀ uid nd, (uid, nd) ∈ saved.nodes → ∀ pf, nd.patch_path = some pf →
      ∀ e, alookup saved.files pf = some e → e.pft = PFT.schema)
    (hgt : ∀ uid nd, (uid, nd) ∈ saved.nodes → nd.resource_type = NType.test →
      nd.test_node_type = "generic" → ∀ e, alookup saved.files nd.file_id = some e →
      e.pft = PFT.schema)
    (hpd : ∀ uid l, (uid, l) ∈ saved.disabled → ∀ nd, nd ∈ l →
      ∀ pf, nd.patch_path = some pf → ∀ e, alookup saved.files pf = some e →
      e.pft = PFT.schema)
    (hpm : ∀ uid mac, (uid, mac) ∈ saved.macros → ∀ pf, mac.patch_path = some pf →
      ∀ e, alookup saved.files pf = some e → e.pft = PFT.schema)
    (hps : ∀ uid src, (uid, src) ∈ saved.sources →
      ∀ e, alookup saved.files src.file_id = some e → e.pft = PFT.schema)
    (hrun : getParsingFiles n (initPP saved nf ge bm) = .ok pr) :
    skipParsing (initPP pr.2.saved nf ge bm) = true := by
  simp only [getParsingFiles] at hrun
  by_cases hsk : skipParsing (initPP saved nf ge bm) = true
  · rw [if_pos hsk] at hrun
    obtain rfl := ok_inj hrun
    show skipParsing (initPP (initPP saved nf ge bm).saved nf ge bm) = true
    have hsv : (initPP saved nf ge bm).saved = saved := by
      rw [initPP_noop ge saved nf bm hge]
    rw [hsv]
    exact hsk
  · rw [if_neg hsk] at hrun
    rw [initPP_noop ge saved nf bm hge] at hrun
    rw [bind_ok] at hrun
    obtain ⟨s1, h1, hrun⟩ := hrun
    rw [bind_ok] at hrun
    obtain ⟨s2, h2, hrun⟩ := hrun
    rw [bind_ok] at hrun
    obtain ⟨s3, h3, hrun⟩ := hrun
    rw [bind_ok] at hrun
    obtain ⟨s4, h4, hrun⟩ := hrun
    rw [bind_ok] at hrun
    obtain ⟨s5, h5, hrun⟩ := hrun
    obtain rfl := ok_inj hrun
    have hc0 := ctx_init saved nf
      (if (buildFileDiff saved.files nf [] []).2 then bm saved else [])
      (buildDisabledByFileId saved) hnew hsaved hnodup hkinds hpn hgt hpd hpm hps
    have r0 := runE_refl hc0
    obtain ⟨r1, pres1, gone1, nice1⟩ := foldE_nice
      (fun s a s' ha hb r => by
        have e0 := estep_proc s (some a)
        obtain ⟨e2, hn2⟩ := (eAll n).ats _ _ _ hb (e0.ctx r.ctx)
        exact ⟨estep_trans e0 e2, hn2⟩) h1 r0
    obtain ⟨r2, pres2, gone2, nice2⟩ := foldE_nice
      (fun s a s' ha hb r => by
        have haD := r1.diff ▸ ha
        have e0 := estep_proc s (some a)
        have hnotch : a ∉ ({ s with processingFile := some a } : PState).fileDiff.changed := by
          intro hmem
          have hmem1 : a ∈ s.fileDiff.changed := hmem
          rw [r.diff] at hmem1
          exact hc0.dwf.disj a hmem1 haD
        obtain ⟨e2, hn2⟩ := (eAll n).csf _ _ _ hb (e0.ctx r.ctx)
          (goodT_of_not_changed hnotch)
        exact ⟨estep_trans e0 e2, hn2⟩) h2 r1
    obtain ⟨r3, pres3, gone3, none3⟩ := foldE_del
      (fun a ha => Or.inr (r2.diff ▸ ha))
      (fun a ha => hc0.dwf.dslout a (r2.diff ▸ ha))
      (fun s a s' ha hb r => by
        have haD := r2.diff ▸ ha
        have e0 := estep_proc s (some a)
        have hnotch : a ∉ ({ s with processingFile := some a } : PState).fileDiff.changed := by
          intro hmem
          have hmem1 : a ∈ s.fileDiff.changed := hmem
          rw [r.diff] at hmem1
          have hx := hc0.dwf.chmem a hmem1
          rw [hc0.dwf.dslout a haD] at hx
          cases hx
        have d2 := (eAll n).dschf _ _ _ hb (e0.ctx r.ctx)
          (goodT_of_not_changed hnotch)
        exact estep_trans_del e0 d2) h3 r2
    obtain ⟨r4, pres4, gone4, none4⟩ := foldE_del
      (fun a ha => Or.inl (r3.diff ▸ ha))
      (fun a ha => hc0.dwf.dlout a (r3.diff ▸ ha))
      (fun s a s' ha hb r => by
        have haD := r3.diff ▸ ha
        have e0 := estep_proc s (some a)
        have hns : ∀ e, alookup ({ s with processingFile := some a } : PState).saved.files
            a = some e → e.pft ≠ PFT.schema := by
          intro e he
          have he1 : alookup s.saved.files a = some e := he
          rcases r.line a e he1 with ⟨e0x, he0, hp⟩ | ⟨f, hf, hp⟩
          · have haD2 : a ∈ (buildFileDiff saved.files nf [] []).1.deleted := haD
            rw [mem_diff_deleted] at haD2
            obtain ⟨-, sf, hsf, hnsch⟩ := haD2
            have he0b : alookup saved.files a = some e0x := he0
            rw [hsf] at he0b
            obtain rfl : sf = e0x := by injection he0b
            rw [hp]
            exact hnsch
          · have hf2 : alookup nf a = some f := hf
            have hout := (amem_eq_false_iff nf a).mp (hc0.dwf.dlout a haD)
            rw [hout] at hf2
            exact absurd hf2 (by simp)
        have d2 := (eAll n).dfs _ _ _ hb (e0.ctx r.ctx) hns
        exact estep_trans_del e0 d2) h4 r3
    obtain ⟨r5, pres5, gone5, nice5⟩ := foldE_nice
      (fun s a s' ha hb r => by
        have haD := r4.diff ▸ ha
        have e0 := estep_proc s (some a)
        obtain ⟨e2, hn2⟩ := (eAll n).uis _ _ _ hb (e0.ctx r.ctx)
        refine ⟨estep_trans e0 e2, hn2 ?_ ?_⟩
        · intro hmem
          have hmem1 : a ∈ s.fileDiff.deleted := hmem
          rw [r.diff] at hmem1
          have hx := hc0.dwf.chmem a haD
          rw [hc0.dwf.dlout a hmem1] at hx
          cases hx
        · intro hmem
          have hmem1 : a ∈ s.fileDiff.deleted_schema_files := hmem
          rw [r.diff] at hmem1
          have hx := hc0.dwf.chmem a haD
          rw [hc0.dwf.dslout a hmem1] at hx
          cases hx) h5 r4
    have hnf_ndl : ∀ g, amem nf g = true →
        g ∉ (buildFileDiff saved.files nf [] []).1.deleted := by
      intro g hm hmem
      rw [hc0.dwf.dlout g hmem] at hm
      cases hm
    have hnf_ndsl : ∀ g, amem nf g = true →
        g ∉ (buildFileDiff saved.files nf [] []).1.deleted_schema_files := by
      intro g hm hmem
      rw [hc0.dwf.dslout g hmem] at hm
      cases hm
    have hAllNice : ∀ g f, alookup nf g = some f → Nice s5 g := by
      intro g f hf
      have hm : amem nf g = true := (amem_eq_true_iff nf g).mpr ⟨f, hf⟩
      have hndl := hnf_ndl g hm
      have hndsl := hnf_ndsl g hm
      cases hsv : alookup saved.files g with
      | some e =>
        rcases hc0.ent g e hsv with hN | hdl | hdsl | ⟨hsch, hcsl⟩ | ⟨hnsch, hch⟩
        · exact r5.nice g hndl hndsl hN
        · exact absurd hdl hndl
        · exact absurd hdsl hndsl
        · have h2n : Nice s2 g := nice2 g (by rw [r1.diff]; exact hcsl)
          exact pres5 g (pres4 g hndl hndsl (pres3 g hndl hndsl h2n))
        · exact nice5 g (by rw [r4.diff]; exact hch)
      | none =>
        have hadd : g ∈ (buildFileDiff saved.files nf [] []).1.added := by
          rw [mem_diff_added]
          exact ⟨(mem_keys_iff_amem nf g).mpr hm, hsv⟩
        have h1n : Nice s1 g := nice1 g hadd
        exact pres5 g (pres4 g hndl hndsl (pres3 g hndl hndsl (pres2 g h1n)))
    have hdl_none : ∀ g, g ∈ (buildFileDiff saved.files nf [] []).1.deleted →
        alookup s5.saved.files g = none := by
      intro g hg
      have hg3 : g ∈ s3.fileDiff.deleted := by rw [r3.diff]; exact hg
      exact gone5 g (none4 g hg3) (hc0.dwf.dlout g hg)
    have hdsl_none : ∀ g, g ∈ (buildFileDiff saved.files nf [] []).1.deleted_schema_files →
        alookup s5.saved.files g = none := by
      intro g hg
      have hg2 : g ∈ s2.fileDiff.deleted_schema_files := by rw [r2.diff]; exact hg
      have hout := hc0.dwf.dslout g hg
      exact gone5 g (gone4 g (none3 g hg2) hout) hout
    have hge5 : classifyEnvVars ge s5.saved.envVars = ([], []) := by
      rw [r5.env]
      exact hge
    show skipParsing (initPP s5.saved nf ge bm) = true
    rw [initPP_noop ge s5.saved nf bm hge5]
    show ((buildFileDiff s5.saved.files nf [] []).1.deleted.isEmpty &&
      (buildFileDiff s5.saved.files nf [] []).1.added.isEmpty &&
      (buildFileDiff s5.saved.files nf [] []).1.changed.isEmpty &&
      (buildFileDiff s5.saved.files nf [] []).1.changed_schema_files.isEmpty &&
      (buildFileDiff s5.saved.files nf [] []).1.deleted_schema_files.isEmpty) = true
    have hD2a : (buildFileDiff s5.saved.files nf [] []).1.added = [] := by
      rw [List.eq_nil_iff_forall_not_mem]
      intro g hg
      rw [mem_diff_added] at hg
      obtain ⟨hgdom, hnone⟩ := hg
      obtain ⟨f, hf⟩ := (amem_eq_true_iff nf g).mp ((mem_keys_iff_amem nf g).mp hgdom)
      obtain ⟨e, f2, he, -, -⟩ := hAllNice g f hf
      rw [he] at hnone
      exact absurd hnone (by simp)
    have hD2d : (buildFileDiff s5.saved.files nf [] []).1.deleted = [] := by
      rw [List.eq_nil_iff_forall_not_mem]
      intro g hg
      rw [mem_diff_deleted] at hg
      obtain ⟨⟨-, hnfnone⟩, sf, hsf, -⟩ := hg
      rcases r5.ctx.ent g sf hsf with hN | hdl | hdsl | ⟨-, hcsl⟩ | ⟨-, hch⟩
      · obtain ⟨-, f, -, hf, -⟩ := hN
        rw [r5.newf] at hf
        have hf2 : alookup nf g = some f := hf
        rw [hnfnone] at hf2
        exact absurd hf2 (by simp)
      · have hgL := r5.diff ▸ hdl
        rw [hdl_none g hgL] at hsf
        exact absurd hsf (by simp)
      · have hgL := r5.diff ▸ hdsl
        rw [hdsl_none g hgL] at hsf
        exact absurd hsf (by simp)
      · have hgL := r5.diff ▸ hcsl
        have hx : amem nf g = true := hc0.dwf.csmem g hgL
        rw [(amem_eq_false_iff nf g).mpr hnfnone] at hx
        cases hx
      · have hgL := r5.diff ▸ hch
        have hx : amem nf g = true := hc0.dwf.chmem g hgL
        rw [(amem_eq_false_iff nf g).mpr hnfnone] at hx
        cases hx
    have hD2ds : (buildFileDiff s5.saved.files nf [] []).1.deleted_schema_files = [] := by
      rw [List.eq_nil_iff_forall_not_mem]
      intro g hg
      rw [mem_diff_deleted_schema] at hg
      obtain ⟨⟨-, hnfnone⟩, sf, hsf, -⟩ := hg
      rcases r5.ctx.ent g sf hsf with hN | hdl | hdsl | ⟨-, hcsl⟩ | ⟨-, hch⟩
      · obtain ⟨-, f, -, hf, -⟩ := hN
        rw [r5.newf] at hf
        have hf2 : alookup nf g = some f := hf
        rw [hnfnone] at hf2
        exact absurd hf2 (by simp)
      · have hgL := r5.diff ▸ hdl
        rw [hdl_none g hgL] at hsf
        exact absurd hsf (by simp)
      · have hgL := r5.diff ▸ hdsl
        rw [hdsl_none g hgL] at hsf
        exact absurd hsf (by simp)
      · have hgL := r5.diff ▸ hcsl
        have hx : amem nf g = true := hc0.dwf.csmem g hgL
        rw [(amem_eq_false_iff nf g).mpr hnfnone] at hx
        cases hx
      · have hgL := r5.diff ▸ hch
        have hx : amem nf g = true := hc0.dwf.chmem g hgL
        rw [(amem_eq_false_iff nf g).mpr hnfnone] at hx
        cases hx
    have hD2c : (buildFileDiff s5.saved.files nf [] []).1.changed = [] := by
      rw [List.eq_nil_iff_forall_not_mem]
      intro g hg
      rw [mem_diff_changed] at hg
      rcases hg with ⟨-, sf, nfv, hsf, hnfv, hne, -⟩ | ⟨hes, -⟩
      · obtain ⟨e, f, he, hf, hck⟩ := hAllNice g nfv hnfv
        have hee : sf = e := by
          rw [hsf] at he
          injection he
        rw [r5.newf] at hf
        have hf2 : alookup nf g = some f := hf
        have hff : nfv = f := by
          rw [hnfv] at hf2
          injection hf2
        exact absurd (by rw [hee, hff]; exact hck) hne
      · exact absurd hes (List.not_mem_nil _)
    have hD2cs : (buildFileDiff s5.saved.files nf [] []).1.changed_schema_files = [] := by
      rw [List.eq_nil_iff_forall_not_mem]
      intro g hg
      rw [mem_diff_changed_schema] at hg
      rcases hg with ⟨-, sf, nfv, hsf, hnfv, hne, -⟩ | ⟨hes, -⟩
      · obtain ⟨e, f, he, hf, hck⟩ := hAllNice g nfv hnfv
        have hee : sf = e := by
          rw [hsf] at he
          injection he
        rw [r5.newf] at hf
        have hf2 : alookup nf g = some f := hf
        have hff : nfv = f := by
          rw [hnfv] at hf2
          injection hf2
        exact absurd (by rw [hee, hff]; exact hck) hne
      · exact absurd hes (List.not_mem_nil _)
    rw [hD2a, hD2d, hD2ds, hD2c, hD2cs]
    rfl

end PP










namespace PP

/-- Helper for concrete witnesses: a lookup in a one-entry table returns
that entry. -/
theorem alookup_single_cases {α : Type} {fid : String} {v : α} {k : String} {g : α}
    (h : alookup [(fid, v)] k = some g) : fid = k ∧ v = g := by
  simp only [alookup] at h
  split at h
  · rename_i he
    exact ⟨he, by injection h⟩
  · exact absurd h (by simp)

/-- Witness scenario for C5: one model file whose checksum changed. -/
def c5wsaved : Manifest :=
  { blankManifest with files :=
      [("proj://m1.sql", { blankFile with file_id := "proj://m1.sql", checksum := 1 })] }

def c5wnew : Assoc SFile :=
  [("proj://m1.sql", { blankFile with file_id := "proj://m1.sql", checksum := 2 })]

def c5wpr : Assoc (Assoc (List String)) × PState :=
  match getParsingFiles 22 (initPP c5wsaved c5wnew (fun _ => none) (fun _ => [])) with
  | .ok pr => pr
  | .error _ => ([], initPP c5wsaved c5wnew (fun _ => none) (fun _ => []))

theorem C5_idempotence_witness :
    getParsingFiles 22 (initPP c5wsaved c5wnew (fun _ => none) (fun _ => [])) = .ok c5wpr ∧
    skipParsing (initPP c5wpr.2.saved c5wnew (fun _ => none) (fun _ => [])) = true :=
  ⟨rfl,
    C5_idempotence c5wsaved c5wnew (fun _ => none) (fun _ => []) 22 c5wpr rfl
      (by
        intro k f h
        obtain ⟨he, rfl⟩ := alookup_single_cases h
        rw [← he])
      (by
        intro k e h
        obtain ⟨he, rfl⟩ := alookup_single_cases h
        rw [← he])
      (by decide)
      (by
        intro k e f h1 h2
        obtain ⟨-, rfl⟩ := alookup_single_cases h1
        obtain ⟨-, rfl⟩ := alookup_single_cases h2
        rfl)
      (fun uid nd hm => absurd hm (List.not_mem_nil _))
      (fun uid nd hm => absurd hm (List.not_mem_nil _))
      (fun uid l hm => absurd hm (List.not_mem_nil _))
      (fun uid mac hm => absurd hm (List.not_mem_nil _))
      (fun uid src hm => absurd hm (List.not_mem_nil _))
      rfl⟩

/-- Counterexample scenario for C5: one model file, identical on disk,
whose recorded env var changed. -/
def c5envf : SFile :=
  { blankFile with file_id := "proj://m1.sql", checksum := 1, env_vars := ["V"] }

def c5envm : Manifest :=
  { blankManifest with
    files := [("proj://m1.sql", c5envf)],
    envVars := [("V", "old")] }

def c5ge : String → Option String := fun v => if v = "V" then some "new" else none

def c5st0 : PState := initPP c5envm [("proj://m1.sql", c5envf)] c5ge (fun _ => [])

def c5run : Assoc (Assoc (List String)) × PState :=
  match getParsingFiles 20 c5st0 with
  | .ok pr => pr
  | .error _ => ([], c5st0)

/-- C5 counterexample: the planner reparses the env-affected file but never
updates `manifest.env_vars`, so a second planner built from the mutated
manifest and the same files still sees the var as changed and does not
skip: `get_parsing_files` is not idempotent. -/
theorem C5_idempotence_counterexample :
    skipParsing c5st0 = false ∧
    c5st0.fileDiff.changed = ["proj://m1.sql"] ∧
    getParsingFiles 20 c5st0 = .ok c5run ∧
    c5run.2.saved.envVars = [("V", "old")] ∧
    skipParsing (initPP c5run.2.saved [("proj://m1.sql", c5envf)] c5ge (fun _ => [])) = false :=
  ⟨rfl, rfl, rfl, rfl, rfl⟩

end PP
